import Mathlib

/-!
# libfs: a FAT-style file system on a virtual disk

Shallow embedding of `libfs/fs.c` and the properties of its API.

Conventions of the embedding.

* The global `FS *fs` together with the block device forms the `State`.
* C arrays are lists.  An index that the C code does not keep inside the
  array (a descriptor, a file number, a FAT link) is read with `[i]?`; the
  result `none` of an operation means that the C call has no defined result
  (an access outside an array, a `memcpy` outside its buffers, or a loop that
  never ends).
* Unsigned machine integers are naturals reduced modulo `2 ^ w` where the C
  code can wrap; `int` values are integers, converted with `to_int`.
* `size_t` is 64 bits wide and `int` 32 bits (the sources print `size_t`
  values with `%ld`).
-/

namespace Libfs

/-! ## Constants -/

/-- Modelled from the spec: `BLOCK_SIZE`, declared in the header of the block
device (disk.h), which is not among the sources; "Block. Fixed size 4096
bytes". -/
abbrev BLOCK_SIZE : Nat := 4096

/-- Modelled from the spec: `FS_FILENAME_LEN`, declared in fs.h, which is not
among the sources; "Filename (up to 16 bytes, zero-terminated ...)". -/
abbrev FS_FILENAME_LEN : Nat := 16

/-- Modelled from the spec: `FS_FILE_MAX_COUNT`, declared in fs.h, which is not
among the sources; "Root directory: 128 file entries". -/
abbrev FS_FILE_MAX_COUNT : Nat := 128

/-- Modelled from the spec: `FS_OPEN_MAX_COUNT`, declared in fs.h, which is not
among the sources; "Open-file table: 32 slots". -/
abbrev FS_OPEN_MAX_COUNT : Nat := 32

/-- The macro `SIGNATURE_LENGTH`. -/
abbrev SIGNATURE_LENGTH : Nat := 8

/-- The macro `FAT_START_IDX`. -/
abbrev FAT_START_IDX : Nat := 1

/-- The macro `FAT_EOC`. -/
abbrev FAT_EOC : Nat := 0xFFFF

/-- The macro `ROOT_ENTRY_SIZE`. -/
abbrev ROOT_ENTRY_SIZE : Nat := 32

/-! ## Machine integers -/

/-- Conversion of an unsigned value to `int`: reduction modulo `2 ^ 32`, read
as a two's complement number. -/
def to_int (n : Nat) : Int :=
  if n % 2 ^ 32 < 2 ^ 31 then ((n % 2 ^ 32 : Nat) : Int)
  else ((n % 2 ^ 32 : Nat) : Int) - 2 ^ 32

/-- Conversion of an `int` to `size_t`: reduction modulo `2 ^ 64`. -/
def to_size_t (i : Int) : Nat := (i % 2 ^ 64).toNat

/-- Subtraction of `size_t` values. -/
def size_sub (a b : Nat) : Nat := (a % 2 ^ 64 + (2 ^ 64 - b % 2 ^ 64)) % 2 ^ 64

/-- Addition of `size_t` values. -/
def size_add (a b : Nat) : Nat := (a + b) % 2 ^ 64

/-- The helper `ceil_but_better`.  Its argument is a `double`; the only call
divides a 32-bit size by 4096, which a `double` represents exactly, so the
argument is modelled by a rational.  `(int) input` truncates towards zero. -/
def ceil_but_better (input : ℚ) : Int :=
  let rounded_down : Int := if 0 ≤ input then Rat.floor input else Rat.ceil input
  if input = (rounded_down : ℚ) then rounded_down else rounded_down + 1

/-- The helper `min` on `int`. -/
def min (num1 num2 : Int) : Int := if num1 < num2 then num1 else num2

/-- The helper `max` on `int`. -/
def max (num1 num2 : Int) : Int := if num1 > num2 then num1 else num2

/-! ## Data model -/

/-- The struct `superblock`.  The structure lives in a buffer of `BLOCK_SIZE`
bytes; `rest` are the bytes of that buffer after the last field. -/
structure superblock where
  signature : List Nat
  block_count : Nat
  root_block_idx : Nat
  data_block_start_idx : Nat
  amt_data_blocks : Nat
  num_blocks_for_FAT : Nat
  rest : List Nat
deriving DecidableEq, Repr

/-- The struct `FAT`; `blocks` is the array of 16-bit links. -/
structure FAT where
  curr_pos : Int
  num_blocks_taken : Nat
  blocks : List Nat
deriving DecidableEq, Repr

/-- The struct `file`, an entry of the root directory: 16 bytes of name, a
32-bit size, a 16-bit first block index and 10 bytes of padding. -/
structure file where
  filename : List Nat
  file_size : Nat
  first_block_idx : Nat
  padding : List Nat
deriving DecidableEq, Repr

/-- The struct `rootDir`. -/
structure rootDir where
  num_files : Nat
  files : List file
deriving DecidableEq, Repr

/-- The struct `openFile`. -/
structure openFile where
  fd : Int
  file_num : Int
  file_offset : Nat
deriving DecidableEq, Repr

/-- The struct `FS`. -/
structure FS where
  superblock : Libfs.superblock
  FAT : Libfs.FAT
  rootDir : Libfs.rootDir
  open_files : List openFile
  num_open_files : Nat
  is_mounted : Bool
deriving DecidableEq, Repr

/-! ## Block device -/

/-- Modelled from the spec: the block device (disk.h and its implementation are
not among the sources), "an opaque byte-addressable array of fixed-size blocks
with read-one-block / write-one-block / block-count / open / close
operations".  One backing file `diskname` holds `blocks`; `opened` tells
whether the adapter is bound to it. -/
structure BlockDev where
  diskname : String
  blocks : List (List Nat)
  opened : Bool
deriving DecidableEq, Repr

/-- Modelled from the spec: `open(name)` "binds the adapter to a backing file;
idempotent-fail if already bound". -/
def block_disk_open (diskname : String) (d : BlockDev) : Int × BlockDev :=
  if d.opened = true ∨ diskname ≠ d.diskname then (-1, d)
  else (0, { d with opened := true })

/-- Modelled from the spec: `close()` "unbinds". -/
def block_disk_close (d : BlockDev) : Int × BlockDev :=
  if d.opened = true then (0, { d with opened := false }) else (-1, d)

/-- Modelled from the spec: `block_count()` "returns total blocks, or a
negative sentinel if not bound". -/
def block_disk_count (d : BlockDev) : Int :=
  if d.opened = true then (d.blocks.length : Int) else -1

/-- Modelled from the spec: `read(idx, buf)` "fills buf (≥ 4096 bytes) with
block idx".  On failure (not bound, or no such block) the buffer keeps its
content `buf` and the result is -1. -/
def block_read (d : BlockDev) (idx : Nat) (buf : List Nat) : Int × List Nat :=
  if d.opened = true then
    match d.blocks[idx]? with
    | some b => (0, b)
    | none => (-1, buf)
  else (-1, buf)

/-- Modelled from the spec: `write(idx, buf)` "writes 4096 bytes from buf to
block idx".  On failure (not bound, or no such block) nothing is written and
the result is -1. -/
def block_write (d : BlockDev) (idx : Nat) (buf : List Nat) : Int × BlockDev :=
  if d.opened = true ∧ idx < d.blocks.length then
    (0, { d with blocks := d.blocks.set idx buf })
  else (-1, d)

/-- The program state: the block device and the object behind the global
pointer `fs`. -/
structure State where
  disk : BlockDev
  fs : FS
deriving DecidableEq, Repr

/-! ## Memory images

`block_read` and `block_write` copy 4096 bytes between the disk and the memory
of a structure; the functions below give the bytes of each structure
(little-endian fields, in declaration order) and read a structure back from
its bytes. -/

/-- The `w` little-endian bytes of `n`. -/
def le_bytes : Nat → Nat → List Nat
  | 0, _ => []
  | w + 1, n => n % 256 :: le_bytes w (n / 256)

/-- The value of little-endian bytes. -/
def le_value : List Nat → Nat
  | [] => 0
  | b :: bs => b + 256 * le_value bs

/-- A list cut or zero-filled to `n` entries. -/
def resize (l : List Nat) (n : Nat) : List Nat := (l ++ List.replicate n 0).take n

/-- The bytes of the block-sized buffer that holds the superblock. -/
def superblock_bytes (sb : superblock) : List Nat :=
  sb.signature ++ le_bytes 2 sb.block_count ++ le_bytes 2 sb.root_block_idx ++
    le_bytes 2 sb.data_block_start_idx ++ le_bytes 2 sb.amt_data_blocks ++
    le_bytes 1 sb.num_blocks_for_FAT ++ sb.rest

/-- The superblock read from the bytes of its buffer. -/
def superblock_of_bytes (b : List Nat) : superblock :=
  { signature := b.take SIGNATURE_LENGTH
    block_count := le_value ((b.drop 8).take 2)
    root_block_idx := le_value ((b.drop 10).take 2)
    data_block_start_idx := le_value ((b.drop 12).take 2)
    amt_data_blocks := le_value ((b.drop 14).take 2)
    num_blocks_for_FAT := le_value ((b.drop 16).take 1)
    rest := b.drop 17 }

/-- The 32 bytes of a directory entry. -/
def file_bytes (f : file) : List Nat :=
  f.filename ++ le_bytes 4 f.file_size ++ le_bytes 2 f.first_block_idx ++ f.padding

/-- The directory entry read from its 32 bytes. -/
def file_of_bytes (b : List Nat) : file :=
  { filename := b.take FS_FILENAME_LEN
    file_size := le_value ((b.drop 16).take 4)
    first_block_idx := le_value ((b.drop 20).take 2)
    padding := (b.drop 22).take 10 }

/-- The bytes of the array `files` of the root directory. -/
def files_bytes (files : List file) : List Nat := files.flatMap file_bytes

/-- The array `files` read from the bytes of the directory block. -/
def files_of_bytes (b : List Nat) : List file :=
  (List.range FS_FILE_MAX_COUNT).map fun i =>
    file_of_bytes ((b.drop (ROOT_ENTRY_SIZE * i)).take ROOT_ENTRY_SIZE)

/-- The bytes of an array of FAT links. -/
def FAT_bytes (entries : List Nat) : List Nat := entries.flatMap (le_bytes 2)

/-- The FAT links read from the bytes of one block. -/
def FAT_of_bytes (b : List Nat) : List Nat :=
  (List.range (BLOCK_SIZE / 2)).map fun j => le_value ((b.drop (2 * j)).take 2)

/-! ## Strings -/

/-- The C string at a pointer: the bytes before the first NUL. -/
def cstr (p : List Nat) : List Nat := p.takeWhile fun c => c != 0

/-- The function `strlen`. -/
def strlen (p : List Nat) : Nat := (cstr p).length

/-- The C string that `strcmp` reads at `files[i].filename`: the bytes from the
start of entry `i` up to the first NUL.  When the 16 bytes of the name field
hold no NUL the string runs on into the fields behind it. -/
def name_at (files : List file) (i : Nat) : List Nat :=
  cstr ((files.drop i).flatMap file_bytes)

/-- The value of `!r == -1` for an `int r`: `!r` is 0 or 1. -/
def lnot (r : Int) : Int := if r = 0 then 1 else 0

/-! ## Helper functions of fs.c -/

/-- The function `fs_init`; `junk` is the indeterminate content of the memory
that `malloc` returns. -/
def fs_init (junk : FS) : FS :=
  { junk with
    is_mounted := false
    num_open_files := 0
    open_files := List.replicate FS_OPEN_MAX_COUNT { fd := 0, file_num := -1, file_offset := 0 } }

/-- The function `fs_validate_filename`. -/
def fs_validate_filename (filename : List Nat) : Bool :=
  if filename.headD 0 = 0 ∨ strlen filename > FS_FILENAME_LEN ∨ strlen filename = 0 then false
  else true

/-- The function `fs_validate_fd`. -/
def fs_validate_fd (fs : FS) (fd : Int) : Option Bool :=
  if fd < 0 ∨ fd > (FS_OPEN_MAX_COUNT : Int) then some false
  else
    match fs.open_files[fd.toNat]? with
    | none => none
    | some open_file => if open_file.file_num = -1 then some false else some true

/-- The function `fs_validate_file_num`. -/
def fs_validate_file_num (fs : FS) (file_num : Int) : Option Bool :=
  if file_num < 0 ∨ file_num > (FS_FILE_MAX_COUNT : Int) then some false
  else
    match fs.rootDir.files[file_num.toNat]? with
    | none => none
    | some target_file => if target_file.filename.headD 0 = 0 then some false else some true

/-- The loop of `fs_file_num_from_filename`: `n` entries remain from index `i`. -/
def fs_file_num_from_filename_loop (files : List file) (filename : List Nat) :
    Nat → Nat → Int
  | 0, _ => -2
  | n + 1, i =>
    if name_at files i = cstr filename then (i : Int)
    else fs_file_num_from_filename_loop files filename n (i + 1)

/-- The function `fs_file_num_from_filename`. -/
def fs_file_num_from_filename (fs : FS) (filename : List Nat) : Int :=
  if ¬ fs_validate_filename filename then -1
  else fs_file_num_from_filename_loop fs.rootDir.files filename FS_FILE_MAX_COUNT 0

/-- The function `fs_file_num_from_fd`. -/
def fs_file_num_from_fd (fs : FS) (fd : Int) : Option Int :=
  match fs_validate_fd fs fd with
  | none => none
  | some false => some (-1)
  | some true =>
    match fs.open_files[fd.toNat]? with
    | none => none
    | some open_file =>
      match fs_validate_file_num fs open_file.file_num with
      | none => none
      | some false => some (-1)
      | some true => some open_file.file_num

/-- The function `fs_save_superblock`. -/
def fs_save_superblock (s : State) : Int × State :=
  let w := block_write s.disk 0 (superblock_bytes s.fs.superblock)
  if w.1 = -1 then (-1, { s with disk := w.2 }) else (0, { s with disk := w.2 })

/-- The function `fs_save_rootDir`. -/
def fs_save_rootDir (s : State) : Int × State :=
  let w := block_write s.disk s.fs.superblock.root_block_idx (files_bytes s.fs.rootDir.files)
  if w.1 = -1 then (-1, { s with disk := w.2 }) else (0, { s with disk := w.2 })

/-- The loop of `fs_save_FAT`: `n` blocks remain from block `i` of the FAT. -/
def fs_save_FAT_loop (blocks : List Nat) : Nat → Nat → BlockDev → BlockDev
  | 0, _, d => d
  | n + 1, i, d =>
    let FAT_ptr_offset := BLOCK_SIZE * i / 2
    let w := block_write d (FAT_START_IDX + i)
      (FAT_bytes ((blocks.drop FAT_ptr_offset).take (BLOCK_SIZE / 2)))
    fs_save_FAT_loop blocks n (i + 1) w.2

/-- The function `fs_save_FAT`. -/
def fs_save_FAT (s : State) : Int × State :=
  (0, { s with disk := fs_save_FAT_loop s.fs.FAT.blocks s.fs.superblock.num_blocks_for_FAT 0 s.disk })

/-- The function `is_mounted`. -/
def is_mounted (s : State) : Bool :=
  block_disk_count s.disk != -1 && s.fs.is_mounted

/-! ## The API -/

/-- The loop of `fs_mount` that reads the FAT: `n` blocks remain from block `i`;
the links of block `i` land at offset `BLOCK_SIZE * i / 2` of the array. -/
def fs_mount_FAT_loop (d : BlockDev) : Nat → Nat → List Nat → List Nat
  | 0, _, blocks => blocks
  | n + 1, i, blocks =>
    let FAT_ptr_offset := BLOCK_SIZE * i / 2
    let old := FAT_bytes ((blocks.drop FAT_ptr_offset).take (BLOCK_SIZE / 2))
    let r := block_read d (FAT_START_IDX + i) old
    fs_mount_FAT_loop d n (i + 1)
      (blocks.take FAT_ptr_offset ++ FAT_of_bytes r.2 ++ blocks.drop (FAT_ptr_offset + BLOCK_SIZE / 2))

/-- The loop of `fs_mount` that counts blocks and files: `n` entries remain from
index `i`; the result is the pair of `num_blocks_taken` and `num_files`. -/
def fs_mount_count_loop (files : List file) : Nat → Nat → Nat × Nat → Nat × Nat
  | 0, _, c => c
  | n + 1, i, c =>
    let f := files.getD i { filename := [], file_size := 0, first_block_idx := 0, padding := [] }
    let file_num_blocks := ceil_but_better ((f.file_size : ℚ) / (BLOCK_SIZE : ℚ))
    let taken := size_add c.1 (to_size_t file_num_blocks)
    let present := if f.filename.headD 0 ≠ 0 then size_add c.2 1 else c.2
    fs_mount_count_loop files n (i + 1) (taken, present)

/-- The function `fs_mount`.  `junk` is the indeterminate content of the memory
that `malloc` hands to `fs_init`; in particular `num_blocks_taken` starts from
the value found there. -/
def fs_mount (junk : FS) (diskname : String) (s : State) : Int × State :=
  let fs := fs_init junk
  let o := block_disk_open diskname s.disk
  if o.1 = -1 then (-1, { disk := o.2, fs := fs })
  else
    let d := o.2
    let sb := superblock_of_bytes (block_read d 0 (superblock_bytes fs.superblock)).2
    let blocks0 := resize fs.FAT.blocks (sb.num_blocks_for_FAT * (BLOCK_SIZE / 2))
    let blocks := fs_mount_FAT_loop d sb.num_blocks_for_FAT 0 blocks0
    let files := files_of_bytes (block_read d sb.root_block_idx (files_bytes fs.rootDir.files)).2
    let c := fs_mount_count_loop files FS_FILE_MAX_COUNT 0 (fs.FAT.num_blocks_taken, 0)
    (0, { disk := d
          fs := { fs with
            superblock := sb
            FAT := { curr_pos := 0, num_blocks_taken := c.1, blocks := blocks }
            rootDir := { num_files := c.2, files := files }
            is_mounted := true } })

/-- The function `fs_umount`. -/
def fs_umount (s : State) : Int × State :=
  if ¬ is_mounted s then (-1, s)
  else
    let r1 := fs_save_superblock s
    if lnot r1.1 = -1 then (-1, r1.2)
    else
      let r2 := fs_save_rootDir r1.2
      if lnot r2.1 = -1 then (-1, r2.2)
      else
        let r3 := fs_save_FAT r2.2
        if lnot r3.1 = -1 then (-1, r3.2)
        else
          let c := block_disk_close r3.2.disk
          if c.1 = -1 then (-1, { r3.2 with disk := c.2 })
          else (0, { r3.2 with disk := c.2 })

/-- The entry that `fs_create` builds: zero-initialised, size 0, first block
`FAT_EOC`, and the name copied by `strcpy`.  For a name of 16 characters the
terminating NUL is written behind the name field, on the low byte of
`file_size`, which is 0 already. -/
def new_file (filename : List Nat) : file :=
  { filename := (cstr filename ++ List.replicate FS_FILENAME_LEN 0).take FS_FILENAME_LEN
    file_size := 0
    first_block_idx := FAT_EOC
    padding := List.replicate 10 0 }

/-- The loop of `fs_create`: `n` entries remain from index `i`. -/
def fs_create_loop (s : State) (filename : List Nat) : Nat → Nat → Option (Int × State)
  | 0, _ => some (-1, s)
  | n + 1, i =>
    match s.fs.rootDir.files[i]? with
    | none => none
    | some f =>
      if f.filename.headD 0 = 0 then
        let s1 : State := { s with fs := { s.fs with rootDir :=
          { num_files := size_add s.fs.rootDir.num_files 1
            files := s.fs.rootDir.files.set i (new_file filename) } } }
        let r := fs_save_rootDir s1
        if lnot r.1 = -1 then some (-1, r.2) else some (0, r.2)
      else fs_create_loop s filename n (i + 1)

/-- The function `fs_create`. -/
def fs_create (s : State) (filename : List Nat) : Option (Int × State) :=
  if ¬ is_mounted s then some (-1, s)
  else if ¬ fs_validate_filename filename then some (-1, s)
  else if fs_file_num_from_filename s.fs filename ≠ -2 then some (-1, s)
  else if s.fs.rootDir.num_files ≥ FS_FILE_MAX_COUNT then some (-1, s)
  else fs_create_loop s filename FS_FILE_MAX_COUNT 0

/-- The entry `EMPTY_FILE_CELL` of `fs_delete`. -/
def EMPTY_FILE_CELL : file :=
  { filename := List.replicate FS_FILENAME_LEN 0
    file_size := 0
    first_block_idx := FAT_EOC
    padding := List.replicate 10 0 }

/-- The loop of `fs_delete` over the chain; `fuel` counts the tests of the loop
condition that are left.  A pass sets the link it visits to `FAT_EOC`, so a
pass on a link visited before (or on one that held `FAT_EOC`) is the last one:
there are at most `blocks.length + 1` passes, and `blocks.length + 2` tests of
the condition. -/
def fs_delete_loop : Nat → List Nat → Nat → Option (List Nat)
  | 0, _, _ => none
  | fuel + 1, blocks, block_idx =>
    if block_idx = FAT_EOC then some blocks
    else
      match blocks[block_idx]? with
      | none => none
      | some next_block_idx => fs_delete_loop fuel (blocks.set block_idx FAT_EOC) next_block_idx

/-- The function `fs_delete`. -/
def fs_delete (s : State) (filename : List Nat) : Option (Int × State) :=
  if ¬ is_mounted s then some (-1, s)
  else
    let file_num := fs_file_num_from_filename s.fs filename
    if file_num < 0 then some (-1, s)
    else
      match s.fs.rootDir.files[file_num.toNat]? with
      | none => none
      | some f =>
        match fs_delete_loop (s.fs.FAT.blocks.length + 2) s.fs.FAT.blocks f.first_block_idx with
        | none => none
        | some blocks =>
          let s1 : State := { s with fs := { s.fs with
            FAT := { s.fs.FAT with blocks := blocks }
            rootDir :=
              { num_files := size_sub s.fs.rootDir.num_files 1
                files := s.fs.rootDir.files.set file_num.toNat EMPTY_FILE_CELL } } }
          let r1 := fs_save_rootDir s1
          if lnot r1.1 = -1 then some (-1, r1.2)
          else
            let r2 := fs_save_FAT r1.2
            if lnot r2.1 = -1 then some (-1, r2.2) else some (0, r2.2)

/-- The loop of `fs_open` that looks for a free descriptor: `n` slots remain
from index `i`; the result is -1 when none is free. -/
def fs_open_loop (open_files : List openFile) : Nat → Nat → Option Int
  | 0, _ => some (-1)
  | n + 1, i =>
    match open_files[i]? with
    | none => none
    | some open_file =>
      if open_file.file_num = -1 then some (i : Int) else fs_open_loop open_files n (i + 1)

/-- The function `fs_open`. -/
def fs_open (s : State) (filename : List Nat) : Option (Int × State) :=
  if ¬ is_mounted s then some (-1, s)
  else if s.fs.num_open_files ≥ FS_OPEN_MAX_COUNT then some (-1, s)
  else
    match fs_open_loop s.fs.open_files FS_OPEN_MAX_COUNT 0 with
    | none => none
    | some fd =>
      if fd = -1 then some (-1, s)
      else
        let file_num := fs_file_num_from_filename s.fs filename
        if file_num < 0 then some (-1, s)
        else
          some (fd, { s with fs := { s.fs with
            open_files := s.fs.open_files.set fd.toNat
              { fd := fd, file_num := file_num, file_offset := 0 }
            num_open_files := size_add s.fs.num_open_files 1 } })

/-- The function `fs_close`. -/
def fs_close (s : State) (fd : Int) : Option (Int × State) :=
  if ¬ is_mounted s then some (-1, s)
  else
    match fs_validate_fd s.fs fd with
    | none => none
    | some false => some (-1, s)
    | some true =>
      some (0, { s with fs := { s.fs with
        open_files := s.fs.open_files.set fd.toNat { fd := 0, file_num := -1, file_offset := 0 }
        num_open_files := size_sub s.fs.num_open_files 1 } })

/-- The function `fs_stat`. -/
def fs_stat (s : State) (fd : Int) : Option (Int × State) :=
  if ¬ is_mounted s then some (-1, s)
  else
    match fs_file_num_from_fd s.fs fd with
    | none => none
    | some file_num =>
      if file_num = -1 then some (-1, s)
      else
        match s.fs.rootDir.files[file_num.toNat]? with
        | none => none
        | some f => some (to_int f.file_size, s)

/-- The function `fs_lseek`.  The comparison `offset > fs_stat(fd)` is made on
`size_t`, to which the `int` result of `fs_stat` is converted. -/
def fs_lseek (s : State) (fd : Int) (offset : Nat) : Option (Int × State) :=
  if ¬ is_mounted s then some (-1, s)
  else
    match fs_stat s fd with
    | none => none
    | some (size, _) =>
      if offset > to_size_t size then some (-1, s)
      else
        match fs_validate_fd s.fs fd with
        | none => none
        | some false => some (-1, s)
        | some true =>
          match s.fs.open_files[fd.toNat]? with
          | none => none
          | some open_file =>
            some (0, { s with fs := { s.fs with
              open_files := s.fs.open_files.set fd.toNat { open_file with file_offset := offset } } })

/-- The loop of `fs_get_block_offset`.  Every pass takes `BLOCK_SIZE` off
`block_offset`; started with `n = block_offset / BLOCK_SIZE`, the case `0` is
reached only with `block_offset < BLOCK_SIZE`, where the loop condition
fails. -/
def fs_get_block_offset_loop (blocks : List Nat) : Nat → Nat → Nat → Option (Nat × Nat)
  | 0, block_idx, block_offset => some (block_idx, block_offset)
  | n + 1, block_idx, block_offset =>
    if block_offset ≥ BLOCK_SIZE then
      match blocks[block_idx]? with
      | none => none
      | some next =>
        if next ≠ FAT_EOC then fs_get_block_offset_loop blocks n next (block_offset - BLOCK_SIZE)
        else some (block_idx, block_offset)
    else some (block_idx, block_offset)

/-- The function `fs_get_block_offset`; the result is the return value with
`*block_idx` and `*block_offset`, which are left alone (here: 0) on failure. -/
def fs_get_block_offset (fs : FS) (fd : Int) : Option (Int × Nat × Nat) :=
  match fs_file_num_from_fd fs fd with
  | none => none
  | some file_num =>
    if file_num = -1 then some (-1, 0, 0)
    else
      match fs.open_files[fd.toNat]?, fs.rootDir.files[file_num.toNat]? with
      | some open_file, some target_file =>
        match fs_get_block_offset_loop fs.FAT.blocks (open_file.file_offset / BLOCK_SIZE)
            target_file.first_block_idx open_file.file_offset with
        | none => none
        | some (block_idx, block_offset) => some (0, block_idx, block_offset)
      | _, _ => none

/-- The loop of `fs_find_open_data_block`: `n` entries remain from index `i`. -/
def fs_find_open_data_block_loop (blocks : List Nat) : Nat → Nat → Option Int
  | 0, _ => some (-1)
  | n + 1, i =>
    match blocks[i]? with
    | none => none
    | some v => if v = 0 then some (i : Int) else fs_find_open_data_block_loop blocks n (i + 1)

/-- The function `fs_find_open_data_block`. -/
def fs_find_open_data_block (fs : FS) : Option Int :=
  if fs.FAT.num_blocks_taken ≥ fs.superblock.amt_data_blocks then some (-1)
  else fs_find_open_data_block_loop fs.FAT.blocks fs.superblock.amt_data_blocks 0

/-- The target of the pointer `block_idx_p` of `fs_write`: the field
`first_block_idx` of a directory entry, or a link of the FAT. -/
inductive BlockIdxPtr where
  | first_block_idx (file_num : Nat)
  | FAT_entry (i : Nat)
deriving DecidableEq, Repr

/-- The value `*block_idx_p`. -/
def BlockIdxPtr.deref (fs : FS) : BlockIdxPtr → Option Nat
  | .first_block_idx file_num => (fs.rootDir.files[file_num]?).map fun f => f.first_block_idx
  | .FAT_entry i => fs.FAT.blocks[i]?

/-- The assignment `*block_idx_p = v` of a 16-bit value. -/
def BlockIdxPtr.assign (fs : FS) (v : Nat) : BlockIdxPtr → Option FS
  | .first_block_idx file_num =>
    match fs.rootDir.files[file_num]? with
    | none => none
    | some f =>
      some { fs with rootDir := { fs.rootDir with
        files := fs.rootDir.files.set file_num { f with first_block_idx := v % 2 ^ 16 } } }
  | .FAT_entry i =>
    if i < fs.FAT.blocks.length then
      some { fs with FAT := { fs.FAT with blocks := fs.FAT.blocks.set i (v % 2 ^ 16) } }
    else none

/-- The outcome of a part of a loop body: go on with a state, or return. -/
inductive Step where
  | next (s : State)
  | ret (r : Int) (s : State)
deriving DecidableEq, Repr

/-- The block of `fs_write` guarded by `*block_idx_p == FAT_EOC`: allocation of
another data block. -/
def fs_write_allocate (s : State) (bytes_written : Nat) (block_idx_p : BlockIdxPtr) :
    Option Step :=
  match fs_find_open_data_block s.fs with
  | none => none
  | some r =>
    let open_block := to_size_t r
    if open_block = to_size_t (-1) then some (.ret (to_int bytes_written) s)
    else
      match block_idx_p.assign s.fs open_block with
      | none => none
      | some fs1 =>
        if open_block < fs1.FAT.blocks.length then
          let fs2 : FS := { fs1 with FAT := { fs1.FAT with
            blocks := fs1.FAT.blocks.set open_block FAT_EOC
            num_blocks_taken := size_add fs1.FAT.num_blocks_taken 1 } }
          let r := fs_save_FAT { s with fs := fs2 }
          if lnot r.1 = -1 then some (.ret (-1) r.2) else some (.next r.2)
        else none

/-- The loop of `fs_write`.  `block_p` is the content of the block-sized
scratch buffer.  `fuel` counts the passes left. -/
def fs_write_loop (file_num : Nat) (buf : List Nat) (count : Nat) :
    Nat → State → Nat → BlockIdxPtr → List Nat → Option (Int × State)
  | 0, _, _, _, _ => none
  | fuel + 1, s, bytes_written, block_idx_p, block_p =>
    if ¬ bytes_written < count then some (to_int bytes_written, s)
    else
      match block_idx_p.deref s.fs with
      | none => none
      | some cur =>
        match (if cur = FAT_EOC then fs_write_allocate s bytes_written block_idx_p
               else some (.next s)) with
        | none => none
        | some (.ret r s1) => some (r, s1)
        | some (.next s1) =>
          match block_idx_p.deref s1.fs with
          | none => none
          | some block_idx =>
            let num_bytes_to_write :=
              to_size_t (min (to_int (size_sub count bytes_written)) (BLOCK_SIZE : Int))
            let block_p1 :=
              if num_bytes_to_write < BLOCK_SIZE then
                (block_read s1.disk (s1.fs.superblock.data_block_start_idx + block_idx) block_p).2
              else block_p
            if num_bytes_to_write ≤ block_p1.length ∧
                bytes_written + num_bytes_to_write ≤ buf.length then
              let block_p2 :=
                (buf.drop bytes_written).take num_bytes_to_write ++ block_p1.drop num_bytes_to_write
              let d2 :=
                (block_write s1.disk (s1.fs.superblock.data_block_start_idx + block_idx) block_p2).2
              let s2 : State := { s1 with disk := d2 }
              let bytes_written1 := size_add bytes_written num_bytes_to_write
              match s2.fs.rootDir.files[file_num]? with
              | none => none
              | some target_file =>
                if bytes_written1 > target_file.file_size then
                  let s3 : State := { s2 with fs := { s2.fs with rootDir := { s2.fs.rootDir with
                    files := s2.fs.rootDir.files.set file_num
                      { target_file with file_size := bytes_written1 % 2 ^ 32 } } } }
                  let r := fs_save_rootDir s3
                  if lnot r.1 = -1 then some (-1, r.2)
                  else fs_write_loop file_num buf count fuel r.2 bytes_written1
                    (.FAT_entry block_idx) block_p2
                else fs_write_loop file_num buf count fuel s2 bytes_written1
                  (.FAT_entry block_idx) block_p2
            else none

/-- The function `fs_write`.  `buf` holds the bytes at the pointer `buf`; the
scratch buffer comes from `malloc` (its content, here zeros, is overwritten or
read from the disk before it is used).  A pass of the loop that does not return
either adds at least one byte to `bytes_written` or, when it adds none, follows
or allocates a link, so `count + 1` passes are given as fuel. -/
def fs_write (s : State) (fd : Int) (buf : List Nat) (count : Nat) : Option (Int × State) :=
  if ¬ is_mounted s then some (-1, s)
  else
    match fs_file_num_from_fd s.fs fd with
    | none => none
    | some file_num =>
      if file_num = -1 then some (-1, s)
      else
        fs_write_loop file_num.toNat buf count (count + 1) s 0
          (.first_block_idx file_num.toNat) (List.replicate BLOCK_SIZE 0)

/-- The loop of `fs_read`.  `buf` is the content of the caller's buffer and
`block_p` that of the scratch buffer; `fuel` counts the passes left. -/
def fs_read_loop (fd : Int) (file_num : Nat) (count : Nat) :
    Nat → State → Nat → List Nat → List Nat → Option (Int × List Nat × State)
  | 0, _, _, _, _ => none
  | fuel + 1, s, bytes_read, buf, block_p =>
    match s.fs.open_files[fd.toNat]?, s.fs.rootDir.files[file_num]? with
    | some open_file, some target_file =>
      if ¬ (bytes_read < count ∧ open_file.file_offset < target_file.file_size) then
        some (to_int bytes_read, buf, s)
      else
        match fs_get_block_offset s.fs fd with
        | none => none
        | some (r, block_idx, block_offset) =>
          if r = -1 then some (-1, buf, s)
          else if block_idx = FAT_EOC then some (to_int bytes_read, buf, s)
          else
            let block_p1 :=
              (block_read s.disk (s.fs.superblock.data_block_start_idx + block_idx) block_p).2
            let valid_bytes_in_block :=
              to_size_t (min (to_int (size_sub BLOCK_SIZE block_offset))
                (to_int (size_sub target_file.file_size open_file.file_offset)))
            let num_bytes_to_copy :=
              to_size_t (min (to_int (size_sub count bytes_read)) (to_int valid_bytes_in_block))
            if block_offset + num_bytes_to_copy ≤ block_p1.length ∧
                bytes_read + num_bytes_to_copy ≤ buf.length then
              let buf1 := buf.take bytes_read ++
                (block_p1.drop block_offset).take num_bytes_to_copy ++
                buf.drop (bytes_read + num_bytes_to_copy)
              let s1 : State := { s with fs := { s.fs with
                open_files := s.fs.open_files.set fd.toNat
                  { open_file with file_offset := size_add open_file.file_offset num_bytes_to_copy } } }
              fs_read_loop fd file_num count fuel s1 (size_add bytes_read num_bytes_to_copy)
                buf1 block_p1
            else none
    | _, _ => none

/-- The function `fs_read`.  `buf` is the content of the caller's buffer before
the call; the result carries its content after the call.  A pass of the loop
that copies no byte leaves everything as it was and so repeats for ever; every
other pass adds at least one byte to `bytes_read`, so `count + 1` passes are
given as fuel. -/
def fs_read (s : State) (fd : Int) (buf : List Nat) (count : Nat) :
    Option (Int × List Nat × State) :=
  if ¬ is_mounted s then some (-1, buf, s)
  else
    match fs_file_num_from_fd s.fs fd with
    | none => none
    | some file_num =>
      if file_num = -1 then some (-1, buf, s)
      else
        fs_read_loop fd file_num.toNat count (count + 1) s 0 buf (List.replicate BLOCK_SIZE 0)

/-! ## Notions used by the properties -/

/-- The lowest index of an empty entry of the directory (an entry whose name
starts with NUL); the length of the list when there is none. -/
def first_empty_slot (files : List file) : Nat :=
  files.findIdx fun f => f.filename.headD 0 == 0

/-- The number of non-empty entries of the directory. -/
def used_slots (files : List file) : Nat :=
  files.countP fun f => f.filename.headD 0 != 0

/-- The list `bs` is the chain of blocks that starts at link value `b`: every
block of it lies inside the FAT, each is linked to the next, and the last one
holds `FAT_EOC`. -/
def is_chain (blocks : List Nat) : Nat → List Nat → Prop
  | b, [] => b = FAT_EOC
  | b, x :: xs => b = x ∧ x ≠ FAT_EOC ∧ x < blocks.length ∧ is_chain blocks (blocks.getD x 0) xs

instance is_chain_decidable (blocks : List Nat) : ∀ b bs, Decidable (is_chain blocks b bs)
  | b, [] => by unfold is_chain; exact inferInstance
  | b, x :: xs => by
    unfold is_chain
    have := is_chain_decidable blocks (blocks.getD x 0) xs
    exact inferInstance

/-- The state after `fs_create` has installed `filename` in slot `k`: the new
entry, the incremented counter and the directory block written back. -/
def create_at (s : State) (filename : List Nat) (k : Nat) : State :=
  (fs_save_rootDir { s with fs := { s.fs with rootDir :=
    { num_files := size_add s.fs.rootDir.num_files 1
      files := s.fs.rootDir.files.set k (new_file filename) } } }).2

/-! ## A small disk

A disk with four data blocks as the formatter leaves it (a valid superblock,
an all-zero FAT, an all-zero root directory), and the state right after
mounting it. -/

/-- The superblock of the small disk: one FAT block, the root directory in
block 2, four data blocks from block 3 on. -/
def small_superblock : superblock :=
  { signature := [69, 67, 83, 49, 53, 48, 70, 83]
    block_count := 7
    root_block_idx := 2
    data_block_start_idx := 3
    amt_data_blocks := 4
    num_blocks_for_FAT := 1
    rest := List.replicate 4079 0 }

/-- A block of zeros. -/
def zero_block : List Nat := List.replicate BLOCK_SIZE 0

/-- The formatted small disk, not opened. -/
def small_disk : BlockDev :=
  { diskname := "disk.fs"
    blocks := superblock_bytes small_superblock :: List.replicate 6 zero_block
    opened := false }

/-- An all-zero directory entry. -/
def zero_file : file :=
  { filename := List.replicate FS_FILENAME_LEN 0
    file_size := 0
    first_block_idx := 0
    padding := List.replicate 10 0 }

/-- The state right after mounting the small disk. -/
def small_state : State :=
  { disk := { small_disk with opened := true }
    fs :=
      { superblock := small_superblock
        FAT := { curr_pos := 0, num_blocks_taken := 0, blocks := List.replicate 2048 0 }
        rootDir := { num_files := 0, files := List.replicate FS_FILE_MAX_COUNT zero_file }
        open_files := List.replicate FS_OPEN_MAX_COUNT { fd := 0, file_num := -1, file_offset := 0 }
        num_open_files := 0
        is_mounted := true } }

/-- The state after `fs_delete` has removed the file in slot `k`, with `blocks`
the FAT after the walk over its chain: the emptied entry, the decremented
counter, and the directory and FAT blocks written back. -/
def delete_at (s : State) (k : Nat) (blocks : List Nat) : State :=
  (fs_save_FAT (fs_save_rootDir { s with fs := { s.fs with
    FAT := { s.fs.FAT with blocks := blocks }
    rootDir :=
      { num_files := size_sub s.fs.rootDir.num_files 1
        files := s.fs.rootDir.files.set k EMPTY_FILE_CELL } } }).2).2

/-- The FAT with the entries of the blocks `bs` set to `v`. -/
def mark_blocks (v : Nat) (bs : List Nat) (blocks : List Nat) : List Nat :=
  bs.foldl (fun acc x => acc.set x v) blocks

/-- The string stored in a directory entry ends inside the entry: one of its
32 bytes is NUL. -/
def entry_terminated (f : file) : Prop := 0 ∈ file_bytes f

instance entry_terminated_decidable (f : file) : Decidable (entry_terminated f) := by
  unfold entry_terminated; exact inferInstance

/-- The small state after `fs_create` of the file "z": the entry sits in slot
0 and the directory block is written back. -/
def small_state_z : State := create_at small_state [122] 0

/-- A directory with 128 files named by the single bytes 1, 2, ..., 128. -/
def full_files : List file :=
  (List.range FS_FILE_MAX_COUNT).map fun i => new_file [i + 1]

/-- The small state with a full directory. -/
def full_state : State :=
  { small_state with fs := { small_state.fs with
      rootDir := { num_files := FS_FILE_MAX_COUNT, files := full_files } } }

/-- A name of 16 characters ("aaaaaaaaaaaaaaaa"); with its terminator it takes
17 bytes. -/
def name16 : List Nat := List.replicate 16 97

/-- The small state after `fs_create` of "z", `fs_open` of it and a write of
5000 bytes of value 7 to it: the file holds the chain 0 → 1 → `FAT_EOC`, and
the disk holds the FAT, the directory and the two data blocks. -/
def small_state_z_5000 : State :=
  { disk :=
      { diskname := "disk.fs"
        blocks :=
          [superblock_bytes small_superblock,
           FAT_bytes ([1, FAT_EOC] ++ List.replicate 2046 0),
           files_bytes ((List.replicate FS_FILE_MAX_COUNT zero_file).set 0
             { new_file [122] with file_size := 5000, first_block_idx := 0 }),
           List.replicate 4096 7,
           List.replicate 904 7 ++ List.replicate 3192 0,
           zero_block, zero_block]
        opened := true }
    fs :=
      { superblock := small_superblock
        FAT := { curr_pos := 0, num_blocks_taken := 2,
                 blocks := [1, FAT_EOC] ++ List.replicate 2046 0 }
        rootDir :=
          { num_files := 1
            files := (List.replicate FS_FILE_MAX_COUNT zero_file).set 0
              { new_file [122] with file_size := 5000, first_block_idx := 0 } }
        open_files := (List.replicate FS_OPEN_MAX_COUNT
          { fd := 0, file_num := -1, file_offset := 0 }).set 0
            { fd := 0, file_num := 0, file_offset := 0 }
        num_open_files := 1
        is_mounted := true } }

/-- The bytes of data block `b` on the disk. -/
def block_data (s : State) (b : Nat) : List Nat :=
  s.disk.blocks.getD (s.fs.superblock.data_block_start_idx + b) []

/-- The bytes of the data blocks `bs`, in order. -/
def chain_content (s : State) (bs : List Nat) : List Nat :=
  bs.flatMap (block_data s)

/-- The content of a file of `size` bytes stored in the chain `bs`. -/
def file_content (s : State) (size : Nat) (bs : List Nat) : List Nat :=
  (chain_content s bs).take size

/-- The geometry of the mounted disk is sound: the FAT blocks and the root
directory block lie before the data region, the number of data blocks fits 16
bits and the FAT array, and every data block is on the disk and holds
`BLOCK_SIZE` bytes. -/
def geometry_ok (s : State) : Prop :=
  s.fs.superblock.num_blocks_for_FAT < s.fs.superblock.data_block_start_idx ∧
  s.fs.superblock.root_block_idx < s.fs.superblock.data_block_start_idx ∧
  s.fs.superblock.amt_data_blocks < 2 ^ 16 ∧
  s.fs.superblock.amt_data_blocks ≤ s.fs.FAT.blocks.length ∧
  ∀ b, b < s.fs.superblock.amt_data_blocks →
    ∃ blk, s.disk.blocks[s.fs.superblock.data_block_start_idx + b]? = some blk ∧
      blk.length = BLOCK_SIZE

/-- Entry `file_num` of the directory is the non-empty entry `f`, and `bs` is
its chain: a well-formed chain of `⌈file_size / BLOCK_SIZE⌉` data blocks. -/
def file_ok (s : State) (file_num : Nat) (f : file) (bs : List Nat) : Prop :=
  file_num < FS_FILE_MAX_COUNT ∧
  s.fs.rootDir.files[file_num]? = some f ∧
  f.filename.headD 0 ≠ 0 ∧
  is_chain s.fs.FAT.blocks f.first_block_idx bs ∧
  bs.length = (f.file_size + (BLOCK_SIZE - 1)) / BLOCK_SIZE ∧
  ∀ b ∈ bs, b < s.fs.superblock.amt_data_blocks

/-- Slot `fd` of the open-file table is in use, with the entry `open_file` on
file number `file_num`. -/
def fd_ok (s : State) (fd : Nat) (open_file : openFile) (file_num : Nat) : Prop :=
  fd < FS_OPEN_MAX_COUNT ∧
  s.fs.open_files[fd]? = some open_file ∧
  open_file.file_num = (file_num : Int)

/-- The state with the offset of descriptor `fd` set to `offset`. -/
def with_offset (s : State) (fd : Nat) (open_file : openFile) (offset : Nat) : State :=
  { s with fs := { s.fs with
      open_files := s.fs.open_files.set fd { open_file with file_offset := offset } } }

/-- The lowest free slot of the open-file table (a slot whose file number is
-1); the length of the table when there is none. -/
def first_free_fd (open_files : List openFile) : Nat :=
  open_files.findIdx fun o => o.file_num == -1

/-- The number of slots of the open-file table that are in use. -/
def used_fds (open_files : List openFile) : Nat :=
  open_files.countP fun o => o.file_num != -1

/-- The state after `fs_open` has installed file number `file_num` in slot
`fd`. -/
def open_at (s : State) (fd : Nat) (file_num : Nat) : State :=
  { s with fs := { s.fs with
      open_files := s.fs.open_files.set fd
        { fd := (fd : Int), file_num := (file_num : Int), file_offset := 0 }
      num_open_files := size_add s.fs.num_open_files 1 } }

/-- The state after `fs_close` has freed slot `fd`. -/
def close_at (s : State) (fd : Nat) : State :=
  { s with fs := { s.fs with
      open_files := s.fs.open_files.set fd { fd := 0, file_num := -1, file_offset := 0 }
      num_open_files := size_sub s.fs.num_open_files 1 } }

/-- The small state after `fs_create` of "z", `fs_open` of it (descriptor 0)
and `fs_delete` of "z": slot 0 of the open-file table is still in use and
refers to directory entry 0, which is empty again. -/
def stale_state : State :=
  delete_at (open_at small_state_z 0 0) 0 (open_at small_state_z 0 0).fs.FAT.blocks

/-- A disk of seven all-zero blocks: its first eight bytes are not a signature
and its superblock announces 0 blocks. -/
def zero_disk : BlockDev :=
  { diskname := "disk.fs", blocks := List.replicate 7 zero_block, opened := false }

/-- The small state with a superblock that places the root directory in block
9 of the 7-block disk, as `fs_mount` accepts it from such an image. -/
def bad_root_state : State :=
  { small_state with fs := { small_state.fs with
      superblock := { small_superblock with root_block_idx := 9 } } }

/-- The number of data blocks that the FAT marks free: the zero links among
the first `amt_data_blocks` links. -/
def free_blocks (fs : FS) : Nat :=
  (fs.FAT.blocks.take fs.superblock.amt_data_blocks).countP fun v => v == 0

/-- The lowest data block that the FAT marks free; `amt_data_blocks` (or the
length of the FAT) when there is none. -/
def first_free_block (fs : FS) : Nat :=
  (fs.FAT.blocks.take fs.superblock.amt_data_blocks).findIdx fun v => v == 0

/-- The state after the allocation step of `fs_write` has taken block
`open_block`: the link `*block_idx_p` set to it, its own link set to
`FAT_EOC`, the counter incremented and the FAT written back. -/
def alloc_state (s : State) (block_idx_p : BlockIdxPtr) (open_block : Nat) : State :=
  match block_idx_p.assign s.fs open_block with
  | none => s
  | some fs1 =>
    (fs_save_FAT { s with fs := { fs1 with FAT := { fs1.FAT with
      blocks := fs1.FAT.blocks.set open_block FAT_EOC
      num_blocks_taken := size_add fs1.FAT.num_blocks_taken 1 } } }).2

/-- The state after a pass of the loop of `fs_write` has written `block_p2` to
data block `block_idx` and brought the number of bytes written to
`bytes_written1`: the data block on the disk and, when the file grew, the new
size in the directory entry and the directory block written back. -/
def write_data (s : State) (file_num block_idx : Nat) (block_p2 : List Nat)
    (bytes_written1 : Nat) : State :=
  let s2 : State := { s with disk :=
    (block_write s.disk (s.fs.superblock.data_block_start_idx + block_idx) block_p2).2 }
  match s2.fs.rootDir.files[file_num]? with
  | none => s2
  | some target_file =>
    if bytes_written1 > target_file.file_size then
      (fs_save_rootDir { s2 with fs := { s2.fs with rootDir := { s2.fs.rootDir with
        files := s2.fs.rootDir.files.set file_num
          { target_file with file_size := bytes_written1 % 2 ^ 32 } } } }).2
    else s2

/-- The facts at the head of the loop of `fs_write` for file `file_num` with
entry `f`: `block_idx_p` holds the link value whose chain is `rest` (the blocks
of the file that are still ahead), each block of `rest` is a data block that
the FAT marks taken, the link behind a FAT pointer is not 0, block 0 is not
marked free once the file has a block, the size is at least `bytes_written`,
and the blocks still needed beyond `rest` are free, by the FAT and by the
counter. -/
structure write_pre (file_num count : Nat) (s : State) (bytes_written : Nat)
    (block_idx_p : BlockIdxPtr) (rest : List Nat) (f : file) (block_p : List Nat) : Prop where
  opened : s.disk.opened = true
  geometry : geometry_ok s
  entry : s.fs.rootDir.files[file_num]? = some f
  chain : ∃ v, block_idx_p.deref s.fs = some v ∧ is_chain s.fs.FAT.blocks v rest ∧
    ∀ last, block_idx_p = .FAT_entry last → v ≠ 0 ∧ last ∉ rest
  ptr : block_idx_p = .first_block_idx file_num ∨ ∃ last, block_idx_p = .FAT_entry last
  rest_ok : ∀ b ∈ rest, b < s.fs.superblock.amt_data_blocks ∧ s.fs.FAT.blocks[b]? ≠ some 0
  zero : block_idx_p ≠ .first_block_idx file_num ∨ rest ≠ [] → s.fs.FAT.blocks[0]? ≠ some 0
  size : bytes_written ≤ f.file_size
  written : bytes_written ≤ count
  free : (count - bytes_written + 4095) / 4096 - rest.length ≤ free_blocks s.fs ∧
    s.fs.FAT.num_blocks_taken + ((count - bytes_written + 4095) / 4096 - rest.length) ≤
      s.fs.superblock.amt_data_blocks
  scratch : block_p.length = 4096

/-- The state `s'` that the loop of `fs_write` reaches from the state `s` of
`write_pre`, with `new` the blocks it allocated: the chain behind
`block_idx_p` is `rest ++ new`, the bytes `buf[bytes_written, count)` lie at
the start of that chain and every other byte of the data region is as it was,
the size is `max(size, count)`, the new blocks were free, the counter grew by
their number, block 0 is not marked free once the file has a block, and
everything else is unchanged. -/
structure write_post (file_num : Nat) (buf : List Nat) (count : Nat) (s : State)
    (bytes_written : Nat) (block_idx_p : BlockIdxPtr) (rest : List Nat) (f : file)
    (s' : State) (new : List Nat) : Prop where
  superblock : s'.fs.superblock = s.fs.superblock
  open_files : s'.fs.open_files = s.fs.open_files
  num_open_files : s'.fs.num_open_files = s.fs.num_open_files
  is_mounted : s'.fs.is_mounted = s.fs.is_mounted
  num_files : s'.fs.rootDir.num_files = s.fs.rootDir.num_files
  opened : s'.disk.opened = s.disk.opened
  geometry : geometry_ok s'
  chain : ∃ v, block_idx_p.deref s'.fs = some v ∧ is_chain s'.fs.FAT.blocks v (rest ++ new) ∧
    ∀ last, block_idx_p = .FAT_entry last → v ≠ 0
  new_free : ∀ b ∈ new, b < s.fs.superblock.amt_data_blocks ∧ s.fs.FAT.blocks[b]? = some 0
  marked : ∀ b ∈ rest ++ new, s'.fs.FAT.blocks[b]? ≠ some 0
  FAT_frame : ∀ i, i ∉ rest → i ∉ new → block_idx_p ≠ .FAT_entry i →
    s'.fs.FAT.blocks[i]? = s.fs.FAT.blocks[i]?
  FAT_length : s'.fs.FAT.blocks.length = s.fs.FAT.blocks.length
  taken : s'.fs.FAT.num_blocks_taken = s.fs.FAT.num_blocks_taken + new.length
  free : free_blocks s'.fs + new.length = free_blocks s.fs
  files_frame : ∀ i, i ≠ file_num → s'.fs.rootDir.files[i]? = s.fs.rootDir.files[i]?
  entry : ∃ f', s'.fs.rootDir.files[file_num]? = some f' ∧ f'.filename = f.filename ∧
    f'.padding = f.padding ∧ f'.file_size = Max.max f.file_size count ∧
    (block_idx_p ≠ .first_block_idx file_num → f'.first_block_idx = f.first_block_idx)
  content : chain_content s' (rest ++ new) =
    (buf.drop bytes_written).take (count - bytes_written) ++
      (chain_content s (rest ++ new)).drop (count - bytes_written)
  data_frame : ∀ b, b ∉ rest ++ new → block_data s' b = block_data s b
  zero_kept : block_idx_p ≠ .first_block_idx file_num ∨ rest ++ new ≠ [] →
    s'.fs.FAT.blocks[0]? ≠ some 0

/-- The small disk filled through the file "z": entry 0 is "z" with 16384
bytes of value 7 in the chain 0 → 1 → 2 → 3 → `FAT_EOC`, so that none of the
four data blocks is free; entry 1 is the empty file "y".  Descriptor 0 is open
on "z" and stands at its end (offset 16384); descriptor 1 is open on "y". -/
def small_state_full : State :=
  { disk :=
      { diskname := "disk.fs"
        blocks :=
          [superblock_bytes small_superblock,
           FAT_bytes ([1, 2, 3, FAT_EOC] ++ List.replicate 2044 0),
           files_bytes (((List.replicate FS_FILE_MAX_COUNT zero_file).set 0
             { new_file [122] with file_size := 16384, first_block_idx := 0 }).set 1
               (new_file [121])),
           List.replicate 4096 7, List.replicate 4096 7,
           List.replicate 4096 7, List.replicate 4096 7]
        opened := true }
    fs :=
      { superblock := small_superblock
        FAT := { curr_pos := 0, num_blocks_taken := 4,
                 blocks := [1, 2, 3, FAT_EOC] ++ List.replicate 2044 0 }
        rootDir :=
          { num_files := 2
            files := ((List.replicate FS_FILE_MAX_COUNT zero_file).set 0
              { new_file [122] with file_size := 16384, first_block_idx := 0 }).set 1
                (new_file [121]) }
        open_files := ((List.replicate FS_OPEN_MAX_COUNT
          { fd := 0, file_num := -1, file_offset := 0 }).set 0
            { fd := 0, file_num := 0, file_offset := 16384 }).set 1
              { fd := 1, file_num := 1, file_offset := 0 }
        num_open_files := 2
        is_mounted := true } }

/-- A directory entry fills its 32 bytes: 16 bytes of name, a size below
2^32, a first block index below 2^16, and 10 bytes of padding. -/
def entry_ok (f : file) : Prop :=
  f.filename.length = FS_FILENAME_LEN ∧ f.padding.length = 10 ∧ f.file_size < 2 ^ 32 ∧
    f.first_block_idx < 2 ^ 16

/-- The structures in memory fill their images on the disk: the fields of the
superblock fit their widths, the FAT blocks (from block 1 on) lie before the
block of the root directory, which is on the disk, the directory has
`FS_FILE_MAX_COUNT` entries of 32 bytes, and the FAT array has `BLOCK_SIZE / 2`
links of 16 bits for each of its blocks. -/
def image_ok (s : State) : Prop :=
  s.fs.superblock.signature.length = SIGNATURE_LENGTH ∧
  s.fs.superblock.block_count < 2 ^ 16 ∧
  s.fs.superblock.root_block_idx < 2 ^ 16 ∧
  s.fs.superblock.data_block_start_idx < 2 ^ 16 ∧
  s.fs.superblock.amt_data_blocks < 2 ^ 16 ∧
  s.fs.superblock.num_blocks_for_FAT < 2 ^ 8 ∧
  s.fs.superblock.num_blocks_for_FAT < s.fs.superblock.root_block_idx ∧
  s.fs.superblock.root_block_idx < s.disk.blocks.length ∧
  s.fs.rootDir.files.length = FS_FILE_MAX_COUNT ∧
  (∀ f ∈ s.fs.rootDir.files, entry_ok f) ∧
  s.fs.FAT.blocks.length = s.fs.superblock.num_blocks_for_FAT * (BLOCK_SIZE / 2) ∧
  ∀ v ∈ s.fs.FAT.blocks, v < 2 ^ 16

/-- The number of data blocks that the files of the directory need: the sum
over all entries of the size divided by the block size, rounded up. -/
def used_blocks (files : List file) : Nat :=
  (files.map fun f => (f.file_size + (BLOCK_SIZE - 1)) / BLOCK_SIZE).sum

/-! ## Sequences of calls -/

/-- A call of the API on the mounted file system, with its arguments; `buf` is
the content of the caller's buffer before the call. -/
inductive Call where
  | fs_create (filename : List Nat)
  | fs_delete (filename : List Nat)
  | fs_open (filename : List Nat)
  | fs_close (fd : Int)
  | fs_stat (fd : Int)
  | fs_lseek (fd : Int) (offset : Nat)
  | fs_read (fd : Int) (buf : List Nat) (count : Nat)
  | fs_write (fd : Int) (buf : List Nat) (count : Nat)
deriving DecidableEq, Repr

/-- The state after a call; `none` when the call has no result. -/
def step (s : State) : Call → Option State
  | .fs_create filename => (fs_create s filename).map fun r => r.2
  | .fs_delete filename => (fs_delete s filename).map fun r => r.2
  | .fs_open filename => (fs_open s filename).map fun r => r.2
  | .fs_close fd => (fs_close s fd).map fun r => r.2
  | .fs_stat fd => (fs_stat s fd).map fun r => r.2
  | .fs_lseek fd offset => (fs_lseek s fd offset).map fun r => r.2
  | .fs_read fd buf count => (fs_read s fd buf count).map fun r => r.2.2
  | .fs_write fd buf count => (fs_write s fd buf count).map fun r => r.2

/-- The state after a sequence of calls, made one after the other. -/
def run (s : State) : List Call → Option State
  | [] => some s
  | c :: cs =>
    match step s c with
    | none => none
    | some s1 => run s1 cs

/-- Every call of the sequence satisfies `allowed` in the state it is made
in. -/
def trace_allowed (allowed : State → Call → Prop) : State → List Call → Prop
  | _, [] => True
  | s, c :: cs => allowed s c ∧ ∀ s1, step s c = some s1 → trace_allowed allowed s1 cs

/-- The open-file table invariant: every slot in use refers to a non-empty
directory entry, and its offset is at most the size of that entry. -/
def table_ok (s : State) : Prop :=
  ∀ (fd : Nat) (o : openFile), s.fs.open_files[fd]? = some o → o.file_num ≠ -1 →
    ∃ (k : Nat) (f : file), o.file_num = (k : Int) ∧ s.fs.rootDir.files[k]? = some f ∧
      f.filename.headD 0 ≠ 0 ∧ o.file_offset ≤ f.file_size

/-- Every slot that is in use before and after a step refers to the same
directory entry, which holds the same name. -/
def table_stable (s s' : State) : Prop :=
  ∀ (fd : Nat) (o o' : openFile), s.fs.open_files[fd]? = some o → o.file_num ≠ -1 →
    s'.fs.open_files[fd]? = some o' → o'.file_num ≠ -1 →
    o'.file_num = o.file_num ∧
    ∀ (k : Nat) (f : file), o.file_num = (k : Int) → s.fs.rootDir.files[k]? = some f →
      ∃ f', s'.fs.rootDir.files[k]? = some f' ∧ f'.filename = f.filename

/-- The call is not an `fs_delete` of a file that an open descriptor refers
to. -/
def delete_closed (s : State) : Call → Prop
  | .fs_delete filename =>
    ∀ o ∈ s.fs.open_files, o.file_num ≠ -1 →
      o.file_num ≠ fs_file_num_from_filename s.fs filename
  | _ => True

/-- No block of the device holds more than `BLOCK_SIZE` bytes. -/
def blocks_bounded (d : BlockDev) : Prop := ∀ b ∈ d.blocks, b.length ≤ BLOCK_SIZE

/-- A directory entry has the shape of its C type: a name field of 16 bytes
and padding of 10 bytes. -/
def entry_shape (f : file) : Prop :=
  f.filename.length = FS_FILENAME_LEN ∧ f.padding.length = 10

/-- The directory, the open-file table and the disk have the shape of their C
types: 128 entries of 32 bytes, 32 descriptors, and blocks of at most
`BLOCK_SIZE` bytes. -/
def shape_ok (s : State) : Prop :=
  s.fs.rootDir.files.length = FS_FILE_MAX_COUNT ∧
  (∀ f ∈ s.fs.rootDir.files, entry_shape f) ∧
  s.fs.open_files.length = FS_OPEN_MAX_COUNT ∧
  blocks_bounded s.disk

/-- Every size in the directory is below `2 ^ 31`, the range in which the
`int` result of `fs_stat` is the size. -/
def sizes_ok (s : State) : Prop := ∀ f ∈ s.fs.rootDir.files, f.file_size < 2 ^ 31

/-- The entry `g` continues the entry `f`: the same name and padding, and a
size that is not smaller and stays below `2 ^ 31`. -/
def entry_grows (f g : file) : Prop :=
  g.filename = f.filename ∧ g.padding = f.padding ∧ f.file_size ≤ g.file_size ∧
  (f.file_size < 2 ^ 31 → g.file_size < 2 ^ 31)

/-- The state `s'` continues `s` as a write does: the same open-file table, and
a directory of the same length whose entries continue those of `s`. -/
def grows (s s' : State) : Prop :=
  s'.fs.open_files = s.fs.open_files ∧
  s'.fs.rootDir.files.length = s.fs.rootDir.files.length ∧
  ∀ (k : Nat) (f g : file), s.fs.rootDir.files[k]? = some f →
    s'.fs.rootDir.files[k]? = some g → entry_grows f g

/-- Modelled from the spec: the superblock that the formatter writes for `D`
data blocks ("a valid superblock for the requested D"): the signature, `F`
blocks of FAT for the `D` 16-bit links, the root directory behind the FAT, the
data blocks behind the root directory. -/
def formatted_superblock (D : Nat) : superblock :=
  { signature := [69, 67, 83, 49, 53, 48, 70, 83]
    block_count := D + (2 * D + (BLOCK_SIZE - 1)) / BLOCK_SIZE + 2
    root_block_idx := (2 * D + (BLOCK_SIZE - 1)) / BLOCK_SIZE + 1
    data_block_start_idx := (2 * D + (BLOCK_SIZE - 1)) / BLOCK_SIZE + 2
    amt_data_blocks := D
    num_blocks_for_FAT := (2 * D + (BLOCK_SIZE - 1)) / BLOCK_SIZE
    rest := List.replicate 4079 0 }

/-- Modelled from the spec: the disk as the formatter leaves it, "a
zero-initialized disk" with "a valid superblock for the requested D, an
all-zero FAT of the computed F blocks, and an all-zero root directory"; not
opened. -/
def formatted_disk (diskname : String) (D : Nat) : BlockDev :=
  { diskname := diskname
    blocks := superblock_bytes (formatted_superblock D) ::
      List.replicate ((2 * D + (BLOCK_SIZE - 1)) / BLOCK_SIZE + 1 + D) zero_block
    opened := false }

/-- The state right after mounting the formatted disk of `D` data blocks, with
`taken` in the used-block counter. -/
def fresh_state (diskname : String) (D taken : Nat) : State :=
  { disk := { formatted_disk diskname D with opened := true }
    fs :=
      { superblock := formatted_superblock D
        FAT := { curr_pos := 0, num_blocks_taken := taken,
                 blocks := List.replicate
                   ((2 * D + (BLOCK_SIZE - 1)) / BLOCK_SIZE * (BLOCK_SIZE / 2)) 0 }
        rootDir := { num_files := 0, files := List.replicate FS_FILE_MAX_COUNT zero_file }
        open_files := List.replicate FS_OPEN_MAX_COUNT { fd := 0, file_num := -1, file_offset := 0 }
        num_open_files := 0
        is_mounted := true } }

/-- Chain integrity: for every non-empty directory entry with size `S`, the
FAT links from its first block run through exactly `⌈S / BLOCK_SIZE⌉` distinct
data-block indices below the number of data blocks and then reach `FAT_EOC`;
no block of the chain has the FAT value 0, and none occurs in the chain of
another non-empty entry. -/
def chains_ok (s : State) : Prop :=
  ∀ (k : Nat) (f : file), s.fs.rootDir.files[k]? = some f → f.filename.headD 0 ≠ 0 →
    ∃ bs, is_chain s.fs.FAT.blocks f.first_block_idx bs ∧
      bs.length = (f.file_size + (BLOCK_SIZE - 1)) / BLOCK_SIZE ∧ bs.Nodup ∧
      (∀ b ∈ bs, b < s.fs.superblock.amt_data_blocks ∧ s.fs.FAT.blocks[b]? ≠ some 0) ∧
      ∀ (k' : Nat) (f' : file) (bs' : List Nat), k' ≠ k →
        s.fs.rootDir.files[k']? = some f' → f'.filename.headD 0 ≠ 0 →
        is_chain s.fs.FAT.blocks f'.first_block_idx bs' → ∀ b ∈ bs, b ∉ bs'

/-- The facts that hold in every state the calls lead to from a freshly
formatted and mounted disk: a mounted file system with sound geometry, 128
entries with 16-byte name fields and 32 descriptors; every non-empty entry has
a well-formed chain of blocks that the FAT marks taken; the chains of
different entries share no block; block 0 is free only as long as no file has a block; and when the
counter exceeds the number of data blocks no file has a block. -/
structure chains_inv (s : State) : Prop where
  mounted : is_mounted s = true
  geometry : geometry_ok s
  length : s.fs.rootDir.files.length = FS_FILE_MAX_COUNT
  table : s.fs.open_files.length = FS_OPEN_MAX_COUNT
  names : ∀ f ∈ s.fs.rootDir.files, f.filename.length = FS_FILENAME_LEN
  files : ∀ (k : Nat) (f : file), s.fs.rootDir.files[k]? = some f → f.filename.headD 0 ≠ 0 →
    ∃ bs, file_ok s k f bs ∧ ∀ b ∈ bs, s.fs.FAT.blocks[b]? ≠ some 0
  disjoint : ∀ (k1 k2 : Nat) (f1 f2 : file) (bs1 bs2 : List Nat), k1 ≠ k2 →
    file_ok s k1 f1 bs1 → file_ok s k2 f2 bs2 → ∀ b ∈ bs1, b ∉ bs2
  zero : s.fs.FAT.blocks[0]? = some 0 →
    ∀ (k : Nat) (f : file), s.fs.rootDir.files[k]? = some f → f.filename.headD 0 ≠ 0 →
      f.first_block_idx = FAT_EOC
  counter : s.fs.superblock.amt_data_blocks < s.fs.FAT.num_blocks_taken →
    ∀ (k : Nat) (f : file), s.fs.rootDir.files[k]? = some f → f.filename.headD 0 ≠ 0 →
      f.first_block_idx = FAT_EOC

/-- The count of an `fs_write` is below `2 ^ 31`, and its buffer holds at least
`count` bytes. -/
def write_in_range : Call → Prop
  | .fs_write _ buf count => count < 2 ^ 31 ∧ count ≤ buf.length
  | _ => True

/-- The state right after mounting the formatted disk with a single data
block. -/
def tiny_state : State := fresh_state "disk.fs" 1 0

/-- The tiny state after `fs_create` of "z" and `fs_open` of it (descriptor
0). -/
def tiny_state_z : State := open_at (create_at tiny_state [122] 0) 0 0

/-- The state `tiny_state_z` after the only data block has been allocated to
"z": entry 0 has first block 0 and still size 0, and the link of block 0 is
`FAT_EOC`. -/
def tiny_state_wrapped : State := alloc_state tiny_state_z (.first_block_idx 0) 0

/-- The state after mounting the formatted small disk when the memory that
`malloc` hands to `fs_init` holds 7 in the counter field (`fs_mount` only adds
to `num_blocks_taken`), followed by `fs_create` of "z" and `fs_open` of it
(descriptor 0): all four data blocks are free and the counter is 7. -/
def small_state_z_stale : State := open_at (create_at (fresh_state "disk.fs" 4 7) [122] 0) 0 0

/-! ## Properties -/

theorem lnot_ne (r : Int) : lnot r ≠ -1 := by
  unfold lnot; split <;> decide

theorem fs_save_rootDir_fs (s : State) : (fs_save_rootDir s).2.fs = s.fs := by
  unfold fs_save_rootDir; simp only []; split <;> rfl

theorem fs_save_FAT_fs (s : State) : (fs_save_FAT s).2.fs = s.fs := rfl

theorem fs_save_superblock_fs (s : State) : (fs_save_superblock s).2.fs = s.fs := by
  unfold fs_save_superblock; simp only []; split <;> rfl

theorem block_write_opened (d : BlockDev) (i : Nat) (b : List Nat) :
    (block_write d i b).2.opened = d.opened := by
  unfold block_write; split <;> rfl

theorem block_write_length (d : BlockDev) (i : Nat) (b : List Nat) :
    (block_write d i b).2.blocks.length = d.blocks.length := by
  unfold block_write; split <;> simp

theorem fs_save_rootDir_opened (s : State) :
    (fs_save_rootDir s).2.disk.opened = s.disk.opened := by
  unfold fs_save_rootDir; simp only []; split <;> exact block_write_opened _ _ _

theorem fs_save_FAT_loop_opened (blocks : List Nat) :
    ∀ n i d, (fs_save_FAT_loop blocks n i d).opened = d.opened := by
  intro n
  induction n with
  | zero => intro i d; rfl
  | succ n ih =>
    intro i d
    unfold fs_save_FAT_loop
    simp only []
    rw [ih, block_write_opened]

theorem fs_save_FAT_opened (s : State) :
    (fs_save_FAT s).2.disk.opened = s.disk.opened :=
  fs_save_FAT_loop_opened _ _ _ _

theorem is_mounted_iff (s : State) :
    is_mounted s = true ↔ s.disk.opened = true ∧ s.fs.is_mounted = true := by
  unfold is_mounted block_disk_count
  by_cases h : s.disk.opened = true
  · simp only [h, if_true, Bool.and_eq_true, bne_iff_ne, ne_eq, true_and, and_iff_right_iff_imp]
    intro _; omega
  · simp [h]

/-! ### Lookup by name -/

theorem lookup_loop_none (files : List file) (filename : List Nat) :
    ∀ n i, (∀ j, i ≤ j → j < i + n → name_at files j ≠ cstr filename) →
      fs_file_num_from_filename_loop files filename n i = -2 := by
  intro n
  induction n with
  | zero => intro i _; rfl
  | succ n ih =>
    intro i h
    unfold fs_file_num_from_filename_loop
    rw [if_neg (h i (le_refl _) (by omega))]
    exact ih (i + 1) fun j h1 h2 => h j (by omega) (by omega)

theorem lookup_loop_found (files : List file) (filename : List Nat) :
    ∀ n i k, i ≤ k → k < i + n → name_at files k = cstr filename →
      (∀ j, i ≤ j → j < k → name_at files j ≠ cstr filename) →
      fs_file_num_from_filename_loop files filename n i = (k : Int) := by
  intro n
  induction n with
  | zero => intro i k h1 h2; omega
  | succ n ih =>
    intro i k h1 h2 hk hlt
    unfold fs_file_num_from_filename_loop
    by_cases hik : i = k
    · subst hik; rw [if_pos hk]
    · rw [if_neg (hlt i (le_refl _) (by omega))]
      exact ih (i + 1) k (by omega) (by omega) hk fun j h3 h4 => hlt j (by omega) h4

theorem lookup_loop_cases (files : List file) (filename : List Nat) :
    ∀ n i, fs_file_num_from_filename_loop files filename n i = -2 ∨
      ∃ k, i ≤ k ∧ k < i + n ∧ fs_file_num_from_filename_loop files filename n i = (k : Int) ∧
        name_at files k = cstr filename ∧
        ∀ j, i ≤ j → j < k → name_at files j ≠ cstr filename := by
  intro n
  induction n with
  | zero => intro i; left; rfl
  | succ n ih =>
    intro i
    unfold fs_file_num_from_filename_loop
    by_cases h : name_at files i = cstr filename
    · right
      exact ⟨i, le_refl _, by omega, by rw [if_pos h], h, fun j h1 h2 => by omega⟩
    · rw [if_neg h]
      rcases ih (i + 1) with h1 | ⟨k, h1, h2, h3, h4, h5⟩
      · left; exact h1
      · right
        refine ⟨k, by omega, by omega, h3, h4, fun j h6 h7 => ?_⟩
        by_cases hj : j = i
        · subst hj; exact h
        · exact h5 j (by omega) h7

theorem cstr_all_ne (p : List Nat) : ∀ a ∈ cstr p, (a != 0) = true := by
  intro a ha
  unfold cstr at ha
  exact List.mem_takeWhile_imp (p := fun c => c != 0) ha

theorem cstr_append_zero (c r : List Nat) (hc : ∀ a ∈ c, (a != 0) = true) :
    cstr (c ++ 0 :: r) = c := by
  unfold cstr
  rw [List.takeWhile_append_of_pos hc]
  simp

theorem replicate_zero_append (m : Nat) (l : List Nat) :
    ∃ r, List.replicate m 0 ++ 0 :: l = 0 :: r := by
  cases m with
  | zero => exact ⟨l, rfl⟩
  | succ m => exact ⟨_, by rw [List.replicate_succ, List.cons_append]⟩

theorem new_file_bytes (filename : List Nat) (h : strlen filename ≤ FS_FILENAME_LEN) :
    ∃ r, file_bytes (new_file filename) = cstr filename ++ 0 :: r := by
  unfold strlen at h
  unfold file_bytes new_file
  simp only [le_bytes]
  rw [List.take_append_eq_append_take, List.take_of_length_le h, List.take_replicate]
  obtain ⟨r, hr⟩ := replicate_zero_append
    (Nat.min (FS_FILENAME_LEN - (cstr filename).length) FS_FILENAME_LEN)
    ([0, 0, 0] ++ [FAT_EOC % 256, FAT_EOC / 256 % 256] ++ List.replicate 10 0)
  refine ⟨r, ?_⟩
  rw [← hr]
  simp only [List.append_assoc, List.cons_append, List.nil_append, Nat.zero_div, Nat.zero_mod]

theorem name_at_set_new (files : List file) (filename : List Nat) (k : Nat)
    (hk : k < files.length) (h : strlen filename ≤ FS_FILENAME_LEN) :
    name_at (files.set k (new_file filename)) k = cstr filename := by
  unfold name_at
  rw [List.drop_set, if_neg (by omega), Nat.sub_self,
    List.drop_eq_getElem_cons hk, List.set_cons_zero, List.flatMap_cons]
  obtain ⟨r, hr⟩ := new_file_bytes filename h
  rw [hr, List.append_assoc, List.cons_append]
  exact cstr_append_zero _ _ (cstr_all_ne filename)

/-! ### Creation -/

theorem fs_create_loop_found (s : State) (filename : List Nat) (k : Nat)
    (hk : k < s.fs.rootDir.files.length)
    (hempty : s.fs.rootDir.files[k]?.map (fun f => f.filename.headD 0) = some 0)
    (hlow : ∀ j, j < k → ∀ f, s.fs.rootDir.files[j]? = some f → f.filename.headD 0 ≠ 0) :
    ∀ n i, i ≤ k → k < i + n →
      fs_create_loop s filename n i = some (0, create_at s filename k) := by
  intro n
  induction n with
  | zero => intro i h1 h2; omega
  | succ n ih =>
    intro i h1 h2
    unfold fs_create_loop
    have hi : i < s.fs.rootDir.files.length := by omega
    rw [List.getElem?_eq_getElem hi]
    simp only []
    by_cases hik : i = k
    · subst hik
      rw [List.getElem?_eq_getElem hi] at hempty
      simp only [Option.map_some', Option.some.injEq] at hempty
      rw [if_pos hempty, if_neg (lnot_ne _)]
      rfl
    · have := hlow i (by omega) _ (List.getElem?_eq_getElem hi)
      rw [if_neg this]
      exact ih (i + 1) (by omega) (by omega)

theorem fs_create_loop_full (s : State) (filename : List Nat)
    (hfull : ∀ j, j < FS_FILE_MAX_COUNT →
      ∃ f, s.fs.rootDir.files[j]? = some f ∧ f.filename.headD 0 ≠ 0) :
    ∀ n i, i + n ≤ FS_FILE_MAX_COUNT → fs_create_loop s filename n i = some (-1, s) := by
  intro n
  induction n with
  | zero => intro i _; rfl
  | succ n ih =>
    intro i h
    unfold fs_create_loop
    obtain ⟨f, hf, hne⟩ := hfull i (by omega)
    rw [hf]
    simp only []
    rw [if_neg hne]
    exact ih (i + 1) (by omega)

theorem first_empty_slot_spec (files : List file) (h : used_slots files < files.length) :
    first_empty_slot files < files.length ∧
    files[first_empty_slot files]?.map (fun f => f.filename.headD 0) = some 0 ∧
    ∀ j, j < first_empty_slot files → ∀ f, files[j]? = some f → f.filename.headD 0 ≠ 0 := by
  have hlt : first_empty_slot files < files.length := by
    unfold first_empty_slot
    rw [List.findIdx_lt_length]
    by_contra hcon
    push_neg at hcon
    have : used_slots files = files.length := by
      unfold used_slots
      rw [List.countP_eq_length]
      intro a ha
      have := hcon a ha
      simpa using this
    omega
  refine ⟨hlt, ?_, ?_⟩
  · rw [List.getElem?_eq_getElem hlt]
    have := List.findIdx_getElem (w := hlt)
    simpa [first_empty_slot] using this
  · intro j hj f hf
    have hj' : j < files.length := by omega
    have := List.not_of_lt_findIdx hj
    rw [List.getElem?_eq_getElem hj'] at hf
    simp only [Option.some.injEq] at hf
    rw [hf] at this
    simpa using this

theorem fs_validate_filename_iff (filename : List Nat) :
    fs_validate_filename filename = true ↔
      1 ≤ strlen filename ∧ strlen filename ≤ FS_FILENAME_LEN := by
  unfold fs_validate_filename strlen cstr
  cases filename with
  | nil => simp
  | cons a l =>
    by_cases ha : a = 0
    · simp [ha, List.takeWhile_cons]
    · simp [ha, List.takeWhile_cons]

theorem lookup_absent (fs : FS) (filename : List Nat)
    (hv : fs_validate_filename filename = true)
    (hnew : ∀ j, j < FS_FILE_MAX_COUNT → name_at fs.rootDir.files j ≠ cstr filename) :
    fs_file_num_from_filename fs filename = -2 := by
  unfold fs_file_num_from_filename
  rw [if_neg (by simp [hv])]
  exact lookup_loop_none _ _ _ _ fun j _ h2 => hnew j (by omega)

/-- C6. Create success: in a mounted state whose directory has 128 slots, a
file counter equal to the number of non-empty slots and below 128, `fs_create`
of a valid name that no entry holds returns 0; the lowest-indexed empty slot
becomes the new entry (the name, size 0, first block `FAT_EOC`), the counter
grows by one, and every other entry, the FAT and the open-file table are
unchanged. -/
theorem fs_create_success (s : State) (filename : List Nat)
    (hm : is_mounted s = true)
    (hlen : s.fs.rootDir.files.length = FS_FILE_MAX_COUNT)
    (hacc : s.fs.rootDir.num_files = used_slots s.fs.rootDir.files)
    (hlt : s.fs.rootDir.num_files < FS_FILE_MAX_COUNT)
    (hv : fs_validate_filename filename = true)
    (hnew : ∀ j, j < FS_FILE_MAX_COUNT → name_at s.fs.rootDir.files j ≠ cstr filename) :
    ∃ s', fs_create s filename = some (0, s') ∧
      first_empty_slot s.fs.rootDir.files < FS_FILE_MAX_COUNT ∧
      s'.fs.rootDir.files =
        s.fs.rootDir.files.set (first_empty_slot s.fs.rootDir.files) (new_file filename) ∧
      s'.fs.rootDir.files[first_empty_slot s.fs.rootDir.files]? = some (new_file filename) ∧
      name_at s'.fs.rootDir.files (first_empty_slot s.fs.rootDir.files) = cstr filename ∧
      (new_file filename).file_size = 0 ∧
      (new_file filename).first_block_idx = FAT_EOC ∧
      s'.fs.rootDir.num_files = s.fs.rootDir.num_files + 1 ∧
      (∀ j, j ≠ first_empty_slot s.fs.rootDir.files →
        s'.fs.rootDir.files[j]? = s.fs.rootDir.files[j]?) ∧
      s'.fs.FAT = s.fs.FAT ∧
      s'.fs.open_files = s.fs.open_files ∧
      s'.fs.num_open_files = s.fs.num_open_files ∧
      s'.fs.superblock = s.fs.superblock ∧
      is_mounted s' = true := by
  obtain ⟨hk, hempty, hlow⟩ := first_empty_slot_spec s.fs.rootDir.files (by omega)
  have hfs : (create_at s filename (first_empty_slot s.fs.rootDir.files)).fs =
      { s.fs with rootDir :=
        { num_files := size_add s.fs.rootDir.num_files 1
          files := s.fs.rootDir.files.set (first_empty_slot s.fs.rootDir.files)
            (new_file filename) } } := by
    unfold create_at; rw [fs_save_rootDir_fs]
  refine ⟨create_at s filename (first_empty_slot s.fs.rootDir.files), ?_, by omega, ?_, ?_, ?_,
    rfl, rfl, ?_, ?_, ?_, ?_, ?_, ?_, ?_⟩
  · unfold fs_create
    rw [if_neg (by simp [hm]), if_neg (by simp [hv]),
      if_neg (by rw [lookup_absent s.fs filename hv hnew]; simp), if_neg (by omega)]
    exact fs_create_loop_found s filename _ hk hempty hlow _ _ (Nat.zero_le _) (by omega)
  · rw [hfs]
  · rw [hfs]; exact List.getElem?_set_self hk
  · rw [hfs]
    exact name_at_set_new _ _ _ hk ((fs_validate_filename_iff _).1 hv).2
  · rw [hfs]
    show size_add s.fs.rootDir.num_files 1 = _
    unfold size_add
    have : s.fs.rootDir.num_files < 128 := hlt
    omega
  · intro j hj
    rw [hfs]
    exact List.getElem?_set_ne (Ne.symm hj)
  · rw [hfs]
  · rw [hfs]
  · rw [hfs]
  · rw [hfs]
  · rw [is_mounted_iff] at hm ⊢
    refine ⟨?_, by rw [hfs]; exact hm.2⟩
    unfold create_at
    rw [fs_save_rootDir_opened]
    exact hm.1

set_option maxRecDepth 100000 in
theorem fs_create_success_witness :
    ∃ s', fs_create small_state [122] = some (0, s') ∧
      first_empty_slot small_state.fs.rootDir.files < FS_FILE_MAX_COUNT ∧
      s'.fs.rootDir.files =
        small_state.fs.rootDir.files.set (first_empty_slot small_state.fs.rootDir.files) (new_file [122]) ∧
      s'.fs.rootDir.files[first_empty_slot small_state.fs.rootDir.files]? = some (new_file [122]) ∧
      name_at s'.fs.rootDir.files (first_empty_slot small_state.fs.rootDir.files) = cstr [122] ∧
      (new_file [122]).file_size = 0 ∧
      (new_file [122]).first_block_idx = FAT_EOC ∧
      s'.fs.rootDir.num_files = small_state.fs.rootDir.num_files + 1 ∧
      (∀ j, j ≠ first_empty_slot small_state.fs.rootDir.files →
        s'.fs.rootDir.files[j]? = small_state.fs.rootDir.files[j]?) ∧
      s'.fs.FAT = small_state.fs.FAT ∧
      s'.fs.open_files = small_state.fs.open_files ∧
      s'.fs.num_open_files = small_state.fs.num_open_files ∧
      s'.fs.superblock = small_state.fs.superblock ∧
      is_mounted s' = true :=
  fs_create_success small_state [122] (by decide) (by decide) (by decide) (by decide) (by decide)
    (by decide)

/-! ### Chains -/

theorem is_chain_unique (blocks : List Nat) :
    ∀ bs1 bs2 b, is_chain blocks b bs1 → is_chain blocks b bs2 → bs1 = bs2 := by
  intro bs1
  induction bs1 with
  | nil =>
    intro bs2 b h1 h2
    cases bs2 with
    | nil => rfl
    | cons y ys =>
      unfold is_chain at h1 h2
      obtain ⟨h3, h4, _⟩ := h2
      omega
  | cons x xs ih =>
    intro bs2 b h1 h2
    cases bs2 with
    | nil =>
      unfold is_chain at h1 h2
      obtain ⟨h3, h4, _⟩ := h1
      omega
    | cons y ys =>
      unfold is_chain at h1 h2
      obtain ⟨h3, _, _, h4⟩ := h1
      obtain ⟨h5, _, _, h6⟩ := h2
      have hxy : x = y := by omega
      subst hxy
      rw [ih ys _ h4 h6]

theorem is_chain_suffix (blocks : List Nat) :
    ∀ pre b x post, is_chain blocks b (pre ++ x :: post) →
      is_chain blocks (blocks.getD x 0) post := by
  intro pre
  induction pre with
  | nil =>
    intro b x post h
    rw [List.nil_append] at h
    unfold is_chain at h
    exact h.2.2.2
  | cons p pre ih =>
    intro b x post h
    rw [List.cons_append] at h
    unfold is_chain at h
    exact ih _ x post h.2.2.2

theorem is_chain_nodup (blocks : List Nat) :
    ∀ bs b, is_chain blocks b bs → bs.Nodup := by
  intro bs
  induction bs with
  | nil => intro b _; exact List.nodup_nil
  | cons x xs ih =>
    intro b h
    have h' := h
    unfold is_chain at h'
    obtain ⟨_, _, _, h4⟩ := h'
    rw [List.nodup_cons]
    refine ⟨?_, ih _ h4⟩
    intro hx
    obtain ⟨pre, post, hsplit⟩ := List.append_of_mem hx
    have h5 : is_chain blocks (blocks.getD x 0) post := by
      rw [hsplit] at h4
      exact is_chain_suffix blocks pre _ x post h4
    have := is_chain_unique blocks _ _ _ h4 h5
    have hl := congrArg List.length this
    rw [hsplit] at hl
    simp at hl
    omega

theorem is_chain_lt (blocks : List Nat) :
    ∀ bs b, is_chain blocks b bs → ∀ x ∈ bs, x < blocks.length ∧ x ≠ FAT_EOC := by
  intro bs
  induction bs with
  | nil => intro b _ x hx; simp at hx
  | cons y ys ih =>
    intro b h x hx
    unfold is_chain at h
    rcases List.mem_cons.1 hx with rfl | hx
    · exact ⟨h.2.2.1, h.2.1⟩
    · exact ih _ h.2.2.2 x hx

theorem is_chain_length_le (blocks : List Nat) (bs : List Nat) (b : Nat)
    (h : is_chain blocks b bs) : bs.length ≤ blocks.length := by
  have hsub : bs ⊆ List.range blocks.length := by
    intro x hx
    rw [List.mem_range]
    exact (is_chain_lt blocks bs b h x hx).1
  have := (List.subperm_of_subset (is_chain_nodup blocks bs b h) hsub).length_le
  simpa using this

theorem is_chain_set (blocks : List Nat) (y v : Nat) :
    ∀ bs b, y ∉ bs → is_chain blocks b bs → is_chain (blocks.set y v) b bs := by
  intro bs
  induction bs with
  | nil => intro b _ h; exact h
  | cons x xs ih =>
    intro b hy h
    unfold is_chain at h ⊢
    rw [List.mem_cons, not_or] at hy
    refine ⟨h.1, h.2.1, by rw [List.length_set]; exact h.2.2.1, ?_⟩
    have : (blocks.set y v).getD x 0 = blocks.getD x 0 := by
      rw [List.getD_eq_getElem?_getD, List.getD_eq_getElem?_getD,
        List.getElem?_set_ne (fun h => hy.1 h)]
    rw [this]
    exact ih _ hy.2 h.2.2.2

/-! ### Deletion -/

theorem fs_delete_loop_chain :
    ∀ bs blocks b fuel, is_chain blocks b bs → bs.length < fuel →
      fs_delete_loop fuel blocks b = some (mark_blocks FAT_EOC bs blocks) := by
  intro bs
  induction bs with
  | nil =>
    intro blocks b fuel h hf
    unfold is_chain at h
    cases fuel with
    | zero => simp at hf
    | succ fuel =>
      unfold fs_delete_loop
      rw [if_pos h]
      rfl
  | cons x xs ih =>
    intro blocks b fuel h hf
    have hnd := is_chain_nodup blocks _ _ h
    unfold is_chain at h
    obtain ⟨h1, h2, h3, h4⟩ := h
    cases fuel with
    | zero => simp at hf
    | succ fuel =>
      unfold fs_delete_loop
      subst h1
      rw [if_neg h2, List.getElem?_eq_getElem h3]
      simp only []
      have h5 : is_chain (blocks.set b FAT_EOC) blocks[b] xs := by
        apply is_chain_set
        · exact (List.nodup_cons.1 hnd).1
        · rw [List.getD_eq_getElem?_getD, List.getElem?_eq_getElem h3] at h4
          exact h4
      rw [ih _ _ fuel h5 (by simp at hf; omega)]
      rfl

theorem mark_blocks_length (v : Nat) :
    ∀ bs blocks, (mark_blocks v bs blocks).length = blocks.length := by
  intro bs
  induction bs with
  | nil => intro blocks; rfl
  | cons x xs ih =>
    intro blocks
    show (mark_blocks v xs (blocks.set x v)).length = _
    rw [ih, List.length_set]

theorem mark_blocks_not_mem (v : Nat) :
    ∀ bs blocks i, i ∉ bs → (mark_blocks v bs blocks)[i]? = blocks[i]? := by
  intro bs
  induction bs with
  | nil => intro blocks i _; rfl
  | cons x xs ih =>
    intro blocks i hi
    rw [List.mem_cons, not_or] at hi
    show (mark_blocks v xs (blocks.set x v))[i]? = _
    rw [ih _ _ hi.2, List.getElem?_set_ne (fun h => hi.1 h.symm)]

theorem mark_blocks_mem (v : Nat) :
    ∀ bs blocks i, i ∈ bs → i < blocks.length → (mark_blocks v bs blocks)[i]? = some v := by
  intro bs
  induction bs with
  | nil => intro blocks i hi; simp at hi
  | cons x xs ih =>
    intro blocks i hi hlt
    show (mark_blocks v xs (blocks.set x v))[i]? = _
    by_cases hx : i ∈ xs
    · exact ih _ _ hx (by rw [List.length_set]; exact hlt)
    · have : i = x := by
        rcases List.mem_cons.1 hi with h | h
        · exact h
        · exact absurd h hx
      subst this
      rw [mark_blocks_not_mem v xs _ _ hx, List.getElem?_set_self hlt]

theorem cstr_append_of_mem (a b : List Nat) (h : 0 ∈ a) : cstr (a ++ b) = cstr a := by
  unfold cstr
  rw [List.takeWhile_append, if_neg]
  intro hlen
  have heq : List.takeWhile (fun c => c != 0) a = a :=
    (List.takeWhile_sublist _).eq_of_length hlen
  have := List.mem_takeWhile_imp (p := fun c => c != 0) (heq ▸ h)
  simp at this

theorem name_at_terminated (files : List file) (j : Nat) (f : file)
    (hf : files[j]? = some f) (ht : entry_terminated f) :
    name_at files j = cstr (file_bytes f) := by
  have hj : j < files.length := by
    by_contra hcon
    rw [List.getElem?_eq_none (by omega)] at hf
    exact Option.noConfusion hf
  rw [List.getElem?_eq_getElem hj] at hf
  simp only [Option.some.injEq] at hf
  unfold name_at
  rw [List.drop_eq_getElem_cons hj, List.flatMap_cons, hf]
  exact cstr_append_of_mem _ _ ht

theorem name_at_out_of_range (files : List file) (j : Nat) (hj : files.length ≤ j) :
    name_at files j = [] := by
  unfold name_at
  rw [List.drop_of_length_le hj]
  rfl

theorem name_at_set_other (files : List file) (k j : Nat) (g : file)
    (hjk : j ≠ k) (ht : ∀ f ∈ files, entry_terminated f) :
    name_at (files.set k g) j = name_at files j := by
  by_cases hj : j < files.length
  · have h1 : (files.set k g)[j]? = some files[j] := by
      rw [List.getElem?_set_ne (Ne.symm hjk), List.getElem?_eq_getElem hj]
    rw [name_at_terminated _ j _ h1 (ht _ (List.getElem_mem hj)),
      name_at_terminated files j _ (List.getElem?_eq_getElem hj) (ht _ (List.getElem_mem hj))]
  · rw [name_at_out_of_range _ _ (by rw [List.length_set]; omega),
      name_at_out_of_range _ _ (by omega)]

theorem name_at_set_empty (files : List file) (k : Nat) (hk : k < files.length) :
    name_at (files.set k EMPTY_FILE_CELL) k = [] := by
  have h1 : (files.set k EMPTY_FILE_CELL)[k]? = some EMPTY_FILE_CELL :=
    List.getElem?_set_self hk
  rw [name_at_terminated _ k _ h1 (by decide)]
  decide

theorem cstr_ne_nil_of_valid (filename : List Nat) (hv : fs_validate_filename filename = true) :
    cstr filename ≠ [] := by
  have := ((fs_validate_filename_iff filename).1 hv).1
  unfold strlen at this
  intro h
  rw [h] at this
  simp at this

theorem size_sub_one (n : Nat) (h1 : 1 ≤ n) (h2 : n < 2 ^ 64) : size_sub n 1 = n - 1 := by
  unfold size_sub
  omega

theorem delete_at_fs (s : State) (k : Nat) (blocks : List Nat) :
    (delete_at s k blocks).fs = { s.fs with
      FAT := { s.fs.FAT with blocks := blocks }
      rootDir :=
        { num_files := size_sub s.fs.rootDir.num_files 1
          files := s.fs.rootDir.files.set k EMPTY_FILE_CELL } } := by
  unfold delete_at
  rw [fs_save_FAT_fs, fs_save_rootDir_fs]

theorem delete_at_mounted (s : State) (k : Nat) (blocks : List Nat)
    (hm : is_mounted s = true) : is_mounted (delete_at s k blocks) = true := by
  rw [is_mounted_iff] at hm ⊢
  refine ⟨?_, by rw [delete_at_fs]; exact hm.2⟩
  unfold delete_at
  rw [fs_save_FAT_opened, fs_save_rootDir_opened]
  exact hm.1

theorem fs_delete_eq (s : State) (filename : List Nat) (k : Nat) (f : file)
    (blocks : List Nat) (hm : is_mounted s = true)
    (hlook : fs_file_num_from_filename s.fs filename = (k : Int))
    (hf : s.fs.rootDir.files[k]? = some f)
    (hloop : fs_delete_loop (s.fs.FAT.blocks.length + 2) s.fs.FAT.blocks f.first_block_idx =
      some blocks) :
    fs_delete s filename = some (0, delete_at s k blocks) := by
  unfold fs_delete
  rw [if_neg (by simp [hm])]
  simp only [hlook, Int.toNat_ofNat, hf, hloop]
  rw [if_neg (by omega), if_neg (lnot_ne _), if_neg (lnot_ne _)]
  rfl

theorem lookup_lt (fs : FS) (filename : List Nat) (k : Nat)
    (h : fs_file_num_from_filename fs filename = (k : Int)) :
    k < FS_FILE_MAX_COUNT ∧ fs_validate_filename filename = true ∧
      name_at fs.rootDir.files k = cstr filename := by
  unfold fs_file_num_from_filename at h
  by_cases hv : fs_validate_filename filename = true
  · rw [if_neg (by simp [hv])] at h
    rcases lookup_loop_cases fs.rootDir.files filename FS_FILE_MAX_COUNT 0 with h1 | ⟨j, _, h2, h3, h4, _⟩
    · rw [h1] at h; omega
    · rw [h3] at h
      have : j = k := by omega
      subst this
      exact ⟨by omega, hv, h4⟩
  · rw [if_pos (by simp [hv])] at h
    omega

theorem lookup_nonneg_cases (fs : FS) (filename : List Nat) :
    fs_file_num_from_filename fs filename < 0 ∨
      ∃ k : Nat, fs_file_num_from_filename fs filename = (k : Int) := by
  by_cases h : fs_file_num_from_filename fs filename < 0
  · left; exact h
  · right
    exact ⟨(fs_file_num_from_filename fs filename).toNat, by omega⟩

theorem fs_delete_inv (s : State) (filename : List Nat) (s1 : State)
    (h : fs_delete s filename = some (0, s1)) :
    is_mounted s = true ∧ ∃ k blocks, k < FS_FILE_MAX_COUNT ∧ k < s.fs.rootDir.files.length ∧
      s1 = delete_at s k blocks := by
  unfold fs_delete at h
  by_cases hm : is_mounted s = true
  · refine ⟨hm, ?_⟩
    rw [if_neg (by simp [hm])] at h
    simp only [] at h
    rcases lookup_nonneg_cases s.fs filename with hneg | ⟨k, hk⟩
    · rw [if_pos hneg] at h
      simp at h
    · rw [hk, if_neg (by omega)] at h
      simp only [Int.toNat_ofNat] at h
      cases hf : s.fs.rootDir.files[k]? with
      | none => rw [hf] at h; simp at h
      | some f =>
        rw [hf] at h
        simp only [] at h
        cases hl : fs_delete_loop (s.fs.FAT.blocks.length + 2) s.fs.FAT.blocks f.first_block_idx with
        | none => rw [hl] at h; simp at h
        | some blocks =>
          rw [hl] at h
          simp only [] at h
          rw [if_neg (lnot_ne _), if_neg (lnot_ne _)] at h
          simp only [Option.some.injEq, Prod.mk.injEq, true_and] at h
          refine ⟨k, blocks, (lookup_lt _ _ _ hk).1, ?_, h.symm⟩
          by_contra hcon
          rw [List.getElem?_eq_none (by omega)] at hf
          exact Option.noConfusion hf
  · rw [if_pos (by simp [hm])] at h
    simp at h

theorem fs_open_loop_total (open_files : List openFile) :
    ∀ n i, i + n ≤ open_files.length → ∃ r, fs_open_loop open_files n i = some r := by
  intro n
  induction n with
  | zero => intro i _; exact ⟨_, rfl⟩
  | succ n ih =>
    intro i h
    unfold fs_open_loop
    rw [List.getElem?_eq_getElem (by omega)]
    simp only []
    split
    · exact ⟨_, rfl⟩
    · exact ih (i + 1) (by omega)

theorem fs_open_absent (s : State) (filename : List Nat)
    (hlen : s.fs.open_files.length = FS_OPEN_MAX_COUNT)
    (hlook : fs_file_num_from_filename s.fs filename < 0) :
    fs_open s filename = some (-1, s) := by
  unfold fs_open
  split
  · rfl
  · split
    · rfl
    · obtain ⟨r, hr⟩ := fs_open_loop_total s.fs.open_files FS_OPEN_MAX_COUNT 0 (by omega)
      rw [hr]
      simp only []
      split
      · rfl
      · simp [hlook]

theorem fs_delete_absent (s : State) (filename : List Nat)
    (hlook : fs_file_num_from_filename s.fs filename < 0) :
    fs_delete s filename = some (-1, s) := by
  unfold fs_delete
  split
  · rfl
  · simp only []
    rw [if_pos hlook]

/-- C10. Delete on the directory.  In a mounted state whose directory entries
end their names inside the entry: for a valid name that slot `k` and no other
slot holds, with a well-formed chain, and a file counter in [1, 128],
`fs_delete` returns 0, slot `k` becomes the empty entry (name[0] = 0, size 0,
first block `FAT_EOC`), the counter drops by one, the other entries are
unchanged, and afterwards a second `fs_delete` and an `fs_open` of the name
return -1; for a valid name that no slot holds (whatever the counter, so also
in an empty directory) `fs_delete` returns -1 and changes nothing. -/
theorem fs_delete_directory (s : State) (filename : List Nat)
    (hm : is_mounted s = true)
    (hv : fs_validate_filename filename = true)
    (hopen : s.fs.open_files.length = FS_OPEN_MAX_COUNT)
    (hterm : ∀ g ∈ s.fs.rootDir.files, entry_terminated g) :
    (∀ k f bs, k < FS_FILE_MAX_COUNT → s.fs.rootDir.files[k]? = some f →
      name_at s.fs.rootDir.files k = cstr filename →
      (∀ j, j < FS_FILE_MAX_COUNT → j ≠ k → name_at s.fs.rootDir.files j ≠ cstr filename) →
      is_chain s.fs.FAT.blocks f.first_block_idx bs →
      1 ≤ s.fs.rootDir.num_files ∧ s.fs.rootDir.num_files ≤ FS_FILE_MAX_COUNT →
      ∃ s1, fs_delete s filename = some (0, s1) ∧
        s1.fs.rootDir.files[k]? = some EMPTY_FILE_CELL ∧
        EMPTY_FILE_CELL.filename.headD 0 = 0 ∧
        EMPTY_FILE_CELL.file_size = 0 ∧
        EMPTY_FILE_CELL.first_block_idx = FAT_EOC ∧
        s1.fs.rootDir.num_files = s.fs.rootDir.num_files - 1 ∧
        (∀ j, j ≠ k → s1.fs.rootDir.files[j]? = s.fs.rootDir.files[j]?) ∧
        fs_delete s1 filename = some (-1, s1) ∧
        fs_open s1 filename = some (-1, s1)) ∧
    ((∀ j, j < FS_FILE_MAX_COUNT → name_at s.fs.rootDir.files j ≠ cstr filename) →
      fs_delete s filename = some (-1, s)) := by
  constructor
  · intro k f bs hk hf hname huniq hchain hcnt
    have hklen : k < s.fs.rootDir.files.length := by
      by_contra hcon
      rw [List.getElem?_eq_none (by omega)] at hf
      exact Option.noConfusion hf
    have hlook : fs_file_num_from_filename s.fs filename = (k : Int) := by
      unfold fs_file_num_from_filename
      rw [if_neg (by simp [hv])]
      exact lookup_loop_found _ _ _ _ k (Nat.zero_le _) (by omega) hname
        fun j _ h2 => huniq j (by omega) (by omega)
    have hloop := fs_delete_loop_chain bs s.fs.FAT.blocks f.first_block_idx
      (s.fs.FAT.blocks.length + 2) hchain
      (by have := is_chain_length_le _ _ _ hchain; omega)
    have hdel := fs_delete_eq s filename k f _ hm hlook hf hloop
    have hfs := delete_at_fs s k (mark_blocks FAT_EOC bs s.fs.FAT.blocks)
    have hgone : fs_file_num_from_filename
        (delete_at s k (mark_blocks FAT_EOC bs s.fs.FAT.blocks)).fs filename < 0 := by
      rw [lookup_absent _ filename hv]
      · decide
      · intro j hj
        rw [hfs]
        show name_at (s.fs.rootDir.files.set k EMPTY_FILE_CELL) j ≠ _
        by_cases hjk : j = k
        · subst hjk
          rw [name_at_set_empty _ _ hklen]
          exact fun h => cstr_ne_nil_of_valid filename hv h.symm
        · rw [name_at_set_other _ _ _ _ hjk hterm]
          exact huniq j hj hjk
    refine ⟨_, hdel, ?_, rfl, rfl, rfl, ?_, ?_, fs_delete_absent _ _ hgone, ?_⟩
    · rw [hfs]; exact List.getElem?_set_self hklen
    · rw [hfs]
      exact size_sub_one _ hcnt.1 (by have h2 : s.fs.rootDir.num_files ≤ 128 := hcnt.2; omega)
    · intro j hj
      rw [hfs]
      exact List.getElem?_set_ne (Ne.symm hj)
    · apply fs_open_absent _ _ _ hgone
      rw [hfs]
      exact hopen
  · intro hnew
    apply fs_delete_absent
    rw [lookup_absent s.fs filename hv hnew]
    decide

theorem create_at_fs (s : State) (filename : List Nat) (k : Nat) :
    (create_at s filename k).fs = { s.fs with rootDir :=
      { num_files := size_add s.fs.rootDir.num_files 1
        files := s.fs.rootDir.files.set k (new_file filename) } } := by
  unfold create_at; rw [fs_save_rootDir_fs]

theorem create_at_mounted (s : State) (filename : List Nat) (k : Nat)
    (hm : is_mounted s = true) : is_mounted (create_at s filename k) = true := by
  rw [is_mounted_iff] at hm ⊢
  refine ⟨?_, by rw [create_at_fs]; exact hm.2⟩
  unfold create_at
  rw [fs_save_rootDir_opened]
  exact hm.1

set_option maxRecDepth 100000 in
theorem fs_delete_directory_witness :
    ∃ s1, fs_delete small_state_z [122] = some (0, s1) ∧
      s1.fs.rootDir.files[0]? = some EMPTY_FILE_CELL ∧
      EMPTY_FILE_CELL.filename.headD 0 = 0 ∧
      EMPTY_FILE_CELL.file_size = 0 ∧
      EMPTY_FILE_CELL.first_block_idx = FAT_EOC ∧
      s1.fs.rootDir.num_files = small_state_z.fs.rootDir.num_files - 1 ∧
      (∀ j, j ≠ 0 → s1.fs.rootDir.files[j]? = small_state_z.fs.rootDir.files[j]?) ∧
      fs_delete s1 [122] = some (-1, s1) ∧
      fs_open s1 [122] = some (-1, s1) :=
  (fs_delete_directory small_state_z [122]
    (create_at_mounted _ _ _ (by decide)) (by decide)
    (by rw [small_state_z, create_at_fs]; decide)
    (by rw [small_state_z, create_at_fs]; decide)).1 0 (new_file [122]) []
    (by decide)
    (by rw [small_state_z, create_at_fs]; decide)
    (by rw [small_state_z, create_at_fs]; decide)
    (by rw [small_state_z, create_at_fs]; decide)
    (by rw [small_state_z, create_at_fs]; decide)
    (by rw [small_state_z, create_at_fs]; decide)

theorem first_empty_slot_of_mem (files : List file)
    (h : ∃ f ∈ files, f.filename.headD 0 = 0) :
    first_empty_slot files < files.length ∧
    files[first_empty_slot files]?.map (fun f => f.filename.headD 0) = some 0 ∧
    ∀ j, j < first_empty_slot files → ∀ f, files[j]? = some f → f.filename.headD 0 ≠ 0 := by
  have hlt : first_empty_slot files < files.length := by
    unfold first_empty_slot
    rw [List.findIdx_lt_length]
    obtain ⟨f, hf, h0⟩ := h
    exact ⟨f, hf, by simpa using h0⟩
  refine ⟨hlt, ?_, ?_⟩
  · rw [List.getElem?_eq_getElem hlt]
    have := List.findIdx_getElem (w := hlt)
    simpa [first_empty_slot] using this
  · intro j hj f hf
    have hj' : j < files.length := by omega
    have := List.not_of_lt_findIdx hj
    rw [List.getElem?_eq_getElem hj'] at hf
    simp only [Option.some.injEq] at hf
    rw [hf] at this
    simpa using this

theorem lookup_loop_none_imp (files : List file) (filename : List Nat) :
    ∀ n i, fs_file_num_from_filename_loop files filename n i = -2 →
      ∀ j, i ≤ j → j < i + n → name_at files j ≠ cstr filename := by
  intro n
  induction n with
  | zero => intro i _ j h1 h2; omega
  | succ n ih =>
    intro i h j h1 h2
    unfold fs_file_num_from_filename_loop at h
    by_cases hi : name_at files i = cstr filename
    · rw [if_pos hi] at h; omega
    · rw [if_neg hi] at h
      by_cases hji : j = i
      · subst hji; exact hi
      · exact ih (i + 1) h j (by omega) (by omega)

theorem fs_create_present (s : State) (filename : List Nat) (j : Nat)
    (hj : j < FS_FILE_MAX_COUNT) (hname : name_at s.fs.rootDir.files j = cstr filename) :
    fs_create s filename = some (-1, s) := by
  unfold fs_create
  split
  · rfl
  · split
    · rfl
    · rename_i hv
      rw [if_pos]
      unfold fs_file_num_from_filename
      rw [if_neg hv]
      intro hcon
      exact lookup_loop_none_imp _ _ _ _ hcon j (Nat.zero_le _) (by omega) hname

/-- C7. Create failure is atomic: `fs_create` returns -1 and leaves the state
unchanged when the name is that of a non-empty directory entry, when the name
is empty, or when the directory holds 128 files (by its counter, or with all
128 slots non-empty); and after a successful `fs_delete` on a full directory of
128 slots the next `fs_create` of a valid name that no entry holds returns
0. -/
theorem fs_create_failure (s : State) (filename : List Nat) :
    (((∃ j f, j < FS_FILE_MAX_COUNT ∧ s.fs.rootDir.files[j]? = some f ∧
          f.filename.headD 0 ≠ 0 ∧ name_at s.fs.rootDir.files j = cstr filename) ∨
        cstr filename = [] ∨
        s.fs.rootDir.num_files ≥ FS_FILE_MAX_COUNT ∨
        (∀ j, j < FS_FILE_MAX_COUNT →
          ∃ f, s.fs.rootDir.files[j]? = some f ∧ f.filename.headD 0 ≠ 0)) →
      fs_create s filename = some (-1, s)) ∧
    (∀ dname s1, s.fs.rootDir.files.length = FS_FILE_MAX_COUNT →
      s.fs.rootDir.num_files = FS_FILE_MAX_COUNT →
      fs_delete s dname = some (0, s1) →
      fs_validate_filename filename = true →
      (∀ j, j < FS_FILE_MAX_COUNT → name_at s1.fs.rootDir.files j ≠ cstr filename) →
      ∃ s2, fs_create s1 filename = some (0, s2)) := by
  constructor
  · rintro (⟨j, f, hj, _, _, hname⟩ | hnil | hfull | hall)
    · exact fs_create_present s filename j hj hname
    · unfold fs_create
      split
      · rfl
      · rw [if_pos]
        intro hv
        exact cstr_ne_nil_of_valid filename hv hnil
    · unfold fs_create
      split
      · rfl
      · split
        · rfl
        · split
          · rfl
          · rfl
    · unfold fs_create
      split
      · rfl
      · split
        · rfl
        · split
          · rfl
          · split
            · rfl
            · exact fs_create_loop_full s filename hall _ _ (le_refl _)
  · intro dname s1 hlen hnum hdel hv hnew
    obtain ⟨hm, k, blocks, hk, hklen, rfl⟩ := fs_delete_inv s dname s1 hdel
    have hfs := delete_at_fs s k blocks
    have hmem : ∃ f ∈ (delete_at s k blocks).fs.rootDir.files, f.filename.headD 0 = 0 := by
      refine ⟨EMPTY_FILE_CELL, ?_, rfl⟩
      rw [hfs]
      exact List.mem_iff_getElem?.2 ⟨k, List.getElem?_set_self hklen⟩
    obtain ⟨h1, h2, h3⟩ := first_empty_slot_of_mem _ hmem
    refine ⟨create_at (delete_at s k blocks) filename
      (first_empty_slot (delete_at s k blocks).fs.rootDir.files), ?_⟩
    unfold fs_create
    rw [if_neg (by simp [delete_at_mounted s k blocks hm]), if_neg (by simp [hv]),
      if_neg (by rw [lookup_absent _ filename hv hnew]; simp), if_neg]
    · have hl : (delete_at s k blocks).fs.rootDir.files.length = 128 := by
        rw [hfs]; simpa using hlen
      rw [hl] at h1
      exact fs_create_loop_found _ filename _ (by rw [hl]; exact h1) h2 h3 _ _ (Nat.zero_le _)
        (by show _ < 0 + 128; omega)
    · rw [hfs]
      show ¬ size_sub s.fs.rootDir.num_files 1 ≥ 128
      rw [hnum]
      decide

theorem fs_delete_loop_eoc (blocks : List Nat) (fuel : Nat) :
    fs_delete_loop (fuel + 1) blocks FAT_EOC = some blocks := by
  unfold fs_delete_loop
  rw [if_pos rfl]

set_option maxRecDepth 20000 in
theorem fs_create_failure_witness :
    fs_create full_state [1] = some (-1, full_state) ∧
    ∃ s2, fs_create (delete_at full_state 0 full_state.fs.FAT.blocks) [200] = some (0, s2) :=
  ⟨(fs_create_failure full_state [1]).1
      (Or.inl ⟨0, new_file [1], by decide, by decide, by decide, by decide⟩),
    (fs_create_failure full_state [200]).2 [1]
      (delete_at full_state 0 full_state.fs.FAT.blocks) (by decide) (by decide)
      (fs_delete_eq full_state [1] 0 (new_file [1]) full_state.fs.FAT.blocks (by decide)
        (by decide) (by decide) (fs_delete_loop_eoc _ _))
      (by decide) (by rw [delete_at_fs]; decide)⟩

theorem fs_create_eq (s : State) (filename : List Nat) (k : Nat)
    (hm : is_mounted s = true)
    (hv : fs_validate_filename filename = true)
    (hnew : ∀ j, j < FS_FILE_MAX_COUNT → name_at s.fs.rootDir.files j ≠ cstr filename)
    (hlt : s.fs.rootDir.num_files < FS_FILE_MAX_COUNT)
    (hk : k < FS_FILE_MAX_COUNT)
    (hklen : k < s.fs.rootDir.files.length)
    (hempty : s.fs.rootDir.files[k]?.map (fun f => f.filename.headD 0) = some 0)
    (hlow : ∀ j, j < k → ∀ f, s.fs.rootDir.files[j]? = some f → f.filename.headD 0 ≠ 0) :
    fs_create s filename = some (0, create_at s filename k) := by
  unfold fs_create
  rw [if_neg (by simp [hm]), if_neg (by simp [hv]),
    if_neg (by rw [lookup_absent s.fs filename hv hnew]; simp), if_neg (by omega)]
  exact fs_create_loop_found s filename k hklen hempty hlow _ _ (Nat.zero_le _)
    (by show k < 0 + 128; have hk' : k < 128 := hk; omega)

set_option maxRecDepth 20000 in
/-- C8, at the failing input: the name "aaaaaaaaaaaaaaaa" (16 characters, 17
bytes with its terminator) passes `fs_validate_filename`, `fs_create` of it on
the freshly mounted small disk returns 0, and the 16-byte name field of the new
entry then holds no NUL terminator. -/
theorem name_of_16_characters_accepted :
    strlen name16 = 16 ∧
    fs_validate_filename name16 = true ∧
    fs_create small_state name16 = some (0, create_at small_state name16 0) ∧
    (create_at small_state name16 0).fs.rootDir.files[0]?.map (fun f => f.filename) =
      some name16 ∧
    0 ∉ name16 ∧ name16.length = FS_FILENAME_LEN :=
  ⟨by decide, by decide,
    fs_create_eq small_state name16 0 (by decide) (by decide) (by decide) (by decide)
      (by decide) (by decide) (by decide) (by decide),
    by rw [create_at_fs]; decide, by decide, by decide⟩

theorem is_chain_two (t : List Nat) : is_chain (1 :: FAT_EOC :: t) 0 [0, 1] := by
  simp [is_chain]

theorem mark_blocks_two (a b : Nat) (t : List Nat) :
    mark_blocks FAT_EOC [0, 1] (a :: b :: t) = FAT_EOC :: FAT_EOC :: t := rfl

theorem fs_find_open_third (fs : FS) (a b : Nat) (t : List Nat)
    (hb : fs.FAT.blocks = a :: b :: 0 :: t) (ha : a ≠ 0) (hb0 : b ≠ 0)
    (htaken : fs.FAT.num_blocks_taken < fs.superblock.amt_data_blocks)
    (hD : 3 ≤ fs.superblock.amt_data_blocks) :
    fs_find_open_data_block fs = some 2 := by
  unfold fs_find_open_data_block
  rw [if_neg (by omega), hb]
  obtain ⟨n, hn⟩ : ∃ n, fs.superblock.amt_data_blocks = n + 3 := ⟨_, (Nat.sub_add_cancel hD).symm⟩
  rw [hn]
  simp [fs_find_open_data_block_loop, ha, hb0]

theorem fs_delete_chain_eq (s : State) (filename : List Nat) (k : Nat) (f : file)
    (bs : List Nat) (hm : is_mounted s = true)
    (hlook : fs_file_num_from_filename s.fs filename = (k : Int))
    (hf : s.fs.rootDir.files[k]? = some f)
    (hchain : is_chain s.fs.FAT.blocks f.first_block_idx bs) :
    fs_delete s filename =
      some (0, delete_at s k (mark_blocks FAT_EOC bs s.fs.FAT.blocks)) :=
  fs_delete_eq s filename k f _ hm hlook hf
    (fs_delete_loop_chain bs s.fs.FAT.blocks f.first_block_idx _ hchain
      (by have := is_chain_length_le _ _ _ hchain; omega))

set_option maxRecDepth 20000 in
/-- C9, at the failing input: deleting the file "z" whose chain is
0 → 1 → `FAT_EOC` returns 0 and leaves `FAT_EOC` (0xFFFF), not the free marker
0, in FAT entries 0 and 1; the used-block counter stays 2, and the free-block
search returns block 2, never the blocks of the deleted file. -/
theorem fs_delete_leaves_chain_allocated :
    is_chain small_state_z_5000.fs.FAT.blocks 0 [0, 1] ∧
    fs_delete small_state_z_5000 [122] =
      some (0, delete_at small_state_z_5000 0
        (mark_blocks FAT_EOC [0, 1] small_state_z_5000.fs.FAT.blocks)) ∧
    (delete_at small_state_z_5000 0
        (mark_blocks FAT_EOC [0, 1] small_state_z_5000.fs.FAT.blocks)).fs.FAT.blocks.take 4 =
      [0xFFFF, 0xFFFF, 0, 0] ∧
    (delete_at small_state_z_5000 0
        (mark_blocks FAT_EOC [0, 1] small_state_z_5000.fs.FAT.blocks)).fs.FAT.num_blocks_taken
      = 2 ∧
    fs_find_open_data_block (delete_at small_state_z_5000 0
        (mark_blocks FAT_EOC [0, 1] small_state_z_5000.fs.FAT.blocks)).fs = some 2 :=
  ⟨is_chain_two _,
    fs_delete_chain_eq small_state_z_5000 [122] 0
      { new_file [122] with file_size := 5000, first_block_idx := 0 } [0, 1]
      (by decide) (by decide) (by decide) (is_chain_two _),
    by rw [delete_at_fs]; decide, by rw [delete_at_fs]; decide,
    fs_find_open_third _ FAT_EOC FAT_EOC (List.replicate 2045 0) (by rw [delete_at_fs]; rfl)
      (by decide) (by decide) (by rw [delete_at_fs]; decide) (by rw [delete_at_fs]; decide)⟩

/-! ### Machine arithmetic in range -/

theorem to_int_small (a : Nat) (h : a < 2 ^ 31) : to_int a = (a : Int) := by
  unfold to_int
  have h1 : a % 2 ^ 32 = a := Nat.mod_eq_of_lt (by omega)
  rw [h1, if_pos h]

theorem to_size_t_nat (a : Nat) (h : a < 2 ^ 64) : to_size_t (a : Int) = a := by
  unfold to_size_t
  have : ((a : Int) % 2 ^ 64) = (a : Int) := Int.emod_eq_of_lt (by omega) (by omega)
  rw [this]
  simp

theorem size_sub_le (a b : Nat) (h1 : b ≤ a) (h2 : a < 2 ^ 64) : size_sub a b = a - b := by
  unfold size_sub
  omega

theorem size_add_small (a b : Nat) (h : a + b < 2 ^ 64) : size_add a b = a + b := by
  unfold size_add
  omega

theorem c_min_nat (a b : Nat) (ha : a < 2 ^ 31) (hb : b < 2 ^ 31) :
    to_size_t (min (to_int a) (to_int b)) = Min.min a b := by
  rw [to_int_small a ha, to_int_small b hb]
  unfold min
  by_cases h : (a : Int) < (b : Int)
  · rw [if_pos h, to_size_t_nat a (by omega)]
    have : a < b := by omega
    omega
  · rw [if_neg h, to_size_t_nat b (by omega)]
    have : b ≤ a := by omega
    omega

/-! ### Offset translation and file content -/

theorem fs_get_block_offset_loop_chain (blocks : List Nat) :
    ∀ n bs b off, is_chain blocks b bs → off / BLOCK_SIZE = n → n < bs.length →
      fs_get_block_offset_loop blocks n b off = some (bs.getD n 0, off % BLOCK_SIZE) := by
  intro n
  induction n with
  | zero =>
    intro bs b off hc hn hlen
    cases bs with
    | nil => simp at hlen
    | cons x xs =>
      unfold is_chain at hc
      unfold fs_get_block_offset_loop
      have : off < 4096 := by
        have := Nat.div_eq_zero_iff (show 0 < 4096 by decide) |>.1 hn
        exact this
      rw [Nat.mod_eq_of_lt this, hc.1]
      rfl
  | succ n ih =>
    intro bs b off hc hn hlen
    cases bs with
    | nil => simp at hlen
    | cons x xs =>
      cases xs with
      | nil => simp at hlen
      | cons y ys =>
        unfold is_chain at hc
        obtain ⟨h1, h2, h3, h4⟩ := hc
        have h4' := h4
        unfold is_chain at h4'
        have hoff : 4096 ≤ off := by
          by_contra hcon
          have : off / 4096 = 0 := Nat.div_eq_of_lt (by omega)
          have hn' : off / 4096 = n + 1 := hn
          omega
        unfold fs_get_block_offset_loop
        subst h1
        rw [if_pos hoff, List.getElem?_eq_getElem h3]
        simp only []
        have hnext : blocks[b] = y := by
          have := h4'.1
          rw [List.getD_eq_getElem?_getD, List.getElem?_eq_getElem h3] at this
          exact this
        rw [if_pos (by rw [hnext]; exact h4'.2.1)]
        have hn' : off / 4096 = n + 1 := hn
        rw [ih (y :: ys) blocks[b] (off - 4096)
          (by rw [List.getD_eq_getElem?_getD, List.getElem?_eq_getElem h3] at h4; exact h4)
          (by show (off - 4096) / 4096 = n; omega)
          (by simp at hlen ⊢; omega)]
        have : (off - 4096) % 4096 = off % 4096 := by omega
        show some ((y :: ys).getD n 0, (off - 4096) % 4096) = _
        rw [this]
        rfl

theorem chain_content_drop_take (s : State) :
    ∀ k bs bo n, k < bs.length → (∀ b ∈ bs, (block_data s b).length = BLOCK_SIZE) →
      bo + n ≤ BLOCK_SIZE →
      ((chain_content s bs).drop (BLOCK_SIZE * k + bo)).take n =
        ((block_data s (bs.getD k 0)).drop bo).take n := by
  intro k
  induction k with
  | zero =>
    intro bs bo n hk hlen hbo
    cases bs with
    | nil => simp at hk
    | cons x xs =>
      have hx : (block_data s x).length = 4096 := hlen x (List.mem_cons_self _ _)
      have hbo' : bo + n ≤ 4096 := hbo
      show (List.drop (4096 * 0 + bo) (block_data s x ++ chain_content s xs)).take n = _
      rw [Nat.mul_zero, Nat.zero_add, List.drop_append_of_le_length (by omega),
        List.take_append_of_le_length (by rw [List.length_drop]; omega)]
      rfl
  | succ k ih =>
    intro bs bo n hk hlen hbo
    cases bs with
    | nil => simp at hk
    | cons x xs =>
      have hx : (block_data s x).length = 4096 := hlen x (List.mem_cons_self _ _)
      show (List.drop (4096 * (k + 1) + bo) (block_data s x ++ chain_content s xs)).take n = _
      have : 4096 * (k + 1) + bo = (block_data s x).length + (4096 * k + bo) := by omega
      rw [this, List.drop_append]
      exact ih xs bo n (by simp at hk; omega)
        (fun b hb => hlen b (List.mem_cons_of_mem _ hb)) hbo

theorem chain_content_length (s : State) :
    ∀ bs, (∀ b ∈ bs, (block_data s b).length = BLOCK_SIZE) →
      (chain_content s bs).length = BLOCK_SIZE * bs.length := by
  intro bs
  induction bs with
  | nil => intro _; rfl
  | cons x xs ih =>
    intro hlen
    show (block_data s x ++ chain_content s xs).length = _
    rw [List.length_append, ih fun b hb => hlen b (List.mem_cons_of_mem _ hb),
      hlen x (List.mem_cons_self _ _), List.length_cons]
    show 4096 + 4096 * xs.length = 4096 * (xs.length + 1)
    omega

theorem block_data_of_geometry (s : State) (hg : geometry_ok s) (b : Nat)
    (hb : b < s.fs.superblock.amt_data_blocks) :
    s.disk.blocks[s.fs.superblock.data_block_start_idx + b]? = some (block_data s b) ∧
      (block_data s b).length = BLOCK_SIZE := by
  obtain ⟨blk, h1, h2⟩ := hg.2.2.2.2 b hb
  unfold block_data
  rw [List.getD_eq_getElem?_getD, h1]
  exact ⟨rfl, h2⟩

theorem fs_file_num_from_fd_ok (s : State) (fd : Nat) (open_file : openFile) (file_num : Nat)
    (f : file) (hfd : fd_ok s fd open_file file_num) (hnum : file_num < FS_FILE_MAX_COUNT)
    (hf : s.fs.rootDir.files[file_num]? = some f) (hne : f.filename.headD 0 ≠ 0) :
    fs_file_num_from_fd s.fs (fd : Int) = some (file_num : Int) := by
  obtain ⟨h1, h2, h3⟩ := hfd
  have h1' : fd < 32 := h1
  have hnum' : file_num < 128 := hnum
  unfold fs_file_num_from_fd fs_validate_fd
  rw [if_neg (by simp only [FS_OPEN_MAX_COUNT]; omega)]
  simp only [Int.toNat_ofNat, h2]
  rw [if_neg (by rw [h3]; omega)]
  unfold fs_validate_file_num
  rw [if_neg (by rw [h3]; simp only [FS_FILE_MAX_COUNT]; omega)]
  simp only [h3, Int.toNat_ofNat, hf]
  rw [if_neg hne]

/-! ### Reading -/

theorem nodup_length_le_of_lt (bs : List Nat) (d : Nat) (hnd : bs.Nodup)
    (h : ∀ b ∈ bs, b < d) : bs.length ≤ d := by
  have hsub : bs ⊆ List.range d := fun x hx => List.mem_range.2 (h x hx)
  have := (List.subperm_of_subset hnd hsub).length_le
  simpa using this

theorem file_ok_size (s : State) (file_num : Nat) (f : file) (bs : List Nat)
    (hg : geometry_ok s) (hf : file_ok s file_num f bs) :
    f.file_size ≤ BLOCK_SIZE * bs.length ∧ f.file_size < 2 ^ 28 := by
  obtain ⟨_, _, _, hc, hlen, hlt⟩ := hf
  have h1 := nodup_length_le_of_lt bs _ (is_chain_nodup _ _ _ hc) hlt
  have h2 := hg.2.2.1
  have hlen' : bs.length = (f.file_size + 4095) / 4096 := hlen
  constructor
  · show f.file_size ≤ 4096 * bs.length
    omega
  · omega

theorem set_of_getElem? {α : Type} (l : List α) (i : Nat) (a : α) (h : l[i]? = some a) :
    l.set i a = l := by
  apply List.ext_getElem?
  intro j
  by_cases hij : i = j
  · subst hij
    rw [List.getElem?_set, if_pos rfl, h]
    have : i < l.length := by
      by_contra hcon
      rw [List.getElem?_eq_none (by omega)] at h
      exact Option.noConfusion h
    rw [if_pos this]
  · rw [List.getElem?_set_ne hij]

theorem getElem?_lt {α : Type} (l : List α) (i : Nat) (a : α) (h : l[i]? = some a) :
    i < l.length := by
  by_contra hcon
  rw [List.getElem?_eq_none (by omega)] at h
  exact Option.noConfusion h

theorem take_drop_append_take (l : List Nat) (o a n : Nat) :
    (l.drop o).take a ++ (l.drop (o + a)).take n = (l.drop o).take (a + n) := by
  rw [← List.drop_drop]
  generalize l.drop o = l'
  rw [List.take_add]

theorem file_content_chunk (s : State) (size : Nat) (bs : List Nat) (off n : Nat)
    (hlen : ∀ b ∈ bs, (block_data s b).length = BLOCK_SIZE)
    (hk : off / BLOCK_SIZE < bs.length)
    (hn : off % BLOCK_SIZE + n ≤ BLOCK_SIZE) (hsz : off + n ≤ size) :
    ((file_content s size bs).drop off).take n =
      ((block_data s (bs.getD (off / BLOCK_SIZE) 0)).drop (off % BLOCK_SIZE)).take n := by
  unfold file_content
  rw [List.drop_take, List.take_take, Nat.min_eq_left (by omega)]
  have := chain_content_drop_take s (off / BLOCK_SIZE) bs (off % BLOCK_SIZE) n hk hlen hn
  rw [Nat.div_add_mod] at this
  exact this

theorem fs_read_loop_spec (s : State) (fd : Nat) (open_file : openFile) (file_num : Nat)
    (f : file) (bs : List Nat) (buf : List Nat) (count : Nat)
    (hopen : s.disk.opened = true)
    (hg : geometry_ok s) (hfile : file_ok s file_num f bs)
    (hfd : fd_ok s fd open_file file_num)
    (hcount : count < 2 ^ 31) (hbuf : count ≤ buf.length) :
    ∀ fuel br block_p,
      br ≤ Min.min count (f.file_size - open_file.file_offset) →
      Min.min count (f.file_size - open_file.file_offset) - br < fuel →
      fs_read_loop (fd : Int) file_num count fuel
          (with_offset s fd open_file (open_file.file_offset + br)) br
          (((file_content s f.file_size bs).drop open_file.file_offset).take br ++ buf.drop br)
          block_p =
        some (((Min.min count (f.file_size - open_file.file_offset) : Nat) : Int),
          ((file_content s f.file_size bs).drop open_file.file_offset).take
              (Min.min count (f.file_size - open_file.file_offset)) ++
            buf.drop (Min.min count (f.file_size - open_file.file_offset)),
          with_offset s fd open_file
            (open_file.file_offset + Min.min count (f.file_size - open_file.file_offset))) := by
  obtain ⟨hsz1, hsz2⟩ := file_ok_size s file_num f bs hg hfile
  have hsz1' : f.file_size ≤ 4096 * bs.length := hsz1
  obtain ⟨hnum, hf, hne, hchain, hblen, hblt⟩ := hfile
  have hfdlt := getElem?_lt _ _ _ hfd.2.1
  have hdata : ∀ b ∈ bs, (block_data s b).length = BLOCK_SIZE :=
    fun b hb => (block_data_of_geometry s hg b (hblt b hb)).2
  have hFlen : (file_content s f.file_size bs).length = f.file_size := by
    unfold file_content
    rw [List.length_take, chain_content_length s bs hdata]
    exact Nat.min_eq_left hsz1
  intro fuel
  induction fuel with
  | zero => intro br block_p _ h; omega
  | succ fuel ih =>
    intro br block_p hbr hfuel
    generalize hm : Min.min count (f.file_size - open_file.file_offset) = m at hbr hfuel ih ⊢
    have hmc : m ≤ count := by omega
    have hms : m ≤ f.file_size - open_file.file_offset := by omega
    unfold fs_read_loop
    have hof : (with_offset s fd open_file (open_file.file_offset + br)).fs.open_files[fd]? =
        some { open_file with file_offset := open_file.file_offset + br } :=
      List.getElem?_set_self hfdlt
    have hff : (with_offset s fd open_file (open_file.file_offset + br)).fs.rootDir.files[file_num]? =
        some f := hf
    simp only [Int.toNat_ofNat, hof, hff]
    by_cases hcond : br < count ∧ open_file.file_offset + br < f.file_size
    · rw [if_neg (by simpa using hcond)]
      obtain ⟨hc1, hc2⟩ := hcond
      have hfd' : fd_ok (with_offset s fd open_file (open_file.file_offset + br)) fd
          { open_file with file_offset := open_file.file_offset + br } file_num :=
        ⟨hfd.1, hof, hfd.2.2⟩
      have hk : (open_file.file_offset + br) / BLOCK_SIZE < bs.length := by
        show (open_file.file_offset + br) / 4096 < bs.length
        rw [Nat.div_lt_iff_lt_mul (by decide)]
        omega
      have hget : fs_get_block_offset (with_offset s fd open_file (open_file.file_offset + br)).fs
          (fd : Int) = some (0, bs.getD ((open_file.file_offset + br) / BLOCK_SIZE) 0,
            (open_file.file_offset + br) % BLOCK_SIZE) := by
        unfold fs_get_block_offset
        rw [fs_file_num_from_fd_ok _ fd _ file_num f hfd' hnum hff hne]
        simp only []
        rw [if_neg (by omega)]
        simp only [Int.toNat_ofNat, hof, hff]
        have := fs_get_block_offset_loop_chain s.fs.FAT.blocks _ bs f.first_block_idx
          (open_file.file_offset + br) hchain rfl hk
        show (match fs_get_block_offset_loop s.fs.FAT.blocks _ _ _ with
          | none => none
          | some (block_idx, block_offset) => some ((0 : Int), block_idx, block_offset)) = _
        rw [this]
      rw [hget]
      simp only []
      have hmem : bs.getD ((open_file.file_offset + br) / BLOCK_SIZE) 0 ∈ bs := by
        rw [List.getD_eq_getElem?_getD, List.getElem?_eq_getElem hk]
        exact List.getElem_mem hk
      have hb := block_data_of_geometry s hg _ (hblt _ hmem)
      rw [if_neg (by decide), if_neg (is_chain_lt _ _ _ hchain _ hmem).2]
      have hread : (block_read (with_offset s fd open_file (open_file.file_offset + br)).disk
          ((with_offset s fd open_file (open_file.file_offset + br)).fs.superblock.data_block_start_idx
            + bs.getD ((open_file.file_offset + br) / BLOCK_SIZE) 0) block_p).2 =
          block_data s (bs.getD ((open_file.file_offset + br) / BLOCK_SIZE) 0) := by
        unfold block_read
        show (if s.disk.opened = true then
          match s.disk.blocks[s.fs.superblock.data_block_start_idx + _]? with
          | some b => ((0 : Int), b)
          | none => (-1, block_p) else (-1, block_p)).2 = _
        rw [if_pos hopen, hb.1]
      rw [hread]
      have hbo : (open_file.file_offset + br) % 4096 < 4096 := Nat.mod_lt _ (by decide)
      have hv : to_size_t (min (to_int (size_sub BLOCK_SIZE ((open_file.file_offset + br) % BLOCK_SIZE)))
          (to_int (size_sub f.file_size (open_file.file_offset + br)))) =
          Min.min (4096 - (open_file.file_offset + br) % 4096)
            (f.file_size - (open_file.file_offset + br)) := by
        rw [size_sub_le _ _ (Nat.le_of_lt (Nat.mod_lt _ (by decide))) (by decide),
          size_sub_le _ _ (by omega) (by omega)]
        exact c_min_nat _ _ (by show 4096 - _ < _; omega) (by omega)
      have hn : to_size_t (min (to_int (size_sub count br))
          (to_int (Min.min (4096 - (open_file.file_offset + br) % 4096)
            (f.file_size - (open_file.file_offset + br))))) =
          Min.min (count - br) (Min.min (4096 - (open_file.file_offset + br) % 4096)
            (f.file_size - (open_file.file_offset + br))) := by
        rw [size_sub_le _ _ (by omega) (by omega)]
        exact c_min_nat _ _ (by omega) (by omega)
      simp only [hv, hn]
      generalize hnn : Min.min (count - br) (Min.min (4096 - (open_file.file_offset + br) % 4096)
            (f.file_size - (open_file.file_offset + br))) = n
      have hn1 : 1 ≤ n := by omega
      have hn2 : (open_file.file_offset + br) % 4096 + n ≤ 4096 := by omega
      have hn3 : br + n ≤ m := by omega
      have hAlen : (((file_content s f.file_size bs).drop open_file.file_offset).take br).length
          = br := by
        rw [List.length_take, List.length_drop, hFlen]
        omega
      rw [if_pos ⟨by rw [hb.2]; exact hn2, by
        rw [List.length_append, hAlen, List.length_drop]; omega⟩]
      have hbuf1 : (((file_content s f.file_size bs).drop open_file.file_offset).take br ++
            buf.drop br).take br ++
          ((block_data s (bs.getD ((open_file.file_offset + br) / BLOCK_SIZE) 0)).drop
            ((open_file.file_offset + br) % BLOCK_SIZE)).take n ++
          (((file_content s f.file_size bs).drop open_file.file_offset).take br ++
            buf.drop br).drop (br + n) =
          ((file_content s f.file_size bs).drop open_file.file_offset).take (br + n) ++
            buf.drop (br + n) := by
        rw [List.take_append_of_le_length (by omega), List.take_of_length_le (by omega),
          ← file_content_chunk s f.file_size bs (open_file.file_offset + br) n hdata hk hn2
            (by omega),
          take_drop_append_take]
        congr 1
        have : br + n = (((file_content s f.file_size bs).drop open_file.file_offset).take br).length
            + n := by omega
        rw [this, List.drop_append, List.drop_drop, hAlen]
      rw [hbuf1]
      have hst : ({ with_offset s fd open_file (open_file.file_offset + br) with
          fs := { (with_offset s fd open_file (open_file.file_offset + br)).fs with
            open_files := (with_offset s fd open_file (open_file.file_offset + br)).fs.open_files.set
              fd { ({ open_file with file_offset := open_file.file_offset + br } : openFile) with
                file_offset := size_add (open_file.file_offset + br) n } } } : State) =
          with_offset s fd open_file (open_file.file_offset + (br + n)) := by
        unfold with_offset
        simp only [List.set_set]
        rw [size_add_small _ _ (by omega), Nat.add_assoc]
      rw [hst, size_add_small _ _ (by omega)]
      exact ih (br + n) _ hn3 (by omega)
    · rw [if_pos (by simpa using hcond)]
      have : br = m := by omega
      subst this
      rw [to_int_small _ (by omega)]

theorem with_offset_self (s : State) (fd : Nat) (open_file : openFile)
    (h : s.fs.open_files[fd]? = some open_file) :
    with_offset s fd open_file open_file.file_offset = s := by
  unfold with_offset
  rw [set_of_getElem? _ _ _ h]

theorem fs_read_eq (s : State) (fd : Nat) (open_file : openFile) (file_num : Nat)
    (f : file) (bs : List Nat) (buf : List Nat) (count : Nat)
    (hm : is_mounted s = true)
    (hg : geometry_ok s) (hfile : file_ok s file_num f bs)
    (hfd : fd_ok s fd open_file file_num)
    (hcount : count < 2 ^ 31) (hbuf : count ≤ buf.length) :
    fs_read s (fd : Int) buf count =
      some (((Min.min count (f.file_size - open_file.file_offset) : Nat) : Int),
        ((file_content s f.file_size bs).drop open_file.file_offset).take
            (Min.min count (f.file_size - open_file.file_offset)) ++
          buf.drop (Min.min count (f.file_size - open_file.file_offset)),
        with_offset s fd open_file
          (open_file.file_offset + Min.min count (f.file_size - open_file.file_offset))) := by
  unfold fs_read
  rw [if_neg (by simp [hm]),
    fs_file_num_from_fd_ok s fd open_file file_num f hfd hfile.1 hfile.2.1 hfile.2.2.1]
  simp only []
  rw [if_neg (by omega)]
  have := fs_read_loop_spec s fd open_file file_num f bs buf count ((is_mounted_iff s).1 hm).1
    hg hfile hfd hcount hbuf (count + 1) 0 (List.replicate BLOCK_SIZE 0) (Nat.zero_le _)
    (by omega)
  simp only [Nat.add_zero, List.take_zero, List.drop_zero, List.nil_append] at this
  rw [with_offset_self s fd open_file hfd.2.1] at this
  simpa using this

/-- C4 (amended). Read postcondition, for `count < 2 ^ 31`: in a mounted state
with sound geometry, for a descriptor `fd` with offset `O` on a file of size
`S` whose chain is well formed and whose content is `F`, `fs_read` returns
`n = min(count, S - O)`, copies exactly `F[O, O+n)` into `buf[0, n)` and leaves
the rest of the buffer alone, sets the descriptor's offset to `O + n` and
changes nothing else (FAT, directory, disk, other descriptors); a second read
of `count2` bytes then returns the next segment `F[O+n, O+n+n2)`. -/
theorem fs_read_postcondition (s : State) (fd : Nat) (open_file : openFile) (file_num : Nat)
    (f : file) (bs : List Nat) (buf buf2 : List Nat) (count count2 : Nat)
    (hm : is_mounted s = true)
    (hg : geometry_ok s) (hfile : file_ok s file_num f bs)
    (hfd : fd_ok s fd open_file file_num)
    (hcount : count < 2 ^ 31) (hbuf : count ≤ buf.length)
    (hcount2 : count2 < 2 ^ 31) (hbuf2 : count2 ≤ buf2.length) :
    ∃ s' n, n = Min.min count (f.file_size - open_file.file_offset) ∧
      fs_read s (fd : Int) buf count =
        some ((n : Int),
          ((file_content s f.file_size bs).drop open_file.file_offset).take n ++ buf.drop n,
          s') ∧
      s'.fs.open_files[fd]? =
        some { open_file with file_offset := open_file.file_offset + n } ∧
      (∀ j, j ≠ fd → s'.fs.open_files[j]? = s.fs.open_files[j]?) ∧
      s'.fs.FAT = s.fs.FAT ∧ s'.fs.rootDir = s.fs.rootDir ∧
      s'.fs.superblock = s.fs.superblock ∧ s'.fs.num_open_files = s.fs.num_open_files ∧
      s'.fs.is_mounted = s.fs.is_mounted ∧ s'.disk = s.disk ∧
      ∃ s'' n2, n2 = Min.min count2 (f.file_size - (open_file.file_offset + n)) ∧
        fs_read s' (fd : Int) buf2 count2 =
          some ((n2 : Int),
            ((file_content s f.file_size bs).drop (open_file.file_offset + n)).take n2 ++
              buf2.drop n2,
            s'') := by
  have hfdlt := getElem?_lt _ _ _ hfd.2.1
  refine ⟨_, _, rfl, fs_read_eq s fd open_file file_num f bs buf count hm hg hfile hfd hcount hbuf,
    List.getElem?_set_self hfdlt, fun j hj => List.getElem?_set_ne (Ne.symm hj),
    rfl, rfl, rfl, rfl, rfl, rfl, ?_⟩
  have h2 := fs_read_eq (with_offset s fd open_file _) fd
    { open_file with
      file_offset := (open_file.file_offset + Min.min count (f.file_size - open_file.file_offset)) }
    file_num f bs buf2 count2
    (by rw [is_mounted_iff] at hm ⊢; exact hm) hg hfile
    ⟨hfd.1, List.getElem?_set_self hfdlt, hfd.2.2⟩ hcount2 hbuf2
  exact ⟨_, _, rfl, h2⟩

theorem to_int_neg (count : Nat) (h : 2 ^ 31 ≤ count ∧ count < 2 ^ 32) :
    to_int count = (count : Int) - 4294967296 := by
  unfold to_int
  have h1 : count % 2 ^ 32 = count := Nat.mod_eq_of_lt h.2
  rw [h1, if_neg (by omega)]
  norm_num

theorem to_size_t_neg (count : Nat) (h : 2 ^ 31 ≤ count ∧ count < 2 ^ 32) :
    to_size_t ((count : Int) - 4294967296) = 18446744069414584320 + count := by
  unfold to_size_t
  omega

theorem c_min_neg (count v : Nat) (hc : 2 ^ 31 ≤ count ∧ count < 2 ^ 32) (hv : v < 2 ^ 31) :
    to_size_t (min (to_int count) (to_int v)) = 18446744069414584320 + count := by
  rw [to_int_neg count hc, to_int_small v hv]
  unfold min
  rw [if_pos (by omega)]
  exact to_size_t_neg count hc

theorem not_le_huge (bo count : Nat) : ¬ bo + (18446744069414584320 + count) ≤ BLOCK_SIZE := by
  show ¬ bo + (18446744069414584320 + count) ≤ 4096
  omega

theorem fs_read_huge (s : State) (fd : Nat) (open_file : openFile) (file_num : Nat)
    (f : file) (bs : List Nat) (buf : List Nat) (count : Nat)
    (hm : is_mounted s = true)
    (hg : geometry_ok s) (hfile : file_ok s file_num f bs)
    (hfd : fd_ok s fd open_file file_num)
    (hcount : 2 ^ 31 ≤ count ∧ count < 2 ^ 32)
    (hoff : open_file.file_offset < f.file_size) :
    fs_read s (fd : Int) buf count = none := by
  obtain ⟨hsz1, hsz2⟩ := file_ok_size s file_num f bs hg hfile
  have hsz1' : f.file_size ≤ 4096 * bs.length := hsz1
  have hopen := ((is_mounted_iff s).1 hm).1
  unfold fs_read
  rw [if_neg (by simp [hm]),
    fs_file_num_from_fd_ok s fd open_file file_num f hfd hfile.1 hfile.2.1 hfile.2.2.1]
  simp only []
  rw [if_neg (by omega)]
  obtain ⟨hnum, hf, hne, hchain, hblen, hblt⟩ := hfile
  unfold fs_read_loop
  simp only [Int.toNat_ofNat, hfd.2.1, hf]
  rw [if_neg (by simp only [not_not]; exact ⟨by omega, hoff⟩)]
  have hk : open_file.file_offset / BLOCK_SIZE < bs.length := by
    show open_file.file_offset / 4096 < bs.length
    rw [Nat.div_lt_iff_lt_mul (by decide)]
    omega
  have hget : fs_get_block_offset s.fs (fd : Int) =
      some (0, bs.getD (open_file.file_offset / BLOCK_SIZE) 0,
        open_file.file_offset % BLOCK_SIZE) := by
    unfold fs_get_block_offset
    rw [fs_file_num_from_fd_ok _ fd _ file_num f hfd hnum hf hne]
    simp only []
    rw [if_neg (by omega)]
    simp only [Int.toNat_ofNat, hfd.2.1, hf]
    rw [fs_get_block_offset_loop_chain s.fs.FAT.blocks _ bs f.first_block_idx
      open_file.file_offset hchain rfl hk]
  rw [hget]
  simp only []
  have hmem : bs.getD (open_file.file_offset / BLOCK_SIZE) 0 ∈ bs := by
    rw [List.getD_eq_getElem?_getD, List.getElem?_eq_getElem hk]
    exact List.getElem_mem hk
  have hb := block_data_of_geometry s hg _ (hblt _ hmem)
  rw [if_neg (by decide), if_neg (is_chain_lt _ _ _ hchain _ hmem).2]
  have hread : (block_read s.disk (s.fs.superblock.data_block_start_idx +
      bs.getD (open_file.file_offset / BLOCK_SIZE) 0) (List.replicate BLOCK_SIZE 0)).2 =
      block_data s (bs.getD (open_file.file_offset / BLOCK_SIZE) 0) := by
    unfold block_read
    rw [if_pos hopen, hb.1]
  rw [hread]
  have hbo : open_file.file_offset % 4096 < 4096 := Nat.mod_lt _ (by decide)
  have hv : to_size_t (min (to_int (size_sub BLOCK_SIZE (open_file.file_offset % BLOCK_SIZE)))
      (to_int (size_sub f.file_size open_file.file_offset))) =
      Min.min (4096 - open_file.file_offset % 4096) (f.file_size - open_file.file_offset) := by
    rw [size_sub_le _ _ (Nat.le_of_lt (Nat.mod_lt _ (by decide))) (by decide),
      size_sub_le _ _ (by omega) (by omega)]
    exact c_min_nat _ _ (by show 4096 - _ < _; omega) (by omega)
  have hn : to_size_t (min (to_int (size_sub count 0))
      (to_int (Min.min (4096 - open_file.file_offset % 4096)
        (f.file_size - open_file.file_offset)))) = 18446744069414584320 + count := by
    rw [size_sub_le _ _ (Nat.zero_le _) (Nat.lt_trans hcount.2 (by decide))]
    exact c_min_neg _ _ hcount (Nat.lt_of_le_of_lt (Nat.min_le_left _ _)
      (Nat.lt_of_le_of_lt (Nat.sub_le _ _) (by decide)))
  simp only [hv, hn]
  rw [if_neg]
  intro hcon
  have h1 := hcon.1
  rw [hb.2] at h1
  exact absurd h1 (not_le_huge _ _)
theorem small_5000_geometry : geometry_ok small_state_z_5000 := by
  refine ⟨by decide, by decide, by decide, ?_, ?_⟩
  · show 4 ≤ ([1, FAT_EOC] ++ List.replicate 2046 0).length
    rw [List.length_append, List.length_replicate]
    decide
  · intro b hb
    have hb' : b < 4 := hb
    interval_cases b
    · exact ⟨_, rfl, List.length_replicate _ _⟩
    · refine ⟨_, rfl, ?_⟩
      show (List.replicate 904 7 ++ List.replicate 3192 0).length = 4096
      rw [List.length_append, List.length_replicate, List.length_replicate]
    · exact ⟨_, rfl, List.length_replicate _ _⟩
    · exact ⟨_, rfl, List.length_replicate _ _⟩

set_option maxRecDepth 20000 in
theorem small_5000_file :
    file_ok small_state_z_5000 0
      { new_file [122] with file_size := 5000, first_block_idx := 0 } [0, 1] := by
  refine ⟨by decide, by decide, by decide, is_chain_two _, by decide, ?_⟩
  intro b hb
  have : b = 0 ∨ b = 1 := by simpa using hb
  rcases this with rfl | rfl <;> decide

set_option maxRecDepth 20000 in
theorem small_5000_fd :
    fd_ok small_state_z_5000 0 { fd := 0, file_num := 0, file_offset := 0 } 0 := by
  refine ⟨by decide, by decide, rfl⟩

set_option maxRecDepth 20000 in
/-- C4, counterexample: with `count = 2 ^ 31` the call on the 5000-byte file
"z" (offset 0, well-formed chain) has no result at all, let alone
`min(count, S - O) = 5000`: `min` works on `int`, where the count is
`-2 ^ 31`, and `memcpy` is asked for `2 ^ 64 - 2 ^ 31` bytes. -/
theorem fs_read_count_beyond_int :
    is_mounted small_state_z_5000 = true ∧ geometry_ok small_state_z_5000 ∧
    file_ok small_state_z_5000 0
      { new_file [122] with file_size := 5000, first_block_idx := 0 } [0, 1] ∧
    fd_ok small_state_z_5000 0 { fd := 0, file_num := 0, file_offset := 0 } 0 ∧
    fs_read small_state_z_5000 ((0 : Nat) : Int) (List.replicate 2147483648 0) 2147483648 = none :=
  ⟨by decide, small_5000_geometry, small_5000_file, small_5000_fd,
    fs_read_huge small_state_z_5000 0 _ 0 _ [0, 1] _ 2147483648 (by decide) small_5000_geometry
      small_5000_file small_5000_fd (by decide) (by decide)⟩

set_option maxRecDepth 20000 in
theorem fs_read_postcondition_witness :
    ∃ s' out, fs_read small_state_z_5000 ((0 : Nat) : Int) (List.replicate 10 0) 10 =
        some (10, out, s') ∧
      s'.fs.open_files[0]? = some { fd := 0, file_num := 0, file_offset := 10 } :=
  match fs_read_postcondition small_state_z_5000 0 _ 0 _ [0, 1] (List.replicate 10 0)
      (List.replicate 10 0) 10 10 (by decide) small_5000_geometry small_5000_file small_5000_fd
      (by decide) (by decide) (by decide) (by decide) with
  | ⟨s', _, hn, h, hof, _⟩ => ⟨s', _, by rw [hn] at h; exact h, by rw [hn] at hof; exact hof⟩

/-! ### Calls without a mounted file system -/

theorem not_mounted_of_closed (s : State) (h : s.disk.opened = false) : is_mounted s = false := by
  unfold is_mounted block_disk_count
  simp [h]

/-- C20. Not mounted means failure: when no file system is mounted, `fs_umount`,
`fs_create`, `fs_delete`, `fs_open`, `fs_close`, `fs_stat`, `fs_lseek`,
`fs_read` and `fs_write` return -1 for all arguments and leave the disk, the
state and the caller's buffer as they were; and after a successful `fs_umount`
no file system is mounted. -/
theorem not_mounted_fails (s : State) (h : is_mounted s = false) :
    fs_umount s = (-1, s) ∧
    (∀ filename, fs_create s filename = some (-1, s)) ∧
    (∀ filename, fs_delete s filename = some (-1, s)) ∧
    (∀ filename, fs_open s filename = some (-1, s)) ∧
    (∀ fd, fs_close s fd = some (-1, s)) ∧
    (∀ fd, fs_stat s fd = some (-1, s)) ∧
    (∀ fd offset, fs_lseek s fd offset = some (-1, s)) ∧
    (∀ fd buf count, fs_read s fd buf count = some (-1, buf, s)) ∧
    (∀ fd buf count, fs_write s fd buf count = some (-1, s)) ∧
    (∀ s0 s1, fs_umount s0 = (0, s1) → is_mounted s1 = false) := by
  have hn : ¬ is_mounted s = true := by simp [h]
  refine ⟨?_, ?_, ?_, ?_, ?_, ?_, ?_, ?_, ?_, ?_⟩
  · unfold fs_umount; rw [if_pos hn]
  · intro filename; unfold fs_create; rw [if_pos hn]
  · intro filename; unfold fs_delete; rw [if_pos hn]
  · intro filename; unfold fs_open; rw [if_pos hn]
  · intro fd; unfold fs_close; rw [if_pos hn]
  · intro fd; unfold fs_stat; rw [if_pos hn]
  · intro fd offset; unfold fs_lseek; rw [if_pos hn]
  · intro fd buf count; unfold fs_read; rw [if_pos hn]
  · intro fd buf count; unfold fs_write; rw [if_pos hn]
  · intro s0 s1 hu
    unfold fs_umount at hu
    by_cases hm0 : is_mounted s0 = true
    · rw [if_neg (by simp [hm0])] at hu
      simp only [] at hu
      rw [if_neg (lnot_ne _), if_neg (lnot_ne _), if_neg (lnot_ne _)] at hu
      unfold block_disk_close at hu
      split at hu
      · rw [if_neg (by simp)] at hu
        have := (Prod.mk.inj hu).2
        rw [← this]
        exact not_mounted_of_closed _ rfl
      · rw [if_pos rfl] at hu
        have := (Prod.mk.inj hu).1
        omega
    · rw [if_pos (by simp [hm0])] at hu
      have := (Prod.mk.inj hu).1
      omega

set_option maxRecDepth 20000 in
theorem not_mounted_fails_witness :
    fs_umount { disk := small_disk, fs := small_state.fs } =
      (-1, { disk := small_disk, fs := small_state.fs }) ∧
    fs_write { disk := small_disk, fs := small_state.fs } 0 [1, 2, 3] 3 =
      some (-1, { disk := small_disk, fs := small_state.fs }) :=
  have h := not_mounted_fails { disk := small_disk, fs := small_state.fs } (by decide)
  ⟨h.1, h.2.2.2.2.2.2.2.2.1 0 [1, 2, 3] 3⟩

/-! ### Opening and closing -/

theorem fs_open_loop_found (open_files : List openFile) (k : Nat)
    (hk : k < open_files.length)
    (hfree : open_files[k]?.map (fun o => o.file_num) = some (-1))
    (hlow : ∀ j, j < k → ∀ o, open_files[j]? = some o → o.file_num ≠ -1) :
    ∀ n i, i ≤ k → k < i + n → fs_open_loop open_files n i = some (k : Int) := by
  intro n
  induction n with
  | zero => intro i h1 h2; omega
  | succ n ih =>
    intro i h1 h2
    unfold fs_open_loop
    have hi : i < open_files.length := by omega
    rw [List.getElem?_eq_getElem hi]
    simp only []
    by_cases hik : i = k
    · subst hik
      rw [List.getElem?_eq_getElem hi] at hfree
      simp only [Option.map_some', Option.some.injEq] at hfree
      rw [if_pos hfree]
    · rw [if_neg (hlow i (by omega) _ (List.getElem?_eq_getElem hi))]
      exact ih (i + 1) (by omega) (by omega)

theorem fs_open_loop_inv (open_files : List openFile) :
    ∀ n i r, fs_open_loop open_files n i = some r →
      r = -1 ∨ ∃ (j : Nat) (o : openFile), r = (j : Int) ∧ open_files[j]? = some o ∧ o.file_num = -1 := by
  intro n
  induction n with
  | zero =>
    intro i r h
    unfold fs_open_loop at h
    left
    exact (Option.some.inj h).symm
  | succ n ih =>
    intro i r h
    unfold fs_open_loop at h
    cases ho : open_files[i]? with
    | none => rw [ho] at h; simp at h
    | some o =>
      rw [ho] at h
      simp only [] at h
      by_cases hf : o.file_num = -1
      · rw [if_pos hf] at h
        right
        exact ⟨i, o, (Option.some.inj h).symm, ho, hf⟩
      · rw [if_neg hf] at h
        exact ih (i + 1) r h

theorem fs_open_loop_full (open_files : List openFile)
    (hfull : ∀ j, j < FS_OPEN_MAX_COUNT →
      ∃ o, open_files[j]? = some o ∧ o.file_num ≠ -1) :
    ∀ n i, i + n ≤ FS_OPEN_MAX_COUNT → fs_open_loop open_files n i = some (-1) := by
  intro n
  induction n with
  | zero => intro i _; rfl
  | succ n ih =>
    intro i h
    unfold fs_open_loop
    obtain ⟨o, ho, hne⟩ := hfull i (by omega)
    rw [ho]
    simp only []
    rw [if_neg hne]
    exact ih (i + 1) (by omega)

theorem first_free_fd_spec (open_files : List openFile)
    (h : used_fds open_files < open_files.length) :
    first_free_fd open_files < open_files.length ∧
    open_files[first_free_fd open_files]?.map (fun o => o.file_num) = some (-1) ∧
    ∀ j, j < first_free_fd open_files → ∀ o, open_files[j]? = some o → o.file_num ≠ -1 := by
  have hlt : first_free_fd open_files < open_files.length := by
    unfold first_free_fd
    rw [List.findIdx_lt_length]
    by_contra hcon
    push_neg at hcon
    have : used_fds open_files = open_files.length := by
      unfold used_fds
      rw [List.countP_eq_length]
      intro a ha
      have := hcon a ha
      simpa using this
    omega
  refine ⟨hlt, ?_, ?_⟩
  · rw [List.getElem?_eq_getElem hlt]
    have := List.findIdx_getElem (w := hlt)
    simpa [first_free_fd] using this
  · intro j hj o ho
    have hj' : j < open_files.length := by omega
    have := List.not_of_lt_findIdx hj
    rw [List.getElem?_eq_getElem hj'] at ho
    simp only [Option.some.injEq] at ho
    rw [ho] at this
    simpa using this

theorem fs_open_eq (s : State) (filename : List Nat) (fd k : Nat)
    (hm : is_mounted s = true)
    (hcount : s.fs.num_open_files < FS_OPEN_MAX_COUNT)
    (hfd : fd < FS_OPEN_MAX_COUNT) (hfdlen : fd < s.fs.open_files.length)
    (hfree : s.fs.open_files[fd]?.map (fun o => o.file_num) = some (-1))
    (hlow : ∀ j, j < fd → ∀ o, s.fs.open_files[j]? = some o → o.file_num ≠ -1)
    (hlook : fs_file_num_from_filename s.fs filename = (k : Int)) :
    fs_open s filename = some ((fd : Int), open_at s fd k) := by
  have hcount' : s.fs.num_open_files < 32 := hcount
  have hfd' : fd < 32 := hfd
  unfold fs_open
  rw [if_neg (by simp [hm]), if_neg (by show ¬ s.fs.num_open_files ≥ 32; omega),
    fs_open_loop_found s.fs.open_files fd hfdlen hfree hlow _ _ (Nat.zero_le _)
      (by show fd < 0 + 32; omega)]
  simp only []
  rw [if_neg (by omega), hlook, if_neg (by omega)]
  rfl

theorem fs_open_inv (s : State) (filename : List Nat) (fd : Int) (s1 : State)
    (h : fs_open s filename = some (fd, s1)) :
    fd = -1 ∨ ∃ (j : Nat) (o : openFile), fd = (j : Int) ∧ s.fs.open_files[j]? = some o ∧ o.file_num = -1 := by
  unfold fs_open at h
  split at h
  · left; exact (Prod.mk.inj (Option.some.inj h)).1.symm
  · split at h
    · left; exact (Prod.mk.inj (Option.some.inj h)).1.symm
    · cases hl : fs_open_loop s.fs.open_files FS_OPEN_MAX_COUNT 0 with
      | none => rw [hl] at h; simp at h
      | some r =>
        rw [hl] at h
        simp only [] at h
        split at h
        · left; exact (Prod.mk.inj (Option.some.inj h)).1.symm
        · split at h
          · left; exact (Prod.mk.inj (Option.some.inj h)).1.symm
          · have hr := (Prod.mk.inj (Option.some.inj h)).1
            have := fs_open_loop_inv _ _ _ _ hl
            rw [hr] at this
            exact this

/-- C11. Open: in a mounted state whose open-file table has 32 slots and whose
open count equals the number of slots in use, `fs_open` of a valid name held
by a directory entry (the first such entry has index `k`), with fewer than 32
descriptors open, returns the lowest free slot index `fd` in [0, 31], sets that
slot to (file number `k`, offset 0), increments the open count and changes no
other slot, nor the directory, the FAT or the disk, and a following `fs_open`
never returns `fd` again; when the name is invalid or held by no entry, or 32
descriptors are open, `fs_open` returns -1 and changes nothing. -/
theorem fs_open_spec (s : State) (filename : List Nat)
    (hm : is_mounted s = true)
    (hlen : s.fs.open_files.length = FS_OPEN_MAX_COUNT)
    (hacc : s.fs.num_open_files = used_fds s.fs.open_files) :
    (∀ k, fs_validate_filename filename = true → k < FS_FILE_MAX_COUNT →
      name_at s.fs.rootDir.files k = cstr filename →
      (∀ j, j < k → name_at s.fs.rootDir.files j ≠ cstr filename) →
      s.fs.num_open_files < FS_OPEN_MAX_COUNT →
      ∃ s', fs_open s filename = some ((first_free_fd s.fs.open_files : Int), s') ∧
        first_free_fd s.fs.open_files < FS_OPEN_MAX_COUNT ∧
        s.fs.open_files[first_free_fd s.fs.open_files]?.map (fun o => o.file_num) = some (-1) ∧
        (∀ j, j < first_free_fd s.fs.open_files →
          ∀ o, s.fs.open_files[j]? = some o → o.file_num ≠ -1) ∧
        s'.fs.open_files[first_free_fd s.fs.open_files]? =
          some { fd := (first_free_fd s.fs.open_files : Int), file_num := (k : Int),
                 file_offset := 0 } ∧
        s'.fs.num_open_files = s.fs.num_open_files + 1 ∧
        (∀ j, j ≠ first_free_fd s.fs.open_files →
          s'.fs.open_files[j]? = s.fs.open_files[j]?) ∧
        s'.fs.rootDir = s.fs.rootDir ∧ s'.fs.FAT = s.fs.FAT ∧
        s'.fs.superblock = s.fs.superblock ∧ s'.disk = s.disk ∧
        ∀ filename2 fd2 s2, fs_open s' filename2 = some (fd2, s2) →
          fd2 ≠ (first_free_fd s.fs.open_files : Int)) ∧
    ((fs_validate_filename filename = false ∨
        (∀ j, j < FS_FILE_MAX_COUNT → name_at s.fs.rootDir.files j ≠ cstr filename) ∨
        s.fs.num_open_files ≥ FS_OPEN_MAX_COUNT) →
      fs_open s filename = some (-1, s)) := by
  have hlen' : s.fs.open_files.length = 32 := hlen
  constructor
  · intro k hv hk hname hfirst hcount
    have hcount' : s.fs.num_open_files < 32 := hcount
    obtain ⟨h1, h2, h3⟩ := first_free_fd_spec s.fs.open_files (by omega)
    have hlook : fs_file_num_from_filename s.fs filename = (k : Int) := by
      unfold fs_file_num_from_filename
      rw [if_neg (by simp [hv])]
      exact lookup_loop_found _ _ _ _ k (Nat.zero_le _) (by omega) hname
        fun j _ h2 => hfirst j h2
    have hopen := fs_open_eq s filename (first_free_fd s.fs.open_files) k hm hcount
      (by show _ < 32; omega) h1 h2 h3 hlook
    refine ⟨_, hopen, by show _ < 32; omega, h2, h3, List.getElem?_set_self h1, ?_,
      fun j hj => List.getElem?_set_ne (Ne.symm hj), rfl, rfl, rfl, rfl, ?_⟩
    · show size_add s.fs.num_open_files 1 = _
      exact size_add_small _ _ (by omega)
    · intro filename2 fd2 s2 h
      rcases fs_open_inv _ _ _ _ h with hneg | ⟨j, o, hj, ho, hfree⟩
      · omega
      · intro hcon
        have hjk : j = first_free_fd s.fs.open_files := by omega
        subst hjk
        have : (open_at s (first_free_fd s.fs.open_files) k).fs.open_files[
            first_free_fd s.fs.open_files]? =
            some { fd := (first_free_fd s.fs.open_files : Int), file_num := (k : Int),
                   file_offset := 0 } := List.getElem?_set_self h1
        rw [this] at ho
        have := Option.some.inj ho
        rw [← this] at hfree
        simp only at hfree
        omega
  · intro h
    rcases h with hinv | habs | hfull
    · apply fs_open_absent s filename hlen
      unfold fs_file_num_from_filename
      rw [if_pos (by simp [hinv])]
      decide
    · by_cases hv : fs_validate_filename filename = true
      · apply fs_open_absent s filename hlen
        rw [lookup_absent s.fs filename hv habs]
        decide
      · apply fs_open_absent s filename hlen
        unfold fs_file_num_from_filename
        rw [if_pos hv]
        decide
    · unfold fs_open
      split
      · rfl
      · rfl

set_option maxRecDepth 20000 in
theorem fs_open_spec_witness :
    ∃ s', fs_open small_state_z [122] = some (0, s') ∧
      s'.fs.open_files[0]? = some { fd := 0, file_num := 0, file_offset := 0 } ∧
      s'.fs.num_open_files = 1 :=
  match (fs_open_spec small_state_z [122] (create_at_mounted _ _ _ (by decide))
      (by rw [small_state_z, create_at_fs]; decide)
      (by rw [small_state_z, create_at_fs]; decide)).1 0 (by decide) (by decide)
      (by rw [small_state_z, create_at_fs]; decide) (fun j hj => absurd hj (Nat.not_lt_zero j))
      (by rw [small_state_z, create_at_fs]; decide) with
  | ⟨s', h, _, _, _, hof, hn, _⟩ =>
    ⟨s', by
      have h0 : first_free_fd small_state_z.fs.open_files = 0 := by
        rw [small_state_z, create_at_fs]; decide
      rw [h0] at h; exact h, by
      have h0 : first_free_fd small_state_z.fs.open_files = 0 := by
        rw [small_state_z, create_at_fs]; decide
      rw [h0] at hof; exact hof, by
      rw [hn, small_state_z, create_at_fs]; rfl⟩

theorem fs_validate_fd_slot (fs : FS) (fd : Nat) (o : openFile)
    (hfd : fd < FS_OPEN_MAX_COUNT) (ho : fs.open_files[fd]? = some o) :
    fs_validate_fd fs (fd : Int) = some (decide (o.file_num ≠ -1)) := by
  have hfd' : fd < 32 := hfd
  unfold fs_validate_fd
  rw [if_neg (by simp only [FS_OPEN_MAX_COUNT]; omega)]
  simp only [Int.toNat_ofNat, ho]
  by_cases h : o.file_num = -1
  · rw [if_pos h]; simp [h]
  · rw [if_neg h]; simp [h]

theorem fs_file_num_from_fd_free (fs : FS) (fd : Nat) (o : openFile)
    (hfd : fd < FS_OPEN_MAX_COUNT) (ho : fs.open_files[fd]? = some o)
    (hfree : o.file_num = -1) :
    fs_file_num_from_fd fs (fd : Int) = some (-1) := by
  unfold fs_file_num_from_fd
  rw [fs_validate_fd_slot fs fd o hfd ho]
  simp [hfree]

theorem to_size_t_neg_one : to_size_t (-1) = 18446744073709551615 := by
  unfold to_size_t
  decide

theorem closed_fd_fails (s : State) (fd : Nat) (o : openFile)
    (hm : is_mounted s = true)
    (hfd : fd < FS_OPEN_MAX_COUNT) (ho : s.fs.open_files[fd]? = some o)
    (hfree : o.file_num = -1) :
    fs_stat s (fd : Int) = some (-1, s) ∧
    (∀ offset, fs_lseek s (fd : Int) offset = some (-1, s)) ∧
    (∀ buf count, fs_read s (fd : Int) buf count = some (-1, buf, s)) ∧
    (∀ buf count, fs_write s (fd : Int) buf count = some (-1, s)) ∧
    fs_close s (fd : Int) = some (-1, s) := by
  have hnum := fs_file_num_from_fd_free s.fs fd o hfd ho hfree
  have hval : fs_validate_fd s.fs (fd : Int) = some false := by
    rw [fs_validate_fd_slot s.fs fd o hfd ho]; simp [hfree]
  have hstat : fs_stat s (fd : Int) = some (-1, s) := by
    unfold fs_stat
    rw [if_neg (by simp [hm]), hnum]
    rfl
  refine ⟨hstat, ?_, ?_, ?_, ?_⟩
  · intro offset
    unfold fs_lseek
    rw [if_neg (by simp [hm]), hstat]
    simp only []
    split
    · rfl
    · rw [hval]
  · intro buf count
    unfold fs_read
    rw [if_neg (by simp [hm]), hnum]
    rfl
  · intro buf count
    unfold fs_write
    rw [if_neg (by simp [hm]), hnum]
    rfl
  · unfold fs_close
    rw [if_neg (by simp [hm]), hval]

/-- C12. Close: in a mounted state whose open-file table has 32 slots, for
`fd` in [0, 31] with its slot in use and an open count in [1, 32] `fs_close`
returns 0, marks exactly that slot free (file number -1), decrements the open
count and leaves every other slot, the directory, the FAT and the disk
unchanged, after which `fs_stat`, `fs_lseek`, `fs_read`, `fs_write` and
`fs_close` on that `fd` return -1; for `fd` in [0, 31] with a free slot
(whatever the open count, so also right after the mount) `fs_close` returns -1
and changes nothing. -/
theorem fs_close_spec (s : State) (fd : Nat) (o : openFile)
    (hm : is_mounted s = true)
    (hfd : fd < FS_OPEN_MAX_COUNT)
    (ho : s.fs.open_files[fd]? = some o) :
    (o.file_num ≠ -1 →
      1 ≤ s.fs.num_open_files ∧ s.fs.num_open_files ≤ FS_OPEN_MAX_COUNT →
      ∃ s', fs_close s (fd : Int) = some (0, s') ∧
        s'.fs.open_files[fd]? = some { fd := 0, file_num := -1, file_offset := 0 } ∧
        (∀ j, j ≠ fd → s'.fs.open_files[j]? = s.fs.open_files[j]?) ∧
        s'.fs.num_open_files = s.fs.num_open_files - 1 ∧
        s'.fs.rootDir = s.fs.rootDir ∧ s'.fs.FAT = s.fs.FAT ∧
        s'.fs.superblock = s.fs.superblock ∧ s'.disk = s.disk ∧
        fs_stat s' (fd : Int) = some (-1, s') ∧
        (∀ offset, fs_lseek s' (fd : Int) offset = some (-1, s')) ∧
        (∀ buf count, fs_read s' (fd : Int) buf count = some (-1, buf, s')) ∧
        (∀ buf count, fs_write s' (fd : Int) buf count = some (-1, s')) ∧
        fs_close s' (fd : Int) = some (-1, s')) ∧
    (o.file_num = -1 → fs_close s (fd : Int) = some (-1, s)) := by
  have hlt := getElem?_lt _ _ _ ho
  constructor
  · intro hused hcnt
    have hclose : fs_close s (fd : Int) = some (0, close_at s fd) := by
      unfold fs_close
      rw [if_neg (by simp [hm]), fs_validate_fd_slot s.fs fd o hfd ho]
      simp only [hused, ne_eq, not_false_eq_true, decide_True, Int.toNat_ofNat]
      rfl
    have hslot : (close_at s fd).fs.open_files[fd]? =
        some { fd := 0, file_num := -1, file_offset := 0 } := List.getElem?_set_self hlt
    have hm' : is_mounted (close_at s fd) = true := by
      rw [is_mounted_iff] at hm ⊢; exact hm
    obtain ⟨h1, h2, h3, h4, h5⟩ := closed_fd_fails (close_at s fd) fd _ hm' hfd hslot rfl
    refine ⟨_, hclose, hslot, fun j hj => List.getElem?_set_ne (Ne.symm hj), ?_, rfl, rfl, rfl,
      rfl, h1, h2, h3, h4, h5⟩
    show size_sub s.fs.num_open_files 1 = _
    have : s.fs.num_open_files ≤ 32 := hcnt.2
    exact size_sub_one _ hcnt.1 (by omega)
  · intro hfree
    exact (closed_fd_fails s fd o hm hfd ho hfree).2.2.2.2

set_option maxRecDepth 20000 in
theorem fs_close_spec_witness :
    ∃ s', fs_close (open_at small_state_z 0 0) ((0 : Nat) : Int) = some (0, s') ∧
      s'.fs.open_files[0]? = some { fd := 0, file_num := -1, file_offset := 0 } ∧
      fs_stat s' ((0 : Nat) : Int) = some (-1, s') :=
  match (fs_close_spec (open_at small_state_z 0 0) 0
      { fd := 0, file_num := 0, file_offset := 0 }
      (by rw [is_mounted_iff]; exact (is_mounted_iff _).1 (create_at_mounted _ _ _ (by decide)))
      (by decide)
      (by unfold open_at; rw [small_state_z, create_at_fs]; decide)).1 (by decide)
      (by unfold open_at; rw [small_state_z, create_at_fs]; decide) with
  | ⟨s', h, hslot, _, _, _, _, _, _, hstat, _⟩ => ⟨s', h, hslot, hstat⟩

set_option maxRecDepth 20000 in
/-- C13, at the failing input: `fd = 32` passes the range test of
`fs_validate_fd` (`fd > FS_OPEN_MAX_COUNT` rejects only 33 and above), so
`open_files[32]`, one past the 32 slots, is read: the calls `fs_close`,
`fs_stat`, `fs_lseek`, `fs_read` and `fs_write` with `fd = 32` on the freshly
mounted small disk have no defined result instead of returning -1; likewise
`fs_validate_file_num` lets the file number 128 through to `files[128]`. -/
theorem descriptor_32_indexes_out_of_bounds :
    small_state.fs.open_files.length = 32 ∧
    fs_validate_fd small_state.fs 32 = none ∧
    fs_validate_fd small_state.fs 33 = some false ∧
    fs_close small_state 32 = none ∧
    fs_stat small_state 32 = none ∧
    fs_lseek small_state 32 0 = none ∧
    fs_read small_state 32 [0] 1 = none ∧
    fs_write small_state 32 [0] 1 = none ∧
    small_state.fs.rootDir.files.length = 128 ∧
    fs_validate_file_num small_state.fs 128 = none ∧
    fs_validate_file_num small_state.fs 129 = some false := by
  refine ⟨by decide, by decide, by decide, by decide, by decide, by decide, by decide,
    by decide, by decide, by decide, by decide⟩

/-! ### Stat and seek -/

theorem fs_stat_ok (s : State) (fd : Nat) (open_file : openFile) (file_num : Nat) (f : file)
    (hm : is_mounted s = true) (hfd : fd_ok s fd open_file file_num)
    (hnum : file_num < FS_FILE_MAX_COUNT)
    (hf : s.fs.rootDir.files[file_num]? = some f) (hne : f.filename.headD 0 ≠ 0) :
    fs_stat s (fd : Int) = some (to_int f.file_size, s) := by
  unfold fs_stat
  rw [if_neg (by simp [hm]), fs_file_num_from_fd_ok s fd open_file file_num f hfd hnum hf hne]
  simp only []
  rw [if_neg (by omega)]
  simp only [Int.toNat_ofNat, hf]

theorem fs_file_num_from_fd_stale (s : State) (fd : Nat) (open_file : openFile)
    (file_num : Nat) (f : file) (hfd : fd_ok s fd open_file file_num)
    (hnum : file_num < FS_FILE_MAX_COUNT)
    (hf : s.fs.rootDir.files[file_num]? = some f) (hempty : f.filename.headD 0 = 0) :
    fs_file_num_from_fd s.fs (fd : Int) = some (-1) := by
  obtain ⟨h1, h2, h3⟩ := hfd
  have hnum' : file_num < 128 := hnum
  unfold fs_file_num_from_fd
  rw [fs_validate_fd_slot s.fs fd open_file h1 h2]
  have : decide (open_file.file_num ≠ -1) = true := by
    rw [h3]; simp
  simp only [this, Int.toNat_ofNat, h2]
  unfold fs_validate_file_num
  rw [if_neg (by rw [h3]; simp only [FS_FILE_MAX_COUNT]; omega)]
  simp only [h3, Int.toNat_ofNat, hf]
  rw [if_pos hempty]

theorem not_gt_max (offset : Nat) (h : offset < 2 ^ 64) : ¬ offset > to_size_t (-1) := by
  rw [to_size_t_neg_one]
  omega

theorem fs_lseek_stale (s : State) (fd : Nat) (open_file : openFile)
    (file_num : Nat) (f : file) (offset : Nat)
    (hm : is_mounted s = true) (hfd : fd_ok s fd open_file file_num)
    (hnum : file_num < FS_FILE_MAX_COUNT)
    (hf : s.fs.rootDir.files[file_num]? = some f) (hempty : f.filename.headD 0 = 0)
    (hoff : offset < 2 ^ 64) :
    fs_stat s (fd : Int) = some (-1, s) ∧
    fs_lseek s (fd : Int) offset = some (0, with_offset s fd open_file offset) := by
  have hstat : fs_stat s (fd : Int) = some (-1, s) := by
    unfold fs_stat
    rw [if_neg (by simp [hm]),
      fs_file_num_from_fd_stale s fd open_file file_num f hfd hnum hf hempty]
    rfl
  refine ⟨hstat, ?_⟩
  unfold fs_lseek
  rw [if_neg (by simp [hm]), hstat]
  simp only []
  rw [if_neg (not_gt_max offset hoff), fs_validate_fd_slot s.fs fd open_file hfd.1 hfd.2.1]
  have : decide (open_file.file_num ≠ -1) = true := by
    rw [hfd.2.2]; simp
  simp only [this, Int.toNat_ofNat, hfd.2.1]
  rfl

theorem fs_lseek_ok (s : State) (fd : Nat) (open_file : openFile) (file_num : Nat) (f : file)
    (offset : Nat)
    (hm : is_mounted s = true) (hfd : fd_ok s fd open_file file_num)
    (hnum : file_num < FS_FILE_MAX_COUNT)
    (hf : s.fs.rootDir.files[file_num]? = some f) (hne : f.filename.headD 0 ≠ 0)
    (hsize : f.file_size < 2 ^ 31) :
    (offset ≤ f.file_size →
      fs_lseek s (fd : Int) offset = some (0, with_offset s fd open_file offset)) ∧
    (offset > f.file_size → fs_lseek s (fd : Int) offset = some (-1, s)) := by
  have hstat := fs_stat_ok s fd open_file file_num f hm hfd hnum hf hne
  have hsz : to_size_t (to_int f.file_size) = f.file_size := by
    rw [to_int_small _ hsize, to_size_t_nat _ (by omega)]
  constructor
  · intro hle
    unfold fs_lseek
    rw [if_neg (by simp [hm]), hstat]
    simp only []
    rw [hsz, if_neg (by omega), fs_validate_fd_slot s.fs fd open_file hfd.1 hfd.2.1]
    have : decide (open_file.file_num ≠ -1) = true := by
      rw [hfd.2.2]; simp
    simp only [this, Int.toNat_ofNat, hfd.2.1]
    rfl
  · intro hgt
    unfold fs_lseek
    rw [if_neg (by simp [hm]), hstat]
    simp only []
    rw [hsz, if_pos hgt]

set_option maxRecDepth 20000 in
/-- C14, at the failing input: after `fs_create` of "z", `fs_open` of it
(descriptor 0) and `fs_delete` of "z", slot 0 is still in use and refers to
entry 0, whose size is 0; `fs_stat(0)` returns -1, which `fs_lseek` compares
as the `size_t` 2^64 - 1, so `fs_lseek(0, 1000)` returns 0 and sets the offset
to 1000, beyond the size. -/
theorem fs_lseek_beyond_size_of_stale_descriptor :
    fs_open small_state_z [122] = some (0, open_at small_state_z 0 0) ∧
    fs_delete (open_at small_state_z 0 0) [122] = some (0, stale_state) ∧
    stale_state.fs.open_files[0]? = some { fd := 0, file_num := 0, file_offset := 0 } ∧
    stale_state.fs.rootDir.files[0]? = some EMPTY_FILE_CELL ∧
    EMPTY_FILE_CELL.file_size = 0 ∧
    fs_stat stale_state ((0 : Nat) : Int) = some (-1, stale_state) ∧
    fs_lseek stale_state ((0 : Nat) : Int) 1000 =
      some (0, with_offset stale_state 0 { fd := 0, file_num := 0, file_offset := 0 } 1000) ∧
    (with_offset stale_state 0 { fd := 0, file_num := 0, file_offset := 0 } 1000).fs.open_files[0]?
      = some { fd := 0, file_num := 0, file_offset := 1000 } := by
  have hm2 : is_mounted (open_at small_state_z 0 0) = true := by
    rw [is_mounted_iff]; exact (is_mounted_iff _).1 (create_at_mounted _ _ _ (by decide))
  have hfs : stale_state.fs = _ := delete_at_fs _ _ _
  have hfd : fd_ok stale_state 0 { fd := 0, file_num := 0, file_offset := 0 } 0 := by
    refine ⟨by decide, ?_, rfl⟩
    rw [hfs]; unfold open_at; rw [small_state_z, create_at_fs]; decide
  have hf : stale_state.fs.rootDir.files[0]? = some EMPTY_FILE_CELL := by
    rw [hfs]; unfold open_at; rw [small_state_z, create_at_fs]; decide
  have hstale := fs_lseek_stale stale_state 0 _ 0 EMPTY_FILE_CELL 1000
    (delete_at_mounted _ _ _ hm2) hfd (by decide) hf (by decide) (by decide)
  refine ⟨?_, ?_, hfd.2.1, hf, rfl, hstale.1, hstale.2, ?_⟩
  · exact fs_open_eq small_state_z [122] 0 0 (create_at_mounted _ _ _ (by decide))
      (by rw [small_state_z, create_at_fs]; decide) (by decide)
      (by rw [small_state_z, create_at_fs]; decide)
      (by rw [small_state_z, create_at_fs]; decide)
      (fun j hj => absurd hj (Nat.not_lt_zero j))
      (by rw [small_state_z, create_at_fs]; decide)
  · exact fs_delete_eq (open_at small_state_z 0 0) [122] 0 (new_file [122]) _ hm2
      (by unfold open_at; rw [small_state_z, create_at_fs]; decide)
      (by unfold open_at; rw [small_state_z, create_at_fs]; decide)
      (fs_delete_loop_eoc _ _)
  · exact List.getElem?_set_self (getElem?_lt _ _ _ hfd.2.1)

/-! ### Mounting and unmounting -/

theorem block_disk_open_ok (diskname : String) (d : BlockDev)
    (hclosed : d.opened = false) (hname : diskname = d.diskname) :
    block_disk_open diskname d = (0, { d with opened := true }) := by
  unfold block_disk_open
  rw [if_neg (by simp [hclosed, hname])]

theorem block_disk_open_fail (diskname : String) (d : BlockDev)
    (h : d.opened = true ∨ diskname ≠ d.diskname) :
    block_disk_open diskname d = (-1, d) := by
  unfold block_disk_open
  rw [if_pos h]

theorem fs_mount_ok (junk : FS) (diskname : String) (s : State)
    (hclosed : s.disk.opened = false) (hname : diskname = s.disk.diskname) :
    (fs_mount junk diskname s).1 = 0 ∧ is_mounted (fs_mount junk diskname s).2 = true ∧
    (fs_mount junk diskname s).2.disk = { s.disk with opened := true } := by
  unfold fs_mount
  simp only [block_disk_open_ok diskname s.disk hclosed hname]
  rw [if_neg (by decide)]
  refine ⟨rfl, ?_, rfl⟩
  rw [is_mounted_iff]
  exact ⟨rfl, rfl⟩

theorem fs_mount_fail (junk : FS) (diskname : String) (s : State)
    (h : s.disk.opened = true ∨ diskname ≠ s.disk.diskname) :
    fs_mount junk diskname s = (-1, { disk := s.disk, fs := fs_init junk }) := by
  unfold fs_mount
  simp only [block_disk_open_fail diskname s.disk h]
  exact if_pos trivial

theorem fs_init_not_mounted (junk : FS) (d : BlockDev) :
    is_mounted { disk := d, fs := fs_init junk } = false := by
  unfold is_mounted fs_init
  simp

/-- C17 (amended). `fs_mount` does not validate the image: for every disk that
the device can open (not yet opened, and named by `diskname`) it returns 0 and
the file system is mounted afterwards, whatever the signature and the block
count in block 0; it returns -1, with no file system mounted afterwards, when
the device cannot open the disk. -/
theorem fs_mount_without_validation (junk : FS) (diskname : String) (s : State) :
    (s.disk.opened = false → diskname = s.disk.diskname →
      (fs_mount junk diskname s).1 = 0 ∧ is_mounted (fs_mount junk diskname s).2 = true) ∧
    (s.disk.opened = true ∨ diskname ≠ s.disk.diskname →
      (fs_mount junk diskname s).1 = -1 ∧ is_mounted (fs_mount junk diskname s).2 = false) := by
  constructor
  · intro hclosed hname
    exact ⟨(fs_mount_ok junk diskname s hclosed hname).1,
      (fs_mount_ok junk diskname s hclosed hname).2.1⟩
  · intro h
    rw [fs_mount_fail junk diskname s h]
    exact ⟨rfl, fs_init_not_mounted _ _⟩

theorem fs_mount_without_validation_witness :
    (fs_mount small_state.fs "disk.fs" { disk := small_disk, fs := small_state.fs }).1 = 0 ∧
    is_mounted (fs_mount small_state.fs "disk.fs"
      { disk := small_disk, fs := small_state.fs }).2 = true ∧
    (fs_mount small_state.fs "other.fs" { disk := small_disk, fs := small_state.fs }).1 = -1 :=
  ⟨((fs_mount_without_validation small_state.fs "disk.fs"
      { disk := small_disk, fs := small_state.fs }).1 rfl rfl).1,
    ((fs_mount_without_validation small_state.fs "disk.fs"
      { disk := small_disk, fs := small_state.fs }).1 rfl rfl).2,
    ((fs_mount_without_validation small_state.fs "other.fs"
      { disk := small_disk, fs := small_state.fs }).2 (Or.inr (by decide))).1⟩

set_option maxRecDepth 20000 in
/-- C17, counterexample: the all-zero disk of seven blocks has neither the
signature "ECS150FS" in its first eight bytes nor the device's block count 7
in its superblock (it announces 0), and `fs_mount` returns 0 on it and leaves
the file system mounted. -/
theorem fs_mount_accepts_zero_disk :
    (zero_disk.blocks.headD []).take SIGNATURE_LENGTH ≠ small_superblock.signature ∧
    (superblock_of_bytes (zero_disk.blocks.headD [])).block_count = 0 ∧
    zero_disk.blocks.length = 7 ∧
    (fs_mount small_state.fs "disk.fs" { disk := zero_disk, fs := small_state.fs }).1 = 0 ∧
    is_mounted (fs_mount small_state.fs "disk.fs"
      { disk := zero_disk, fs := small_state.fs }).2 = true :=
  ⟨by decide, by decide, by decide,
    (fs_mount_ok small_state.fs "disk.fs" { disk := zero_disk, fs := small_state.fs } rfl rfl).1,
    (fs_mount_ok small_state.fs "disk.fs" { disk := zero_disk, fs := small_state.fs } rfl rfl).2.1⟩

set_option maxRecDepth 20000 in
/-- C18, at the failing input: a second `fs_mount` on the mounted small disk
returns -1, but `fs_init` has already replaced the object behind the global
pointer: afterwards no file system is mounted, `fs_create` and `fs_open`
return -1, and `fs_umount` returns -1 although the device is still open. -/
theorem second_mount_unmounts :
    is_mounted small_state = true ∧
    (fs_mount small_state.fs "disk.fs" small_state).1 = -1 ∧
    is_mounted (fs_mount small_state.fs "disk.fs" small_state).2 = false ∧
    (fs_mount small_state.fs "disk.fs" small_state).2.disk.opened = true ∧
    fs_create (fs_mount small_state.fs "disk.fs" small_state).2 [122] =
      some (-1, (fs_mount small_state.fs "disk.fs" small_state).2) ∧
    fs_open (fs_mount small_state.fs "disk.fs" small_state).2 [122] =
      some (-1, (fs_mount small_state.fs "disk.fs" small_state).2) ∧
    (fs_umount (fs_mount small_state.fs "disk.fs" small_state).2).1 = -1 ∧
    fs_create small_state [122] = some (0, create_at small_state [122] 0) := by
  have h := fs_mount_fail small_state.fs "disk.fs" small_state (Or.inl rfl)
  have hnm : is_mounted (fs_mount small_state.fs "disk.fs" small_state).2 = false := by
    rw [h]; exact fs_init_not_mounted _ _
  have hn : ¬ is_mounted (fs_mount small_state.fs "disk.fs" small_state).2 = true := by
    simp [hnm]
  refine ⟨by decide, by rw [h], hnm, by rw [h]; rfl, ?_, ?_, ?_, ?_⟩
  · unfold fs_create; rw [if_pos hn]
  · unfold fs_open; rw [if_pos hn]
  · unfold fs_umount; rw [if_pos hn]
  · exact fs_create_eq small_state [122] 0 (by decide) (by decide) (by decide) (by decide)
      (by decide) (by decide) (by decide) (by decide)

set_option maxRecDepth 20000 in
/-- C19, at the failing input: with the root directory placed in block 9 of the
7-block disk the write of the directory fails (`fs_save_rootDir` returns -1),
yet `fs_umount` returns 0: its tests `!fs_save_...(fs) == -1` compare 0 or 1
with -1 and never hold. -/
theorem fs_umount_ignores_write_failure :
    is_mounted bad_root_state = true ∧
    (block_write bad_root_state.disk bad_root_state.fs.superblock.root_block_idx
      (files_bytes bad_root_state.fs.rootDir.files)).1 = -1 ∧
    (fs_save_rootDir (fs_save_superblock bad_root_state).2).1 = -1 ∧
    lnot (fs_save_rootDir (fs_save_superblock bad_root_state).2).1 ≠ -1 ∧
    (fs_umount bad_root_state).1 = 0 := by
  have hlen : ∀ (d : BlockDev) i b, ¬ i < d.blocks.length → (block_write d i b).1 = -1 := by
    intro d i b h
    unfold block_write
    rw [if_neg (fun hc => h hc.2)]
  have h1 : (fs_save_rootDir (fs_save_superblock bad_root_state).2).1 = -1 := by
    unfold fs_save_rootDir
    simp only []
    rw [if_pos]
    apply hlen
    unfold fs_save_superblock
    simp only []
    split <;> simp only [block_write_length] <;> decide
  refine ⟨by decide, hlen _ _ _ (by decide), h1, lnot_ne _, ?_⟩
  have hop : (fs_save_FAT (fs_save_rootDir (fs_save_superblock bad_root_state).2).2).2.disk.opened
      = true := by
    rw [fs_save_FAT_opened, fs_save_rootDir_opened]
    unfold fs_save_superblock
    simp only []
    split <;> simp only [block_write_opened] <;> rfl
  have hc : (block_disk_close
      (fs_save_FAT (fs_save_rootDir (fs_save_superblock bad_root_state).2).2).2.disk).1 = 0 := by
    unfold block_disk_close
    rw [if_pos hop]
  unfold fs_umount
  rw [if_neg (by decide)]
  simp only []
  rw [if_neg (lnot_ne _), if_neg (lnot_ne _), if_neg (lnot_ne _), if_neg (by rw [hc]; decide)]

/-! ### Writing: the search for a free block -/

theorem fs_find_open_loop_found (blocks : List Nat) (k : Nat) (hk : k < blocks.length)
    (hzero : blocks[k]? = some 0) (hlow : ∀ j, j < k → blocks[j]? ≠ some 0) :
    ∀ n i, i ≤ k → k < i + n → fs_find_open_data_block_loop blocks n i = some (k : Int) := by
  intro n
  induction n with
  | zero => intro i h1 h2; omega
  | succ n ih =>
    intro i h1 h2
    unfold fs_find_open_data_block_loop
    have hi : i < blocks.length := by omega
    rw [List.getElem?_eq_getElem hi]
    simp only []
    by_cases hik : i = k
    · subst hik
      rw [List.getElem?_eq_getElem hi] at hzero
      simp only [Option.some.injEq] at hzero
      rw [if_pos hzero]
    · have := hlow i (by omega)
      rw [List.getElem?_eq_getElem hi] at this
      rw [if_neg (fun h => this (by rw [h])), ih (i + 1) (by omega) (by omega)]

theorem fs_find_open_loop_none (blocks : List Nat) :
    ∀ n i, i + n ≤ blocks.length → (∀ j, i ≤ j → j < i + n → blocks[j]? ≠ some 0) →
      fs_find_open_data_block_loop blocks n i = some (-1) := by
  intro n
  induction n with
  | zero => intro i _ _; rfl
  | succ n ih =>
    intro i h1 h2
    unfold fs_find_open_data_block_loop
    have hi : i < blocks.length := by omega
    rw [List.getElem?_eq_getElem hi]
    simp only []
    have := h2 i (Nat.le_refl _) (by omega)
    rw [List.getElem?_eq_getElem hi] at this
    rw [if_neg (fun h => this (by rw [h]))]
    exact ih (i + 1) (by omega) (fun j hj1 hj2 => h2 j (by omega) (by omega))

theorem first_free_block_spec (fs : FS) (hlen : fs.superblock.amt_data_blocks ≤ fs.FAT.blocks.length)
    (h : 0 < free_blocks fs) :
    first_free_block fs < fs.superblock.amt_data_blocks ∧
    fs.FAT.blocks[first_free_block fs]? = some 0 ∧
    ∀ j, j < first_free_block fs → fs.FAT.blocks[j]? ≠ some 0 := by
  have hl : (fs.FAT.blocks.take fs.superblock.amt_data_blocks).length =
      fs.superblock.amt_data_blocks := by
    rw [List.length_take]; omega
  have hlt : first_free_block fs < (fs.FAT.blocks.take fs.superblock.amt_data_blocks).length := by
    unfold first_free_block
    rw [List.findIdx_lt_length]
    unfold free_blocks at h
    rw [List.countP_pos_iff] at h
    exact h
  have hlt' : first_free_block fs < fs.superblock.amt_data_blocks := by omega
  refine ⟨hlt', ?_, ?_⟩
  · have := List.findIdx_getElem (w := hlt)
    have h2 : (fs.FAT.blocks.take fs.superblock.amt_data_blocks)[first_free_block fs]? =
        some 0 := by
      rw [List.getElem?_eq_getElem hlt]
      simpa [first_free_block] using this
    rw [List.getElem?_take, if_pos hlt'] at h2
    exact h2
  · intro j hj
    have hj' : j < (fs.FAT.blocks.take fs.superblock.amt_data_blocks).length := by omega
    have := List.not_of_lt_findIdx hj
    intro hcon
    have h2 : (fs.FAT.blocks.take fs.superblock.amt_data_blocks)[j]? = some 0 := by
      rw [List.getElem?_take, if_pos (by omega)]
      exact hcon
    rw [List.getElem?_eq_getElem hj'] at h2
    simp only [Option.some.injEq] at h2
    rw [h2] at this
    simp at this

theorem free_blocks_zero (fs : FS) (h : free_blocks fs = 0) :
    ∀ j, j < fs.superblock.amt_data_blocks → fs.FAT.blocks[j]? ≠ some 0 := by
  intro j hj hcon
  unfold free_blocks at h
  rw [List.countP_eq_zero] at h
  have hm : (0 : Nat) ∈ fs.FAT.blocks.take fs.superblock.amt_data_blocks := by
    rw [List.mem_iff_getElem?]
    exact ⟨j, by rw [List.getElem?_take, if_pos hj]; exact hcon⟩
  exact h 0 hm (by simp)

theorem fs_find_open_found (fs : FS)
    (hlen : fs.superblock.amt_data_blocks ≤ fs.FAT.blocks.length)
    (htaken : fs.FAT.num_blocks_taken < fs.superblock.amt_data_blocks)
    (h : 0 < free_blocks fs) :
    fs_find_open_data_block fs = some ((first_free_block fs : Nat) : Int) := by
  obtain ⟨h1, h2, h3⟩ := first_free_block_spec fs hlen h
  unfold fs_find_open_data_block
  rw [if_neg (by omega)]
  exact fs_find_open_loop_found fs.FAT.blocks _ (by omega) h2 h3 _ 0 (Nat.zero_le _) (by omega)

theorem fs_find_open_none (fs : FS)
    (hlen : fs.superblock.amt_data_blocks ≤ fs.FAT.blocks.length)
    (h : free_blocks fs = 0 ∨ fs.superblock.amt_data_blocks ≤ fs.FAT.num_blocks_taken) :
    fs_find_open_data_block fs = some (-1) := by
  unfold fs_find_open_data_block
  by_cases ht : fs.FAT.num_blocks_taken ≥ fs.superblock.amt_data_blocks
  · rw [if_pos ht]
  · rw [if_neg ht]
    rcases h with h | h
    · exact fs_find_open_loop_none fs.FAT.blocks _ 0 (by omega)
        (fun j _ hj => free_blocks_zero fs h j (by omega))
    · omega

/-! ### Writing: one pass of the loop -/

theorem assign_of_deref (fs : FS) (p : BlockIdxPtr) (v w : Nat) (h : p.deref fs = some v) :
    ∃ fs1, p.assign fs w = some fs1 ∧ fs1.FAT.blocks.length = fs.FAT.blocks.length ∧
      fs1.superblock = fs.superblock ∧ fs1.open_files = fs.open_files ∧
      fs1.num_open_files = fs.num_open_files ∧ fs1.is_mounted = fs.is_mounted ∧
      fs1.FAT.num_blocks_taken = fs.FAT.num_blocks_taken := by
  cases p with
  | first_block_idx file_num =>
    simp only [BlockIdxPtr.deref] at h
    simp only [BlockIdxPtr.assign]
    cases hf : fs.rootDir.files[file_num]? with
    | none => rw [hf] at h; exact Option.noConfusion h
    | some f => exact ⟨_, rfl, rfl, rfl, rfl, rfl, rfl, rfl⟩
  | FAT_entry i =>
    simp only [BlockIdxPtr.deref] at h
    simp only [BlockIdxPtr.assign]
    have hi := getElem?_lt _ _ _ h
    rw [if_pos hi]
    exact ⟨_, rfl, by simp, rfl, rfl, rfl, rfl, rfl⟩

theorem to_size_t_block (ob : Nat) (h : ob < 2 ^ 16) :
    to_size_t (ob : Int) = ob ∧ to_size_t (ob : Int) ≠ to_size_t (-1) := by
  rw [to_size_t_nat ob (by omega), to_size_t_neg_one]
  omega

theorem fs_write_allocate_ok (s : State) (bytes_written : Nat) (p : BlockIdxPtr) (v : Nat)
    (hD : s.fs.superblock.amt_data_blocks < 2 ^ 16)
    (hlen : s.fs.superblock.amt_data_blocks ≤ s.fs.FAT.blocks.length)
    (htaken : s.fs.FAT.num_blocks_taken < s.fs.superblock.amt_data_blocks)
    (hfree : 0 < free_blocks s.fs) (hp : p.deref s.fs = some v) :
    fs_write_allocate s bytes_written p =
      some (.next (alloc_state s p (first_free_block s.fs))) := by
  obtain ⟨h1, _, _⟩ := first_free_block_spec s.fs hlen hfree
  obtain ⟨fs1, ha, hl, _⟩ := assign_of_deref s.fs p v (first_free_block s.fs) hp
  have hob := to_size_t_block (first_free_block s.fs) (by omega)
  unfold fs_write_allocate alloc_state
  rw [fs_find_open_found s.fs hlen htaken hfree]
  simp only []
  rw [if_neg hob.2, hob.1, ha]
  simp only []
  rw [if_pos (by omega), if_neg (lnot_ne _)]

theorem fs_write_allocate_full (s : State) (bytes_written : Nat) (p : BlockIdxPtr)
    (hlen : s.fs.superblock.amt_data_blocks ≤ s.fs.FAT.blocks.length)
    (h : free_blocks s.fs = 0 ∨ s.fs.superblock.amt_data_blocks ≤ s.fs.FAT.num_blocks_taken) :
    fs_write_allocate s bytes_written p = some (.ret (to_int bytes_written) s) := by
  unfold fs_write_allocate
  rw [fs_find_open_none s.fs hlen h]
  simp only []
  exact if_pos trivial

theorem chunk_size (count bytes_written : Nat) (hcount : count < 2 ^ 31)
    (hbw : bytes_written < count) :
    to_size_t (min (to_int (size_sub count bytes_written)) (BLOCK_SIZE : Int)) =
      Min.min (count - bytes_written) 4096 := by
  rw [size_sub_le count bytes_written (by omega) (by omega)]
  have := c_min_nat (count - bytes_written) 4096 (by omega) (by omega)
  rw [to_int_small 4096 (by omega)] at this
  exact this

theorem fs_write_loop_pass (file_num : Nat) (buf : List Nat) (count fuel : Nat) (s s1 : State)
    (bytes_written : Nat) (p : BlockIdxPtr) (block_p : List Nat) (cur block_idx : Nat)
    (old : List Nat) (f : file)
    (hcount : count < 2 ^ 31) (hbuf : count ≤ buf.length) (hbw : bytes_written < count)
    (hcur : p.deref s.fs = some cur)
    (hs1 : (if cur = FAT_EOC then fs_write_allocate s bytes_written p else some (.next s)) =
      some (.next s1))
    (hidx : p.deref s1.fs = some block_idx)
    (hopen : s1.disk.opened = true)
    (hold : s1.disk.blocks[s1.fs.superblock.data_block_start_idx + block_idx]? = some old)
    (holdlen : old.length = 4096) (hblk : block_p.length = 4096)
    (hf : s1.fs.rootDir.files[file_num]? = some f) :
    fs_write_loop file_num buf count (fuel + 1) s bytes_written p block_p =
      fs_write_loop file_num buf count fuel
        (write_data s1 file_num block_idx
          ((buf.drop bytes_written).take (Min.min (count - bytes_written) 4096) ++
            (if Min.min (count - bytes_written) 4096 < 4096 then old else block_p).drop
              (Min.min (count - bytes_written) 4096))
          (bytes_written + Min.min (count - bytes_written) 4096))
        (bytes_written + Min.min (count - bytes_written) 4096) (.FAT_entry block_idx)
        ((buf.drop bytes_written).take (Min.min (count - bytes_written) 4096) ++
            (if Min.min (count - bytes_written) 4096 < 4096 then old else block_p).drop
              (Min.min (count - bytes_written) 4096)) := by
  have hn := chunk_size count bytes_written hcount hbw
  generalize Min.min (count - bytes_written) 4096 = n at hn ⊢
  have hn4 : n ≤ 4096 := by
    have := chunk_size count bytes_written hcount hbw
    rw [hn] at this
    omega
  have hnc : bytes_written + n ≤ count := by
    have := chunk_size count bytes_written hcount hbw
    rw [hn] at this
    omega
  have hrd : (block_read s1.disk (s1.fs.superblock.data_block_start_idx + block_idx) block_p).2 =
      old := by
    unfold block_read
    rw [if_pos hopen, hold]
  rw [fs_write_loop]
  rw [if_neg (by omega), hcur]
  simp only []
  rw [hs1]
  simp only []
  rw [hidx]
  simp only []
  rw [hn, hrd]
  have hsa : size_add bytes_written n = bytes_written + n := size_add_small _ _ (by omega)
  have hlen2 : n ≤ (if n < BLOCK_SIZE then old else block_p).length := by
    split
    · omega
    · omega
  rw [if_pos ⟨hlen2, by omega⟩, hsa]
  unfold write_data
  simp only []
  rw [hf]
  simp only []
  by_cases hgt : bytes_written + n > f.file_size
  · rw [if_pos hgt, if_pos hgt, if_neg (lnot_ne _)]
  · rw [if_neg hgt, if_neg hgt]

/-! ### Writing: the effect of one pass on the state -/

theorem block_write_get_ne (d : BlockDev) (i j : Nat) (b : List Nat) (h : j ≠ i) :
    (block_write d i b).2.blocks[j]? = d.blocks[j]? := by
  unfold block_write
  split
  · exact List.getElem?_set_ne (Ne.symm h)
  · rfl

theorem block_write_get_self (d : BlockDev) (i : Nat) (b : List Nat) (ho : d.opened = true)
    (h : i < d.blocks.length) : (block_write d i b).2.blocks[i]? = some b := by
  unfold block_write
  rw [if_pos ⟨ho, h⟩]
  exact List.getElem?_set_self h

theorem fs_save_rootDir_disk (s : State) :
    (fs_save_rootDir s).2.disk =
      (block_write s.disk s.fs.superblock.root_block_idx (files_bytes s.fs.rootDir.files)).2 := by
  unfold fs_save_rootDir; simp only []; split <;> rfl

theorem fs_save_FAT_loop_get (blocks : List Nat) :
    ∀ n i d j, (j < FAT_START_IDX + i ∨ FAT_START_IDX + i + n ≤ j) →
      (fs_save_FAT_loop blocks n i d).blocks[j]? = d.blocks[j]? := by
  intro n
  induction n with
  | zero => intro i d j _; rfl
  | succ n ih =>
    intro i d j hj
    unfold fs_save_FAT_loop
    simp only []
    rw [ih (i + 1) _ j (by omega), block_write_get_ne _ _ _ _ (by omega)]

theorem fs_save_FAT_loop_length (blocks : List Nat) :
    ∀ n i d, (fs_save_FAT_loop blocks n i d).blocks.length = d.blocks.length := by
  intro n
  induction n with
  | zero => intro i d; rfl
  | succ n ih =>
    intro i d
    unfold fs_save_FAT_loop
    simp only []
    rw [ih, block_write_length]

theorem write_data_fs (s : State) (file_num block_idx : Nat) (block_p2 : List Nat)
    (bytes_written1 : Nat) (f : file) (hf : s.fs.rootDir.files[file_num]? = some f) :
    (write_data s file_num block_idx block_p2 bytes_written1).fs =
      if bytes_written1 > f.file_size then
        { s.fs with rootDir := { s.fs.rootDir with
            files := s.fs.rootDir.files.set file_num
              { f with file_size := bytes_written1 % 2 ^ 32 } } }
      else s.fs := by
  unfold write_data
  simp only []
  rw [hf]
  simp only []
  split
  · rw [fs_save_rootDir_fs]
  · rfl

theorem write_data_opened (s : State) (file_num block_idx : Nat) (block_p2 : List Nat)
    (bytes_written1 : Nat) :
    (write_data s file_num block_idx block_p2 bytes_written1).disk.opened = s.disk.opened := by
  unfold write_data
  simp only []
  split
  · exact block_write_opened _ _ _
  · split
    · rw [fs_save_rootDir_opened]
      exact block_write_opened _ _ _
    · exact block_write_opened _ _ _

theorem write_data_length (s : State) (file_num block_idx : Nat) (block_p2 : List Nat)
    (bytes_written1 : Nat) :
    (write_data s file_num block_idx block_p2 bytes_written1).disk.blocks.length =
      s.disk.blocks.length := by
  unfold write_data
  simp only []
  split
  · exact block_write_length _ _ _
  · split
    · rw [fs_save_rootDir_disk, block_write_length]
      exact block_write_length _ _ _
    · exact block_write_length _ _ _

theorem write_data_get (s : State) (file_num block_idx : Nat) (block_p2 : List Nat)
    (bytes_written1 : Nat) (j : Nat) (hj : j ≠ s.fs.superblock.root_block_idx) :
    (write_data s file_num block_idx block_p2 bytes_written1).disk.blocks[j]? =
      (block_write s.disk (s.fs.superblock.data_block_start_idx + block_idx)
        block_p2).2.blocks[j]? := by
  unfold write_data
  simp only []
  split
  · rfl
  · split
    · rw [fs_save_rootDir_disk]
      exact block_write_get_ne _ _ _ _ hj
    · rfl

theorem write_data_superblock (s : State) (file_num block_idx : Nat) (block_p2 : List Nat)
    (bytes_written1 : Nat) :
    (write_data s file_num block_idx block_p2 bytes_written1).fs.superblock = s.fs.superblock ∧
    (write_data s file_num block_idx block_p2 bytes_written1).fs.FAT = s.fs.FAT ∧
    (write_data s file_num block_idx block_p2 bytes_written1).fs.open_files = s.fs.open_files ∧
    (write_data s file_num block_idx block_p2 bytes_written1).fs.num_open_files =
      s.fs.num_open_files ∧
    (write_data s file_num block_idx block_p2 bytes_written1).fs.is_mounted = s.fs.is_mounted ∧
    (write_data s file_num block_idx block_p2 bytes_written1).fs.rootDir.num_files =
      s.fs.rootDir.num_files := by
  unfold write_data
  simp only []
  split
  · exact ⟨rfl, rfl, rfl, rfl, rfl, rfl⟩
  · split
    · rw [fs_save_rootDir_fs]
      exact ⟨rfl, rfl, rfl, rfl, rfl, rfl⟩
    · exact ⟨rfl, rfl, rfl, rfl, rfl, rfl⟩

theorem write_data_block (s : State) (file_num block_idx : Nat) (block_p2 : List Nat)
    (bytes_written1 : Nat) (b : Nat) (ho : s.disk.opened = true)
    (hroot : s.fs.superblock.root_block_idx < s.fs.superblock.data_block_start_idx)
    (hidx : s.fs.superblock.data_block_start_idx + block_idx < s.disk.blocks.length) :
    block_data (write_data s file_num block_idx block_p2 bytes_written1) b =
      if b = block_idx then block_p2 else block_data s b := by
  unfold block_data
  rw [List.getD_eq_getElem?_getD, (write_data_superblock s _ _ _ _).1,
    write_data_get s _ _ _ _ _ (by omega)]
  by_cases hb : b = block_idx
  · subst hb
    rw [if_pos rfl, block_write_get_self _ _ _ ho hidx]
    rfl
  · rw [if_neg hb, block_write_get_ne _ _ _ _ (by omega), List.getD_eq_getElem?_getD]

theorem write_data_files (s : State) (file_num block_idx : Nat) (block_p2 : List Nat)
    (bytes_written1 : Nat) (f : file) (hf : s.fs.rootDir.files[file_num]? = some f)
    (hlt : bytes_written1 < 2 ^ 32) :
    (∀ i, i ≠ file_num →
      (write_data s file_num block_idx block_p2 bytes_written1).fs.rootDir.files[i]? =
        s.fs.rootDir.files[i]?) ∧
    (write_data s file_num block_idx block_p2 bytes_written1).fs.rootDir.files[file_num]? =
      some { f with file_size := Max.max f.file_size bytes_written1 } := by
  have hlen := getElem?_lt _ _ _ hf
  rw [write_data_fs s _ _ _ _ f hf]
  by_cases hgt : bytes_written1 > f.file_size
  · rw [if_pos hgt]
    refine ⟨fun i hi => List.getElem?_set_ne (Ne.symm hi), ?_⟩
    show (s.fs.rootDir.files.set file_num _)[file_num]? = _
    rw [List.getElem?_set_self hlen, Nat.mod_eq_of_lt hlt, Nat.max_eq_right (by omega)]
  · rw [if_neg hgt]
    refine ⟨fun i _ => rfl, ?_⟩
    rw [hf, Nat.max_eq_left (by omega)]

theorem geometry_ok_of (s s' : State) (hg : geometry_ok s)
    (hsb : s'.fs.superblock = s.fs.superblock)
    (hlen : s'.fs.FAT.blocks.length = s.fs.FAT.blocks.length)
    (hdata : ∀ b, b < s.fs.superblock.amt_data_blocks →
      (block_data s' b).length = BLOCK_SIZE ∧
        s.fs.superblock.data_block_start_idx + b < s'.disk.blocks.length) :
    geometry_ok s' := by
  unfold geometry_ok
  rw [hsb, hlen]
  refine ⟨hg.1, hg.2.1, hg.2.2.1, hg.2.2.2.1, ?_⟩
  intro b hb
  obtain ⟨h1, h2⟩ := hdata b hb
  refine ⟨block_data s' b, ?_, h1⟩
  unfold block_data
  rw [hsb, List.getD_eq_getElem?_getD, List.getElem?_eq_getElem h2]
  rfl

theorem geometry_lt (s : State) (hg : geometry_ok s) (b : Nat)
    (hb : b < s.fs.superblock.amt_data_blocks) :
    s.fs.superblock.data_block_start_idx + b < s.disk.blocks.length :=
  getElem?_lt _ _ _ (block_data_of_geometry s hg b hb).1

theorem write_data_geometry (s : State) (file_num block_idx : Nat) (block_p2 : List Nat)
    (bytes_written1 : Nat) (ho : s.disk.opened = true) (hg : geometry_ok s)
    (hidx : block_idx < s.fs.superblock.amt_data_blocks) (hlen : block_p2.length = BLOCK_SIZE) :
    geometry_ok (write_data s file_num block_idx block_p2 bytes_written1) := by
  apply geometry_ok_of s _ hg (write_data_superblock s _ _ _ _).1
  · rw [(write_data_superblock s _ _ _ _).2.1]
  · intro b hb
    rw [write_data_block s _ _ _ _ b ho hg.2.1 (geometry_lt s hg _ hidx), write_data_length]
    refine ⟨?_, geometry_lt s hg b hb⟩
    split
    · exact hlen
    · exact (block_data_of_geometry s hg b hb).2

theorem alloc_state_frame (s : State) (p : BlockIdxPtr) (ob : Nat) :
    (alloc_state s p ob).fs.superblock = s.fs.superblock ∧
    (alloc_state s p ob).fs.open_files = s.fs.open_files ∧
    (alloc_state s p ob).fs.num_open_files = s.fs.num_open_files ∧
    (alloc_state s p ob).fs.is_mounted = s.fs.is_mounted ∧
    (alloc_state s p ob).fs.rootDir.num_files = s.fs.rootDir.num_files ∧
    (alloc_state s p ob).fs.FAT.blocks.length = s.fs.FAT.blocks.length ∧
    (alloc_state s p ob).disk.opened = s.disk.opened ∧
    (alloc_state s p ob).disk.blocks.length = s.disk.blocks.length := by
  unfold alloc_state
  cases p with
  | first_block_idx fn =>
    simp only [BlockIdxPtr.assign]
    cases s.fs.rootDir.files[fn]? with
    | none => exact ⟨rfl, rfl, rfl, rfl, rfl, rfl, rfl, rfl⟩
    | some f =>
      refine ⟨rfl, rfl, rfl, rfl, rfl, ?_, fs_save_FAT_opened _, fs_save_FAT_loop_length _ _ _ _⟩
      show (s.fs.FAT.blocks.set ob FAT_EOC).length = _
      rw [List.length_set]
  | FAT_entry last =>
    simp only [BlockIdxPtr.assign]
    by_cases hl : last < s.fs.FAT.blocks.length
    · rw [if_pos hl]
      refine ⟨rfl, rfl, rfl, rfl, rfl, ?_, fs_save_FAT_opened _, fs_save_FAT_loop_length _ _ _ _⟩
      show ((s.fs.FAT.blocks.set last (ob % 2 ^ 16)).set ob FAT_EOC).length = _
      rw [List.length_set, List.length_set]
    · rw [if_neg hl]
      exact ⟨rfl, rfl, rfl, rfl, rfl, rfl, rfl, rfl⟩

theorem alloc_state_get (s : State) (p : BlockIdxPtr) (ob : Nat) (j : Nat)
    (hj : s.fs.superblock.num_blocks_for_FAT < j) :
    (alloc_state s p ob).disk.blocks[j]? = s.disk.blocks[j]? := by
  unfold alloc_state
  cases p with
  | first_block_idx fn =>
    simp only [BlockIdxPtr.assign]
    cases s.fs.rootDir.files[fn]? with
    | none => rfl
    | some f =>
      exact fs_save_FAT_loop_get _ _ _ _ _ (Or.inr (by show 1 + 0 + s.fs.superblock.num_blocks_for_FAT ≤ j; omega))
  | FAT_entry last =>
    simp only [BlockIdxPtr.assign]
    by_cases hl : last < s.fs.FAT.blocks.length
    · rw [if_pos hl]
      exact fs_save_FAT_loop_get _ _ _ _ _ (Or.inr (by show 1 + 0 + s.fs.superblock.num_blocks_for_FAT ≤ j; omega))
    · rw [if_neg hl]

theorem alloc_state_block (s : State) (p : BlockIdxPtr) (ob : Nat) (b : Nat)
    (hF : s.fs.superblock.num_blocks_for_FAT < s.fs.superblock.data_block_start_idx) :
    block_data (alloc_state s p ob) b = block_data s b := by
  unfold block_data
  rw [List.getD_eq_getElem?_getD, List.getD_eq_getElem?_getD, (alloc_state_frame s p ob).1,
    alloc_state_get s p ob _ (by omega)]

theorem alloc_state_geometry (s : State) (p : BlockIdxPtr) (ob : Nat) (hg : geometry_ok s) :
    geometry_ok (alloc_state s p ob) := by
  apply geometry_ok_of s _ hg (alloc_state_frame s p ob).1 (alloc_state_frame s p ob).2.2.2.2.2.1
  intro b hb
  rw [alloc_state_block s p ob b hg.1, (alloc_state_frame s p ob).2.2.2.2.2.2.2]
  exact ⟨(block_data_of_geometry s hg b hb).2, geometry_lt s hg b hb⟩

theorem alloc_state_FAT (s : State) (p : BlockIdxPtr) (ob v : Nat)
    (hp : p.deref s.fs = some v) :
    (alloc_state s p ob).fs.FAT.blocks =
      (match p with
        | .FAT_entry last => s.fs.FAT.blocks.set last (ob % 2 ^ 16)
        | .first_block_idx _ => s.fs.FAT.blocks).set ob FAT_EOC ∧
    (alloc_state s p ob).fs.FAT.num_blocks_taken = size_add s.fs.FAT.num_blocks_taken 1 := by
  unfold alloc_state
  cases p with
  | first_block_idx fn =>
    simp only [BlockIdxPtr.deref] at hp
    simp only [BlockIdxPtr.assign]
    cases hf : s.fs.rootDir.files[fn]? with
    | none => rw [hf] at hp; exact Option.noConfusion hp
    | some f => exact ⟨rfl, rfl⟩
  | FAT_entry last =>
    simp only [BlockIdxPtr.deref] at hp
    simp only [BlockIdxPtr.assign]
    rw [if_pos (getElem?_lt _ _ _ hp)]
    exact ⟨rfl, rfl⟩

theorem alloc_state_files (s : State) (p : BlockIdxPtr) (ob v : Nat)
    (hp : p.deref s.fs = some v) :
    (alloc_state s p ob).fs.rootDir.files =
      match p with
      | .FAT_entry _ => s.fs.rootDir.files
      | .first_block_idx fn =>
        s.fs.rootDir.files.set fn
          { (s.fs.rootDir.files.getD fn zero_file) with first_block_idx := ob % 2 ^ 16 } := by
  unfold alloc_state
  cases p with
  | first_block_idx fn =>
    simp only [BlockIdxPtr.deref] at hp
    simp only [BlockIdxPtr.assign]
    cases hf : s.fs.rootDir.files[fn]? with
    | none => rw [hf] at hp; exact Option.noConfusion hp
    | some f =>
      show s.fs.rootDir.files.set fn _ = _
      rw [List.getD_eq_getElem?_getD, hf]
      rfl
  | FAT_entry last =>
    simp only [BlockIdxPtr.deref] at hp
    simp only [BlockIdxPtr.assign]
    rw [if_pos (getElem?_lt _ _ _ hp)]
    rfl

theorem countP_take_set_keep (l : List Nat) (d i a : Nat) (hold : l[i]? ≠ some 0)
    (ha : a ≠ 0) :
    ((l.set i a).take d).countP (fun v => v == 0) = (l.take d).countP (fun v => v == 0) := by
  rw [List.set_take]
  by_cases hi : i < (l.take d).length
  · rw [List.countP_set _ _ _ _ hi]
    have hil : i < l.length := by rw [List.length_take] at hi; omega
    have h1 : l[i] ≠ 0 := by
      intro hcon
      apply hold
      rw [List.getElem?_eq_getElem hil, hcon]
    simp [h1, ha]
  · rw [List.set_eq_of_length_le (by omega)]

theorem countP_take_set_zero (l : List Nat) (d i a : Nat) (hi : i < d) (hold : l[i]? = some 0)
    (ha : a ≠ 0) :
    ((l.set i a).take d).countP (fun v => v == 0) + 1 = (l.take d).countP (fun v => v == 0) := by
  have hil := getElem?_lt _ _ _ hold
  have hi' : i < (l.take d).length := by rw [List.length_take]; omega
  have h1 : (l.take d)[i] = 0 := by
    have := List.getElem?_eq_getElem hi'
    rw [List.getElem?_take, if_pos hi, hold] at this
    exact (Option.some.inj this).symm
  have hpos : 0 < (l.take d).countP (fun v => v == 0) := by
    rw [List.countP_pos_iff]
    exact ⟨0, by rw [← h1]; exact List.getElem_mem _, by simp⟩
  rw [List.set_take, List.countP_set _ _ _ _ hi']
  simp only [h1, beq_self_eq_true, if_true, beq_iff_eq, ha, if_false]
  omega

theorem alloc_state_spec (s : State) (p : BlockIdxPtr) (ob v : Nat)
    (hD : s.fs.superblock.amt_data_blocks < 2 ^ 16)
    (hp : p.deref s.fs = some v) (hob : s.fs.FAT.blocks[ob]? = some 0)
    (hobD : ob < s.fs.superblock.amt_data_blocks)
    (hlink : ∀ last, p = .FAT_entry last → v ≠ 0 ∧ ob ≠ 0) :
    p.deref (alloc_state s p ob).fs = some ob ∧
    (alloc_state s p ob).fs.FAT.blocks[ob]? = some FAT_EOC ∧
    (∀ i, i ≠ ob → p ≠ .FAT_entry i →
      (alloc_state s p ob).fs.FAT.blocks[i]? = s.fs.FAT.blocks[i]?) ∧
    (∀ i, (alloc_state s p ob).fs.FAT.blocks[i]? = some 0 →
      s.fs.FAT.blocks[i]? = some 0 ∧ i ≠ ob) ∧
    free_blocks (alloc_state s p ob).fs + 1 = free_blocks s.fs := by
  have hobl := getElem?_lt _ _ _ hob
  have hmod : ob % 2 ^ 16 = ob := Nat.mod_eq_of_lt (by omega)
  have hF := (alloc_state_FAT s p ob v hp).1
  have hfiles := alloc_state_files s p ob v hp
  have hsb := (alloc_state_frame s p ob).1
  cases p with
  | first_block_idx fn =>
    simp only [] at hF hfiles
    simp only [BlockIdxPtr.deref] at hp ⊢
    have hfn : fn < s.fs.rootDir.files.length := by
      cases hf : s.fs.rootDir.files[fn]? with
      | none => rw [hf] at hp; exact Option.noConfusion hp
      | some f => exact getElem?_lt _ _ _ hf
    refine ⟨?_, ?_, ?_, ?_, ?_⟩
    · rw [hfiles, List.getElem?_set_self hfn, hmod]
      rfl
    · rw [hF, List.getElem?_set_self hobl]
    · intro i hi _
      rw [hF, List.getElem?_set_ne (Ne.symm hi)]
    · intro i hi
      rw [hF] at hi
      by_cases hio : i = ob
      · subst hio
        rw [List.getElem?_set_self hobl] at hi
        exact absurd (Option.some.inj hi) (by decide)
      · rw [List.getElem?_set_ne (Ne.symm hio)] at hi
        exact ⟨hi, hio⟩
    · unfold free_blocks
      rw [hsb, hF]
      exact countP_take_set_zero _ _ ob FAT_EOC hobD hob (by decide)
  | FAT_entry last =>
    simp only [] at hF hfiles
    simp only [BlockIdxPtr.deref] at hp ⊢
    obtain ⟨hv, hob0⟩ := hlink last rfl
    have hll := getElem?_lt _ _ _ hp
    have hne : last ≠ ob := by
      intro h
      rw [h, hob] at hp
      exact hv (Option.some.inj hp).symm
    refine ⟨?_, ?_, ?_, ?_, ?_⟩
    · rw [hF, List.getElem?_set_ne (Ne.symm hne), List.getElem?_set_self hll, hmod]
    · rw [hF, List.getElem?_set_self (by rw [List.length_set]; exact hobl)]
    · intro i hi hpi
      have hil : i ≠ last := fun h => hpi (by rw [h])
      rw [hF, List.getElem?_set_ne (Ne.symm hi), List.getElem?_set_ne (Ne.symm hil)]
    · intro i hi
      rw [hF] at hi
      by_cases hio : i = ob
      · subst hio
        rw [List.getElem?_set_self (by rw [List.length_set]; exact hobl)] at hi
        exact absurd (Option.some.inj hi) (by decide)
      · rw [List.getElem?_set_ne (Ne.symm hio)] at hi
        by_cases hil : i = last
        · subst hil
          rw [List.getElem?_set_self hll, hmod] at hi
          exact absurd (Option.some.inj hi) hob0
        · rw [List.getElem?_set_ne (Ne.symm hil)] at hi
          exact ⟨hi, hio⟩
    · unfold free_blocks
      rw [hsb, hF]
      have h1 := countP_take_set_zero (s.fs.FAT.blocks.set last (ob % 2 ^ 16))
        s.fs.superblock.amt_data_blocks ob FAT_EOC hobD
        (by rw [List.getElem?_set_ne hne]; exact hob) (by decide)
      have h2 := countP_take_set_keep s.fs.FAT.blocks s.fs.superblock.amt_data_blocks last
        (ob % 2 ^ 16) (by rw [hp]; intro h; exact hv (Option.some.inj h))
        (by rw [hmod]; exact hob0)
      rw [h2] at h1
      exact h1

theorem alloc_state_entry (s : State) (p : BlockIdxPtr) (ob v : Nat) (file_num : Nat) (f : file)
    (hD : ob < 2 ^ 16)
    (hp : p.deref s.fs = some v) (hf : s.fs.rootDir.files[file_num]? = some f) :
    (∀ i, p ≠ .first_block_idx i →
      (alloc_state s p ob).fs.rootDir.files[i]? = s.fs.rootDir.files[i]?) ∧
    (p = .first_block_idx file_num →
      (alloc_state s p ob).fs.rootDir.files[file_num]? =
        some { f with first_block_idx := ob }) := by
  have hfiles := alloc_state_files s p ob v hp
  have hmod : ob % 2 ^ 16 = ob := Nat.mod_eq_of_lt hD
  cases p with
  | first_block_idx fn =>
    simp only [] at hfiles
    constructor
    · intro i hi
      have : fn ≠ i := fun h => hi (by rw [h])
      rw [hfiles, List.getElem?_set_ne this]
    · intro h
      cases h
      rw [hfiles, List.getElem?_set_self (getElem?_lt _ _ _ hf), List.getD_eq_getElem?_getD, hf,
        hmod]
      rfl
  | FAT_entry last =>
    simp only [] at hfiles
    constructor
    · intro i _
      rw [hfiles]
    · intro h
      exact BlockIdxPtr.noConfusion h

/-! ### Writing: the loop -/

theorem chunk_facts (count bw : Nat) (hbw : bw < count) :
    0 < Min.min (count - bw) 4096 ∧ Min.min (count - bw) 4096 ≤ 4096 ∧
    bw + Min.min (count - bw) 4096 ≤ count ∧
    (Min.min (count - bw) 4096 < 4096 → bw + Min.min (count - bw) 4096 = count) ∧
    (count - (bw + Min.min (count - bw) 4096) + 4095) / 4096 + 1 =
      (count - bw + 4095) / 4096 := by
  omega

theorem write_pre_pass (file_num : Nat) (buf : List Nat) (count : Nat) (s : State) (bw : Nat)
    (p : BlockIdxPtr) (x : Nat) (rest : List Nat) (f : file) (blk : List Nat) (n : Nat)
    (hn : n = Min.min (count - bw) 4096)
    (hcount : count < 2 ^ 31) (hbuf : count ≤ buf.length) (hbw : bw < count)
    (pre : write_pre file_num count s bw p (x :: rest) f blk) :
    write_pre file_num count
      (write_data s file_num x
        ((buf.drop bw).take n ++ (if n < 4096 then block_data s x else blk).drop n) (bw + n))
      (bw + n) (.FAT_entry x) rest { f with file_size := Max.max f.file_size (bw + n) }
      ((buf.drop bw).take n ++ (if n < 4096 then block_data s x else blk).drop n) := by
  obtain ⟨hn0, hn4, hnc, _, hN⟩ := chunk_facts count bw hbw
  rw [← hn] at hn0 hn4 hnc hN
  obtain ⟨v, hv, hch, hlast⟩ := pre.chain
  have hch' := hch
  unfold is_chain at hch'
  obtain ⟨hvx, hxe, hxl, hch2⟩ := hch'
  have hxD := (pre.rest_ok x (List.mem_cons_self _ _)).1
  have hx0 := (pre.rest_ok x (List.mem_cons_self _ _)).2
  have hbd := block_data_of_geometry s pre.geometry x hxD
  have hsb := write_data_superblock s file_num x
    ((buf.drop bw).take n ++ (if n < 4096 then block_data s x else blk).drop n) (bw + n)
  have hblk2 : ((buf.drop bw).take n ++
      (if n < 4096 then block_data s x else blk).drop n).length = 4096 := by
    have h1 : (block_data s x).length = 4096 := hbd.2
    have h2 := pre.scratch
    by_cases h : n < 4096
    · rw [if_pos h, List.length_append, List.length_take, List.length_drop, List.length_drop, h1]
      omega
    · rw [if_neg h, List.length_append, List.length_take, List.length_drop, List.length_drop, h2]
      omega
  have hfree : free_blocks (write_data s file_num x
      ((buf.drop bw).take n ++ (if n < 4096 then block_data s x else blk).drop n) (bw + n)).fs =
      free_blocks s.fs := by
    unfold free_blocks
    rw [hsb.1, hsb.2.1]
  have hfr := pre.free
  rw [List.length_cons] at hfr
  refine
    { opened := by rw [write_data_opened]; exact pre.opened
      geometry := write_data_geometry s _ _ _ _ pre.opened pre.geometry hxD hblk2
      entry := (write_data_files s _ _ _ _ f pre.entry (by omega)).2
      chain := ⟨s.fs.FAT.blocks.getD x 0, ?_, ?_, ?_⟩
      ptr := Or.inr ⟨x, rfl⟩
      rest_ok := ?_
      zero := ?_
      size := by show bw + n ≤ Max.max f.file_size (bw + n); omega
      written := hnc
      free := ?_
      scratch := hblk2 }
  · show (write_data s file_num x _ (bw + n)).fs.FAT.blocks[x]? = _
    rw [hsb.2.1, List.getD_eq_getElem?_getD, List.getElem?_eq_getElem hxl]
    rfl
  · rw [hsb.2.1]
    exact hch2
  · intro last hl
    cases hl
    constructor
    · intro h0
      apply hx0
      rw [List.getElem?_eq_getElem hxl]
      rw [List.getD_eq_getElem?_getD, List.getElem?_eq_getElem hxl] at h0
      exact congrArg some h0
    · exact (List.nodup_cons.1 (is_chain_nodup _ _ _ hch)).1
  · intro b hb
    rw [hsb.1, hsb.2.1]
    exact pre.rest_ok b (List.mem_cons_of_mem _ hb)
  · intro _
    rw [hsb.2.1]
    exact pre.zero (Or.inr (List.cons_ne_nil _ _))
  · rw [hfree, hsb.1, hsb.2.1]
    constructor
    · omega
    · omega

theorem chain_content_congr (s s' : State) :
    ∀ bs, (∀ b ∈ bs, block_data s' b = block_data s b) →
      chain_content s' bs = chain_content s bs := by
  intro bs
  induction bs with
  | nil => intro _; rfl
  | cons x xs ih =>
    intro h
    show block_data s' x ++ chain_content s' xs = block_data s x ++ chain_content s xs
    rw [h x (List.mem_cons_self _ _), ih fun b hb => h b (List.mem_cons_of_mem _ hb)]

theorem content_glue (buf old blk tail : List Nat) (bw count n : Nat)
    (hold : old.length = 4096) (hblk : blk.length = 4096)
    (hn : n = Min.min (count - bw) 4096) (hbw : bw < count) :
    ((buf.drop bw).take n ++ (if n < 4096 then old else blk).drop n) ++
        ((buf.drop (bw + n)).take (count - (bw + n)) ++ tail.drop (count - (bw + n))) =
      (buf.drop bw).take (count - bw) ++ (old ++ tail).drop (count - bw) := by
  by_cases h : n < 4096
  · have h1 : count - bw = n := by omega
    have h2 : count - (bw + n) = 0 := by omega
    rw [if_pos h, h1, h2, List.take_zero, List.drop_zero, List.nil_append,
      List.drop_append_of_le_length (by omega), List.append_assoc]
  · have h1 : n = 4096 := by omega
    have h2 : count - bw = old.length + (count - (bw + n)) := by omega
    have hd : blk.drop n = [] := List.drop_eq_nil_of_le (by omega)
    rw [if_neg h, hd, List.append_nil, h2, List.drop_append,
      ← List.append_assoc, hold, ← h1, take_drop_append_take]

theorem write_post_pass (file_num : Nat) (buf : List Nat) (count : Nat) (s : State) (bw : Nat)
    (p : BlockIdxPtr) (x : Nat) (rest : List Nat) (f : file) (blk : List Nat) (n : Nat)
    (hn : n = Min.min (count - bw) 4096)
    (hcount : count < 2 ^ 31) (hbw : bw < count)
    (pre : write_pre file_num count s bw p (x :: rest) f blk) (s' : State) (new : List Nat)
    (post : write_post file_num buf count
      (write_data s file_num x
        ((buf.drop bw).take n ++ (if n < 4096 then block_data s x else blk).drop n) (bw + n))
      (bw + n) (.FAT_entry x) rest { f with file_size := Max.max f.file_size (bw + n) }
      s' new) :
    write_post file_num buf count s bw p (x :: rest) f s' new := by
  obtain ⟨hn0, hn4, hnc, _, hN⟩ := chunk_facts count bw hbw
  rw [← hn] at hn0 hn4 hnc hN
  obtain ⟨v, hv, hch, hlast⟩ := pre.chain
  have hch' := hch
  unfold is_chain at hch'
  obtain ⟨hvx, hxe, hxl, hch2⟩ := hch'
  subst hvx
  have hxD := (pre.rest_ok v (List.mem_cons_self _ _)).1
  have hx0 := (pre.rest_ok v (List.mem_cons_self _ _)).2
  have hbd := block_data_of_geometry s pre.geometry v hxD
  have hsb := write_data_superblock s file_num v
    ((buf.drop bw).take n ++ (if n < 4096 then block_data s v else blk).drop n) (bw + n)
  have hfiles := write_data_files s file_num v
    ((buf.drop bw).take n ++ (if n < 4096 then block_data s v else blk).drop n) (bw + n)
    f pre.entry (by omega)
  have hblock := fun b => write_data_block s file_num v
    ((buf.drop bw).take n ++ (if n < 4096 then block_data s v else blk).drop n) (bw + n) b
    pre.opened pre.geometry.2.1 (geometry_lt s pre.geometry v hxD)
  have hxr : v ∉ rest := (List.nodup_cons.1 (is_chain_nodup _ _ _ hch)).1
  have hxn : v ∉ new := by
    intro hm
    have := (post.new_free v hm).2
    rw [hsb.2.1] at this
    exact hx0 this
  have hxrn : v ∉ rest ++ new := by
    rw [List.mem_append, not_or]
    exact ⟨hxr, hxn⟩
  obtain ⟨v2, hv2, hch3, hv20⟩ := post.chain
  have hv2' : s'.fs.FAT.blocks[v]? = some v2 := hv2
  obtain ⟨f', he1, he2, he3, he4, he5⟩ := post.entry
  refine
    { superblock := post.superblock.trans hsb.1
      open_files := post.open_files.trans hsb.2.2.1
      num_open_files := post.num_open_files.trans hsb.2.2.2.1
      is_mounted := post.is_mounted.trans hsb.2.2.2.2.1
      num_files := post.num_files.trans hsb.2.2.2.2.2
      opened := post.opened.trans (write_data_opened _ _ _ _ _)
      geometry := post.geometry
      chain := ⟨v, ?_, ?_, fun last hl => (hlast last hl).1⟩
      new_free := ?_
      marked := ?_
      FAT_frame := ?_
      FAT_length := by rw [post.FAT_length, hsb.2.1]
      taken := by rw [post.taken, hsb.2.1]
      free := by rw [post.free]; unfold free_blocks; rw [hsb.1, hsb.2.1]
      files_frame := fun i hi => (post.files_frame i hi).trans (hfiles.1 i hi)
      entry := ⟨f', he1, he2, he3, ?_, fun _ => he5 (fun h => BlockIdxPtr.noConfusion h)⟩
      content := ?_
      data_frame := ?_
      zero_kept := fun _ => post.zero_kept (Or.inl (fun h => BlockIdxPtr.noConfusion h)) }
  · rcases pre.ptr with hp | ⟨last, hp⟩
    · subst hp
      simp only [BlockIdxPtr.deref] at hv ⊢
      rw [he1]
      rw [pre.entry] at hv
      have h5 := he5 (fun h => BlockIdxPtr.noConfusion h)
      simp only [Option.map_some', Option.some.injEq] at hv ⊢
      rw [h5]
      exact hv
    · subst hp
      simp only [BlockIdxPtr.deref] at hv ⊢
      obtain ⟨hv0, hlr⟩ := hlast last rfl
      rw [List.mem_cons, not_or] at hlr
      have hln : last ∉ new := by
        intro hm
        have := (post.new_free last hm).2
        rw [hsb.2.1, hv] at this
        exact hv0 (Option.some.inj this)
      rw [post.FAT_frame last hlr.2 hln (fun h => hlr.1 (by cases h; rfl)), hsb.2.1]
      exact hv
  · rw [List.cons_append]
    unfold is_chain
    refine ⟨rfl, hxe, by rw [post.FAT_length, hsb.2.1]; exact hxl, ?_⟩
    rw [List.getD_eq_getElem?_getD, hv2']
    exact hch3
  · intro b hb
    have := post.new_free b hb
    rw [hsb.1, hsb.2.1] at this
    exact this
  · intro b hb
    rw [List.cons_append, List.mem_cons] at hb
    rcases hb with rfl | hb
    · rw [hv2']
      intro h
      exact hv20 b rfl (Option.some.inj h)
    · exact post.marked b hb
  · intro i hi1 hi2 _
    rw [List.mem_cons, not_or] at hi1
    rw [post.FAT_frame i hi1.2 hi2 (fun h => hi1.1 (by cases h; rfl)), hsb.2.1]
  · rw [he4]
    show Max.max (Max.max f.file_size (bw + n)) count = Max.max f.file_size count
    omega
  · have hx' : block_data s' v =
        (buf.drop bw).take n ++ (if n < 4096 then block_data s v else blk).drop n := by
      rw [post.data_frame v hxrn, hblock, if_pos rfl]
    have hc2 : chain_content (write_data s file_num v
        ((buf.drop bw).take n ++ (if n < 4096 then block_data s v else blk).drop n) (bw + n))
        (rest ++ new) = chain_content s (rest ++ new) := by
      apply chain_content_congr
      intro b hb
      rw [hblock, if_neg (fun h => hxrn (by rw [← h]; exact hb))]
    have hc := post.content
    rw [hc2] at hc
    show block_data s' v ++ chain_content s' (rest ++ new) =
      (buf.drop bw).take (count - bw) ++
        (block_data s v ++ chain_content s (rest ++ new)).drop (count - bw)
    rw [hx', hc]
    exact content_glue buf _ blk _ bw count n hbd.2 pre.scratch hn hbw
  · intro b hb
    rw [List.cons_append, List.mem_cons, not_or] at hb
    rw [post.data_frame b hb.2, hblock, if_neg hb.1]

theorem write_pre_alloc (file_num count : Nat) (s : State) (bw : Nat) (p : BlockIdxPtr)
    (f : file) (blk : List Nat) (hbw : bw < count)
    (pre : write_pre file_num count s bw p [] f blk) :
    0 < free_blocks s.fs ∧ s.fs.FAT.num_blocks_taken < s.fs.superblock.amt_data_blocks ∧
    p.deref s.fs = some FAT_EOC ∧
    free_blocks (alloc_state s p (first_free_block s.fs)).fs + 1 = free_blocks s.fs ∧
    (alloc_state s p (first_free_block s.fs)).fs.FAT.num_blocks_taken =
      s.fs.FAT.num_blocks_taken + 1 ∧
    (alloc_state s p (first_free_block s.fs)).fs.superblock = s.fs.superblock ∧
    ∃ f1, f1.filename = f.filename ∧ f1.padding = f.padding ∧ f1.file_size = f.file_size ∧
      (p ≠ .first_block_idx file_num → f1.first_block_idx = f.first_block_idx) ∧
      write_pre file_num count (alloc_state s p (first_free_block s.fs)) bw p
        [first_free_block s.fs] f1 blk := by
  obtain ⟨_, _, _, _, hN⟩ := chunk_facts count bw hbw
  have hfr := pre.free
  rw [List.length_nil] at hfr
  have hfree : 0 < free_blocks s.fs := by omega
  have htaken : s.fs.FAT.num_blocks_taken < s.fs.superblock.amt_data_blocks := by omega
  obtain ⟨v, hv, hch, hlast⟩ := pre.chain
  have hve : v = FAT_EOC := hch
  subst hve
  have hg := pre.geometry
  obtain ⟨hobD, hob0, hmin⟩ := first_free_block_spec s.fs hg.2.2.2.1 hfree
  have hD : s.fs.superblock.amt_data_blocks < 65536 := hg.2.2.1
  have hlink : ∀ last, p = .FAT_entry last → FAT_EOC ≠ 0 ∧ first_free_block s.fs ≠ 0 := by
    intro last hl
    refine ⟨by decide, ?_⟩
    intro h0
    rw [h0] at hob0
    exact pre.zero (Or.inl (by rw [hl]; exact fun h => BlockIdxPtr.noConfusion h)) hob0
  obtain ⟨a1, a2, a3, a4, a5⟩ := alloc_state_spec s p (first_free_block s.fs) FAT_EOC hg.2.2.1 hv
    hob0 hobD hlink
  have hfrm := alloc_state_frame s p (first_free_block s.fs)
  have hent := alloc_state_entry s p (first_free_block s.fs) FAT_EOC file_num f (by omega) hv
    pre.entry
  have htk := (alloc_state_FAT s p (first_free_block s.fs) FAT_EOC hv).2
  rw [size_add_small _ _ (by omega)] at htk
  have hpre : ∀ f1, (alloc_state s p (first_free_block s.fs)).fs.rootDir.files[file_num]? =
      some f1 → f1.file_size = f.file_size →
      write_pre file_num count (alloc_state s p (first_free_block s.fs)) bw p
        [first_free_block s.fs] f1 blk := by
    intro f1 hf1 hsz
    refine
      { opened := hfrm.2.2.2.2.2.2.1.trans pre.opened
        geometry := alloc_state_geometry s p _ hg
        entry := hf1
        chain := ⟨first_free_block s.fs, a1, ?_, ?_⟩
        ptr := pre.ptr
        rest_ok := ?_
        zero := ?_
        size := by rw [hsz]; exact pre.size
        written := pre.written
        free := ?_
        scratch := pre.scratch }
    · unfold is_chain
      refine ⟨rfl, by show first_free_block s.fs ≠ 65535; omega, getElem?_lt _ _ _ a2, ?_⟩
      rw [List.getD_eq_getElem?_getD, a2]
      rfl
    · intro last hl
      refine ⟨(hlink last hl).2, ?_⟩
      rw [List.mem_singleton]
      intro h
      rw [hl] at hv
      simp only [BlockIdxPtr.deref] at hv
      rw [h, hob0] at hv
      exact absurd (Option.some.inj hv) (by decide)
    · intro b hb
      rw [List.mem_singleton] at hb
      subst hb
      rw [hfrm.1, a2]
      exact ⟨hobD, by decide⟩
    · intro _ h0
      obtain ⟨h1, h2⟩ := a4 0 h0
      exact hmin 0 (by omega) h1
    · rw [hfrm.1, htk, List.length_singleton]
      constructor
      · omega
      · omega
  refine ⟨hfree, htaken, hv, a5, htk, hfrm.1, ?_⟩
  rcases pre.ptr with hp | ⟨last, hp⟩
  · exact ⟨{ f with first_block_idx := first_free_block s.fs }, rfl, rfl, rfl,
      fun h => absurd hp h, hpre _ (hent.2 hp) rfl⟩
  · refine ⟨f, rfl, rfl, rfl, fun _ => rfl, hpre f ?_ rfl⟩
    rw [hent.1 file_num (by rw [hp]; exact fun h => BlockIdxPtr.noConfusion h)]
    exact pre.entry

theorem write_post_alloc (file_num : Nat) (buf : List Nat) (count : Nat) (s : State) (bw : Nat)
    (p : BlockIdxPtr) (f f1 : file) (blk : List Nat) (hbw : bw < count)
    (pre : write_pre file_num count s bw p [] f blk)
    (hf1 : f1.filename = f.filename ∧ f1.padding = f.padding ∧ f1.file_size = f.file_size ∧
      (p ≠ .first_block_idx file_num → f1.first_block_idx = f.first_block_idx))
    (s' : State) (new : List Nat)
    (post : write_post file_num buf count (alloc_state s p (first_free_block s.fs)) bw p
      [first_free_block s.fs] f1 s' new) :
    write_post file_num buf count s bw p [] f s' (first_free_block s.fs :: new) := by
  obtain ⟨hfree, htaken, hv, _⟩ := write_pre_alloc file_num count s bw p f blk hbw pre
  have hg := pre.geometry
  obtain ⟨hobD, hob0, hmin⟩ := first_free_block_spec s.fs hg.2.2.2.1 hfree
  have hD : s.fs.superblock.amt_data_blocks < 65536 := hg.2.2.1
  have hlink : ∀ last, p = .FAT_entry last → FAT_EOC ≠ 0 ∧ first_free_block s.fs ≠ 0 := by
    intro last hl
    refine ⟨by decide, ?_⟩
    intro h0
    rw [h0] at hob0
    exact pre.zero (Or.inl (by rw [hl]; exact fun h => BlockIdxPtr.noConfusion h)) hob0
  obtain ⟨a1, a2, a3, a4, a5⟩ := alloc_state_spec s p (first_free_block s.fs) FAT_EOC hg.2.2.1 hv
    hob0 hobD hlink
  have hfrm := alloc_state_frame s p (first_free_block s.fs)
  have hent := alloc_state_entry s p (first_free_block s.fs) FAT_EOC file_num f (by omega) hv
    pre.entry
  have htk := (alloc_state_FAT s p (first_free_block s.fs) FAT_EOC hv).2
  rw [size_add_small _ _ (by omega)] at htk
  obtain ⟨f', he1, he2, he3, he4, he5⟩ := post.entry
  refine
    { superblock := post.superblock.trans hfrm.1
      open_files := post.open_files.trans hfrm.2.1
      num_open_files := post.num_open_files.trans hfrm.2.2.1
      is_mounted := post.is_mounted.trans hfrm.2.2.2.1
      num_files := post.num_files.trans hfrm.2.2.2.2.1
      opened := post.opened.trans hfrm.2.2.2.2.2.2.1
      geometry := post.geometry
      chain := post.chain
      new_free := ?_
      marked := post.marked
      FAT_frame := ?_
      FAT_length := post.FAT_length.trans hfrm.2.2.2.2.2.1
      taken := by rw [post.taken, htk, List.length_cons]; omega
      free := by rw [List.length_cons, ← a5, ← post.free]; omega
      files_frame := ?_
      entry := ⟨f', he1, he2.trans hf1.1, he3.trans hf1.2.1, by rw [he4, hf1.2.2.1],
        fun h => (he5 h).trans (hf1.2.2.2 h)⟩
      content := ?_
      data_frame := ?_
      zero_kept := fun _ => post.zero_kept (Or.inr (List.cons_ne_nil _ _)) }
  · intro b hb
    rcases List.mem_cons.1 hb with rfl | hb
    · exact ⟨hobD, hob0⟩
    · have := post.new_free b hb
      rw [hfrm.1] at this
      exact ⟨this.1, (a4 b this.2).1⟩
  · intro i _ hi2 hi3
    rw [List.mem_cons, not_or] at hi2
    rw [post.FAT_frame i (by rw [List.mem_singleton]; exact hi2.1) hi2.2 hi3, a3 i hi2.1 hi3]
  · intro i hi
    rw [post.files_frame i hi]
    apply hent.1 i
    rcases pre.ptr with hp | ⟨last, hp⟩
    · rw [hp]
      intro h
      cases h
      exact hi rfl
    · rw [hp]
      exact fun h => BlockIdxPtr.noConfusion h
  · have hc := post.content
    rw [chain_content_congr s _ _ (fun b _ => alloc_state_block s p _ b hg.1)] at hc
    exact hc
  · intro b hb
    rw [post.data_frame b hb, alloc_state_block s p _ b hg.1]

theorem write_post_refl (file_num : Nat) (buf : List Nat) (count : Nat) (s : State)
    (p : BlockIdxPtr) (rest : List Nat) (f : file) (blk : List Nat)
    (pre : write_pre file_num count s count p rest f blk) :
    write_post file_num buf count s count p rest f s [] := by
  obtain ⟨v, hv, hch, hlast⟩ := pre.chain
  refine
    { superblock := rfl
      open_files := rfl
      num_open_files := rfl
      is_mounted := rfl
      num_files := rfl
      opened := rfl
      geometry := pre.geometry
      chain := ⟨v, hv, by rw [List.append_nil]; exact hch, fun last hl => (hlast last hl).1⟩
      new_free := fun b hb => absurd hb (List.not_mem_nil b)
      marked := fun b hb => by
        rw [List.append_nil] at hb
        exact (pre.rest_ok b hb).2
      FAT_frame := fun _ _ _ _ => rfl
      FAT_length := rfl
      taken := rfl
      free := rfl
      files_frame := fun _ _ => rfl
      entry := ⟨f, pre.entry, rfl, rfl, ?_, fun _ => rfl⟩
      content := ?_
      data_frame := fun _ _ => rfl
      zero_kept := fun h => pre.zero (by rw [List.append_nil] at h; exact h) }
  · have := pre.size
    omega
  · rw [Nat.sub_self, List.take_zero, List.drop_zero, List.nil_append]

theorem chunk_same (count k bw : Nat) (hbw : bw < k)
    (h : k = count ∨ (k < count ∧ (k - bw) % 4096 = 0)) :
    Min.min (count - bw) 4096 = Min.min (k - bw) 4096 := by
  omega

/-- The loop of `fs_write` from a state of `write_pre`.  It ends after `k`
bytes: `k = count` when the blocks needed are there, and otherwise `k < count`
is the multiple of `BLOCK_SIZE` at which the free blocks (by the FAT or by the
counter) are used up.  In both cases the loop returns `k` and has the effect
of writing `buf[bytes_written, k)`. -/
theorem fs_write_loop_spec (file_num : Nat) (buf : List Nat) (count k : Nat)
    (hcount : count < 2 ^ 31) (hbuf : count ≤ buf.length) (hk : k ≤ count) :
    ∀ R fuel s bw p rest f blk, (k - bw + 4095) / 4096 = R → R < fuel →
      write_pre file_num k s bw p rest f blk →
      (k = count ∨ (k < count ∧ (k - bw) % 4096 = 0 ∧ rest.length ≤ R ∧
        (R - rest.length = free_blocks s.fs ∨
          s.fs.FAT.num_blocks_taken + (R - rest.length) = s.fs.superblock.amt_data_blocks))) →
      ∃ s' new, fs_write_loop file_num buf count fuel s bw p blk = some ((k : Int), s') ∧
        new.length = R - rest.length ∧
        write_post file_num buf k s bw p rest f s' new ∧ (R = 0 → s' = s) := by
  intro R
  induction R with
  | zero =>
    intro fuel s bw p rest f blk hR hfuel pre hend
    have hw := pre.written
    have hbw : bw = k := by omega
    subst hbw
    cases fuel with
    | zero => omega
    | succ fuel =>
      refine ⟨s, [], ?_, by simp, write_post_refl file_num buf bw s p rest f blk pre,
        fun _ => rfl⟩
      unfold fs_write_loop
      rcases hend with hend | ⟨h1, _, h3, h4⟩
      · rw [if_pos (by omega), to_int_small _ (by omega)]
      · have hnil : rest = [] := List.eq_nil_of_length_eq_zero (by omega)
        subst hnil
        obtain ⟨v, hv, hch, _⟩ := pre.chain
        have hve : v = FAT_EOC := hch
        subst hve
        rw [if_neg (by omega), hv]
        simp only []
        rw [if_pos trivial, fs_write_allocate_full s bw p pre.geometry.2.2.2.1
          (by simp only [List.length_nil] at h4; omega)]
        simp only []
        rw [to_int_small _ (by omega)]
  | succ R ih =>
    intro fuel s bw p rest f blk hR hfuel pre hend
    have hbw : bw < k := by omega
    have hbwc : bw < count := by omega
    obtain ⟨hn0, hn4, hnc, _, hN⟩ := chunk_facts k bw hbw
    have hsame : Min.min (count - bw) 4096 = Min.min (k - bw) 4096 := by
      apply chunk_same count k bw hbw
      rcases hend with h | h
      · exact Or.inl h
      · exact Or.inr ⟨h.1, h.2.1⟩
    cases fuel with
    | zero => omega
    | succ fuel =>
      have pass : ∀ (s1 : State) (x cur : Nat) (rest1 : List Nat) (f1 : file),
          write_pre file_num k s1 bw p (x :: rest1) f1 blk →
          p.deref s.fs = some cur →
          (if cur = FAT_EOC then fs_write_allocate s bw p else some (.next s)) =
            some (.next s1) →
          (k = count ∨ (k < count ∧ (k - bw) % 4096 = 0 ∧ rest1.length ≤ R ∧
            (R - rest1.length = free_blocks s1.fs ∨
              s1.fs.FAT.num_blocks_taken + (R - rest1.length) =
                s1.fs.superblock.amt_data_blocks))) →
          ∃ s' new, fs_write_loop file_num buf count (fuel + 1) s bw p blk =
              some ((k : Int), s') ∧
            new.length = R - rest1.length ∧
            write_post file_num buf k s1 bw p (x :: rest1) f1 s' new := by
        intro s1 x cur rest1 f1 pre1 hcur hs1 hend1
        obtain ⟨v, hv, hch, _⟩ := pre1.chain
        have hvx : v = x := by
          unfold is_chain at hch
          exact hch.1
        subst hvx
        have hxD := (pre1.rest_ok v (List.mem_cons_self _ _)).1
        have hbd := block_data_of_geometry s1 pre1.geometry v hxD
        have hsb := write_data_superblock s1 file_num v
          ((buf.drop bw).take (Min.min (k - bw) 4096) ++
            (if Min.min (k - bw) 4096 < 4096 then block_data s1 v else blk).drop
              (Min.min (k - bw) 4096)) (bw + Min.min (k - bw) 4096)
        obtain ⟨s', new, h1, h2, h3, _⟩ := ih fuel _ (bw + Min.min (k - bw) 4096)
          (.FAT_entry v) rest1 _ _ (by omega) (by omega)
          (write_pre_pass file_num buf k s1 bw p v rest1 f1 blk _ rfl (by omega) (by omega)
            hbw pre1)
          (by
            rcases hend1 with h | ⟨h1, h2, h3, h4⟩
            · exact Or.inl h
            · right
              refine ⟨h1, by omega, h3, ?_⟩
              unfold free_blocks
              rw [hsb.1, hsb.2.1]
              exact h4)
        refine ⟨s', new, ?_, h2,
          write_post_pass file_num buf k s1 bw p v rest1 f1 blk _ rfl (by omega) hbw pre1
            s' new h3⟩
        rw [fs_write_loop_pass file_num buf count fuel s s1 bw p blk cur v (block_data s1 v) f1
          hcount hbuf hbwc hcur hs1 hv pre1.opened hbd.1 hbd.2 pre1.scratch pre1.entry, hsame]
        exact h1
      cases rest with
      | cons x rest1 =>
        obtain ⟨v, hv, hch, _⟩ := pre.chain
        have hch' := hch
        unfold is_chain at hch'
        obtain ⟨s', new, h1, h2, h3⟩ := pass s x v rest1 f pre hv
          (by rw [if_neg (by rw [hch'.1]; exact hch'.2.1)])
          (by
            rcases hend with h | ⟨h1, h2, h3, h4⟩
            · exact Or.inl h
            · right
              rw [List.length_cons] at h3 h4
              refine ⟨h1, h2, by omega, ?_⟩
              rw [Nat.add_sub_add_right] at h4
              exact h4)
        exact ⟨s', new, h1, by rw [h2, List.length_cons]; omega, h3,
          fun h => absurd h (Nat.succ_ne_zero R)⟩
      | nil =>
        obtain ⟨hfree, htaken, hv, hf1, ht1, hsb1, f1, e1, e2, e3, e4, pre1⟩ :=
          write_pre_alloc file_num k s bw p f blk hbw pre
        obtain ⟨s', new, h1, h2, h3⟩ := pass _ _ FAT_EOC [] f1 pre1 hv
          (by rw [if_pos rfl]
              exact fs_write_allocate_ok s bw p FAT_EOC pre.geometry.2.2.1
                pre.geometry.2.2.2.1 htaken hfree hv)
          (by
            rcases hend with h | ⟨h1, h2, h3, h4⟩
            · exact Or.inl h
            · right
              rw [List.length_nil] at h4
              refine ⟨h1, h2, Nat.zero_le _, ?_⟩
              rw [List.length_nil, ht1, hsb1]
              omega)
        exact ⟨s', first_free_block s.fs :: new, h1,
          by rw [List.length_cons, h2]; simp,
          write_post_alloc file_num buf k s bw p f f1 blk hbw pre ⟨e1, e2, e3, e4⟩ s' new h3,
          fun h => absurd h (Nat.succ_ne_zero R)⟩

/-! ### Writing: the function `fs_write` -/

theorem free_blocks_le (fs : FS) : free_blocks fs ≤ fs.superblock.amt_data_blocks := by
  unfold free_blocks
  have h1 := List.countP_le_length (fun v => v == 0)
    (l := fs.FAT.blocks.take fs.superblock.amt_data_blocks)
  rw [List.length_take] at h1
  omega

theorem fs_write_spec (s : State) (fd : Nat) (open_file : openFile) (file_num : Nat)
    (f : file) (bs : List Nat) (buf : List Nat) (count k : Nat)
    (hm : is_mounted s = true) (hg : geometry_ok s) (hfile : file_ok s file_num f bs)
    (hfd : fd_ok s fd open_file file_num)
    (hmarked : ∀ b ∈ bs, s.fs.FAT.blocks[b]? ≠ some 0)
    (hzero : bs ≠ [] → s.fs.FAT.blocks[0]? ≠ some 0)
    (hcount : count < 2 ^ 31) (hbuf : count ≤ buf.length) (hk : k ≤ count)
    (hfree : (k + 4095) / 4096 - bs.length ≤ free_blocks s.fs ∧
      s.fs.FAT.num_blocks_taken + ((k + 4095) / 4096 - bs.length) ≤
        s.fs.superblock.amt_data_blocks)
    (hend : k = count ∨ (k < count ∧ k % 4096 = 0 ∧ bs.length ≤ k / 4096 ∧
      (k / 4096 - bs.length = free_blocks s.fs ∨
        s.fs.FAT.num_blocks_taken + (k / 4096 - bs.length) = s.fs.superblock.amt_data_blocks))) :
    ∃ s' new, fs_write s (fd : Int) buf count = some ((k : Int), s') ∧
      new.length = (k + 4095) / 4096 - bs.length ∧
      write_post file_num buf k s 0 (.first_block_idx file_num) bs f s' new ∧
      (k = 0 → s' = s) := by
  have pre : write_pre file_num k s 0 (.first_block_idx file_num) bs f
      (List.replicate BLOCK_SIZE 0) :=
    { opened := ((is_mounted_iff s).1 hm).1
      geometry := hg
      entry := hfile.2.1
      chain := ⟨f.first_block_idx, by simp only [BlockIdxPtr.deref]; rw [hfile.2.1]; rfl,
        hfile.2.2.2.1, fun last h => BlockIdxPtr.noConfusion h⟩
      ptr := Or.inl rfl
      rest_ok := fun b hb => ⟨hfile.2.2.2.2.2 b hb, hmarked b hb⟩
      zero := fun h => by
        rcases h with h | h
        · exact absurd rfl h
        · exact hzero h
      size := Nat.zero_le _
      written := Nat.zero_le _
      free := hfree
      scratch := List.length_replicate _ _ }
  obtain ⟨s', new, h1, h2, h3, h4⟩ := fs_write_loop_spec file_num buf count k hcount hbuf hk
    ((k + 4095) / 4096) (count + 1) s 0 (.first_block_idx file_num) bs f
    (List.replicate BLOCK_SIZE 0) rfl (by omega) pre
    (by
      rcases hend with h | ⟨e1, e2, e3, e4⟩
      · exact Or.inl h
      · right
        have : (k + 4095) / 4096 = k / 4096 := by omega
        rw [this]
        exact ⟨e1, e2, e3, e4⟩)
  refine ⟨s', new, ?_, h2, h3, fun h0 => h4 (by omega)⟩
  unfold fs_write
  rw [if_neg (by simp [hm]),
    fs_file_num_from_fd_ok s fd open_file file_num f hfd hfile.1 hfile.2.1 hfile.2.2.1]
  simp only []
  rw [if_neg (by omega)]
  exact h1

theorem write_post_file (s s' : State) (fd : Nat) (open_file : openFile) (file_num : Nat)
    (f : file) (bs : List Nat) (buf : List Nat) (k : Nat) (new : List Nat)
    (hm : is_mounted s = true) (hfile : file_ok s file_num f bs)
    (hfd : fd_ok s fd open_file file_num) (hbuf : k ≤ buf.length)
    (hlen : new.length = (k + 4095) / 4096 - bs.length)
    (post : write_post file_num buf k s 0 (.first_block_idx file_num) bs f s' new) :
    ∃ f', is_mounted s' = true ∧ geometry_ok s' ∧ file_ok s' file_num f' (bs ++ new) ∧
      fd_ok s' fd open_file file_num ∧ f'.file_size = Max.max f.file_size k ∧
      f'.filename = f.filename ∧
      file_content s' f'.file_size (bs ++ new) =
        buf.take k ++ (file_content s f.file_size bs).drop k := by
  obtain ⟨f', he1, he2, he3, he4, _⟩ := post.entry
  obtain ⟨v, hv, hch, _⟩ := post.chain
  have hbl : bs.length = (f.file_size + 4095) / 4096 := hfile.2.2.2.2.1
  refine ⟨f', ?_, post.geometry, ⟨hfile.1, he1, by rw [he2]; exact hfile.2.2.1, ?_, ?_, ?_⟩,
    ⟨hfd.1, by rw [post.open_files]; exact hfd.2.1, hfd.2.2⟩, he4, he2, ?_⟩
  · rw [is_mounted_iff] at hm ⊢
    rw [post.opened, post.is_mounted]
    exact hm
  · simp only [BlockIdxPtr.deref] at hv
    rw [he1] at hv
    simp only [Option.map_some', Option.some.injEq] at hv
    rw [hv]
    exact hch
  · rw [List.length_append, hlen, he4]
    show bs.length + ((k + 4095) / 4096 - bs.length) = (Max.max f.file_size k + 4095) / 4096
    omega
  · intro b hb
    rw [post.superblock]
    rcases List.mem_append.1 hb with hb | hb
    · exact hfile.2.2.2.2.2 b hb
    · exact (post.new_free b hb).1
  · unfold file_content
    rw [post.content, he4, Nat.sub_zero, List.drop_zero, List.take_append_eq_append_take,
      List.length_take, Nat.min_eq_left hbuf, List.take_take, Nat.min_eq_right (by omega)]
    congr 1
    by_cases hks : k < f.file_size
    · have hnew : new = [] := List.eq_nil_of_length_eq_zero (by omega)
      rw [hnew, List.append_nil, List.drop_take, Nat.max_eq_left (by omega)]
    · rw [Nat.max_eq_right (by omega), Nat.sub_self, List.take_zero,
        List.drop_eq_nil_of_le (by rw [List.length_take]; omega)]

theorem count_bound (s : State) (file_num : Nat) (f : file) (bs : List Nat) (count : Nat)
    (hg : geometry_ok s) (hfile : file_ok s file_num f bs)
    (hfree : (count + 4095) / 4096 - bs.length ≤ free_blocks s.fs) : count < 2 ^ 31 := by
  have h1 := nodup_length_le_of_lt bs _ (is_chain_nodup _ _ _ hfile.2.2.2.1) hfile.2.2.2.2.2
  have h2 := free_blocks_le s.fs
  have h3 : s.fs.superblock.amt_data_blocks < 65536 := hg.2.2.1
  omega

theorem fs_write_full (s : State) (fd : Nat) (open_file : openFile) (file_num : Nat)
    (f : file) (bs : List Nat) (buf : List Nat) (count : Nat)
    (hm : is_mounted s = true) (hg : geometry_ok s) (hfile : file_ok s file_num f bs)
    (hfd : fd_ok s fd open_file file_num)
    (hmarked : ∀ b ∈ bs, s.fs.FAT.blocks[b]? ≠ some 0)
    (hzero : bs ≠ [] → s.fs.FAT.blocks[0]? ≠ some 0)
    (hbuf : count ≤ buf.length)
    (hfree : (count + 4095) / 4096 - bs.length ≤ free_blocks s.fs ∧
      s.fs.FAT.num_blocks_taken + ((count + 4095) / 4096 - bs.length) ≤
        s.fs.superblock.amt_data_blocks) :
    ∃ s' f' new, fs_write s (fd : Int) buf count = some ((count : Int), s') ∧
      new.length = (count + 4095) / 4096 - bs.length ∧
      write_post file_num buf count s 0 (.first_block_idx file_num) bs f s' new ∧
      is_mounted s' = true ∧ geometry_ok s' ∧ file_ok s' file_num f' (bs ++ new) ∧
      fd_ok s' fd open_file file_num ∧ f'.file_size = Max.max f.file_size count ∧
      f'.filename = f.filename ∧
      file_content s' f'.file_size (bs ++ new) =
        buf.take count ++ (file_content s f.file_size bs).drop count := by
  obtain ⟨s', new, h1, h2, h3, _⟩ := fs_write_spec s fd open_file file_num f bs buf count count
    hm hg hfile hfd hmarked hzero (count_bound s file_num f bs count hg hfile hfree.1) hbuf
    (Nat.le_refl _) hfree (Or.inl rfl)
  obtain ⟨f', g1, g2, g3, g4, g5, g6, g7⟩ := write_post_file s s' fd open_file file_num f bs buf
    count new hm hfile hfd hbuf h2 h3
  exact ⟨s', f', new, h1, h2, h3, g1, g2, g3, g4, g5, g6, g7⟩

theorem fs_write_short_eq (s : State) (fd : Nat) (open_file : openFile) (file_num : Nat)
    (f : file) (bs : List Nat) (buf : List Nat) (count k : Nat)
    (hm : is_mounted s = true) (hg : geometry_ok s) (hfile : file_ok s file_num f bs)
    (hfd : fd_ok s fd open_file file_num)
    (hmarked : ∀ b ∈ bs, s.fs.FAT.blocks[b]? ≠ some 0)
    (hzero : bs ≠ [] → s.fs.FAT.blocks[0]? ≠ some 0)
    (hcount : count < 2 ^ 31) (hbuf : count ≤ buf.length)
    (hk : k < count) (hk4 : k % 4096 = 0) (hbs : bs.length ≤ k / 4096)
    (hfree : k / 4096 - bs.length ≤ free_blocks s.fs ∧
      s.fs.FAT.num_blocks_taken + (k / 4096 - bs.length) ≤ s.fs.superblock.amt_data_blocks)
    (hend : k / 4096 - bs.length = free_blocks s.fs ∨
      s.fs.FAT.num_blocks_taken + (k / 4096 - bs.length) = s.fs.superblock.amt_data_blocks) :
    ∃ s' f' new, fs_write s (fd : Int) buf count = some ((k : Int), s') ∧
      new.length = k / 4096 - bs.length ∧
      write_post file_num buf k s 0 (.first_block_idx file_num) bs f s' new ∧
      is_mounted s' = true ∧ geometry_ok s' ∧ file_ok s' file_num f' (bs ++ new) ∧
      fd_ok s' fd open_file file_num ∧ f'.file_size = k ∧
      f'.filename = f.filename ∧
      file_content s' f'.file_size (bs ++ new) = buf.take k ∧ (k = 0 → s' = s) := by
  have hk' : (k + 4095) / 4096 = k / 4096 := by omega
  obtain ⟨s', new, h1, h2, h3, h4⟩ := fs_write_spec s fd open_file file_num f bs buf count k
    hm hg hfile hfd hmarked hzero hcount hbuf (Nat.le_of_lt hk) (by rw [hk']; exact hfree)
    (Or.inr ⟨hk, hk4, hbs, hend⟩)
  obtain ⟨f', g1, g2, g3, g4, g5, g6, g7⟩ := write_post_file s s' fd open_file file_num f bs buf
    k new hm hfile hfd (by omega) h2 h3
  have hsz := (file_ok_size s file_num f bs hg hfile).1
  have hsz' : f.file_size ≤ 4096 * bs.length := hsz
  have hmax : Max.max f.file_size k = k := by omega
  refine ⟨s', f', new, h1, by rw [h2, hk'], h3, g1, g2, g3, g4, by rw [g5, hmax], g6, ?_, h4⟩
  rw [g7, List.drop_eq_nil_of_le, List.append_nil]
  unfold file_content
  rw [List.length_take]
  omega

/-! ### Stat and the shared size -/

/-- C15. Stat and shared size: in a mounted state with sound geometry, for two
descriptors `fd1` and `fd2` open on the same well-formed file of size `S`,
`fs_stat` returns `S` through either descriptor and leaves the state as it is;
and after a write of `count` bytes through `fd1` (for which enough blocks are
free) `fs_stat` returns the new size `max(S, count)` of the entry through
either descriptor, again without changing the state. -/
theorem fs_stat_shared_size (s : State) (fd1 fd2 : Nat) (o1 o2 : openFile) (file_num : Nat)
    (f : file) (bs : List Nat) (buf : List Nat) (count : Nat)
    (hm : is_mounted s = true) (hg : geometry_ok s) (hfile : file_ok s file_num f bs)
    (hfd1 : fd_ok s fd1 o1 file_num) (hfd2 : fd_ok s fd2 o2 file_num)
    (hmarked : ∀ b ∈ bs, s.fs.FAT.blocks[b]? ≠ some 0)
    (hzero : bs ≠ [] → s.fs.FAT.blocks[0]? ≠ some 0)
    (hbuf : count ≤ buf.length)
    (hfree : (count + 4095) / 4096 - bs.length ≤ free_blocks s.fs ∧
      s.fs.FAT.num_blocks_taken + ((count + 4095) / 4096 - bs.length) ≤
        s.fs.superblock.amt_data_blocks) :
    fs_stat s (fd1 : Int) = some ((f.file_size : Int), s) ∧
    fs_stat s (fd2 : Int) = some ((f.file_size : Int), s) ∧
    ∃ s' f', fs_write s (fd1 : Int) buf count = some ((count : Int), s') ∧
      s'.fs.rootDir.files[file_num]? = some f' ∧
      f'.file_size = Max.max f.file_size count ∧
      fs_stat s' (fd1 : Int) = some ((f'.file_size : Int), s') ∧
      fs_stat s' (fd2 : Int) = some ((f'.file_size : Int), s') := by
  have hsz := (file_ok_size s file_num f bs hg hfile).2
  have h1 := fs_stat_ok s fd1 o1 file_num f hm hfd1 hfile.1 hfile.2.1 hfile.2.2.1
  have h2 := fs_stat_ok s fd2 o2 file_num f hm hfd2 hfile.1 hfile.2.1 hfile.2.2.1
  rw [to_int_small _ (by omega)] at h1 h2
  obtain ⟨s', f', new, w1, _, post, hm', hg', hfile', hfd1', hsize, _, _⟩ :=
    fs_write_full s fd1 o1 file_num f bs buf count hm hg hfile hfd1 hmarked hzero hbuf hfree
  have hfd2' : fd_ok s' fd2 o2 file_num :=
    ⟨hfd2.1, by rw [post.open_files]; exact hfd2.2.1, hfd2.2.2⟩
  have hsz' := (file_ok_size s' file_num f' _ hg' hfile').2
  have h3 := fs_stat_ok s' fd1 o1 file_num f' hm' hfd1' hfile'.1 hfile'.2.1 hfile'.2.2.1
  have h4 := fs_stat_ok s' fd2 o2 file_num f' hm' hfd2' hfile'.1 hfile'.2.1 hfile'.2.2.1
  rw [to_int_small _ (by omega)] at h3 h4
  exact ⟨h1, h2, s', f', w1, hfile'.2.1, hsize, h3, h4⟩

theorem getElem?_two (a b : Nat) (t : List Nat) :
    (a :: b :: t)[0]? = some a ∧ (a :: b :: t)[1]? = some b := ⟨rfl, by simp⟩

theorem small_5000_marked :
    (∀ b ∈ [0, 1], small_state_z_5000.fs.FAT.blocks[b]? ≠ some 0) ∧
    small_state_z_5000.fs.FAT.blocks[0]? ≠ some 0 := by
  have h := getElem?_two 1 FAT_EOC (List.replicate 2046 0)
  have h0 : small_state_z_5000.fs.FAT.blocks[0]? = some 1 := h.1
  have h1 : small_state_z_5000.fs.FAT.blocks[1]? = some FAT_EOC := h.2
  refine ⟨?_, by rw [h0]; decide⟩
  intro b hb
  have : b = 0 ∨ b = 1 := by simpa using hb
  rcases this with rfl | rfl
  · rw [h0]; decide
  · rw [h1]; decide

theorem two_descriptors_ok :
    is_mounted (open_at small_state_z_5000 1 0) = true ∧
    geometry_ok (open_at small_state_z_5000 1 0) ∧
    file_ok (open_at small_state_z_5000 1 0) 0
      { new_file [122] with file_size := 5000, first_block_idx := 0 } [0, 1] ∧
    fd_ok (open_at small_state_z_5000 1 0) 0 { fd := 0, file_num := 0, file_offset := 0 } 0 ∧
    fd_ok (open_at small_state_z_5000 1 0) 1 { fd := 1, file_num := 0, file_offset := 0 } 0 ∧
    (∀ b ∈ [0, 1], (open_at small_state_z_5000 1 0).fs.FAT.blocks[b]? ≠ some 0) ∧
    (open_at small_state_z_5000 1 0).fs.FAT.blocks[0]? ≠ some 0 ∧
    (open_at small_state_z_5000 1 0).fs.FAT.num_blocks_taken = 2 ∧
    (open_at small_state_z_5000 1 0).fs.superblock.amt_data_blocks = 4 :=
  ⟨by decide, small_5000_geometry, small_5000_file, ⟨by decide, by decide, rfl⟩,
    ⟨by decide, by decide, rfl⟩, small_5000_marked.1, small_5000_marked.2, rfl, rfl⟩

theorem fs_stat_shared_size_witness :
    fs_stat (open_at small_state_z_5000 1 0) ((0 : Nat) : Int) =
      some (5000, open_at small_state_z_5000 1 0) ∧
    fs_stat (open_at small_state_z_5000 1 0) ((1 : Nat) : Int) =
      some (5000, open_at small_state_z_5000 1 0) ∧
    ∃ s' f', fs_write (open_at small_state_z_5000 1 0) ((0 : Nat) : Int)
        (List.replicate 6000 9) 6000 = some (6000, s') ∧
      s'.fs.rootDir.files[0]? = some f' ∧ f'.file_size = 6000 ∧
      fs_stat s' ((0 : Nat) : Int) = some ((f'.file_size : Int), s') ∧
      fs_stat s' ((1 : Nat) : Int) = some ((f'.file_size : Int), s') :=
  fs_stat_shared_size (open_at small_state_z_5000 1 0) 0 1 _ _ 0 _ [0, 1]
    (List.replicate 6000 9) 6000 two_descriptors_ok.1 two_descriptors_ok.2.1
    two_descriptors_ok.2.2.1 two_descriptors_ok.2.2.2.1 two_descriptors_ok.2.2.2.2.1
    two_descriptors_ok.2.2.2.2.2.1 (fun _ => two_descriptors_ok.2.2.2.2.2.2.1)
    (by rw [List.length_replicate])
    ⟨Nat.zero_le _, by rw [two_descriptors_ok.2.2.2.2.2.2.2.1, two_descriptors_ok.2.2.2.2.2.2.2.2]; decide⟩

/-! ### Round trip -/

theorem file_ok_empty (s : State) (file_num : Nat) (f : file) (h : file_ok s file_num f []) :
    f.file_size = 0 := by
  have := h.2.2.2.2.1
  have h' : 0 = (f.file_size + 4095) / 4096 := this
  omega

theorem write_then_read (s : State) (fd : Nat) (open_file : openFile) (file_num : Nat)
    (f : file) (bs : List Nat) (out : List Nat) (n : Nat)
    (hm : is_mounted s = true) (hg : geometry_ok s) (hfile : file_ok s file_num f bs)
    (hfd : fd_ok s fd open_file file_num) (hoff : open_file.file_offset = 0)
    (hn : n ≤ f.file_size) (hout : n ≤ out.length) :
    fs_read s (fd : Int) out n =
      some ((n : Int), (file_content s f.file_size bs).take n ++ out.drop n,
        with_offset s fd open_file n) := by
  have hsz := (file_ok_size s file_num f bs hg hfile).2
  have h := fs_read_eq s fd open_file file_num f bs out n hm hg hfile hfd (by omega) hout
  rw [hoff, Nat.sub_zero, Nat.min_eq_left hn, List.drop_zero, Nat.zero_add] at h
  exact h

/-- Round trip when the counter leaves room: in a mounted state with sound
geometry, for a descriptor `fd` on an empty file (size 0, empty chain; the
offset of such a descriptor is 0) and a byte sequence `B` that needs no more
data blocks than are free by the FAT and than the counter `num_blocks_taken`
leaves below the number of data blocks, `fs_write(fd, B, |B|)` returns `|B|`,
the following `fs_lseek(fd, 0)` returns 0, and `fs_read(fd, out, |B|)` then
returns `|B|` and leaves `B` in the first `|B|` bytes of `out`. -/
theorem fs_write_read_round_trip (s : State) (fd : Nat) (open_file : openFile)
    (file_num : Nat) (f : file) (B out : List Nat)
    (hm : is_mounted s = true) (hg : geometry_ok s) (hfile : file_ok s file_num f [])
    (hfd : fd_ok s fd open_file file_num)
    (hout : B.length ≤ out.length)
    (hfree : (B.length + 4095) / 4096 ≤ free_blocks s.fs ∧
      s.fs.FAT.num_blocks_taken + (B.length + 4095) / 4096 ≤ s.fs.superblock.amt_data_blocks) :
    ∃ s1 s2 s3, fs_write s (fd : Int) B B.length = some ((B.length : Int), s1) ∧
      fs_lseek s1 (fd : Int) 0 = some (0, s2) ∧
      fs_read s2 (fd : Int) out B.length = some ((B.length : Int), B ++ out.drop B.length, s3) := by
  have hS := file_ok_empty s file_num f hfile
  obtain ⟨s1, f1, new, w1, _, post, hm1, hg1, hfile1, hfd1, hsize, _, hcontent⟩ :=
    fs_write_full s fd open_file file_num f [] B B.length hm hg hfile hfd
      (fun b hb => absurd hb (List.not_mem_nil b)) (fun h => absurd rfl h) (Nat.le_refl _)
      (by rw [List.length_nil, Nat.sub_zero]; exact hfree)
  rw [hS, Nat.max_eq_right (Nat.zero_le _)] at hsize
  have hsz1 := (file_ok_size s1 file_num f1 _ hg1 hfile1).2
  have hseek := (fs_lseek_ok s1 fd open_file file_num f1 0 hm1 hfd1 hfile1.1 hfile1.2.1
    hfile1.2.2.1 (by omega)).1 (Nat.zero_le _)
  have hfdlt := getElem?_lt _ _ _ hfd1.2.1
  have hread := write_then_read (with_offset s1 fd open_file 0) fd
    { open_file with file_offset := 0 } file_num f1 ([] ++ new) out B.length
    (by rw [is_mounted_iff] at hm1 ⊢; exact hm1) hg1 hfile1
    ⟨hfd1.1, List.getElem?_set_self hfdlt, hfd1.2.2⟩ rfl (by omega) hout
  have hc : file_content (with_offset s1 fd open_file 0) f1.file_size ([] ++ new) =
      file_content s1 f1.file_size ([] ++ new) := rfl
  rw [hc, hcontent, List.take_length, List.drop_eq_nil_of_le (by
    unfold file_content; rw [List.length_take]; omega), List.append_nil, List.take_length] at hread
  exact ⟨s1, _, _, w1, hseek, hread⟩
/-! ### Create, open, write, read -/

theorem new_file_head (filename : List Nat) (hv : fs_validate_filename filename = true) :
    (new_file filename).filename.headD 0 ≠ 0 := by
  have hne := cstr_ne_nil_of_valid filename hv
  have hall := cstr_all_ne filename
  unfold new_file
  simp only []
  cases hc : cstr filename with
  | nil => exact absurd hc hne
  | cons a t =>
    have ha := hall a (by rw [hc]; exact List.mem_cons_self _ _)
    show ((a :: t ++ List.replicate 16 0).take 16).headD 0 ≠ 0
    rw [List.cons_append]
    show a ≠ 0
    simpa using ha

theorem create_at_disk (s : State) (filename : List Nat) (k : Nat) :
    (create_at s filename k).disk =
      (block_write s.disk s.fs.superblock.root_block_idx
        (files_bytes (s.fs.rootDir.files.set k (new_file filename)))).2 := by
  unfold create_at
  rw [fs_save_rootDir_disk]

theorem create_at_block (s : State) (filename : List Nat) (k : Nat) (b : Nat)
    (hroot : s.fs.superblock.root_block_idx < s.fs.superblock.data_block_start_idx) :
    block_data (create_at s filename k) b = block_data s b := by
  unfold block_data
  rw [List.getD_eq_getElem?_getD, List.getD_eq_getElem?_getD, create_at_disk, create_at_fs,
    block_write_get_ne _ _ _ _ (by show s.fs.superblock.data_block_start_idx + b ≠ _; omega)]

theorem create_at_geometry (s : State) (filename : List Nat) (k : Nat) (hg : geometry_ok s) :
    geometry_ok (create_at s filename k) := by
  apply geometry_ok_of s _ hg (by rw [create_at_fs]) (by rw [create_at_fs])
  intro b hb
  rw [create_at_block s filename k b hg.2.1, create_at_disk, block_write_length]
  exact ⟨(block_data_of_geometry s hg b hb).2, geometry_lt s hg b hb⟩

theorem lookup_created (s : State) (filename : List Nat) (k : Nat)
    (hv : fs_validate_filename filename = true)
    (hnew : ∀ j, j < FS_FILE_MAX_COUNT → name_at s.fs.rootDir.files j ≠ cstr filename)
    (hterm : ∀ f ∈ s.fs.rootDir.files, entry_terminated f)
    (hk : k < FS_FILE_MAX_COUNT) (hklen : k < s.fs.rootDir.files.length) :
    fs_file_num_from_filename (create_at s filename k).fs filename = (k : Int) := by
  have hk' : k < 128 := hk
  unfold fs_file_num_from_filename
  rw [if_neg (by simp [hv]), create_at_fs]
  apply lookup_loop_found _ filename 128 0 k (Nat.zero_le _) (by omega)
  · exact name_at_set_new _ _ _ hklen ((fs_validate_filename_iff filename).1 hv).2
  · intro j _ hj
    rw [name_at_set_other _ _ _ _ (by omega) hterm]
    exact hnew j (by show j < 128; omega)

/-- C3. As the authors' test does: from a mounted state with sound geometry
whose directory has room for a new name `filename` and whose open-file table
has a free slot, for a buffer of `n > 0` bytes that needs no more data blocks
than are free, `fs_create` returns 0, `fs_open` returns a descriptor `fd`,
`fs_write(fd, buf, n)` returns `n`, and the `fs_read(fd, out, n)` that follows
at once on the same descriptor, with no `fs_lseek` in between, returns `n` and
leaves the `n` bytes just written in `out`; `fs_stat(fd)` is `n`, before and
after the read. -/
theorem create_open_write_read (s : State) (filename buf out : List Nat)
    (hm : is_mounted s = true) (hg : geometry_ok s)
    (hlen : s.fs.rootDir.files.length = FS_FILE_MAX_COUNT)
    (hacc : s.fs.rootDir.num_files = used_slots s.fs.rootDir.files)
    (hlt : s.fs.rootDir.num_files < FS_FILE_MAX_COUNT)
    (hterm : ∀ f ∈ s.fs.rootDir.files, entry_terminated f)
    (hv : fs_validate_filename filename = true)
    (hnew : ∀ j, j < FS_FILE_MAX_COUNT → name_at s.fs.rootDir.files j ≠ cstr filename)
    (holen : s.fs.open_files.length = FS_OPEN_MAX_COUNT)
    (hoacc : s.fs.num_open_files = used_fds s.fs.open_files)
    (holt : s.fs.num_open_files < FS_OPEN_MAX_COUNT)
    (hn : 0 < buf.length) (hout : buf.length ≤ out.length)
    (hfree : (buf.length + 4095) / 4096 ≤ free_blocks s.fs ∧
      s.fs.FAT.num_blocks_taken + (buf.length + 4095) / 4096 ≤
        s.fs.superblock.amt_data_blocks) :
    ∃ (fd : Nat) (s1 s2 s3 s4 : State), fs_create s filename = some (0, s1) ∧
      fs_open s1 filename = some ((fd : Int), s2) ∧
      fs_write s2 (fd : Int) buf buf.length = some ((buf.length : Int), s3) ∧
      fs_read s3 (fd : Int) out buf.length =
        some ((buf.length : Int), buf ++ out.drop buf.length, s4) ∧
      fs_stat s3 (fd : Int) = some ((buf.length : Int), s3) ∧
      fs_stat s4 (fd : Int) = some ((buf.length : Int), s4) := by
  have hlen' : s.fs.rootDir.files.length = 128 := hlen
  have hlt' : s.fs.rootDir.num_files < 128 := hlt
  have holen' : s.fs.open_files.length = 32 := holen
  have holt' : s.fs.num_open_files < 32 := holt
  obtain ⟨k1, k2, k3⟩ := first_empty_slot_spec s.fs.rootDir.files (by omega)
  have hk : first_empty_slot s.fs.rootDir.files < 128 := by omega
  have hcreate := fs_create_eq s filename _ hm hv hnew hlt hk k1 k2 k3
  have hm1 := create_at_mounted s filename (first_empty_slot s.fs.rootDir.files) hm
  have hfs1 := create_at_fs s filename (first_empty_slot s.fs.rootDir.files)
  obtain ⟨d1, d2, d3⟩ := first_free_fd_spec s.fs.open_files (by omega)
  have hd : first_free_fd s.fs.open_files < 32 := by omega
  have hopen := fs_open_eq (create_at s filename (first_empty_slot s.fs.rootDir.files)) filename
    (first_free_fd s.fs.open_files) (first_empty_slot s.fs.rootDir.files) hm1
    (by rw [hfs1]; exact holt) hd (by rw [hfs1]; exact d1) (by rw [hfs1]; exact d2)
    (by rw [hfs1]; exact d3) (lookup_created s filename _ hv hnew hterm hk k1)
  generalize hs1 : create_at s filename (first_empty_slot s.fs.rootDir.files) = s1 at *
  have hg1 : geometry_ok s1 := by rw [← hs1]; exact create_at_geometry s filename _ hg
  have hm2 : is_mounted (open_at s1 (first_free_fd s.fs.open_files)
      (first_empty_slot s.fs.rootDir.files)) = true := by
    rw [is_mounted_iff] at hm1 ⊢
    exact hm1
  have hg2 : geometry_ok (open_at s1 (first_free_fd s.fs.open_files)
      (first_empty_slot s.fs.rootDir.files)) := hg1
  have hfile2 : file_ok (open_at s1 (first_free_fd s.fs.open_files)
      (first_empty_slot s.fs.rootDir.files)) (first_empty_slot s.fs.rootDir.files)
      (new_file filename) [] := by
    refine ⟨hk, ?_, new_file_head filename hv, rfl,
      (by show 0 = (0 + (4096 - 1)) / 4096; decide),
      fun b hb => absurd hb (List.not_mem_nil b)⟩
    show s1.fs.rootDir.files[first_empty_slot s.fs.rootDir.files]? = _
    rw [hfs1]
    exact List.getElem?_set_self k1
  have hfd2 : fd_ok (open_at s1 (first_free_fd s.fs.open_files)
      (first_empty_slot s.fs.rootDir.files)) (first_free_fd s.fs.open_files)
      { fd := (first_free_fd s.fs.open_files : Int),
        file_num := (first_empty_slot s.fs.rootDir.files : Int), file_offset := 0 }
      (first_empty_slot s.fs.rootDir.files) := by
    refine ⟨hd, ?_, rfl⟩
    show (s1.fs.open_files.set _ _)[first_free_fd s.fs.open_files]? = _
    rw [hfs1]
    exact List.getElem?_set_self d1
  have hfree2 : (buf.length + 4095) / 4096 - ([] : List Nat).length ≤
        free_blocks (open_at s1 (first_free_fd s.fs.open_files)
          (first_empty_slot s.fs.rootDir.files)).fs ∧
      (open_at s1 (first_free_fd s.fs.open_files)
          (first_empty_slot s.fs.rootDir.files)).fs.FAT.num_blocks_taken +
        ((buf.length + 4095) / 4096 - ([] : List Nat).length) ≤
        (open_at s1 (first_free_fd s.fs.open_files)
          (first_empty_slot s.fs.rootDir.files)).fs.superblock.amt_data_blocks := by
    show _ - 0 ≤ free_blocks { s1.fs with open_files := _, num_open_files := _ } ∧
      s1.fs.FAT.num_blocks_taken + (_ - 0) ≤ s1.fs.superblock.amt_data_blocks
    rw [Nat.sub_zero, hfs1]
    exact hfree
  obtain ⟨s3, f3, new, w1, _, post, hm3, hg3, hfile3, hfd3, hsize, _, hcontent⟩ :=
    fs_write_full _ _ _ _ _ [] buf buf.length hm2 hg2 hfile2 hfd2
      (fun b hb => absurd hb (List.not_mem_nil b)) (fun h => absurd rfl h) (Nat.le_refl _) hfree2
  have hsize' : f3.file_size = buf.length := by
    rw [hsize]
    show Max.max 0 buf.length = buf.length
    omega
  have hsz3 := (file_ok_size s3 _ f3 _ hg3 hfile3).2
  have hread := write_then_read s3 _ _ _ f3 ([] ++ new) out buf.length hm3 hg3 hfile3 hfd3 rfl
    (by omega) hout
  rw [hcontent, List.take_length, List.drop_eq_nil_of_le (by
    unfold file_content; rw [List.length_take]; show Min.min 0 _ ≤ _; omega), List.append_nil,
    List.take_length] at hread
  have hstat3 := fs_stat_ok s3 _ _ _ f3 hm3 hfd3 hfile3.1 hfile3.2.1 hfile3.2.2.1
  rw [to_int_small _ (by omega), hsize'] at hstat3
  have hfdlt := getElem?_lt _ _ _ hfd3.2.1
  have hstat4 := fs_stat_ok (with_offset s3 (first_free_fd s.fs.open_files)
      { fd := (first_free_fd s.fs.open_files : Int),
        file_num := (first_empty_slot s.fs.rootDir.files : Int), file_offset := 0 } buf.length)
    (first_free_fd s.fs.open_files) _ (first_empty_slot s.fs.rootDir.files) f3
    (by rw [is_mounted_iff] at hm3 ⊢; exact hm3)
    ⟨hfd3.1, List.getElem?_set_self hfdlt, hfd3.2.2⟩ hfile3.1 hfile3.2.1 hfile3.2.2.1
  rw [to_int_small _ (by omega), hsize'] at hstat4
  exact ⟨_, s1, _, s3, _, hcreate, hopen, w1, hread, hstat3, hstat4⟩
theorem small_geometry : geometry_ok small_state := by
  refine ⟨by decide, by decide, by decide, ?_, ?_⟩
  · show 4 ≤ (List.replicate 2048 0).length
    rw [List.length_replicate]
    decide
  · intro b hb
    have hb' : b < 4 := hb
    refine ⟨zero_block, ?_, List.length_replicate _ _⟩
    interval_cases b <;> rfl

theorem small_free :
    free_blocks small_state.fs = 4 ∧ small_state.fs.FAT.num_blocks_taken = 0 ∧
    small_state.fs.superblock.amt_data_blocks = 4 := by
  refine ⟨?_, rfl, rfl⟩
  show ((List.replicate 2048 0).take 4).countP (fun v => v == 0) = 4
  rw [List.take_replicate]
  decide

set_option maxRecDepth 20000 in
theorem small_z_open_ok :
    is_mounted (open_at small_state_z 0 0) = true ∧
    geometry_ok (open_at small_state_z 0 0) ∧
    file_ok (open_at small_state_z 0 0) 0 (new_file [122]) [] ∧
    fd_ok (open_at small_state_z 0 0) 0 { fd := 0, file_num := 0, file_offset := 0 } 0 ∧
    free_blocks (open_at small_state_z 0 0).fs = 4 ∧
    (open_at small_state_z 0 0).fs.FAT.num_blocks_taken = 0 ∧
    (open_at small_state_z 0 0).fs.superblock.amt_data_blocks = 4 := by
  have hm : is_mounted small_state_z = true := create_at_mounted _ _ _ (by decide)
  have hfs := create_at_fs small_state [122] 0
  refine ⟨?_, create_at_geometry small_state [122] 0 small_geometry, ?_, ?_, ?_, ?_, ?_⟩
  · rw [is_mounted_iff] at hm ⊢
    exact hm
  · refine ⟨by decide, ?_, by decide, rfl, by decide, fun b hb => absurd hb (List.not_mem_nil b)⟩
    show small_state_z.fs.rootDir.files[0]? = _
    rw [small_state_z, hfs]
    decide
  · refine ⟨by decide, ?_, rfl⟩
    show (small_state_z.fs.open_files.set 0 _)[0]? = _
    rw [small_state_z, hfs]
    decide
  · show free_blocks { small_state_z.fs with open_files := _, num_open_files := _ } = 4
    rw [small_state_z, hfs]
    exact small_free.1
  · show small_state_z.fs.FAT.num_blocks_taken = 0
    rw [small_state_z, hfs]
    rfl
  · show small_state_z.fs.superblock.amt_data_blocks = 4
    rw [small_state_z, hfs]
    rfl

theorem fs_write_read_round_trip_witness :
    ∃ s1 s2 s3, fs_write (open_at small_state_z 0 0) ((0 : Nat) : Int) [1, 2, 3] 3 =
        some (3, s1) ∧
      fs_lseek s1 ((0 : Nat) : Int) 0 = some (0, s2) ∧
      fs_read s2 ((0 : Nat) : Int) [0, 0, 0, 0] 3 = some (3, [1, 2, 3, 0], s3) :=
  fs_write_read_round_trip (open_at small_state_z 0 0) 0 _ 0 _ [1, 2, 3] [0, 0, 0, 0]
    small_z_open_ok.1 small_z_open_ok.2.1 small_z_open_ok.2.2.1 small_z_open_ok.2.2.2.1
    (by decide)
    ⟨by rw [small_z_open_ok.2.2.2.2.1]; decide,
      by rw [small_z_open_ok.2.2.2.2.2.1, small_z_open_ok.2.2.2.2.2.2]; decide⟩

set_option maxRecDepth 20000 in
theorem create_open_write_read_witness :
    ∃ (fd : Nat) (s1 s2 s3 s4 : State), fs_create small_state [122] = some (0, s1) ∧
      fs_open s1 [122] = some ((fd : Int), s2) ∧
      fs_write s2 (fd : Int) [1, 2, 3] 3 = some (3, s3) ∧
      fs_read s3 (fd : Int) [0, 0, 0, 0] 3 = some (3, [1, 2, 3, 0], s4) ∧
      fs_stat s3 (fd : Int) = some (3, s3) ∧
      fs_stat s4 (fd : Int) = some (3, s4) :=
  create_open_write_read small_state [122] [1, 2, 3] [0, 0, 0, 0] (by decide) small_geometry
    (by decide) (by decide) (by decide) (by decide) (by decide) (by decide) (by decide)
    (by decide) (by decide) (by decide) (by decide)
    ⟨by rw [small_free.1]; decide, by rw [small_free.2.1, small_free.2.2]; decide⟩

/-! ### The position of a write -/

/-- The position at which `fs_write` writes.  The function fetches the
descriptor and does not use its offset: in a mounted state with sound
geometry, for a descriptor `fd` (with any offset `O`) on a well-formed file of
size `S` and content `F`, and a buffer of `count` bytes for which enough blocks are free,
`fs_write` returns `count`, the content of the file becomes `buf[0, count)`
followed by `F[count, S)`, the size becomes `max(S, count)`, and the open-file
table is unchanged, so the offset of the descriptor is still `O`. -/
theorem fs_write_from_start (s : State) (fd : Nat) (open_file : openFile) (file_num : Nat)
    (f : file) (bs : List Nat) (buf : List Nat) (count : Nat)
    (hm : is_mounted s = true) (hg : geometry_ok s) (hfile : file_ok s file_num f bs)
    (hfd : fd_ok s fd open_file file_num)
    (hmarked : ∀ b ∈ bs, s.fs.FAT.blocks[b]? ≠ some 0)
    (hzero : bs ≠ [] → s.fs.FAT.blocks[0]? ≠ some 0)
    (hbuf : count ≤ buf.length)
    (hfree : (count + 4095) / 4096 - bs.length ≤ free_blocks s.fs ∧
      s.fs.FAT.num_blocks_taken + ((count + 4095) / 4096 - bs.length) ≤
        s.fs.superblock.amt_data_blocks) :
    ∃ s' f' new, fs_write s (fd : Int) buf count = some ((count : Int), s') ∧
      is_mounted s' = true ∧ geometry_ok s' ∧ file_ok s' file_num f' (bs ++ new) ∧
      file_content s' f'.file_size (bs ++ new) =
        buf.take count ++ (file_content s f.file_size bs).drop count ∧
      f'.file_size = Max.max f.file_size count ∧
      s'.fs.open_files = s.fs.open_files ∧
      s'.fs.open_files[fd]? = some open_file := by
  obtain ⟨s', f', new, w1, _, post, hm', hg', hfile', hfd', hsize, _, hcontent⟩ :=
    fs_write_full s fd open_file file_num f bs buf count hm hg hfile hfd hmarked hzero hbuf hfree
  exact ⟨s', f', new, w1, hm', hg', hfile', hcontent, hsize, post.open_files, hfd'.2.1⟩

theorem fs_write_from_start_witness :
    ∃ s' f' new, fs_write small_state_z_5000 ((0 : Nat) : Int) [9] 1 = some (1, s') ∧
      is_mounted s' = true ∧ geometry_ok s' ∧ file_ok s' 0 f' ([0, 1] ++ new) ∧
      file_content s' f'.file_size ([0, 1] ++ new) =
        [9] ++ (file_content small_state_z_5000 5000 [0, 1]).drop 1 ∧
      f'.file_size = 5000 ∧
      s'.fs.open_files = small_state_z_5000.fs.open_files ∧
      s'.fs.open_files[0]? = some { fd := 0, file_num := 0, file_offset := 0 } :=
  fs_write_from_start small_state_z_5000 0 _ 0 _ [0, 1] [9] 1 (by decide) small_5000_geometry
    small_5000_file small_5000_fd small_5000_marked.1 (fun _ => small_5000_marked.2)
    (by decide) ⟨Nat.zero_le _, by decide⟩

/-- C2, at a failing input.  Descriptor 0 stands at offset 5000, the end of the
5000-byte file "z" of the small disk.  `fs_write(0, [9], 1)` returns 1, but
the size is still 5000 (not 5001), the offset of the descriptor is still 5000
(not 5001), and the byte went to position 0 of the file: the content is `[9]`
followed by `F[1, 5000)`, where the specification has `F` followed by `[9]`. -/
theorem fs_write_ignores_offset :
    ∃ s' f', fs_write
        (with_offset small_state_z_5000 0 { fd := 0, file_num := 0, file_offset := 0 } 5000)
        ((0 : Nat) : Int) [9] 1 = some (1, s') ∧
      s'.fs.rootDir.files[0]? = some f' ∧ f'.file_size = 5000 ∧
      s'.fs.open_files[0]? = some { fd := 0, file_num := 0, file_offset := 5000 } ∧
      file_content s' 5000 [0, 1] =
        [9] ++ (file_content small_state_z_5000 5000 [0, 1]).drop 1 :=
  match fs_write_full
      (with_offset small_state_z_5000 0 { fd := 0, file_num := 0, file_offset := 0 } 5000)
      0 { fd := 0, file_num := 0, file_offset := 5000 } 0 _ [0, 1] [9] 1 (by decide)
      small_5000_geometry small_5000_file ⟨by decide, by decide, rfl⟩ small_5000_marked.1
      (fun _ => small_5000_marked.2) (by decide) ⟨Nat.zero_le _, by decide⟩ with
  | ⟨s', f', new, w1, hnew, _, _, _, hfile', hfd', hsize, _, hcontent⟩ =>
    ⟨s', f', w1, hfile'.2.1, hsize, hfd'.2.1, by
      have : new = [] := List.eq_nil_of_length_eq_zero hnew
      rw [this, hsize] at hcontent
      exact hcontent⟩

/-! ### Short writes -/

/-- Short writes as `fs_write` performs them: it starts at the beginning of
the file, whatever the offset of the descriptor.  When the chain
of the file together with the blocks that can still be taken (free by the FAT
and by the counter) holds `k` bytes, `k` a multiple of 4096 below `count`,
`fs_write(fd, buf, count)` returns `k`; the file afterwards holds exactly
`buf[0, k)`, its size is `k`, its chain has `k / 4096` blocks, so no block is
allocated beyond those holding these bytes, and the counter grew by the number
of new blocks.  In particular (`k = 0`), when no data block is free and the
file is empty, the write returns 0 and changes nothing. -/
theorem fs_write_short (s : State) (fd : Nat) (open_file : openFile) (file_num : Nat)
    (f : file) (bs : List Nat) (buf : List Nat) (count k : Nat)
    (hm : is_mounted s = true) (hg : geometry_ok s) (hfile : file_ok s file_num f bs)
    (hfd : fd_ok s fd open_file file_num)
    (hmarked : ∀ b ∈ bs, s.fs.FAT.blocks[b]? ≠ some 0)
    (hzero : bs ≠ [] → s.fs.FAT.blocks[0]? ≠ some 0)
    (hcount : count < 2 ^ 31) (hbuf : count ≤ buf.length)
    (hk : k < count) (hk4 : k % 4096 = 0) (hbs : bs.length ≤ k / 4096)
    (hfree : k / 4096 - bs.length ≤ free_blocks s.fs ∧
      s.fs.FAT.num_blocks_taken + (k / 4096 - bs.length) ≤ s.fs.superblock.amt_data_blocks)
    (hend : k / 4096 - bs.length = free_blocks s.fs ∨
      s.fs.FAT.num_blocks_taken + (k / 4096 - bs.length) = s.fs.superblock.amt_data_blocks) :
    ∃ s' f' new, fs_write s (fd : Int) buf count = some ((k : Int), s') ∧
      is_mounted s' = true ∧ geometry_ok s' ∧ file_ok s' file_num f' (bs ++ new) ∧
      file_content s' f'.file_size (bs ++ new) = buf.take k ∧
      f'.file_size = k ∧ (bs ++ new).length = k / 4096 ∧
      s'.fs.FAT.num_blocks_taken = s.fs.FAT.num_blocks_taken + new.length ∧
      free_blocks s'.fs + new.length = free_blocks s.fs ∧
      s'.fs.open_files = s.fs.open_files ∧
      (k = 0 → s' = s) := by
  obtain ⟨s', f', new, w1, hnew, post, hm', hg', hfile', _, hsize, _, hcontent, hsame⟩ :=
    fs_write_short_eq s fd open_file file_num f bs buf count k hm hg hfile hfd hmarked hzero
      hcount hbuf hk hk4 hbs hfree hend
  exact ⟨s', f', new, w1, hm', hg', hfile', hcontent, hsize,
    by rw [List.length_append, hnew]; omega, post.taken, post.free, post.open_files, hsame⟩

theorem is_chain_four (t : List Nat) :
    is_chain (1 :: 2 :: 3 :: FAT_EOC :: t) 0 [0, 1, 2, 3] := by
  simp [is_chain]

theorem getElem?_four (a b c d : Nat) (t : List Nat) :
    (a :: b :: c :: d :: t)[0]? = some a ∧ (a :: b :: c :: d :: t)[1]? = some b ∧
    (a :: b :: c :: d :: t)[2]? = some c ∧ (a :: b :: c :: d :: t)[3]? = some d :=
  ⟨rfl, by simp, by simp, by simp⟩

set_option maxRecDepth 20000 in
theorem small_full_ok :
    is_mounted small_state_full = true ∧ geometry_ok small_state_full ∧
    file_ok small_state_full 0
      { new_file [122] with file_size := 16384, first_block_idx := 0 } [0, 1, 2, 3] ∧
    file_ok small_state_full 1 (new_file [121]) [] ∧
    fd_ok small_state_full 0 { fd := 0, file_num := 0, file_offset := 16384 } 0 ∧
    fd_ok small_state_full 1 { fd := 1, file_num := 1, file_offset := 0 } 1 ∧
    (∀ b ∈ [0, 1, 2, 3], small_state_full.fs.FAT.blocks[b]? ≠ some 0) ∧
    free_blocks small_state_full.fs = 0 := by
  have h := getElem?_four 1 2 3 FAT_EOC (List.replicate 2044 0)
  have h0 : small_state_full.fs.FAT.blocks[0]? = some 1 := h.1
  have h1 : small_state_full.fs.FAT.blocks[1]? = some 2 := h.2.1
  have h2 : small_state_full.fs.FAT.blocks[2]? = some 3 := h.2.2.1
  have h3 : small_state_full.fs.FAT.blocks[3]? = some FAT_EOC := h.2.2.2
  refine ⟨by decide, ⟨by decide, by decide, by decide, ?_, ?_⟩,
    ⟨by decide, by decide, by decide, is_chain_four _, by decide, ?_⟩,
    ⟨by decide, by decide, by decide, rfl, by decide,
      fun b hb => absurd hb (List.not_mem_nil b)⟩,
    ⟨by decide, by decide, rfl⟩, ⟨by decide, by decide, rfl⟩, ?_, ?_⟩
  · show 4 ≤ ([1, 2, 3, FAT_EOC] ++ List.replicate 2044 0).length
    rw [List.length_append, List.length_replicate]
    decide
  · intro b hb
    have hb' : b < 4 := hb
    refine ⟨List.replicate 4096 7, ?_, List.length_replicate _ _⟩
    interval_cases b <;> rfl
  · intro b hb
    have : b = 0 ∨ b = 1 ∨ b = 2 ∨ b = 3 := by simpa using hb
    rcases this with rfl | rfl | rfl | rfl <;> decide
  · intro b hb
    have : b = 0 ∨ b = 1 ∨ b = 2 ∨ b = 3 := by simpa using hb
    rcases this with rfl | rfl | rfl | rfl
    · rw [h0]; decide
    · rw [h1]; decide
    · rw [h2]; decide
    · rw [h3]; decide
  · show (List.take 4 (1 :: 2 :: 3 :: FAT_EOC :: List.replicate 2044 0)).countP
      (fun v => v == 0) = 0
    rfl

theorem fs_write_short_witness :
    ∃ s' f' new, fs_write small_state_full ((1 : Nat) : Int) (List.replicate 100 9) 100 =
        some (0, s') ∧
      is_mounted s' = true ∧ geometry_ok s' ∧ file_ok s' 1 f' ([] ++ new) ∧
      file_content s' f'.file_size ([] ++ new) = [] ∧
      f'.file_size = 0 ∧ ([] ++ new).length = 0 ∧
      s'.fs.FAT.num_blocks_taken = 4 + new.length ∧
      free_blocks s'.fs + new.length = free_blocks small_state_full.fs ∧
      s'.fs.open_files = small_state_full.fs.open_files ∧
      (0 = 0 → s' = small_state_full) :=
  fs_write_short small_state_full 1 _ 1 _ [] (List.replicate 100 9) 100 0 small_full_ok.1
    small_full_ok.2.1 small_full_ok.2.2.2.1 small_full_ok.2.2.2.2.2.1
    (fun b hb => absurd hb (List.not_mem_nil b)) (fun h => absurd rfl h) (by decide)
    (by decide) (by decide) (by decide) (by decide)
    ⟨Nat.zero_le _, by decide⟩ (Or.inl small_full_ok.2.2.2.2.2.2.2.symm)

/-- C16, at a failing input.  The small disk was filled through the file "z"
(16384 bytes, all four data blocks), no data block is free, the size of the
file is a multiple of 4096 and descriptor 0 stands at the end of the file.
`fs_write(0, buf, 100)` with 100 bytes of value 9 returns 100, not 0, and
changes the file: its content becomes the 100 bytes of `buf` followed by
`F[100, 16384)` (the first byte was 7 and is 9 now); size and chain are as
before. -/
theorem fs_write_on_full_disk_overwrites :
    free_blocks small_state_full.fs = 0 ∧
    small_state_full.fs.open_files[0]? =
      some { fd := 0, file_num := 0, file_offset := 16384 } ∧
    ∃ s' f', fs_write small_state_full ((0 : Nat) : Int) (List.replicate 100 9) 100 =
        some (100, s') ∧
      s'.fs.rootDir.files[0]? = some f' ∧ f'.file_size = 16384 ∧
      file_content s' 16384 [0, 1, 2, 3] =
        List.replicate 100 9 ++ (file_content small_state_full 16384 [0, 1, 2, 3]).drop 100 ∧
      (file_content small_state_full 16384 [0, 1, 2, 3]).head? = some 7 ∧
      (file_content s' 16384 [0, 1, 2, 3]).head? = some 9 :=
  ⟨small_full_ok.2.2.2.2.2.2.2, small_full_ok.2.2.2.2.1.2.1,
    match fs_write_full small_state_full 0 _ 0 _ [0, 1, 2, 3] (List.replicate 100 9) 100
        small_full_ok.1 small_full_ok.2.1 small_full_ok.2.2.1 small_full_ok.2.2.2.2.1
        small_full_ok.2.2.2.2.2.2.1
        (fun _ => small_full_ok.2.2.2.2.2.2.1 0 (by decide)) (by decide)
        ⟨Nat.zero_le _, by decide⟩ with
    | ⟨s', f', new, w1, hnew, _, _, _, hfile', _, hsize, _, hcontent⟩ =>
      have hn : new = [] := List.eq_nil_of_length_eq_zero hnew
      have hc : file_content s' 16384 [0, 1, 2, 3] =
          List.replicate 100 9 ++
            (file_content small_state_full 16384 [0, 1, 2, 3]).drop 100 := by
        rw [hn, hsize] at hcontent
        exact hcontent
      ⟨s', f', w1, hfile'.2.1, hsize, hc, rfl, by rw [hc]; rfl⟩⟩

/-! ### Memory images: round trips -/

theorem le_bytes_length : ∀ w n, (le_bytes w n).length = w := by
  intro w
  induction w with
  | zero => intro n; rfl
  | succ w ih =>
    intro n
    show (n % 256 :: le_bytes w (n / 256)).length = w + 1
    rw [List.length_cons, ih]

theorem le_value_le_bytes : ∀ w n, le_value (le_bytes w n) = n % 256 ^ w := by
  intro w
  induction w with
  | zero =>
    intro n
    show 0 = n % 1
    omega
  | succ w ih =>
    intro n
    show n % 256 + 256 * le_value (le_bytes w (n / 256)) = n % 256 ^ (w + 1)
    rw [ih, Nat.pow_succ, Nat.mul_comm (256 ^ w) 256, Nat.mod_mul]

theorem le_value_le_bytes_small (w n : Nat) (h : n < 256 ^ w) :
    le_value (le_bytes w n) = n := by
  rw [le_value_le_bytes, Nat.mod_eq_of_lt h]

theorem flatMap_chunk {α : Type} (g : α → List Nat) (c : Nat) :
    ∀ (l : List α) (i : Nat) (a : α), (∀ x ∈ l, (g x).length = c) → l[i]? = some a →
      ((l.flatMap g).drop (c * i)).take c = g a := by
  intro l
  induction l with
  | nil => intro i a _ h; simp at h
  | cons x xs ih =>
    intro i a hlen h
    have hx := hlen x (List.mem_cons_self _ _)
    rw [List.flatMap_cons]
    cases i with
    | zero =>
      simp only [List.getElem?_cons_zero, Option.some.injEq] at h
      subst h
      rw [Nat.mul_zero, List.drop_zero, List.take_append_of_le_length (by omega),
        List.take_of_length_le (by omega)]
    | succ i =>
      simp only [List.getElem?_cons_succ] at h
      have : c * (i + 1) = (g x).length + c * i := by rw [hx, Nat.mul_succ]; omega
      rw [this, List.drop_append]
      exact ih i a (fun y hy => hlen y (List.mem_cons_of_mem _ hy)) h

theorem flatMap_length {α : Type} (g : α → List Nat) (c : Nat) :
    ∀ (l : List α), (∀ x ∈ l, (g x).length = c) → (l.flatMap g).length = c * l.length := by
  intro l
  induction l with
  | nil => intro _; rfl
  | cons x xs ih =>
    intro hlen
    rw [List.flatMap_cons, List.length_append, hlen x (List.mem_cons_self _ _),
      ih (fun y hy => hlen y (List.mem_cons_of_mem _ hy)), List.length_cons, Nat.mul_succ]
    omega

theorem FAT_round_trip (l : List Nat) (hlen : l.length = BLOCK_SIZE / 2)
    (hr : ∀ v ∈ l, v < 2 ^ 16) : FAT_of_bytes (FAT_bytes l) = l := by
  have hlen' : l.length = 2048 := hlen
  unfold FAT_of_bytes FAT_bytes
  apply List.ext_getElem?
  intro j
  by_cases hj : j < 2048
  · have hjl : j < l.length := by omega
    rw [List.getElem?_map, List.getElem?_range (by show j < 4096 / 2; omega)]
    simp only [Option.map_some']
    rw [flatMap_chunk (le_bytes 2) 2 l j l[j] (fun x _ => le_bytes_length 2 x)
      (List.getElem?_eq_getElem hjl),
      le_value_le_bytes_small 2 _ (hr _ (List.getElem_mem _)), List.getElem?_eq_getElem hjl]
  · rw [List.getElem?_eq_none (by rw [List.length_map, List.length_range]; show 4096 / 2 ≤ j; omega),
      List.getElem?_eq_none (by omega)]

theorem file_bytes_length (f : file) (h : entry_ok f) : (file_bytes f).length = 32 := by
  unfold file_bytes
  have h1 : f.filename.length = 16 := h.1
  rw [List.length_append, List.length_append, List.length_append, le_bytes_length,
    le_bytes_length, h1, h.2.1]

theorem file_round_trip (f : file) (h : entry_ok f) : file_of_bytes (file_bytes f) = f := by
  have h1 : f.filename.length = 16 := h.1
  have h2 := h.2.1
  have h4 := le_bytes_length 4 f.file_size
  have h5 := le_bytes_length 2 f.first_block_idx
  unfold file_of_bytes file_bytes
  have e1 : (f.filename ++ le_bytes 4 f.file_size ++ le_bytes 2 f.first_block_idx ++
      f.padding).take FS_FILENAME_LEN = f.filename := by
    rw [List.append_assoc, List.append_assoc, List.take_append_of_le_length (by rw [h1]),
      List.take_of_length_le (by rw [h1])]
  have e2 : ((f.filename ++ le_bytes 4 f.file_size ++ le_bytes 2 f.first_block_idx ++
      f.padding).drop 16).take 4 = le_bytes 4 f.file_size := by
    rw [List.append_assoc, List.append_assoc, ← h1, List.drop_left,
      List.take_append_of_le_length (by rw [h4]), List.take_of_length_le (by rw [h4])]
  have e3 : ((f.filename ++ le_bytes 4 f.file_size ++ le_bytes 2 f.first_block_idx ++
      f.padding).drop 20).take 2 = le_bytes 2 f.first_block_idx := by
    have : 20 = (f.filename ++ le_bytes 4 f.file_size).length := by
      rw [List.length_append, h1, h4]
    rw [List.append_assoc, this, List.drop_left,
      List.take_append_of_le_length (by rw [h5]), List.take_of_length_le (by rw [h5])]
  have e4 : ((f.filename ++ le_bytes 4 f.file_size ++ le_bytes 2 f.first_block_idx ++
      f.padding).drop 22).take 10 = f.padding := by
    have : 22 = (f.filename ++ le_bytes 4 f.file_size ++ le_bytes 2 f.first_block_idx).length := by
      rw [List.length_append, List.length_append, h1, h4, h5]
    rw [this, List.drop_left, List.take_of_length_le (by rw [h2])]
  rw [e1, e2, e3, e4, le_value_le_bytes_small 4 _ h.2.2.1, le_value_le_bytes_small 2 _ h.2.2.2]

theorem files_round_trip (files : List file) (hlen : files.length = FS_FILE_MAX_COUNT)
    (hok : ∀ f ∈ files, entry_ok f) : files_of_bytes (files_bytes files) = files := by
  have hlen' : files.length = 128 := hlen
  unfold files_of_bytes files_bytes
  apply List.ext_getElem?
  intro j
  by_cases hj : j < 128
  · have hjl : j < files.length := by omega
    rw [List.getElem?_map, List.getElem?_range (by show j < 128; omega)]
    simp only [Option.map_some']
    rw [flatMap_chunk file_bytes 32 files j files[j] (fun x hx => file_bytes_length x (hok x hx))
      (List.getElem?_eq_getElem hjl),
      file_round_trip _ (hok _ (List.getElem_mem _)), List.getElem?_eq_getElem hjl]
  · rw [List.getElem?_eq_none (by rw [List.length_map, List.length_range]; show 128 ≤ j; omega),
      List.getElem?_eq_none (by omega)]

theorem superblock_round_trip (sb : superblock)
    (h0 : sb.signature.length = SIGNATURE_LENGTH) (h1 : sb.block_count < 2 ^ 16)
    (h2 : sb.root_block_idx < 2 ^ 16) (h3 : sb.data_block_start_idx < 2 ^ 16)
    (h4 : sb.amt_data_blocks < 2 ^ 16) (h5 : sb.num_blocks_for_FAT < 2 ^ 8) :
    superblock_of_bytes (superblock_bytes sb) = sb := by
  have h0' : sb.signature.length = 8 := h0
  have b1 := le_bytes_length 2 sb.block_count
  have b2 := le_bytes_length 2 sb.root_block_idx
  have b3 := le_bytes_length 2 sb.data_block_start_idx
  have b4 := le_bytes_length 2 sb.amt_data_blocks
  have b5 := le_bytes_length 1 sb.num_blocks_for_FAT
  unfold superblock_of_bytes superblock_bytes
  have e0 : (sb.signature ++ le_bytes 2 sb.block_count ++ le_bytes 2 sb.root_block_idx ++
      le_bytes 2 sb.data_block_start_idx ++ le_bytes 2 sb.amt_data_blocks ++
      le_bytes 1 sb.num_blocks_for_FAT ++ sb.rest).take SIGNATURE_LENGTH = sb.signature := by
    simp only [List.append_assoc]
    rw [List.take_append_of_le_length (by rw [h0']), List.take_of_length_le (by rw [h0'])]
  have e1 : ((sb.signature ++ le_bytes 2 sb.block_count ++ le_bytes 2 sb.root_block_idx ++
      le_bytes 2 sb.data_block_start_idx ++ le_bytes 2 sb.amt_data_blocks ++
      le_bytes 1 sb.num_blocks_for_FAT ++ sb.rest).drop 8).take 2 =
      le_bytes 2 sb.block_count := by
    simp only [List.append_assoc]
    rw [← h0', List.drop_left, List.take_append_of_le_length (by rw [b1]),
      List.take_of_length_le (by rw [b1])]
  have e2 : ((sb.signature ++ le_bytes 2 sb.block_count ++ le_bytes 2 sb.root_block_idx ++
      le_bytes 2 sb.data_block_start_idx ++ le_bytes 2 sb.amt_data_blocks ++
      le_bytes 1 sb.num_blocks_for_FAT ++ sb.rest).drop 10).take 2 =
      le_bytes 2 sb.root_block_idx := by
    have : 10 = (sb.signature ++ le_bytes 2 sb.block_count).length := by
      rw [List.length_append, h0', b1]
    simp only [List.append_assoc]
    rw [← List.append_assoc, this, List.drop_left, List.take_append_of_le_length (by rw [b2]),
      List.take_of_length_le (by rw [b2])]
  have e3 : ((sb.signature ++ le_bytes 2 sb.block_count ++ le_bytes 2 sb.root_block_idx ++
      le_bytes 2 sb.data_block_start_idx ++ le_bytes 2 sb.amt_data_blocks ++
      le_bytes 1 sb.num_blocks_for_FAT ++ sb.rest).drop 12).take 2 =
      le_bytes 2 sb.data_block_start_idx := by
    have : 12 = (sb.signature ++ le_bytes 2 sb.block_count ++
        le_bytes 2 sb.root_block_idx).length := by
      rw [List.length_append, List.length_append, h0', b1, b2]
    rw [List.append_assoc _ _ sb.rest, List.append_assoc _ _ (_ ++ sb.rest),
      List.append_assoc _ (le_bytes 2 sb.data_block_start_idx) _, this, List.drop_left,
      List.take_append_of_le_length (by rw [b3]), List.take_of_length_le (by rw [b3])]
  have e4 : ((sb.signature ++ le_bytes 2 sb.block_count ++ le_bytes 2 sb.root_block_idx ++
      le_bytes 2 sb.data_block_start_idx ++ le_bytes 2 sb.amt_data_blocks ++
      le_bytes 1 sb.num_blocks_for_FAT ++ sb.rest).drop 14).take 2 =
      le_bytes 2 sb.amt_data_blocks := by
    have : 14 = (sb.signature ++ le_bytes 2 sb.block_count ++
        le_bytes 2 sb.root_block_idx ++ le_bytes 2 sb.data_block_start_idx).length := by
      rw [List.length_append, List.length_append, List.length_append, h0', b1, b2, b3]
    rw [List.append_assoc _ _ sb.rest, List.append_assoc _ (le_bytes 2 sb.amt_data_blocks) _,
      this, List.drop_left,
      List.take_append_of_le_length (by rw [b4]), List.take_of_length_le (by rw [b4])]
  have e5 : ((sb.signature ++ le_bytes 2 sb.block_count ++ le_bytes 2 sb.root_block_idx ++
      le_bytes 2 sb.data_block_start_idx ++ le_bytes 2 sb.amt_data_blocks ++
      le_bytes 1 sb.num_blocks_for_FAT ++ sb.rest).drop 16).take 1 =
      le_bytes 1 sb.num_blocks_for_FAT := by
    have : 16 = (sb.signature ++ le_bytes 2 sb.block_count ++
        le_bytes 2 sb.root_block_idx ++ le_bytes 2 sb.data_block_start_idx ++
        le_bytes 2 sb.amt_data_blocks).length := by
      rw [List.length_append, List.length_append, List.length_append, List.length_append,
        h0', b1, b2, b3, b4]
    rw [List.append_assoc _ (le_bytes 1 sb.num_blocks_for_FAT) _, this, List.drop_left,
      List.take_append_of_le_length (by rw [b5]), List.take_of_length_le (by rw [b5])]
  have e6 : (sb.signature ++ le_bytes 2 sb.block_count ++ le_bytes 2 sb.root_block_idx ++
      le_bytes 2 sb.data_block_start_idx ++ le_bytes 2 sb.amt_data_blocks ++
      le_bytes 1 sb.num_blocks_for_FAT ++ sb.rest).drop 17 = sb.rest := by
    have : 17 = (sb.signature ++ le_bytes 2 sb.block_count ++
        le_bytes 2 sb.root_block_idx ++ le_bytes 2 sb.data_block_start_idx ++
        le_bytes 2 sb.amt_data_blocks ++ le_bytes 1 sb.num_blocks_for_FAT).length := by
      rw [List.length_append, List.length_append, List.length_append, List.length_append,
        List.length_append, h0', b1, b2, b3, b4, b5]
    rw [this, List.drop_left]
  rw [e0, e1, e2, e3, e4, e5, e6, le_value_le_bytes_small 2 _ h1, le_value_le_bytes_small 2 _ h2,
    le_value_le_bytes_small 2 _ h3, le_value_le_bytes_small 2 _ h4,
    le_value_le_bytes_small 1 _ h5]

/-! ### Unmounting and mounting again -/

theorem fs_save_FAT_loop_get_self (blocks : List Nat) :
    ∀ n i d j, i ≤ j → j < i + n → d.opened = true → FAT_START_IDX + j < d.blocks.length →
      (fs_save_FAT_loop blocks n i d).blocks[FAT_START_IDX + j]? =
        some (FAT_bytes ((blocks.drop (BLOCK_SIZE * j / 2)).take (BLOCK_SIZE / 2))) := by
  intro n
  induction n with
  | zero => intro i d j h1 h2; omega
  | succ n ih =>
    intro i d j h1 h2 ho hl
    unfold fs_save_FAT_loop
    simp only []
    by_cases hij : j = i
    · subst hij
      rw [fs_save_FAT_loop_get _ _ _ _ _ (Or.inl (by omega)), block_write_get_self _ _ _ ho hl]
    · exact ih (i + 1) _ j (by omega) (by omega) (by rw [block_write_opened]; exact ho)
        (by rw [block_write_length]; exact hl)

theorem fs_umount_eq (s : State) (hm : is_mounted s = true) :
    fs_umount s = (0, { disk := { (fs_save_FAT (fs_save_rootDir
      (fs_save_superblock s).2).2).2.disk with opened := false }, fs := s.fs }) := by
  have ho := ((is_mounted_iff s).1 hm).1
  have hop : (fs_save_FAT (fs_save_rootDir (fs_save_superblock s).2).2).2.disk.opened = true := by
    rw [fs_save_FAT_opened, fs_save_rootDir_opened]
    unfold fs_save_superblock
    simp only []
    split <;> (rw [block_write_opened]; exact ho)
  have hc : block_disk_close (fs_save_FAT (fs_save_rootDir (fs_save_superblock s).2).2).2.disk =
      (0, { (fs_save_FAT (fs_save_rootDir (fs_save_superblock s).2).2).2.disk with
        opened := false }) := by
    unfold block_disk_close
    rw [if_pos hop]
  have hfs : (fs_save_FAT (fs_save_rootDir (fs_save_superblock s).2).2).2.fs = s.fs := by
    rw [fs_save_FAT_fs, fs_save_rootDir_fs, fs_save_superblock_fs]
  unfold fs_umount
  rw [if_neg (by simp [hm])]
  simp only []
  rw [if_neg (lnot_ne _), if_neg (lnot_ne _), if_neg (lnot_ne _), hc]
  simp only []
  rw [if_neg (by decide)]
  show (0, State.mk _ (fs_save_FAT (fs_save_rootDir (fs_save_superblock s).2).2).2.fs) = _
  rw [hfs]

theorem fs_save_superblock_disk (s : State) :
    (fs_save_superblock s).2.disk =
      (block_write s.disk 0 (superblock_bytes s.fs.superblock)).2 := by
  unfold fs_save_superblock; simp only []; split <;> rfl

theorem saved_disk (s : State) (ho : s.disk.opened = true)
    (hF : s.fs.superblock.num_blocks_for_FAT < s.fs.superblock.root_block_idx)
    (hroot : s.fs.superblock.root_block_idx < s.disk.blocks.length) :
    (fs_save_FAT (fs_save_rootDir (fs_save_superblock s).2).2).2.disk.blocks[0]? =
      some (superblock_bytes s.fs.superblock) ∧
    (fs_save_FAT (fs_save_rootDir (fs_save_superblock s).2).2).2.disk.blocks[
      s.fs.superblock.root_block_idx]? = some (files_bytes s.fs.rootDir.files) ∧
    (∀ j, j < s.fs.superblock.num_blocks_for_FAT →
      (fs_save_FAT (fs_save_rootDir (fs_save_superblock s).2).2).2.disk.blocks[
        FAT_START_IDX + j]? =
        some (FAT_bytes ((s.fs.FAT.blocks.drop (BLOCK_SIZE * j / 2)).take (BLOCK_SIZE / 2)))) ∧
    (∀ i, s.fs.superblock.root_block_idx < i →
      (fs_save_FAT (fs_save_rootDir (fs_save_superblock s).2).2).2.disk.blocks[i]? =
        s.disk.blocks[i]?) ∧
    (fs_save_FAT (fs_save_rootDir (fs_save_superblock s).2).2).2.disk.blocks.length =
      s.disk.blocks.length ∧
    (fs_save_FAT (fs_save_rootDir (fs_save_superblock s).2).2).2.disk.diskname =
      s.disk.diskname := by
  have hfs1 := fs_save_superblock_fs s
  have hfs2 : (fs_save_rootDir (fs_save_superblock s).2).2.fs = s.fs := by
    rw [fs_save_rootDir_fs, hfs1]
  have hd1 := fs_save_superblock_disk s
  have hd2 : (fs_save_rootDir (fs_save_superblock s).2).2.disk =
      (block_write (block_write s.disk 0 (superblock_bytes s.fs.superblock)).2
        s.fs.superblock.root_block_idx (files_bytes s.fs.rootDir.files)).2 := by
    rw [fs_save_rootDir_disk, hfs1, hd1]
  have hd3 : (fs_save_FAT (fs_save_rootDir (fs_save_superblock s).2).2).2.disk =
      fs_save_FAT_loop s.fs.FAT.blocks s.fs.superblock.num_blocks_for_FAT 0
        (block_write (block_write s.disk 0 (superblock_bytes s.fs.superblock)).2
          s.fs.superblock.root_block_idx (files_bytes s.fs.rootDir.files)).2 := by
    show fs_save_FAT_loop (fs_save_rootDir (fs_save_superblock s).2).2.fs.FAT.blocks
      (fs_save_rootDir (fs_save_superblock s).2).2.fs.superblock.num_blocks_for_FAT 0
      (fs_save_rootDir (fs_save_superblock s).2).2.disk = _
    rw [hfs2, hd2]
  have ho1 : (block_write s.disk 0 (superblock_bytes s.fs.superblock)).2.opened = true := by
    rw [block_write_opened]; exact ho
  have hl1 : (block_write s.disk 0 (superblock_bytes s.fs.superblock)).2.blocks.length =
      s.disk.blocks.length := block_write_length _ _ _
  rw [hd3]
  refine ⟨?_, ?_, ?_, ?_, ?_, ?_⟩
  · rw [fs_save_FAT_loop_get _ _ _ _ _ (Or.inl (by show 0 < 1 + 0; omega)),
      block_write_get_ne _ _ _ _ (by omega), block_write_get_self _ _ _ ho (by omega)]
  · rw [fs_save_FAT_loop_get _ _ _ _ _ (Or.inr (by
        show 1 + 0 + s.fs.superblock.num_blocks_for_FAT ≤ s.fs.superblock.root_block_idx; omega)),
      block_write_get_self _ _ _ ho1 (by rw [hl1]; exact hroot)]
  · intro j hj
    exact fs_save_FAT_loop_get_self _ _ 0 _ j (Nat.zero_le _) (by omega)
      (by rw [block_write_opened]; exact ho1)
      (by rw [block_write_length, hl1]; show 1 + j < _; omega)
  · intro i hi
    rw [fs_save_FAT_loop_get _ _ _ _ _ (Or.inr (by
        show 1 + 0 + s.fs.superblock.num_blocks_for_FAT ≤ i; omega)),
      block_write_get_ne _ _ _ _ (by omega), block_write_get_ne _ _ _ _ (by omega)]
  · rw [fs_save_FAT_loop_length, block_write_length, hl1]
  · have hn : ∀ d i b, (block_write d i b).2.diskname = d.diskname := by
      intro d i b
      unfold block_write
      split <;> rfl
    have hn2 : ∀ blocks n i d, (fs_save_FAT_loop blocks n i d).diskname = d.diskname := by
      intro blocks n
      induction n with
      | zero => intro i d; rfl
      | succ n ih =>
        intro i d
        unfold fs_save_FAT_loop
        simp only []
        rw [ih, hn]
    rw [hn2, hn, hn]

theorem fs_mount_FAT_loop_eq (d : BlockDev) (T : List Nat) (F : Nat)
    (ho : d.opened = true) (hT : T.length = F * (BLOCK_SIZE / 2))
    (hr : ∀ v ∈ T, v < 2 ^ 16)
    (hblocks : ∀ j, j < F → d.blocks[FAT_START_IDX + j]? =
      some (FAT_bytes ((T.drop (BLOCK_SIZE * j / 2)).take (BLOCK_SIZE / 2)))) :
    ∀ n i cur, i + n = F → cur.length = F * (BLOCK_SIZE / 2) →
      cur.take (BLOCK_SIZE * i / 2) = T.take (BLOCK_SIZE * i / 2) →
      fs_mount_FAT_loop d n i cur = T := by
  have hT' : T.length = F * 2048 := hT
  intro n
  induction n with
  | zero =>
    intro i cur hi hlen htake
    have hlen' : cur.length = F * 2048 := hlen
    have h1 : 4096 * i / 2 = 2048 * i := by omega
    unfold fs_mount_FAT_loop
    have htake' : cur.take (4096 * i / 2) = T.take (4096 * i / 2) := htake
    rw [h1, List.take_of_length_le (by omega), List.take_of_length_le (by omega)] at htake'
    exact htake'
  | succ n ih =>
    intro i cur hi hlen htake
    have hlen' : cur.length = F * 2048 := hlen
    have h1 : 4096 * i / 2 = 2048 * i := by omega
    have htake' : cur.take (2048 * i) = T.take (2048 * i) := by
      have : cur.take (4096 * i / 2) = T.take (4096 * i / 2) := htake
      rw [h1] at this
      exact this
    have hb := hblocks i (by omega)
    have hchunk : ((T.drop (2048 * i)).take 2048).length = 2048 := by
      rw [List.length_take, List.length_drop]
      have : 2048 * (i + 1) ≤ F * 2048 := by
        have : i + 1 ≤ F := by omega
        calc 2048 * (i + 1) ≤ 2048 * F := Nat.mul_le_mul_left _ this
          _ = F * 2048 := Nat.mul_comm _ _
      omega
    have hrt : FAT_of_bytes (FAT_bytes ((T.drop (2048 * i)).take 2048)) =
        (T.drop (2048 * i)).take 2048 :=
      FAT_round_trip _ hchunk (fun v hv => hr v (List.mem_of_mem_drop (List.mem_of_mem_take hv)))
    unfold fs_mount_FAT_loop
    simp only []
    have hrd : ∀ old, (block_read d (FAT_START_IDX + i) old).2 =
        FAT_bytes ((T.drop (BLOCK_SIZE * i / 2)).take (BLOCK_SIZE / 2)) := by
      intro old
      unfold block_read
      rw [if_pos ho, hb]
    rw [hrd]
    show fs_mount_FAT_loop d n (i + 1)
      (cur.take (4096 * i / 2) ++ FAT_of_bytes (FAT_bytes ((T.drop (4096 * i / 2)).take 2048)) ++
        cur.drop (4096 * i / 2 + 2048)) = T
    rw [h1, hrt]
    have hmul : 2048 * (i + 1) ≤ F * 2048 := by
      have : i + 1 ≤ F := by omega
      calc 2048 * (i + 1) ≤ 2048 * F := Nat.mul_le_mul_left _ this
        _ = F * 2048 := Nat.mul_comm _ _
    apply ih (i + 1) _ (by omega)
    · show (cur.take (2048 * i) ++ (T.drop (2048 * i)).take 2048 ++
        cur.drop (2048 * i + 2048)).length = F * 2048
      rw [List.length_append, List.length_append, hchunk, List.length_take, List.length_drop]
      omega
    · have h2 : 4096 * (i + 1) / 2 = 2048 * i + 2048 := by omega
      show (cur.take (2048 * i) ++ (T.drop (2048 * i)).take 2048 ++
        cur.drop (2048 * i + 2048)).take (4096 * (i + 1) / 2) = T.take (4096 * (i + 1) / 2)
      have hl : (cur.take (2048 * i) ++ (T.drop (2048 * i)).take 2048).length =
          2048 * i + 2048 := by
        rw [List.length_append, hchunk, List.length_take]
        omega
      rw [h2, List.take_append_of_le_length (by rw [hl]), List.take_of_length_le (by rw [hl]),
        htake', List.take_add]

theorem resize_length (l : List Nat) (n : Nat) : (resize l n).length = n := by
  unfold resize
  rw [List.length_take, List.length_append, List.length_replicate]
  omega

theorem remount_eq (s : State) (junk : FS) (hm : is_mounted s = true) (hi : image_ok s) :
    fs_umount s = (0, (fs_umount s).2) ∧
    (fs_mount junk s.disk.diskname (fs_umount s).2).1 = 0 ∧
    is_mounted (fs_mount junk s.disk.diskname (fs_umount s).2).2 = true ∧
    (fs_mount junk s.disk.diskname (fs_umount s).2).2.fs.superblock = s.fs.superblock ∧
    (fs_mount junk s.disk.diskname (fs_umount s).2).2.fs.rootDir.files = s.fs.rootDir.files ∧
    (fs_mount junk s.disk.diskname (fs_umount s).2).2.fs.FAT.blocks = s.fs.FAT.blocks ∧
    (fs_mount junk s.disk.diskname (fs_umount s).2).2.fs.open_files =
      List.replicate FS_OPEN_MAX_COUNT { fd := 0, file_num := -1, file_offset := 0 } ∧
    (fs_mount junk s.disk.diskname (fs_umount s).2).2.fs.num_open_files = 0 ∧
    (fs_mount junk s.disk.diskname (fs_umount s).2).2.fs.FAT.num_blocks_taken =
      (fs_mount_count_loop s.fs.rootDir.files FS_FILE_MAX_COUNT 0
        ((fs_init junk).FAT.num_blocks_taken, 0)).1 ∧
    ∀ i, s.fs.superblock.root_block_idx < i →
      (fs_mount junk s.disk.diskname (fs_umount s).2).2.disk.blocks[i]? = s.disk.blocks[i]? := by
  obtain ⟨i0, i1, i2, i3, i4, i5, i6, i7, i8, i9, i10, i11⟩ := hi
  have ho := ((is_mounted_iff s).1 hm).1
  have hu := fs_umount_eq s hm
  obtain ⟨d0, droot, dfat, ddata, dlen, dname⟩ := saved_disk s ho i6 i7
  rw [hu]
  generalize hD : (fs_save_FAT (fs_save_rootDir (fs_save_superblock s).2).2).2.disk = D
    at d0 droot dfat ddata dlen dname
  have hopen : block_disk_open s.disk.diskname { D with opened := false } =
      (0, { D with opened := true }) := by
    unfold block_disk_open
    rw [if_neg (by
      intro h
      rcases h with h | h
      · exact Bool.noConfusion h
      · exact h dname.symm)]
  have hrd0 : ∀ old, (block_read { D with opened := true } 0 old).2 =
      superblock_bytes s.fs.superblock := by
    intro old
    unfold block_read
    rw [if_pos rfl]
    show (match D.blocks[0]? with | some b => ((0 : Int), b) | none => (-1, old)).2 = _
    rw [d0]
  have hsb : ∀ old, superblock_of_bytes (block_read { D with opened := true } 0 old).2 =
      s.fs.superblock := by
    intro old
    rw [hrd0, superblock_round_trip _ i0 i1 i2 i3 i4 i5]
  have hrdr : ∀ old, (block_read { D with opened := true } s.fs.superblock.root_block_idx
      old).2 = files_bytes s.fs.rootDir.files := by
    intro old
    unfold block_read
    rw [if_pos rfl]
    show (match D.blocks[s.fs.superblock.root_block_idx]? with
      | some b => ((0 : Int), b) | none => (-1, old)).2 = _
    rw [droot]
  have hfat : ∀ cur, cur.length = s.fs.superblock.num_blocks_for_FAT * (BLOCK_SIZE / 2) →
      fs_mount_FAT_loop { D with opened := true } s.fs.superblock.num_blocks_for_FAT 0 cur =
        s.fs.FAT.blocks := by
    intro cur hcur
    exact fs_mount_FAT_loop_eq { D with opened := true } s.fs.FAT.blocks
      s.fs.superblock.num_blocks_for_FAT rfl i10 i11 dfat _ 0 cur (Nat.zero_add _) hcur
      (by rw [Nat.mul_zero, Nat.zero_div, List.take_zero, List.take_zero])
  have hmount : fs_mount junk s.disk.diskname
      { disk := { D with opened := false }, fs := s.fs } =
      (0, { disk := { D with opened := true }
            fs := { fs_init junk with
              superblock := s.fs.superblock
              FAT := { curr_pos := 0
                       num_blocks_taken := (fs_mount_count_loop s.fs.rootDir.files
                         FS_FILE_MAX_COUNT 0 ((fs_init junk).FAT.num_blocks_taken, 0)).1
                       blocks := s.fs.FAT.blocks }
              rootDir := { num_files := (fs_mount_count_loop s.fs.rootDir.files
                             FS_FILE_MAX_COUNT 0 ((fs_init junk).FAT.num_blocks_taken, 0)).2
                           files := s.fs.rootDir.files }
              is_mounted := true } }) := by
    unfold fs_mount
    simp only []
    rw [hopen]
    simp only []
    rw [if_neg (by decide)]
    simp only [hsb, hrdr, files_round_trip _ i8 i9]
    rw [hfat _ (resize_length _ _)]
  rw [hmount]
  refine ⟨rfl, rfl, ?_, rfl, rfl, rfl, rfl, rfl, rfl, ?_⟩
  · rw [is_mounted_iff]
    exact ⟨rfl, rfl⟩
  · intro i hi
    exact ddata i hi

/-- C5. Persistence: for a mounted state with sound geometry whose structures
fill their images on the disk, `fs_umount` returns 0 and `fs_mount` of the same
disk returns 0, the directory entries and the FAT links after the remount are
those before the unmount, and every well-formed file, opened after the remount
by its name (which yields descriptor 0 of the fresh table), has the size it
had (`fs_stat`) and reads back, over its whole size, the bytes it held
(`fs_read`). -/
theorem persistence (s : State) (junk : FS) (hm : is_mounted s = true) (hg : geometry_ok s)
    (hi : image_ok s) :
    ∃ su sm, fs_umount s = (0, su) ∧ fs_mount junk s.disk.diskname su = (0, sm) ∧
      sm.fs.rootDir.files = s.fs.rootDir.files ∧ sm.fs.FAT.blocks = s.fs.FAT.blocks ∧
      ∀ (filename : List Nat) (file_num : Nat) (f : file) (bs out : List Nat),
        fs_file_num_from_filename s.fs filename = (file_num : Int) →
        file_ok s file_num f bs → f.file_size ≤ out.length →
        ∃ s1 s2, fs_open sm filename = some (((0 : Nat) : Int), s1) ∧
          fs_stat s1 ((0 : Nat) : Int) = some ((f.file_size : Int), s1) ∧
          fs_read s1 ((0 : Nat) : Int) out f.file_size =
            some ((f.file_size : Int),
              file_content s f.file_size bs ++ out.drop f.file_size, s2) := by
  obtain ⟨r1, r2, r3, r4, r5, r6, r7, r8, _, r9⟩ := remount_eq s junk hm hi
  generalize hsu : (fs_umount s).2 = su at *
  generalize hsm : fs_mount junk s.disk.diskname su = rm at *
  obtain ⟨rc, sm⟩ := rm
  have hrc : rc = 0 := r2
  subst hrc
  refine ⟨su, sm, r1, hsm, r5, r6, ?_⟩
  have r3' : is_mounted sm = true := r3
  have r4' : sm.fs.superblock = s.fs.superblock := r4
  have r5' : sm.fs.rootDir.files = s.fs.rootDir.files := r5
  have r6' : sm.fs.FAT.blocks = s.fs.FAT.blocks := r6
  have r7' : sm.fs.open_files =
      List.replicate FS_OPEN_MAX_COUNT { fd := 0, file_num := -1, file_offset := 0 } := r7
  have r8' : sm.fs.num_open_files = 0 := r8
  have r9' : ∀ i, s.fs.superblock.root_block_idx < i →
      sm.disk.blocks[i]? = s.disk.blocks[i]? := r9
  have hblock : ∀ b, block_data sm b = block_data s b := by
    intro b
    unfold block_data
    rw [List.getD_eq_getElem?_getD, List.getD_eq_getElem?_getD, r4',
      r9' _ (by have := hg.2.1; omega)]
  have hgm : geometry_ok sm := by
    apply geometry_ok_of s sm hg r4' (by rw [r6'])
    intro b hb
    rw [hblock]
    refine ⟨(block_data_of_geometry s hg b hb).2, ?_⟩
    apply getElem?_lt _ _ (block_data s b)
    rw [r9' _ (by have := hg.2.1; omega)]
    exact (block_data_of_geometry s hg b hb).1
  intro filename file_num f bs out hlook hfile hout
  have hlook' : fs_file_num_from_filename sm.fs filename = (file_num : Int) := by
    unfold fs_file_num_from_filename at hlook ⊢
    rw [r5']
    exact hlook
  have hopen := fs_open_eq sm filename 0 file_num r3' (by rw [r8']; decide) (by decide)
    (by rw [r7', List.length_replicate]; decide) (by rw [r7']; rfl)
    (fun j hj => absurd hj (Nat.not_lt_zero j)) hlook'
  have hm1 : is_mounted (open_at sm 0 file_num) = true := by
    rw [is_mounted_iff] at r3' ⊢
    exact r3'
  have hg1 : geometry_ok (open_at sm 0 file_num) := hgm
  have hfile1 : file_ok (open_at sm 0 file_num) file_num f bs := by
    obtain ⟨f1, f2, f3, f4, f5, f6⟩ := hfile
    refine ⟨f1, ?_, f3, ?_, f5, ?_⟩
    · show sm.fs.rootDir.files[file_num]? = some f
      rw [r5']
      exact f2
    · show is_chain sm.fs.FAT.blocks _ _
      rw [r6']
      exact f4
    · show ∀ b ∈ bs, b < sm.fs.superblock.amt_data_blocks
      rw [r4']
      exact f6
  have hfd1 : fd_ok (open_at sm 0 file_num) 0
      { fd := ((0 : Nat) : Int), file_num := (file_num : Int), file_offset := 0 } file_num := by
    refine ⟨by decide, ?_, rfl⟩
    show (sm.fs.open_files.set 0 _)[0]? = _
    rw [r7']
    rfl
  have hsz := (file_ok_size _ file_num f bs hg1 hfile1).2
  have hstat := fs_stat_ok _ 0 _ file_num f hm1 hfd1 hfile1.1 hfile1.2.1 hfile1.2.2.1
  rw [to_int_small _ (by omega)] at hstat
  have hread := write_then_read _ 0 _ file_num f bs out f.file_size hm1 hg1 hfile1 hfd1 rfl
    (Nat.le_refl _) hout
  have hc : file_content (open_at sm 0 file_num) f.file_size bs = file_content s f.file_size bs := by
    unfold file_content
    rw [chain_content_congr s (open_at sm 0 file_num) bs (fun b _ => hblock b)]
  rw [hc, List.take_of_length_le (by unfold file_content; rw [List.length_take]; omega)] at hread
  exact ⟨_, _, hopen, hstat, hread⟩

theorem small_5000_image : image_ok small_state_z_5000 := by
  refine ⟨by decide, by decide, by decide, by decide, by decide, by decide, by decide,
    by decide, ?_, ?_, ?_, ?_⟩
  · show ((List.replicate 128 zero_file).set 0 _).length = 128
    rw [List.length_set, List.length_replicate]
  · intro f hf
    rcases List.mem_or_eq_of_mem_set hf with h | h
    · rw [List.eq_of_mem_replicate h]
      exact ⟨by decide, by decide, by decide, by decide⟩
    · rw [h]
      exact ⟨by decide, by decide, by decide, by decide⟩
  · show ([1, FAT_EOC] ++ List.replicate 2046 0).length = 1 * (4096 / 2)
    rw [List.length_append, List.length_replicate]
    decide
  · intro v hv
    have hv' : v ∈ [1, FAT_EOC] ++ List.replicate 2046 0 := hv
    rcases List.mem_append.1 hv' with h | h
    · have : v = 1 ∨ v = FAT_EOC := by simpa using h
      rcases this with rfl | rfl <;> decide
    · rw [List.eq_of_mem_replicate h]
      decide

theorem persistence_witness :
    ∃ su sm, fs_umount small_state_z_5000 = (0, su) ∧
      fs_mount small_state.fs "disk.fs" su = (0, sm) ∧
      sm.fs.rootDir.files = small_state_z_5000.fs.rootDir.files ∧
      sm.fs.FAT.blocks = small_state_z_5000.fs.FAT.blocks ∧
      ∀ (filename : List Nat) (file_num : Nat) (f : file) (bs out : List Nat),
        fs_file_num_from_filename small_state_z_5000.fs filename = (file_num : Int) →
        file_ok small_state_z_5000 file_num f bs → f.file_size ≤ out.length →
        ∃ s1 s2, fs_open sm filename = some (((0 : Nat) : Int), s1) ∧
          fs_stat s1 ((0 : Nat) : Int) = some ((f.file_size : Int), s1) ∧
          fs_read s1 ((0 : Nat) : Int) out f.file_size =
            some ((f.file_size : Int),
              file_content small_state_z_5000 f.file_size bs ++ out.drop f.file_size, s2) :=
  persistence small_state_z_5000 small_state.fs (by decide) small_5000_geometry
    small_5000_image

/-! ### Offset translation at the end of the file -/

theorem fs_get_block_offset_loop_end (blocks : List Nat) :
    ∀ bs n b off, is_chain blocks b bs → bs ≠ [] → bs.length ≤ n →
      BLOCK_SIZE * bs.length ≤ off →
      fs_get_block_offset_loop blocks n b off =
        some (bs.getLastD 0, off - BLOCK_SIZE * (bs.length - 1)) := by
  intro bs
  induction bs with
  | nil => intro n b off _ h; exact absurd rfl h
  | cons x xs ih =>
    intro n b off hc _ hn hoff
    have hc' := hc
    unfold is_chain at hc'
    obtain ⟨h1, h2, h3, h4⟩ := hc'
    subst h1
    have hoff' : 4096 * (xs.length + 1) ≤ off := by
      have : BLOCK_SIZE * (b :: xs).length ≤ off := hoff
      rw [List.length_cons] at this
      exact this
    cases n with
    | zero => simp at hn
    | succ n =>
      unfold fs_get_block_offset_loop
      rw [if_pos (by show off ≥ 4096; omega), List.getElem?_eq_getElem h3]
      simp only []
      have hget : blocks.getD b 0 = blocks[b] := by
        rw [List.getD_eq_getElem?_getD, List.getElem?_eq_getElem h3]
        rfl
      rw [hget] at h4
      cases xs with
      | nil =>
        have h5 : blocks[b] = FAT_EOC := h4
        rw [if_neg (by rw [h5]; exact fun h => h rfl)]
        rfl
      | cons y ys =>
        have h4' := h4
        unfold is_chain at h4'
        rw [if_pos (by rw [h4'.1]; exact h4'.2.1)]
        rw [ih n blocks[b] (off - 4096) h4 (List.cons_ne_nil _ _)
          (by simp only [List.length_cons] at hn ⊢; omega)
          (by
            show 4096 * (y :: ys).length ≤ off - 4096
            simp only [List.length_cons] at hoff' ⊢
            omega)]
        show some ((y :: ys).getLastD 0, off - 4096 - 4096 * ((y :: ys).length - 1)) =
          some ((b :: y :: ys).getLastD 0, off - 4096 * ((b :: y :: ys).length - 1))
        simp only [List.length_cons] at hoff' ⊢
        have e1 : off - 4096 - 4096 * (ys.length + 1 - 1) = off - 4096 * (ys.length + 1 + 1 - 1) := by
          omega
        rw [e1]
        rfl

theorem getLastD_mem : ∀ (l : List Nat), l ≠ [] → l.getLastD 0 ∈ l := by
  intro l
  induction l with
  | nil => intro h; exact absurd rfl h
  | cons x xs ih =>
    intro _
    cases xs with
    | nil => exact List.mem_cons_self _ _
    | cons y ys =>
      have := ih (List.cons_ne_nil _ _)
      exact List.mem_cons_of_mem _ this

theorem fs_get_block_offset_eq (s : State) (fd : Nat) (open_file : openFile) (file_num : Nat)
    (f : file) (r : Nat × Nat)
    (hfd : fd_ok s fd open_file file_num) (hnum : file_num < FS_FILE_MAX_COUNT)
    (hf : s.fs.rootDir.files[file_num]? = some f) (hne : f.filename.headD 0 ≠ 0)
    (hloop : fs_get_block_offset_loop s.fs.FAT.blocks (open_file.file_offset / BLOCK_SIZE)
      f.first_block_idx open_file.file_offset = some r) :
    fs_get_block_offset s.fs (fd : Int) = some (0, r.1, r.2) := by
  unfold fs_get_block_offset
  rw [fs_file_num_from_fd_ok s fd open_file file_num f hfd hnum hf hne]
  simp only []
  rw [if_neg (by omega)]
  simp only [Int.toNat_ofNat, hfd.2.1, hf, hloop]

/-- C26 (amended). Offset translation: for a descriptor with offset `O` on a
non-empty file of size `S` whose chain `bs` is well formed, `fs_get_block_offset`
returns 0 and, when `O < S`, yields the block `⌊O / 4096⌋` links after the
first block with the intra-block offset `O mod 4096`, which is below 4096;
when `O = S` and `S` is a positive multiple of 4096 it yields the last block
of the chain with the intra-block offset 4096 (the walk stops on the block
whose link is `FAT_EOC`). -/
theorem fs_get_block_offset_spec (s : State) (fd : Nat) (open_file : openFile)
    (file_num : Nat) (f : file) (bs : List Nat)
    (hfile : file_ok s file_num f bs)
    (hfd : fd_ok s fd open_file file_num) :
    (open_file.file_offset < f.file_size →
      fs_get_block_offset s.fs (fd : Int) =
        some (0, bs.getD (open_file.file_offset / 4096) 0, open_file.file_offset % 4096) ∧
      open_file.file_offset / 4096 < bs.length ∧
      open_file.file_offset % 4096 < 4096) ∧
    (open_file.file_offset = f.file_size → 0 < f.file_size → f.file_size % 4096 = 0 →
      fs_get_block_offset s.fs (fd : Int) = some (0, bs.getLastD 0, 4096) ∧
      bs.getLastD 0 ≠ FAT_EOC ∧ bs.getLastD 0 ∈ bs) := by
  have hlen : bs.length = (f.file_size + 4095) / 4096 := hfile.2.2.2.2.1
  constructor
  · intro hlt
    have hk : open_file.file_offset / 4096 < bs.length := by omega
    refine ⟨?_, hk, Nat.mod_lt _ (by decide)⟩
    exact fs_get_block_offset_eq s fd open_file file_num f _ hfd hfile.1 hfile.2.1 hfile.2.2.1
      (fs_get_block_offset_loop_chain s.fs.FAT.blocks _ bs f.first_block_idx
        open_file.file_offset hfile.2.2.2.1 rfl hk)
  · intro heq hpos hmod
    have hne : bs ≠ [] := by
      intro h
      rw [h] at hlen
      simp at hlen
      omega
    have hL : 4096 * bs.length = f.file_size := by omega
    have h := fs_get_block_offset_loop_end s.fs.FAT.blocks bs (open_file.file_offset / 4096)
      f.first_block_idx open_file.file_offset hfile.2.2.2.1 hne
      (by rw [heq]; omega) (by show 4096 * bs.length ≤ _; omega)
    have e : open_file.file_offset - BLOCK_SIZE * (bs.length - 1) = 4096 := by
      show open_file.file_offset - 4096 * (bs.length - 1) = 4096
      have : 0 < bs.length := List.length_pos.2 hne
      omega
    rw [e] at h
    have hmem : bs.getLastD 0 ∈ bs := getLastD_mem bs hne
    exact ⟨fs_get_block_offset_eq s fd open_file file_num f _ hfd hfile.1 hfile.2.1 hfile.2.2.1 h,
      (is_chain_lt _ _ _ hfile.2.2.2.1 _ hmem).2, hmem⟩

theorem fs_get_block_offset_spec_witness :
    fs_get_block_offset small_state_z_5000.fs ((0 : Nat) : Int) = some (0, 0, 0) ∧
      0 / 4096 < [0, 1].length ∧ 0 % 4096 < 4096 :=
  (fs_get_block_offset_spec small_state_z_5000 0 { fd := 0, file_num := 0, file_offset := 0 } 0
    _ [0, 1] small_5000_file small_5000_fd).1 (by decide)

/-- C26, at a failing input: descriptor 0 stands at offset 16384, the size of
the file "z" of the filled small disk (four blocks, chain 0 → 1 → 2 → 3).
The translation returns block 3, the last block of the chain, with the
intra-block offset 4096, and not the block index `FAT_EOC`. -/
theorem fs_get_block_offset_at_end_of_file :
    small_state_full.fs.open_files[0]? =
      some { fd := 0, file_num := 0, file_offset := 16384 } ∧
    small_state_full.fs.rootDir.files[0]? =
      some { new_file [122] with file_size := 16384, first_block_idx := 0 } ∧
    is_chain small_state_full.fs.FAT.blocks 0 [0, 1, 2, 3] ∧
    fs_get_block_offset small_state_full.fs ((0 : Nat) : Int) = some (0, 3, 4096) ∧
    (3 : Nat) ≠ FAT_EOC :=
  ⟨small_full_ok.2.2.2.2.1.2.1, small_full_ok.2.2.1.2.1, is_chain_four _,
    fs_get_block_offset_eq small_state_full 0 _ 0 _ (3, 4096) small_full_ok.2.2.2.2.1
      small_full_ok.2.2.1.1 small_full_ok.2.2.1.2.1 small_full_ok.2.2.1.2.2.1
      (fs_get_block_offset_loop_end _ [0, 1, 2, 3] 4 0 16384 (is_chain_four _) (by decide)
        (by decide) (by decide)),
    by decide⟩

/-! ### Partial overwrite -/

theorem fs_write_loop_overwrite (file_num : Nat) (buf : List Nat) (count : Nat)
    (hcount : count < 2 ^ 31) (hbuf : count ≤ buf.length) :
    ∀ R fuel s bw p rest f blk v, (count - bw + 4095) / 4096 = R → R ≤ rest.length →
      R < fuel → bw ≤ count → bw ≤ f.file_size →
      s.disk.opened = true → geometry_ok s → s.fs.rootDir.files[file_num]? = some f →
      p.deref s.fs = some v → is_chain s.fs.FAT.blocks v rest →
      (∀ b ∈ rest, b < s.fs.superblock.amt_data_blocks) → blk.length = 4096 →
      ∃ s', fs_write_loop file_num buf count fuel s bw p blk = some ((count : Int), s') ∧
        s'.fs.FAT = s.fs.FAT ∧ s'.fs.superblock = s.fs.superblock ∧
        s'.fs.open_files = s.fs.open_files ∧ s'.fs.num_open_files = s.fs.num_open_files ∧
        s'.fs.is_mounted = s.fs.is_mounted ∧
        s'.fs.rootDir.num_files = s.fs.rootDir.num_files ∧
        s'.disk.opened = s.disk.opened ∧ geometry_ok s' ∧
        (∀ i, i ≠ file_num → s'.fs.rootDir.files[i]? = s.fs.rootDir.files[i]?) ∧
        s'.fs.rootDir.files[file_num]? =
          some { f with file_size := Max.max f.file_size count } ∧
        chain_content s' rest =
          (buf.drop bw).take (count - bw) ++ (chain_content s rest).drop (count - bw) ∧
        ∀ b, b ∉ rest → block_data s' b = block_data s b := by
  intro R
  induction R with
  | zero =>
    intro fuel s bw p rest f blk v hR _ hfuel hbw hsz ho hg hf _ _ _ _
    have hbc : bw = count := by omega
    subst hbc
    cases fuel with
    | zero => omega
    | succ fuel =>
      refine ⟨s, ?_, rfl, rfl, rfl, rfl, rfl, rfl, rfl, hg, fun _ _ => rfl, ?_, ?_,
        fun _ _ => rfl⟩
      · unfold fs_write_loop
        rw [if_pos (by omega), to_int_small _ hcount]
      · rw [hf, Nat.max_eq_left hsz]
      · rw [Nat.sub_self, List.take_zero, List.drop_zero, List.nil_append]
  | succ R ih =>
    intro fuel s bw p rest f blk v hR hlen hfuel hbw hsz ho hg hf hv hch hlt hblk
    have hbwc : bw < count := by omega
    obtain ⟨hn0, hn4, hnc, _, hN⟩ := chunk_facts count bw hbwc
    cases fuel with
    | zero => omega
    | succ fuel =>
      cases rest with
      | nil => simp at hlen
      | cons x rest1 =>
        have hch' := hch
        unfold is_chain at hch'
        obtain ⟨hvx, hxe, hxl, hch2⟩ := hch'
        subst hvx
        have hxD := hlt v (List.mem_cons_self _ _)
        have hbd := block_data_of_geometry s hg v hxD
        have hxr : v ∉ rest1 := (List.nodup_cons.1 (is_chain_nodup _ _ _ hch)).1
        have hsb := write_data_superblock s file_num v
          ((buf.drop bw).take (Min.min (count - bw) 4096) ++
            (if Min.min (count - bw) 4096 < 4096 then block_data s v else blk).drop
              (Min.min (count - bw) 4096)) (bw + Min.min (count - bw) 4096)
        have hfiles := write_data_files s file_num v
          ((buf.drop bw).take (Min.min (count - bw) 4096) ++
            (if Min.min (count - bw) 4096 < 4096 then block_data s v else blk).drop
              (Min.min (count - bw) 4096)) (bw + Min.min (count - bw) 4096) f hf (by omega)
        have hblock := fun b => write_data_block s file_num v
          ((buf.drop bw).take (Min.min (count - bw) 4096) ++
            (if Min.min (count - bw) 4096 < 4096 then block_data s v else blk).drop
              (Min.min (count - bw) 4096)) (bw + Min.min (count - bw) 4096) b
          ho hg.2.1 (geometry_lt s hg v hxD)
        have hblk2 : ((buf.drop bw).take (Min.min (count - bw) 4096) ++
            (if Min.min (count - bw) 4096 < 4096 then block_data s v else blk).drop
              (Min.min (count - bw) 4096)).length = 4096 := by
          have h1 : (block_data s v).length = 4096 := hbd.2
          by_cases h : Min.min (count - bw) 4096 < 4096
          · rw [if_pos h, List.length_append, List.length_take, List.length_drop,
              List.length_drop, h1]
            omega
          · rw [if_neg h, List.length_append, List.length_take, List.length_drop,
              List.length_drop, hblk]
            omega
        obtain ⟨s', h1, h2, h3, h4, h5, h6, h7, h8, h9, h10, h11, h12, h13⟩ :=
          ih fuel _ (bw + Min.min (count - bw) 4096) (.FAT_entry v) rest1
            { f with file_size := Max.max f.file_size (bw + Min.min (count - bw) 4096) } _
            (s.fs.FAT.blocks.getD v 0) (by omega)
            (by rw [List.length_cons] at hlen; omega) (by omega) hnc
            (by show bw + Min.min (count - bw) 4096 ≤
                  Max.max f.file_size (bw + Min.min (count - bw) 4096)
                omega)
            (by rw [write_data_opened]; exact ho)
            (write_data_geometry s _ _ _ _ ho hg hxD hblk2) hfiles.2
            (by
              show (write_data s file_num v _ _).fs.FAT.blocks[v]? = _
              rw [hsb.2.1, List.getD_eq_getElem?_getD, List.getElem?_eq_getElem hxl]
              rfl)
            (by rw [hsb.2.1]; exact hch2)
            (by
              intro b hb
              rw [hsb.1]
              exact hlt b (List.mem_cons_of_mem _ hb))
            hblk2
        refine ⟨s', ?_, h2.trans hsb.2.1, h3.trans hsb.1, h4.trans hsb.2.2.1,
          h5.trans hsb.2.2.2.1, h6.trans hsb.2.2.2.2.1, h7.trans hsb.2.2.2.2.2,
          h8.trans (write_data_opened _ _ _ _ _), h9,
          fun i hi => (h10 i hi).trans (hfiles.1 i hi), ?_, ?_, ?_⟩
        · rw [fs_write_loop_pass file_num buf count fuel s s bw p blk v v (block_data s v) f
            hcount hbuf hbwc hv (by rw [if_neg hxe]) hv ho hbd.1 hbd.2 hblk hf]
          exact h1
        · rw [h11]
          have : Max.max (Max.max f.file_size (bw + Min.min (count - bw) 4096)) count =
              Max.max f.file_size count := by omega
          show some ({ f with
            file_size := (Max.max (Max.max f.file_size (bw + Min.min (count - bw) 4096)) count) } :
              file) = _
          rw [this]
        · have hx' : block_data s' v =
              (buf.drop bw).take (Min.min (count - bw) 4096) ++
                (if Min.min (count - bw) 4096 < 4096 then block_data s v else blk).drop
                  (Min.min (count - bw) 4096) := by
            rw [h13 v hxr, hblock, if_pos rfl]
          have hc2 : chain_content (write_data s file_num v
              ((buf.drop bw).take (Min.min (count - bw) 4096) ++
                (if Min.min (count - bw) 4096 < 4096 then block_data s v else blk).drop
                  (Min.min (count - bw) 4096)) (bw + Min.min (count - bw) 4096))
              rest1 = chain_content s rest1 := by
            apply chain_content_congr
            intro b hb
            rw [hblock, if_neg (fun h => hxr (by rw [← h]; exact hb))]
          rw [hc2] at h12
          show block_data s' v ++ chain_content s' rest1 =
            (buf.drop bw).take (count - bw) ++
              (block_data s v ++ chain_content s rest1).drop (count - bw)
          rw [hx', h12]
          exact content_glue buf _ blk _ bw count _ hbd.2 hblk rfl hbwc
        · intro b hb
          rw [List.mem_cons, not_or] at hb
          rw [h13 b hb.2, hblock, if_neg hb.1]

theorem FS_eq (a b : FS) (h1 : a.superblock = b.superblock) (h2 : a.FAT = b.FAT)
    (h3 : a.rootDir.num_files = b.rootDir.num_files)
    (h4 : a.rootDir.files = b.rootDir.files) (h5 : a.open_files = b.open_files)
    (h6 : a.num_open_files = b.num_open_files) (h7 : a.is_mounted = b.is_mounted) : a = b := by
  cases a with
  | mk sa fa ra oa na ma =>
    cases b with
    | mk sb fb rb ob nb mb =>
      cases ra
      cases rb
      simp only [] at h1 h2 h3 h4 h5 h6 h7
      subst h1 h2 h3 h4 h5 h6 h7
      rfl

theorem chain_block_of_content (s s' : State) (bs : List Nat) (pre : List Nat) (n j : Nat)
    (hlen : ∀ b ∈ bs, (block_data s b).length = BLOCK_SIZE)
    (hlen' : ∀ b ∈ bs, (block_data s' b).length = BLOCK_SIZE)
    (hpre : pre.length = n) (hj : j < bs.length) (hn : n ≤ 4096 * j)
    (hc : chain_content s' bs = pre ++ (chain_content s bs).drop n) :
    block_data s' (bs.getD j 0) = block_data s (bs.getD j 0) := by
  have h1 := chain_content_drop_take s' j bs 0 4096 hj hlen' (by decide)
  have h2 := chain_content_drop_take s j bs 0 4096 hj hlen (by decide)
  have hmem : bs.getD j 0 ∈ bs := by
    rw [List.getD_eq_getElem?_getD, List.getElem?_eq_getElem hj]
    exact List.getElem_mem _
  have l1 : (block_data s' (bs.getD j 0)).length = 4096 := hlen' _ hmem
  have l2 : (block_data s (bs.getD j 0)).length = 4096 := hlen _ hmem
  have t1 : (block_data s' (bs.getD j 0)).take 4096 = block_data s' (bs.getD j 0) :=
    List.take_of_length_le (by omega)
  have t2 : (block_data s (bs.getD j 0)).take 4096 = block_data s (bs.getD j 0) :=
    List.take_of_length_le (by omega)
  rw [List.drop_zero, t1] at h1
  rw [List.drop_zero, t2] at h2
  rw [← h1, ← h2, hc]
  have e : BLOCK_SIZE * j + 0 = pre.length + (4096 * j - n) := by
    show 4096 * j + 0 = _
    omega
  rw [e, List.drop_append, List.drop_drop]
  have e2 : n + (4096 * j - n) = pre.length + (4096 * j - n) := by omega
  rw [e2]

/-- C24. Partial overwrite preserves the rest: in a mounted state with sound
geometry, for a descriptor (at any offset, in particular 0) on a file of size
`S` whose chain `bs` is well formed and whose content is `F`, `fs_write` of `n`
bytes with `0 < n < S` returns `n` and leaves the whole in-memory state as it
was (the size is still `S`, no block is allocated: FAT links, counter and
directory are unchanged); the content of the file becomes `buf[0, n)` followed
by `F[n, S)`, every data block outside the chain is unchanged, and so is every
block of the chain behind the last touched one. -/
theorem fs_write_partial_overwrite (s : State) (fd : Nat) (open_file : openFile)
    (file_num : Nat) (f : file) (bs : List Nat) (buf : List Nat) (n : Nat)
    (hm : is_mounted s = true) (hg : geometry_ok s) (hfile : file_ok s file_num f bs)
    (hfd : fd_ok s fd open_file file_num)
    (hn0 : 0 < n) (hn : n < f.file_size) (hbuf : n ≤ buf.length) :
    ∃ s', fs_write s (fd : Int) buf n = some ((n : Int), s') ∧
      s'.fs = s.fs ∧
      file_content s' f.file_size bs = buf.take n ++ (file_content s f.file_size bs).drop n ∧
      (∀ b, b ∉ bs → block_data s' b = block_data s b) ∧
      ∀ j, (n + 4095) / 4096 ≤ j → j < bs.length →
        block_data s' (bs.getD j 0) = block_data s (bs.getD j 0) := by
  have hsz := (file_ok_size s file_num f bs hg hfile).2
  have hbl : bs.length = (f.file_size + 4095) / 4096 := hfile.2.2.2.2.1
  obtain ⟨s', h1, h2, h3, h4, h5, h6, h7, h8, h9, h10, h11, h12, h13⟩ :=
    fs_write_loop_overwrite file_num buf n (by omega) hbuf ((n + 4095) / 4096) (n + 1) s 0
      (.first_block_idx file_num) bs f (List.replicate BLOCK_SIZE 0) f.first_block_idx rfl
      (by omega) (by omega) (Nat.zero_le _) (Nat.zero_le _) ((is_mounted_iff s).1 hm).1 hg
      hfile.2.1 (by simp only [BlockIdxPtr.deref]; rw [hfile.2.1]; rfl) hfile.2.2.2.1
      hfile.2.2.2.2.2 (List.length_replicate _ _)
  have hmax : Max.max f.file_size n = f.file_size := by omega
  have hfiles : s'.fs.rootDir.files = s.fs.rootDir.files := by
    apply List.ext_getElem?
    intro i
    by_cases hi : i = file_num
    · subst hi
      rw [h11, hfile.2.1, hmax]
    · exact h10 i hi
  have hcontent : chain_content s' bs = buf.take n ++ (chain_content s bs).drop n := by
    rw [h12, Nat.sub_zero, List.drop_zero]
  have hlen : ∀ b ∈ bs, (block_data s b).length = BLOCK_SIZE := fun b hb =>
    (block_data_of_geometry s hg b (hfile.2.2.2.2.2 b hb)).2
  have hlen' : ∀ b ∈ bs, (block_data s' b).length = BLOCK_SIZE := fun b hb =>
    (block_data_of_geometry s' h9 b (by rw [h3]; exact hfile.2.2.2.2.2 b hb)).2
  refine ⟨s', ?_, FS_eq _ _ h3 h2 h7 hfiles h4 h5 h6, ?_, h13, ?_⟩
  · unfold fs_write
    rw [if_neg (by simp [hm]),
      fs_file_num_from_fd_ok s fd open_file file_num f hfd hfile.1 hfile.2.1 hfile.2.2.1]
    simp only []
    rw [if_neg (by omega)]
    exact h1
  · unfold file_content
    rw [hcontent, List.take_append_eq_append_take, List.length_take, Nat.min_eq_left hbuf,
      List.take_take, Nat.min_eq_right (by omega), List.drop_take]
  · intro j hj1 hj2
    exact chain_block_of_content s s' bs (buf.take n) n j hlen hlen'
      (by rw [List.length_take]; omega) hj2 (by omega) hcontent

theorem fs_write_partial_overwrite_witness :
    ∃ s', fs_write small_state_z_5000 ((0 : Nat) : Int) (List.replicate 100 9) 100 =
        some (100, s') ∧
      s'.fs = small_state_z_5000.fs ∧
      file_content s' 5000 [0, 1] =
        (List.replicate 100 9).take 100 ++ (file_content small_state_z_5000 5000 [0, 1]).drop 100 ∧
      (∀ b, b ∉ [0, 1] → block_data s' b = block_data small_state_z_5000 b) ∧
      ∀ j, (100 + 4095) / 4096 ≤ j → j < [0, 1].length →
        block_data s' ([0, 1].getD j 0) = block_data small_state_z_5000 ([0, 1].getD j 0) :=
  fs_write_partial_overwrite small_state_z_5000 0 _ 0 _ [0, 1] (List.replicate 100 9) 100
    (by decide) small_5000_geometry small_5000_file small_5000_fd (by decide) (by decide)
    (by decide)

/-! ### Progress of the read loop -/

theorem fs_read_loop_pass (s : State) (fd : Nat) (open_file : openFile) (file_num : Nat)
    (f : file) (bs : List Nat) (buf : List Nat) (count br : Nat) (block_p : List Nat)
    (fuel n : Nat)
    (hopen : s.disk.opened = true)
    (hg : geometry_ok s) (hfile : file_ok s file_num f bs)
    (hfd : fd_ok s fd open_file file_num)
    (hguard : br < count ∧ open_file.file_offset < f.file_size)
    (hn : to_size_t (min (to_int (size_sub count br))
      (to_int (Min.min (4096 - open_file.file_offset % 4096)
        (f.file_size - open_file.file_offset)))) = n)
    (hn2 : open_file.file_offset % 4096 + n ≤ 4096) (hn3 : br + n ≤ buf.length) :
    fs_read_loop (fd : Int) file_num count (fuel + 1) s br buf block_p =
      fs_read_loop (fd : Int) file_num count fuel
        (with_offset s fd open_file (size_add open_file.file_offset n))
        (size_add br n)
        (buf.take br ++
          ((block_data s (bs.getD (open_file.file_offset / 4096) 0)).drop
            (open_file.file_offset % 4096)).take n ++ buf.drop (br + n))
        (block_data s (bs.getD (open_file.file_offset / 4096) 0)) := by
  obtain ⟨hsz1, hsz2⟩ := file_ok_size s file_num f bs hg hfile
  have hsz1' : f.file_size ≤ 4096 * bs.length := hsz1
  obtain ⟨hnum, hf, hne, hchain, hblen, hblt⟩ := hfile
  obtain ⟨hc1, hc2⟩ := hguard
  have hk : open_file.file_offset / BLOCK_SIZE < bs.length := by
    show open_file.file_offset / 4096 < bs.length
    rw [Nat.div_lt_iff_lt_mul (by decide)]
    omega
  have hget := fs_get_block_offset_eq s fd open_file file_num f _ hfd hnum hf hne
    (fs_get_block_offset_loop_chain s.fs.FAT.blocks _ bs f.first_block_idx
      open_file.file_offset hchain rfl hk)
  have hmem : bs.getD (open_file.file_offset / BLOCK_SIZE) 0 ∈ bs := by
    rw [List.getD_eq_getElem?_getD, List.getElem?_eq_getElem hk]
    exact List.getElem_mem hk
  have hb := block_data_of_geometry s hg _ (hblt _ hmem)
  have hread : (block_read s.disk (s.fs.superblock.data_block_start_idx +
      bs.getD (open_file.file_offset / BLOCK_SIZE) 0) block_p).2 =
      block_data s (bs.getD (open_file.file_offset / BLOCK_SIZE) 0) := by
    unfold block_read
    rw [if_pos hopen, hb.1]
  have hv : to_size_t (min (to_int (size_sub BLOCK_SIZE (open_file.file_offset % BLOCK_SIZE)))
      (to_int (size_sub f.file_size open_file.file_offset))) =
      Min.min (4096 - open_file.file_offset % 4096) (f.file_size - open_file.file_offset) := by
    rw [size_sub_le _ _ (Nat.le_of_lt (Nat.mod_lt _ (by decide))) (by decide),
      size_sub_le _ _ (by omega) (by omega)]
    exact c_min_nat _ _ (by show 4096 - _ < _; omega) (by omega)
  conv_lhs => unfold fs_read_loop
  simp only [Int.toNat_ofNat, hfd.2.1, hf]
  rw [if_neg (by simpa using (⟨hc1, hc2⟩ : br < count ∧ open_file.file_offset < f.file_size)),
    hget]
  simp only []
  rw [if_neg (by decide), if_neg (is_chain_lt _ _ _ hchain _ hmem).2, hread]
  simp only [hv, hn]
  rw [if_pos ⟨by rw [hb.2]; exact hn2, hn3⟩]
  rfl

theorem fs_read_loop_bound (s : State) (fd : Nat) (open_file : openFile) (file_num : Nat)
    (f : file) (bs : List Nat) (buf : List Nat) (count : Nat)
    (hopen : s.disk.opened = true)
    (hg : geometry_ok s) (hfile : file_ok s file_num f bs)
    (hfd : fd_ok s fd open_file file_num)
    (hcount : count < 2 ^ 31) (hbuf : count ≤ buf.length) :
    ∀ fuel br block_p,
      br ≤ Min.min count (f.file_size - open_file.file_offset) →
      0 < fuel →
      (br < Min.min count (f.file_size - open_file.file_offset) →
        ((open_file.file_offset + br) % 4096 +
          (Min.min count (f.file_size - open_file.file_offset) - br) + 4095) / 4096 < fuel) →
      fs_read_loop (fd : Int) file_num count fuel
          (with_offset s fd open_file (open_file.file_offset + br)) br
          (((file_content s f.file_size bs).drop open_file.file_offset).take br ++ buf.drop br)
          block_p =
        some (((Min.min count (f.file_size - open_file.file_offset) : Nat) : Int),
          ((file_content s f.file_size bs).drop open_file.file_offset).take
              (Min.min count (f.file_size - open_file.file_offset)) ++
            buf.drop (Min.min count (f.file_size - open_file.file_offset)),
          with_offset s fd open_file
            (open_file.file_offset + Min.min count (f.file_size - open_file.file_offset))) := by
  obtain ⟨hsz1, hsz2⟩ := file_ok_size s file_num f bs hg hfile
  have hsz1' : f.file_size ≤ 4096 * bs.length := hsz1
  obtain ⟨hnum, hf, hne, hchain, hblen, hblt⟩ := hfile
  have hfdlt := getElem?_lt _ _ _ hfd.2.1
  have hdata : ∀ b ∈ bs, (block_data s b).length = BLOCK_SIZE :=
    fun b hb => (block_data_of_geometry s hg b (hblt b hb)).2
  have hFlen : (file_content s f.file_size bs).length = f.file_size := by
    unfold file_content
    rw [List.length_take, chain_content_length s bs hdata]
    exact Nat.min_eq_left hsz1
  intro fuel
  induction fuel with
  | zero => intro br block_p _ h _; omega
  | succ fuel ih =>
    intro br block_p hbr _ hfuel
    generalize hm : Min.min count (f.file_size - open_file.file_offset) = m at hbr hfuel ih ⊢
    have hmc : m ≤ count := by omega
    have hms : m ≤ f.file_size - open_file.file_offset := by omega
    unfold fs_read_loop
    have hof : (with_offset s fd open_file (open_file.file_offset + br)).fs.open_files[fd]? =
        some { open_file with file_offset := open_file.file_offset + br } :=
      List.getElem?_set_self hfdlt
    have hff : (with_offset s fd open_file (open_file.file_offset + br)).fs.rootDir.files[file_num]? =
        some f := hf
    simp only [Int.toNat_ofNat, hof, hff]
    by_cases hcond : br < count ∧ open_file.file_offset + br < f.file_size
    · rw [if_neg (by simpa using hcond)]
      obtain ⟨hc1, hc2⟩ := hcond
      have hfd' : fd_ok (with_offset s fd open_file (open_file.file_offset + br)) fd
          { open_file with file_offset := open_file.file_offset + br } file_num :=
        ⟨hfd.1, hof, hfd.2.2⟩
      have hk : (open_file.file_offset + br) / BLOCK_SIZE < bs.length := by
        show (open_file.file_offset + br) / 4096 < bs.length
        rw [Nat.div_lt_iff_lt_mul (by decide)]
        omega
      have hget : fs_get_block_offset (with_offset s fd open_file (open_file.file_offset + br)).fs
          (fd : Int) = some (0, bs.getD ((open_file.file_offset + br) / BLOCK_SIZE) 0,
            (open_file.file_offset + br) % BLOCK_SIZE) := by
        unfold fs_get_block_offset
        rw [fs_file_num_from_fd_ok _ fd _ file_num f hfd' hnum hff hne]
        simp only []
        rw [if_neg (by omega)]
        simp only [Int.toNat_ofNat, hof, hff]
        have := fs_get_block_offset_loop_chain s.fs.FAT.blocks _ bs f.first_block_idx
          (open_file.file_offset + br) hchain rfl hk
        show (match fs_get_block_offset_loop s.fs.FAT.blocks _ _ _ with
          | none => none
          | some (block_idx, block_offset) => some ((0 : Int), block_idx, block_offset)) = _
        rw [this]
      rw [hget]
      simp only []
      have hmem : bs.getD ((open_file.file_offset + br) / BLOCK_SIZE) 0 ∈ bs := by
        rw [List.getD_eq_getElem?_getD, List.getElem?_eq_getElem hk]
        exact List.getElem_mem hk
      have hb := block_data_of_geometry s hg _ (hblt _ hmem)
      rw [if_neg (by decide), if_neg (is_chain_lt _ _ _ hchain _ hmem).2]
      have hread : (block_read (with_offset s fd open_file (open_file.file_offset + br)).disk
          ((with_offset s fd open_file (open_file.file_offset + br)).fs.superblock.data_block_start_idx
            + bs.getD ((open_file.file_offset + br) / BLOCK_SIZE) 0) block_p).2 =
          block_data s (bs.getD ((open_file.file_offset + br) / BLOCK_SIZE) 0) := by
        unfold block_read
        show (if s.disk.opened = true then
          match s.disk.blocks[s.fs.superblock.data_block_start_idx + _]? with
          | some b => ((0 : Int), b)
          | none => (-1, block_p) else (-1, block_p)).2 = _
        rw [if_pos hopen, hb.1]
      rw [hread]
      have hbo : (open_file.file_offset + br) % 4096 < 4096 := Nat.mod_lt _ (by decide)
      have hv : to_size_t (min (to_int (size_sub BLOCK_SIZE ((open_file.file_offset + br) % BLOCK_SIZE)))
          (to_int (size_sub f.file_size (open_file.file_offset + br)))) =
          Min.min (4096 - (open_file.file_offset + br) % 4096)
            (f.file_size - (open_file.file_offset + br)) := by
        rw [size_sub_le _ _ (Nat.le_of_lt (Nat.mod_lt _ (by decide))) (by decide),
          size_sub_le _ _ (by omega) (by omega)]
        exact c_min_nat _ _ (by show 4096 - _ < _; omega) (by omega)
      have hn : to_size_t (min (to_int (size_sub count br))
          (to_int (Min.min (4096 - (open_file.file_offset + br) % 4096)
            (f.file_size - (open_file.file_offset + br))))) =
          Min.min (count - br) (Min.min (4096 - (open_file.file_offset + br) % 4096)
            (f.file_size - (open_file.file_offset + br))) := by
        rw [size_sub_le _ _ (by omega) (by omega)]
        exact c_min_nat _ _ (by omega) (by omega)
      simp only [hv, hn]
      generalize hnn : Min.min (count - br) (Min.min (4096 - (open_file.file_offset + br) % 4096)
            (f.file_size - (open_file.file_offset + br))) = n
      have hn1 : 1 ≤ n := by omega
      have hn2 : (open_file.file_offset + br) % 4096 + n ≤ 4096 := by omega
      have hn3 : br + n ≤ m := by omega
      have hAlen : (((file_content s f.file_size bs).drop open_file.file_offset).take br).length
          = br := by
        rw [List.length_take, List.length_drop, hFlen]
        omega
      rw [if_pos ⟨by rw [hb.2]; exact hn2, by
        rw [List.length_append, hAlen, List.length_drop]; omega⟩]
      have hbuf1 : (((file_content s f.file_size bs).drop open_file.file_offset).take br ++
            buf.drop br).take br ++
          ((block_data s (bs.getD ((open_file.file_offset + br) / BLOCK_SIZE) 0)).drop
            ((open_file.file_offset + br) % BLOCK_SIZE)).take n ++
          (((file_content s f.file_size bs).drop open_file.file_offset).take br ++
            buf.drop br).drop (br + n) =
          ((file_content s f.file_size bs).drop open_file.file_offset).take (br + n) ++
            buf.drop (br + n) := by
        rw [List.take_append_of_le_length (by omega), List.take_of_length_le (by omega),
          ← file_content_chunk s f.file_size bs (open_file.file_offset + br) n hdata hk hn2
            (by omega),
          take_drop_append_take]
        congr 1
        have : br + n = (((file_content s f.file_size bs).drop open_file.file_offset).take br).length
            + n := by omega
        rw [this, List.drop_append, List.drop_drop, hAlen]
      rw [hbuf1]
      have hst : ({ with_offset s fd open_file (open_file.file_offset + br) with
          fs := { (with_offset s fd open_file (open_file.file_offset + br)).fs with
            open_files := (with_offset s fd open_file (open_file.file_offset + br)).fs.open_files.set
              fd { ({ open_file with file_offset := open_file.file_offset + br } : openFile) with
                file_offset := size_add (open_file.file_offset + br) n } } } : State) =
          with_offset s fd open_file (open_file.file_offset + (br + n)) := by
        unfold with_offset
        simp only [List.set_set]
        rw [size_add_small _ _ (by omega), Nat.add_assoc]
      rw [hst, size_add_small _ _ (by omega)]
      have hlt : br < m := by omega
      have hfuel1 := hfuel hlt
      exact ih (br + n) _ hn3 (by omega) (by intro h; omega)
    · rw [if_pos (by simpa using hcond)]
      have : br = m := by omega
      subst this
      rw [to_int_small _ (by omega)]

theorem fs_read_loop_stuck (s : State) (fd : Nat) (open_file : openFile) (file_num : Nat)
    (f : file) (bs : List Nat) (buf : List Nat) (count : Nat)
    (hopen : s.disk.opened = true)
    (hg : geometry_ok s) (hfile : file_ok s file_num f bs)
    (hfd : fd_ok s fd open_file file_num)
    (hguard : 0 < count ∧ open_file.file_offset < f.file_size)
    (hn : to_size_t (min (to_int (size_sub count 0))
      (to_int (Min.min (4096 - open_file.file_offset % 4096)
        (f.file_size - open_file.file_offset)))) = 0) :
    ∀ fuel block_p, fs_read_loop (fd : Int) file_num count fuel s 0 buf block_p = none := by
  intro fuel
  induction fuel with
  | zero => intro block_p; rfl
  | succ fuel ih =>
    intro block_p
    rw [fs_read_loop_pass s fd open_file file_num f bs buf count 0 block_p fuel 0 hopen hg hfile
      hfd hguard hn (by have := Nat.mod_lt open_file.file_offset (show 0 < 4096 by decide); omega)
      (Nat.zero_le _)]
    have h0 : size_add open_file.file_offset 0 = open_file.file_offset :=
      size_add_small _ _ (by
        have := (file_ok_size s file_num f bs hg hfile).2
        omega)
    have h1 : size_add 0 0 = 0 := rfl
    rw [h0, h1, with_offset_self s fd open_file hfd.2.1]
    simp only [List.take_zero, List.drop_zero, List.nil_append, Nat.add_zero,
      List.append_nil]
    exact ih _

/-- C25 (amended). Read makes progress, for `count < 2 ^ 31`: in a mounted state
with sound geometry, for a descriptor on a file whose chain has exactly
`ceil(size/4096)` blocks: (1) `fs_read` returns, and the loop returns the same
result when it is given only `ceil(count/4096) + 1` passes and the final test of
its condition; (2) in every pass the loop can be in (offset `c` below the size,
`bytes_read` below `count`) the translation yields a block of the chain and the
intra-block offset `c mod 4096`, which is below 4096, and the pass copies
`n = min(count - bytes_read, 4096 - c mod 4096, size - c)` bytes, at least one,
advancing the offset and `bytes_read` by `n`. -/
theorem fs_read_progress (s : State) (fd : Nat) (open_file : openFile) (file_num : Nat)
    (f : file) (bs : List Nat) (buf : List Nat) (count : Nat)
    (hm : is_mounted s = true)
    (hg : geometry_ok s) (hfile : file_ok s file_num f bs)
    (hfd : fd_ok s fd open_file file_num)
    (hcount : count < 2 ^ 31) (hbuf : count ≤ buf.length) :
    (∃ r, fs_read s (fd : Int) buf count = some r ∧
      fs_read_loop (fd : Int) file_num count ((count + 4095) / 4096 + 2) s 0 buf
        (List.replicate BLOCK_SIZE 0) = some r) ∧
    ∀ (c bytes_read : Nat) (buf1 block_p : List Nat) (fuel : Nat),
      c < f.file_size → bytes_read < count → count ≤ buf1.length →
      ∃ b n, b ∈ bs ∧
        fs_get_block_offset (with_offset s fd open_file c).fs (fd : Int) =
          some (0, b, c % 4096) ∧
        c % 4096 < 4096 ∧
        n = Min.min (count - bytes_read) (Min.min (4096 - c % 4096) (f.file_size - c)) ∧
        1 ≤ n ∧
        fs_read_loop (fd : Int) file_num count (fuel + 1) (with_offset s fd open_file c)
            bytes_read buf1 block_p =
          fs_read_loop (fd : Int) file_num count fuel (with_offset s fd open_file (c + n))
            (bytes_read + n)
            (buf1.take bytes_read ++ ((block_data s b).drop (c % 4096)).take n ++
              buf1.drop (bytes_read + n))
            (block_data s b) := by
  have hopen := ((is_mounted_iff s).1 hm).1
  obtain ⟨hsz1, hsz2⟩ := file_ok_size s file_num f bs hg hfile
  have hsz1' : f.file_size ≤ 4096 * bs.length := hsz1
  refine ⟨⟨_, fs_read_eq s fd open_file file_num f bs buf count hm hg hfile hfd hcount hbuf, ?_⟩,
    ?_⟩
  · have := fs_read_loop_bound s fd open_file file_num f bs buf count hopen hg hfile hfd hcount
      hbuf ((count + 4095) / 4096 + 2) 0 (List.replicate BLOCK_SIZE 0) (Nat.zero_le _)
      (by omega) (by
        intro _
        have := Nat.mod_lt (open_file.file_offset + 0) (show 0 < 4096 by decide)
        omega)
    simp only [Nat.add_zero, List.take_zero, List.drop_zero, List.nil_append] at this
    rw [with_offset_self s fd open_file hfd.2.1] at this
    simpa using this
  · intro c br buf1 block_p fuel hc hbr hbuf1
    have hfdlt := getElem?_lt _ _ _ hfd.2.1
    have hof : (with_offset s fd open_file c).fs.open_files[fd]? =
        some { open_file with file_offset := c } :=
      List.getElem?_set_self hfdlt
    have hfd' : fd_ok (with_offset s fd open_file c) fd
        { open_file with file_offset := c } file_num := ⟨hfd.1, hof, hfd.2.2⟩
    have hfile' : file_ok (with_offset s fd open_file c) file_num f bs := hfile
    have hk : c / BLOCK_SIZE < bs.length := by
      show c / 4096 < bs.length
      rw [Nat.div_lt_iff_lt_mul (by decide)]
      omega
    have hmem : bs.getD (c / BLOCK_SIZE) 0 ∈ bs := by
      rw [List.getD_eq_getElem?_getD, List.getElem?_eq_getElem hk]
      exact List.getElem_mem hk
    have hget := fs_get_block_offset_eq (with_offset s fd open_file c) fd _ file_num f _ hfd'
      hfile.1 hfile.2.1 hfile.2.2.1
      (fs_get_block_offset_loop_chain s.fs.FAT.blocks _ bs f.first_block_idx c hfile.2.2.2.1 rfl
        hk)
    have hmod : c % 4096 < 4096 := Nat.mod_lt _ (by decide)
    have hn : to_size_t (min (to_int (size_sub count br))
        (to_int (Min.min (4096 - c % 4096) (f.file_size - c)))) =
        Min.min (count - br) (Min.min (4096 - c % 4096) (f.file_size - c)) := by
      rw [size_sub_le _ _ (by omega) (by omega)]
      exact c_min_nat _ _ (by omega) (by omega)
    refine ⟨_, _, hmem, hget, hmod, rfl, by omega, ?_⟩
    have hpass := fs_read_loop_pass (with_offset s fd open_file c) fd
      { open_file with file_offset := c } file_num f bs buf1 count br block_p fuel _ hopen hg
      hfile' hfd' ⟨hbr, hc⟩ hn (by show c % 4096 + _ ≤ 4096; omega) (by omega)
    rw [hpass]
    have hst : with_offset (with_offset s fd open_file c) fd
        ({ open_file with file_offset := c } : openFile)
        (size_add c (Min.min (count - br) (Min.min (4096 - c % 4096) (f.file_size - c)))) =
        with_offset s fd open_file
          (c + Min.min (count - br) (Min.min (4096 - c % 4096) (f.file_size - c))) := by
      unfold with_offset
      simp only [List.set_set]
      rw [size_add_small _ _ (by omega)]
    show fs_read_loop _ _ _ _ (with_offset (with_offset s fd open_file c) fd
        ({ open_file with file_offset := c } : openFile)
        (size_add c (Min.min (count - br) (Min.min (4096 - c % 4096) (f.file_size - c)))))
        _ _ _ = _
    rw [hst, size_add_small _ _ (by omega)]
    rfl

theorem fs_read_stuck (s : State) (fd : Nat) (open_file : openFile) (file_num : Nat)
    (f : file) (bs : List Nat) (buf : List Nat) (count : Nat)
    (hm : is_mounted s = true)
    (hg : geometry_ok s) (hfile : file_ok s file_num f bs)
    (hfd : fd_ok s fd open_file file_num)
    (hguard : 0 < count ∧ open_file.file_offset < f.file_size)
    (hn : to_size_t (min (to_int (size_sub count 0))
      (to_int (Min.min (4096 - open_file.file_offset % 4096)
        (f.file_size - open_file.file_offset)))) = 0) :
    fs_read s (fd : Int) buf count = none := by
  unfold fs_read
  rw [if_neg (by simp [hm]),
    fs_file_num_from_fd_ok s fd open_file file_num f hfd hfile.1 hfile.2.1 hfile.2.2.1]
  simp only []
  rw [if_neg (by omega)]
  exact fs_read_loop_stuck s fd open_file file_num f bs buf count ((is_mounted_iff s).1 hm).1
    hg hfile hfd hguard hn _ _

set_option maxRecDepth 20000 in
theorem fs_read_progress_witness :
    ∃ r, fs_read small_state_z_5000 ((0 : Nat) : Int) (List.replicate 10 0) 10 = some r ∧
      fs_read_loop ((0 : Nat) : Int) 0 10 ((10 + 4095) / 4096 + 2) small_state_z_5000 0
        (List.replicate 10 0) (List.replicate BLOCK_SIZE 0) = some r :=
  (fs_read_progress small_state_z_5000 0 _ 0 _ [0, 1] (List.replicate 10 0) 10 (by decide)
    small_5000_geometry small_5000_file small_5000_fd (by decide) (by decide)).1

set_option maxRecDepth 20000 in
/-- C25, counterexample: with `count = 2 ^ 32` on the 5000-byte file "z" (offset
0, chain of exactly two blocks) the remaining count converts to the `int` 0, so
a pass of the loop copies `min(0, 4096) = 0` bytes and ends in the state it
started from, with `bytes_read` still 0: the loop returns for no number of
passes, and `fs_read` has no result. -/
theorem fs_read_pass_copies_nothing :
    is_mounted small_state_z_5000 = true ∧ geometry_ok small_state_z_5000 ∧
    file_ok small_state_z_5000 0
      { new_file [122] with file_size := 5000, first_block_idx := 0 } [0, 1] ∧
    fd_ok small_state_z_5000 0 { fd := 0, file_num := 0, file_offset := 0 } 0 ∧
    to_size_t (min (to_int (size_sub 4294967296 0))
      (to_int (to_size_t (min (to_int (size_sub BLOCK_SIZE 0)) (to_int (size_sub 5000 0)))))) = 0 ∧
    (∀ fuel block_p, fs_read_loop ((0 : Nat) : Int) 0 4294967296 fuel small_state_z_5000 0
      (List.replicate 4294967296 0) block_p = none) ∧
    fs_read small_state_z_5000 ((0 : Nat) : Int) (List.replicate 4294967296 0) 4294967296 = none :=
  ⟨by decide, small_5000_geometry, small_5000_file, small_5000_fd, by decide,
    fs_read_loop_stuck small_state_z_5000 0 _ 0 _ [0, 1] _ 4294967296 (by decide)
      small_5000_geometry small_5000_file small_5000_fd (by decide) (by decide),
    fs_read_stuck small_state_z_5000 0 _ 0 _ [0, 1] _ 4294967296 (by decide)
      small_5000_geometry small_5000_file small_5000_fd (by decide) (by decide)⟩

/-! ### Used-block accounting -/

theorem rat_floor_div (n : Nat) : Rat.floor ((n : ℚ) / ((4096 : Nat) : ℚ)) = ((n / 4096 : Nat) : Int) := by
  have h := Rat.floor_intCast_div_natCast (n : ℤ) 4096
  have h2 : (⌊((n : ℤ) : ℚ) / ((4096 : ℕ) : ℚ)⌋ : ℤ) = Rat.floor (((n : ℤ) : ℚ) / ((4096 : ℕ) : ℚ)) := rfl
  rw [h2] at h
  simpa using h

theorem ceil_but_better_eq (n : Nat) :
    ceil_but_better ((n : ℚ) / (BLOCK_SIZE : ℚ)) = (((n + 4095) / 4096 : Nat) : Int) := by
  unfold ceil_but_better
  have h0 : (0 : ℚ) ≤ (n : ℚ) / (BLOCK_SIZE : ℚ) := by positivity
  simp only [if_pos h0]
  have hfl : Rat.floor ((n : ℚ) / (BLOCK_SIZE : ℚ)) = ((n / 4096 : Nat) : Int) := rat_floor_div n
  rw [hfl]
  have hB : (BLOCK_SIZE : ℚ) = 4096 := by norm_num [BLOCK_SIZE]
  by_cases hd : n % 4096 = 0
  · have hn : n = 4096 * (n / 4096) := by omega
    rw [if_pos]
    · congr 1
      omega
    · rw [hB]
      have : (n : ℚ) = 4096 * ((n / 4096 : Nat) : ℚ) := by exact_mod_cast hn
      rw [Int.cast_natCast]
      field_simp
      linarith
  · rw [if_neg]
    · have : (n + 4095) / 4096 = n / 4096 + 1 := by omega
      rw [this]
      push_cast
      rfl
    · rw [hB, Int.cast_natCast]
      intro h
      have h1 : (n : ℚ) = 4096 * ((n / 4096 : Nat) : ℚ) := by
        field_simp at h
        linarith
      have h2 : n = 4096 * (n / 4096) := by exact_mod_cast h1
      omega

theorem used_blocks_cons (f : file) (files : List file) :
    used_blocks (f :: files) = (f.file_size + 4095) / 4096 + used_blocks files := rfl

theorem fs_mount_count_loop_taken (files : List file) :
    ∀ n i c, i + n ≤ files.length →
      c.1 + used_blocks ((files.drop i).take n) < 2 ^ 64 →
      (fs_mount_count_loop files n i c).1 = c.1 + used_blocks ((files.drop i).take n) := by
  intro n
  induction n with
  | zero => intro i c _ _; rfl
  | succ n ih =>
    intro i c hi hc
    have hlt : i < files.length := by omega
    have hd : (files.drop i).take (n + 1) = files[i] :: (files.drop (i + 1)).take n := by
      rw [List.drop_eq_getElem_cons hlt, List.take_succ_cons]
    rw [hd, used_blocks_cons] at hc ⊢
    unfold fs_mount_count_loop
    simp only []
    rw [List.getD_eq_getElem?_getD, List.getElem?_eq_getElem hlt, Option.getD_some,
      ceil_but_better_eq, to_size_t_nat _ (by omega), size_add_small _ _ (by omega),
      ih (i + 1) _ (by omega) (by show c.1 + _ + _ < _; omega)]
    show c.1 + _ + _ = _
    omega

set_option maxRecDepth 20000 in
/-- C21, at failing inputs. In the state that holds the 5000-byte file "z"
(two blocks) the used-block counter is 2, the sum over the directory of the
sizes in blocks.  (1) `fs_delete` of "z" returns 0 and empties the entry, so
the sum is 0, but the counter stays 2.  (2) After `fs_umount`, `fs_mount` of
the same disk in memory whose counter field holds 7 returns 0 with the counter
at 9, not at the sum 2: the counter is added to without being set to 0. -/
theorem used_block_counter_diverges :
    small_state_z_5000.fs.FAT.num_blocks_taken = 2 ∧
    used_blocks small_state_z_5000.fs.rootDir.files = 2 ∧
    (∃ s', fs_delete small_state_z_5000 [122] = some (0, s') ∧
      used_blocks s'.fs.rootDir.files = 0 ∧ s'.fs.FAT.num_blocks_taken = 2) ∧
    ∃ su sm, fs_umount small_state_z_5000 = (0, su) ∧
      fs_mount { small_state.fs with FAT := { curr_pos := 0, num_blocks_taken := 7, blocks := [] } }
        "disk.fs" su = (0, sm) ∧
      used_blocks sm.fs.rootDir.files = 2 ∧ sm.fs.FAT.num_blocks_taken = 9 := by
  have hu : used_blocks small_state_z_5000.fs.rootDir.files = 2 := by decide
  refine ⟨rfl, hu, ⟨_, fs_delete_chain_eq small_state_z_5000 [122] 0
      { new_file [122] with file_size := 5000, first_block_idx := 0 } [0, 1]
      (by decide) (by decide) (by decide) (is_chain_two _), ?_, ?_⟩, ?_⟩
  · rw [delete_at_fs]
    decide
  · rw [delete_at_fs]
    rfl
  · obtain ⟨r1, r2, _, _, r5, _, _, _, r9, _⟩ := remount_eq small_state_z_5000
      { small_state.fs with FAT := { curr_pos := 0, num_blocks_taken := 7, blocks := [] } }
      (by decide) small_5000_image
    have hall : (small_state_z_5000.fs.rootDir.files.drop 0).take 128 =
        small_state_z_5000.fs.rootDir.files := by
      rw [List.drop_zero, List.take_of_length_le (by decide)]
    have hc : (fs_mount_count_loop small_state_z_5000.fs.rootDir.files FS_FILE_MAX_COUNT 0
        (7, 0)).1 = 9 := by
      rw [fs_mount_count_loop_taken _ _ _ _ (by decide)]
      · show 7 + used_blocks ((small_state_z_5000.fs.rootDir.files.drop 0).take 128) = 9
        rw [hall, hu]
      · show 7 + used_blocks ((small_state_z_5000.fs.rootDir.files.drop 0).take 128) < 2 ^ 64
        rw [hall, hu]
        decide
    exact ⟨_, _, r1, Prod.ext r2 rfl, (congrArg used_blocks r5).trans hu, r9.trans hc⟩

/-! ### What a call can do to the state -/

theorem fs_open_cases (s : State) (filename : List Nat) (r : Int) (s' : State)
    (h : fs_open s filename = some (r, s')) :
    s' = s ∨ ∃ (j k : Nat) (o : openFile), s.fs.open_files[j]? = some o ∧ o.file_num = -1 ∧
      fs_file_num_from_filename s.fs filename = (k : Int) ∧ s' = open_at s j k := by
  unfold fs_open at h
  split at h
  · left; exact (Prod.mk.inj (Option.some.inj h)).2.symm
  · split at h
    · left; exact (Prod.mk.inj (Option.some.inj h)).2.symm
    · cases hl : fs_open_loop s.fs.open_files FS_OPEN_MAX_COUNT 0 with
      | none => rw [hl] at h; simp at h
      | some fd =>
        rw [hl] at h
        simp only [] at h
        split at h
        · left; exact (Prod.mk.inj (Option.some.inj h)).2.symm
        · split at h
          · left; exact (Prod.mk.inj (Option.some.inj h)).2.symm
          · rename_i hfd hlook
            right
            rcases fs_open_loop_inv _ _ _ _ hl with h1 | ⟨j, o, hj, ho, hfree⟩
            · exact absurd h1 hfd
            · rcases lookup_nonneg_cases s.fs filename with hneg | ⟨k, hk⟩
              · exact absurd hneg hlook
              · refine ⟨j, k, o, ho, hfree, hk, ?_⟩
                have := (Prod.mk.inj (Option.some.inj h)).2
                rw [← this, hj, hk]
                rfl

theorem fs_close_cases (s : State) (fd r : Int) (s' : State)
    (h : fs_close s fd = some (r, s')) :
    s' = s ∨ ∃ (j : Nat) (o : openFile), s.fs.open_files[j]? = some o ∧ s' = close_at s j := by
  unfold fs_close at h
  split at h
  · left; exact (Prod.mk.inj (Option.some.inj h)).2.symm
  · cases hv : fs_validate_fd s.fs fd with
    | none => rw [hv] at h; simp at h
    | some b =>
      rw [hv] at h
      cases b with
      | false => left; exact (Prod.mk.inj (Option.some.inj h)).2.symm
      | true =>
        right
        simp only [] at h
        unfold fs_validate_fd at hv
        split at hv
        · simp at hv
        · cases ho : s.fs.open_files[fd.toNat]? with
          | none => rw [ho] at hv; simp at hv
          | some o =>
            exact ⟨fd.toNat, o, ho, (Prod.mk.inj (Option.some.inj h)).2.symm⟩

theorem fs_stat_cases (s : State) (fd r : Int) (s' : State)
    (h : fs_stat s fd = some (r, s')) : s' = s := by
  unfold fs_stat at h
  split at h
  · exact (Prod.mk.inj (Option.some.inj h)).2.symm
  · cases hn : fs_file_num_from_fd s.fs fd with
    | none => rw [hn] at h; simp at h
    | some file_num =>
      rw [hn] at h
      simp only [] at h
      split at h
      · exact (Prod.mk.inj (Option.some.inj h)).2.symm
      · cases hf : s.fs.rootDir.files[file_num.toNat]? with
        | none => rw [hf] at h; simp at h
        | some f =>
          rw [hf] at h
          exact (Prod.mk.inj (Option.some.inj h)).2.symm

theorem fs_lseek_cases (s : State) (fd : Int) (offset : Nat) (r : Int) (s' : State)
    (h : fs_lseek s fd offset = some (r, s')) :
    s' = s ∨ ∃ (o : openFile) (size : Int), is_mounted s = true ∧
      fs_stat s fd = some (size, s) ∧
      offset ≤ to_size_t size ∧ fs_validate_fd s.fs fd = some true ∧
      s.fs.open_files[fd.toNat]? = some o ∧ s' = with_offset s fd.toNat o offset := by
  unfold fs_lseek at h
  split at h
  · left; exact (Prod.mk.inj (Option.some.inj h)).2.symm
  · rename_i hmnt
    cases hst : fs_stat s fd with
    | none => rw [hst] at h; simp at h
    | some p =>
      obtain ⟨size, s1⟩ := p
      have hs1 := fs_stat_cases s fd size s1 hst
      subst hs1
      rw [hst] at h
      simp only [] at h
      split at h
      · left; exact (Prod.mk.inj (Option.some.inj h)).2.symm
      · rename_i hoff
        cases hv : fs_validate_fd s1.fs fd with
        | none => rw [hv] at h; simp at h
        | some b =>
          rw [hv] at h
          cases b with
          | false => left; exact (Prod.mk.inj (Option.some.inj h)).2.symm
          | true =>
            simp only [] at h
            cases ho : s1.fs.open_files[fd.toNat]? with
            | none => rw [ho] at h; simp at h
            | some o =>
              rw [ho] at h
              right
              exact ⟨o, size, by simpa using hmnt, rfl, by omega, rfl, rfl,
                (Prod.mk.inj (Option.some.inj h)).2.symm⟩

theorem fs_create_loop_cases (s : State) (filename : List Nat) :
    ∀ n i r s', fs_create_loop s filename n i = some (r, s') →
      s' = s ∨ ∃ (k : Nat) (f : file), s.fs.rootDir.files[k]? = some f ∧
        f.filename.headD 0 = 0 ∧ s' = create_at s filename k := by
  intro n
  induction n with
  | zero =>
    intro i r s' h
    unfold fs_create_loop at h
    left; exact (Prod.mk.inj (Option.some.inj h)).2.symm
  | succ n ih =>
    intro i r s' h
    unfold fs_create_loop at h
    cases hf : s.fs.rootDir.files[i]? with
    | none => rw [hf] at h; simp at h
    | some f =>
      rw [hf] at h
      simp only [] at h
      split at h
      · rename_i hempty
        right
        rw [if_neg (lnot_ne _)] at h
        exact ⟨i, f, hf, hempty, (Prod.mk.inj (Option.some.inj h)).2.symm⟩
      · exact ih _ _ _ h

theorem fs_create_cases (s : State) (filename : List Nat) (r : Int) (s' : State)
    (h : fs_create s filename = some (r, s')) :
    s' = s ∨ ∃ (k : Nat) (f : file), fs_validate_filename filename = true ∧
      s.fs.rootDir.files[k]? = some f ∧ f.filename.headD 0 = 0 ∧
      s' = create_at s filename k := by
  unfold fs_create at h
  split at h
  · left; exact (Prod.mk.inj (Option.some.inj h)).2.symm
  · split at h
    · left; exact (Prod.mk.inj (Option.some.inj h)).2.symm
    · rename_i hv
      split at h
      · left; exact (Prod.mk.inj (Option.some.inj h)).2.symm
      · split at h
        · left; exact (Prod.mk.inj (Option.some.inj h)).2.symm
        · rcases fs_create_loop_cases s filename _ _ _ _ h with h1 | ⟨k, f, h1, h2, h3⟩
          · left; exact h1
          · right
            exact ⟨k, f, by simpa using hv, h1, h2, h3⟩

theorem fs_delete_cases (s : State) (filename : List Nat) (r : Int) (s' : State)
    (h : fs_delete s filename = some (r, s')) :
    s' = s ∨ ∃ (k : Nat) (f : file) (blocks : List Nat),
      fs_file_num_from_filename s.fs filename = (k : Int) ∧
      s.fs.rootDir.files[k]? = some f ∧
      fs_delete_loop (s.fs.FAT.blocks.length + 2) s.fs.FAT.blocks f.first_block_idx =
        some blocks ∧
      s' = delete_at s k blocks := by
  unfold fs_delete at h
  split at h
  · left; exact (Prod.mk.inj (Option.some.inj h)).2.symm
  · simp only [] at h
    rcases lookup_nonneg_cases s.fs filename with hneg | ⟨k, hk⟩
    · rw [if_pos hneg] at h
      left; exact (Prod.mk.inj (Option.some.inj h)).2.symm
    · rw [hk, if_neg (by omega)] at h
      simp only [Int.toNat_ofNat] at h
      cases hf : s.fs.rootDir.files[k]? with
      | none => rw [hf] at h; simp at h
      | some f =>
        rw [hf] at h
        simp only [] at h
        cases hl : fs_delete_loop (s.fs.FAT.blocks.length + 2) s.fs.FAT.blocks
            f.first_block_idx with
        | none => rw [hl] at h; simp at h
        | some blocks =>
          rw [hl] at h
          simp only [] at h
          rw [if_neg (lnot_ne _), if_neg (lnot_ne _)] at h
          right
          exact ⟨k, f, blocks, hk, hf, hl, (Prod.mk.inj (Option.some.inj h)).2.symm⟩

theorem lookup_entry (fs : FS) (filename : List Nat) (k : Nat)
    (hlen : ∀ f ∈ fs.rootDir.files, f.filename.length = FS_FILENAME_LEN)
    (h : fs_file_num_from_filename fs filename = (k : Int)) :
    ∃ f, fs.rootDir.files[k]? = some f ∧ f.filename.headD 0 ≠ 0 := by
  obtain ⟨_, hv, hname⟩ := lookup_lt fs filename k h
  have hne := cstr_ne_nil_of_valid filename hv
  by_cases hk : k < fs.rootDir.files.length
  · refine ⟨fs.rootDir.files[k], List.getElem?_eq_getElem hk, ?_⟩
    have hl := hlen _ (List.getElem_mem hk)
    intro h0
    apply hne
    rw [← hname]
    unfold name_at
    rw [List.drop_eq_getElem_cons hk, List.flatMap_cons]
    unfold file_bytes cstr
    cases hfn : (fs.rootDir.files[k]).filename with
    | nil => rw [hfn] at hl; simp at hl
    | cons a t =>
      rw [hfn] at h0
      simp only [List.headD_cons] at h0
      subst h0
      simp [List.takeWhile_cons]
  · exfalso
    apply hne
    rw [← hname]
    exact name_at_out_of_range _ _ (by omega)

/-! ### Machine arithmetic out of range -/

theorem to_int_range (x : Nat) : -2 ^ 31 ≤ to_int x ∧ to_int x < 2 ^ 31 := by
  unfold to_int
  split <;> omega

theorem to_size_t_cases (i : Int) (h1 : -2 ^ 31 ≤ i) (h2 : i < 2 ^ 31) :
    (0 ≤ i ∧ (to_size_t i : Int) = i) ∨ (i < 0 ∧ (to_size_t i : Int) = 2 ^ 64 + i) := by
  unfold to_size_t
  omega

theorem to_int_to_size_t (i : Int) (h1 : -2 ^ 31 ≤ i) (h2 : i < 2 ^ 31) :
    to_int (to_size_t i) = i := by
  rcases to_size_t_cases i h1 h2 with ⟨h, e⟩ | ⟨h, e⟩
  · unfold to_int
    split <;> omega
  · unfold to_int
    split <;> omega

theorem c_min_le (a b : Int) : min a b ≤ a ∧ min a b ≤ b ∧ (min a b = a ∨ min a b = b) := by
  unfold min
  split <;> omega

theorem read_chunk_le (count br bo S O : Nat) (hS : S < 2 ^ 31) (hO : O < S)
    (hb : to_size_t (min (to_int (size_sub count br))
      (to_int (to_size_t (min (to_int (size_sub BLOCK_SIZE bo))
        (to_int (size_sub S O)))))) ≤ 4096) :
    to_size_t (min (to_int (size_sub count br))
      (to_int (to_size_t (min (to_int (size_sub BLOCK_SIZE bo))
        (to_int (size_sub S O)))))) ≤ S - O := by
  have hB : to_int (size_sub S O) = ((S - O : Nat) : Int) := by
    rw [size_sub_le _ _ (by omega) (by omega), to_int_small _ (by omega)]
  rw [hB] at hb ⊢
  have hAr := to_int_range (size_sub count br)
  generalize to_int (size_sub count br) = A at hb hAr ⊢
  generalize hC : to_int (size_sub BLOCK_SIZE bo) = C at hb ⊢
  have hCr := to_int_range (size_sub BLOCK_SIZE bo)
  rw [hC] at hCr
  have hm1 := c_min_le C ((S - O : Nat) : Int)
  generalize min C ((S - O : Nat) : Int) = m1 at hb hm1 ⊢
  have hm1r : -2 ^ 31 ≤ m1 ∧ m1 < 2 ^ 31 := by omega
  rw [to_int_to_size_t m1 hm1r.1 hm1r.2] at hb ⊢
  have hc := c_min_le A m1
  generalize min A m1 = c at hb hc ⊢
  unfold to_size_t at hb ⊢
  omega

theorem block_read_length (d : BlockDev) (idx : Nat) (buf : List Nat)
    (hd : blocks_bounded d) (hbuf : buf.length ≤ BLOCK_SIZE) :
    (block_read d idx buf).2.length ≤ BLOCK_SIZE := by
  unfold block_read
  split
  · cases h : d.blocks[idx]? with
    | none => exact hbuf
    | some b => exact hd b (List.getElem?_mem h)
  · exact hbuf

theorem with_offset_twice (s : State) (j : Nat) (o : openFile) (a x : Nat) :
    with_offset (with_offset s j o a) j { o with file_offset := a } x = with_offset s j o x := by
  unfold with_offset
  simp only [List.set_set]

theorem fs_read_loop_frame (fd : Int) (file_num count : Nat) :
    ∀ fuel s br buf blk r out s',
      fs_read_loop fd file_num count fuel s br buf blk = some (r, out, s') →
      s' = s ∨ ∃ (o : openFile) (x : Nat), s.fs.open_files[fd.toNat]? = some o ∧
        s' = with_offset s fd.toNat o x ∧
        (blocks_bounded s.disk → blk.length ≤ BLOCK_SIZE →
          ∀ f, s.fs.rootDir.files[file_num]? = some f → f.file_size < 2 ^ 31 →
            x ≤ f.file_size) := by
  intro fuel
  induction fuel with
  | zero =>
    intro s br buf blk r out s' h
    unfold fs_read_loop at h
    exact Option.noConfusion h
  | succ fuel ih =>
    intro s br buf blk r out s' h
    unfold fs_read_loop at h
    cases ho : s.fs.open_files[fd.toNat]? with
    | none => rw [ho] at h; simp at h
    | some o =>
      cases hf : s.fs.rootDir.files[file_num]? with
      | none => rw [ho, hf] at h; simp at h
      | some f =>
        rw [ho, hf] at h
        simp only [] at h
        split at h
        · left; exact (Prod.mk.inj (Prod.mk.inj (Option.some.inj h)).2).2.symm
        · rename_i hguard
          have hguard' : br < count ∧ o.file_offset < f.file_size := by
            by_contra hcon
            exact hguard hcon
          cases hg : fs_get_block_offset s.fs fd with
          | none => rw [hg] at h; simp at h
          | some p =>
            obtain ⟨r0, bi, bo⟩ := p
            rw [hg] at h
            simp only [] at h
            split at h
            · left; exact (Prod.mk.inj (Prod.mk.inj (Option.some.inj h)).2).2.symm
            · split at h
              · left; exact (Prod.mk.inj (Prod.mk.inj (Option.some.inj h)).2).2.symm
              · generalize hn : to_size_t (min (to_int (size_sub count br))
                  (to_int (to_size_t (min (to_int (size_sub BLOCK_SIZE bo))
                    (to_int (size_sub f.file_size o.file_offset)))))) = n at h
                split at h
                · rename_i hcheck
                  have hj : fd.toNat < s.fs.open_files.length := getElem?_lt _ _ _ ho
                  right
                  rcases ih _ _ _ _ _ _ _ h with h1 | ⟨o1, x, ho1, h1, hx⟩
                  · refine ⟨o, _, rfl, h1, ?_⟩
                    intro hd hblk f1 hf1 hsz
                    have hff : f1 = f := (Option.some.inj hf1).symm
                    subst hff
                    have hlen : (block_read s.disk
                        (s.fs.superblock.data_block_start_idx + bi) blk).2.length ≤ 4096 :=
                      block_read_length s.disk _ blk hd hblk
                    have hn' := read_chunk_le count br bo f1.file_size o.file_offset hsz
                      hguard'.2 (by rw [hn]; have := hcheck.1; omega)
                    rw [hn] at hn'
                    rw [size_add_small _ _ (by omega)]
                    omega
                  · have ho1' : o1 = { o with file_offset := size_add o.file_offset n } := by
                      have h2 : (s.fs.open_files.set fd.toNat
                          { o with file_offset := size_add o.file_offset n })[fd.toNat]?
                          = some o1 := ho1
                      rw [List.getElem?_set_self hj] at h2
                      exact (Option.some.inj h2).symm
                    refine ⟨o, x, rfl, ?_, ?_⟩
                    · rw [h1, ho1']
                      exact with_offset_twice s fd.toNat o _ x
                    · intro hd hblk f1 hf1 hsz
                      exact hx hd (block_read_length s.disk _ blk hd hblk) f1 (hf.trans hf1) hsz
                · exact Option.noConfusion h

/-! ### What a write can do to the directory and the open-file table -/

theorem write_chunk (count bw : Nat) (h1 : bw ≤ count % 2 ^ 32)
    (hn : to_size_t (min (to_int (size_sub count bw)) (BLOCK_SIZE : Int)) ≤ 4096) :
    size_add bw (to_size_t (min (to_int (size_sub count bw)) (BLOCK_SIZE : Int))) =
      bw + to_size_t (min (to_int (size_sub count bw)) (BLOCK_SIZE : Int)) ∧
    bw + to_size_t (min (to_int (size_sub count bw)) (BLOCK_SIZE : Int)) ≤ count % 2 ^ 32 ∧
    (bw = 0 → count % 2 ^ 32 < 2 ^ 31) := by
  have hA : to_int (size_sub count bw) =
      if count % 2 ^ 32 - bw < 2 ^ 31 then ((count % 2 ^ 32 - bw : Nat) : Int)
      else ((count % 2 ^ 32 - bw : Nat) : Int) - 2 ^ 32 := by
    have : size_sub count bw % 2 ^ 32 = count % 2 ^ 32 - bw := by
      unfold size_sub
      omega
    unfold to_int
    rw [this]
  rw [hA] at hn ⊢
  have hm := c_min_le (if count % 2 ^ 32 - bw < 2 ^ 31 then ((count % 2 ^ 32 - bw : Nat) : Int)
      else ((count % 2 ^ 32 - bw : Nat) : Int) - 2 ^ 32) (BLOCK_SIZE : Int)
  generalize min (if count % 2 ^ 32 - bw < 2 ^ 31 then ((count % 2 ^ 32 - bw : Nat) : Int)
      else ((count % 2 ^ 32 - bw : Nat) : Int) - 2 ^ 32) (BLOCK_SIZE : Int) = t at hn hm ⊢
  have hB : (BLOCK_SIZE : Int) = 4096 := rfl
  rw [hB] at hm
  unfold size_add
  unfold to_size_t at hn ⊢
  split at hm <;> omega

theorem block_write_bounded (d : BlockDev) (idx : Nat) (buf : List Nat)
    (hd : blocks_bounded d) (hbuf : buf.length ≤ BLOCK_SIZE) :
    blocks_bounded (block_write d idx buf).2 := by
  unfold block_write
  split
  · intro b hb
    rcases List.mem_or_eq_of_mem_set hb with h | h
    · exact hd b h
    · rw [h]; exact hbuf
  · exact hd

theorem fs_save_FAT_loop_bounded (blocks : List Nat) :
    ∀ n i d, blocks_bounded d → blocks_bounded (fs_save_FAT_loop blocks n i d) := by
  intro n
  induction n with
  | zero => intro i d hd; exact hd
  | succ n ih =>
    intro i d hd
    unfold fs_save_FAT_loop
    simp only []
    apply ih
    apply block_write_bounded _ _ _ hd
    unfold FAT_bytes
    rw [flatMap_length (le_bytes 2) 2 _ (fun x _ => le_bytes_length 2 x), List.length_take]
    show 2 * Min.min (4096 / 2) _ ≤ 4096
    omega

theorem files_bytes_length (files : List file) (h : ∀ f ∈ files, entry_shape f) :
    (files_bytes files).length = 32 * files.length := by
  apply flatMap_length file_bytes 32 files
  intro f hf
  unfold file_bytes
  have h1 : f.filename.length = 16 := (h f hf).1
  rw [List.length_append, List.length_append, List.length_append, le_bytes_length,
    le_bytes_length, h1, (h f hf).2]

theorem fs_save_rootDir_bounded (s : State) (hd : blocks_bounded s.disk)
    (hlen : s.fs.rootDir.files.length = FS_FILE_MAX_COUNT)
    (hent : ∀ f ∈ s.fs.rootDir.files, entry_shape f) :
    blocks_bounded (fs_save_rootDir s).2.disk := by
  rw [fs_save_rootDir_disk]
  apply block_write_bounded _ _ _ hd
  rw [files_bytes_length _ hent, hlen]
  decide

theorem entry_grows_refl (f : file) : entry_grows f f :=
  ⟨rfl, rfl, Nat.le_refl _, id⟩

theorem entry_grows_trans (f g h : file) (h1 : entry_grows f g) (h2 : entry_grows g h) :
    entry_grows f h :=
  ⟨h2.1.trans h1.1, h2.2.1.trans h1.2.1, Nat.le_trans h1.2.2.1 h2.2.2.1,
    fun x => h2.2.2.2 (h1.2.2.2 x)⟩

theorem grows_refl (s : State) : grows s s :=
  ⟨rfl, rfl, fun k f g hf hg => by
    rw [hf] at hg
    rw [← Option.some.inj hg]
    exact entry_grows_refl f⟩

theorem grows_trans (s1 s2 s3 : State) (h1 : grows s1 s2) (h2 : grows s2 s3) : grows s1 s3 := by
  refine ⟨h2.1.trans h1.1, h2.2.1.trans h1.2.1, ?_⟩
  intro k f h hf hh
  have hk := getElem?_lt _ _ _ hf
  have hk2 : k < s2.fs.rootDir.files.length := by rw [h1.2.1]; exact hk
  exact entry_grows_trans f _ h (h1.2.2 k f _ hf (List.getElem?_eq_getElem hk2))
    (h2.2.2 k _ h (List.getElem?_eq_getElem hk2) hh)

theorem grows_of_fs (s s' : State) (h : s'.fs.open_files = s.fs.open_files)
    (hf : s'.fs.rootDir.files = s.fs.rootDir.files) : grows s s' :=
  ⟨h, by rw [hf], fun k f g h1 h2 => by
    rw [hf, h1] at h2
    rw [← Option.some.inj h2]
    exact entry_grows_refl f⟩

theorem grows_set (s s' : State) (k : Nat) (f g : file)
    (h : s'.fs.open_files = s.fs.open_files)
    (hk : s.fs.rootDir.files[k]? = some f)
    (hf : s'.fs.rootDir.files = s.fs.rootDir.files.set k g)
    (hg : entry_grows f g) : grows s s' := by
  refine ⟨h, by rw [hf, List.length_set], ?_⟩
  intro j f1 g1 h1 h2
  rw [hf] at h2
  by_cases hjk : k = j
  · subst hjk
    rw [List.getElem?_set_self (getElem?_lt _ _ _ hk)] at h2
    rw [hk] at h1
    rw [← Option.some.inj h1, ← Option.some.inj h2]
    exact hg
  · rw [List.getElem?_set_ne hjk, h1] at h2
    rw [← Option.some.inj h2]
    exact entry_grows_refl f1

theorem shape_of_grows (s s' : State) (hs : shape_ok s) (hg : grows s s')
    (hd : blocks_bounded s'.disk) : shape_ok s' := by
  obtain ⟨h1, h2, h3, _⟩ := hs
  refine ⟨hg.2.1.trans h1, ?_, by rw [hg.1]; exact h3, hd⟩
  intro g hgm
  obtain ⟨k, hk, hkg⟩ := List.getElem_of_mem hgm
  have hk' : k < s.fs.rootDir.files.length := by rw [← hg.2.1]; exact hk
  have hgr := hg.2.2 k _ g (List.getElem?_eq_getElem hk')
    (by rw [List.getElem?_eq_getElem hk, hkg])
  have hf := h2 _ (List.getElem_mem hk')
  exact ⟨by rw [hgr.1]; exact hf.1, by rw [hgr.2.1]; exact hf.2⟩

theorem sizes_of_grows (s s' : State) (hs : sizes_ok s) (hg : grows s s') : sizes_ok s' := by
  intro g hgm
  obtain ⟨k, hk, hkg⟩ := List.getElem_of_mem hgm
  have hk' : k < s.fs.rootDir.files.length := by rw [← hg.2.1]; exact hk
  have hgr := hg.2.2 k _ g (List.getElem?_eq_getElem hk')
    (by rw [List.getElem?_eq_getElem hk, hkg])
  exact hgr.2.2.2 (hs _ (List.getElem_mem hk'))

theorem fs_write_allocate_frame (s : State) (bw : Nat) (p : BlockIdxPtr) (st : Step)
    (hs : shape_ok s) (h : fs_write_allocate s bw p = some st) :
    (∀ r s1, st = .ret r s1 → s1 = s) ∧
    (∀ s1, st = .next s1 → grows s s1 ∧ blocks_bounded s1.disk) := by
  unfold fs_write_allocate at h
  cases hfind : fs_find_open_data_block s.fs with
  | none => rw [hfind] at h; exact Option.noConfusion h
  | some r0 =>
    rw [hfind] at h
    simp only [] at h
    split at h
    · have := Option.some.inj h
      subst this
      exact ⟨fun r s1 e => (Step.ret.inj e).2.symm, fun s1 e => Step.noConfusion e⟩
    · cases ha : p.assign s.fs (to_size_t r0) with
      | none => rw [ha] at h; exact Option.noConfusion h
      | some fs1 =>
        rw [ha] at h
        simp only [] at h
        split at h
        · rw [if_neg (lnot_ne _)] at h
          have := Option.some.inj h
          subst this
          refine ⟨fun r s1 e => Step.noConfusion e, fun s1 e => ?_⟩
          have e' := Step.next.inj e
          subst e'
          have hg1 : s.fs.open_files = fs1.open_files ∧
              ((fs1.rootDir.files = s.fs.rootDir.files) ∨
                ∃ k f, s.fs.rootDir.files[k]? = some f ∧
                  fs1.rootDir.files = s.fs.rootDir.files.set k
                    { f with first_block_idx := to_size_t r0 % 2 ^ 16 }) := by
            cases p with
            | first_block_idx k =>
              simp only [BlockIdxPtr.assign] at ha
              cases hf : s.fs.rootDir.files[k]? with
              | none => rw [hf] at ha; exact Option.noConfusion ha
              | some f =>
                rw [hf] at ha
                have := Option.some.inj ha
                subst this
                exact ⟨rfl, Or.inr ⟨k, f, hf, rfl⟩⟩
            | FAT_entry i =>
              simp only [BlockIdxPtr.assign] at ha
              split at ha
              · have := Option.some.inj ha
                subst this
                exact ⟨rfl, Or.inl rfl⟩
              · exact Option.noConfusion ha
          constructor
          · rcases hg1.2 with hf | ⟨k, f, hk, hf⟩
            · exact grows_of_fs s _ hg1.1.symm hf
            · exact grows_set s _ k f _ hg1.1.symm hk hf
                ⟨rfl, rfl, Nat.le_refl _, id⟩
          · exact fs_save_FAT_loop_bounded _ _ _ _ hs.2.2.2
        · exact Option.noConfusion h

theorem fs_write_loop_frame (file_num : Nat) (buf : List Nat) (count : Nat) :
    ∀ fuel s bw p blk r s', shape_ok s → blk.length ≤ BLOCK_SIZE →
      bw ≤ count % 2 ^ 32 → (bw = 0 ∨ count % 2 ^ 32 < 2 ^ 31) →
      fs_write_loop file_num buf count fuel s bw p blk = some (r, s') →
      grows s s' ∧ blocks_bounded s'.disk := by
  intro fuel
  induction fuel with
  | zero =>
    intro s bw p blk r s' _ _ _ _ h
    unfold fs_write_loop at h
    exact Option.noConfusion h
  | succ fuel ih =>
    intro s bw p blk r s' hs hblk hbw hc0 h
    unfold fs_write_loop at h
    split at h
    · have := (Prod.mk.inj (Option.some.inj h)).2
      subst this
      exact ⟨grows_refl _, hs.2.2.2⟩
    · cases hd : p.deref s.fs with
      | none => rw [hd] at h; exact Option.noConfusion h
      | some cur =>
        rw [hd] at h
        simp only [] at h
        cases hal : (if cur = FAT_EOC then fs_write_allocate s bw p else some (.next s)) with
        | none => rw [hal] at h; exact Option.noConfusion h
        | some st =>
          rw [hal] at h
          have hst : (∀ r s1, st = .ret r s1 → s1 = s) ∧
              (∀ s1, st = .next s1 → grows s s1 ∧ blocks_bounded s1.disk) := by
            by_cases hcur : cur = FAT_EOC
            · rw [if_pos hcur] at hal
              exact fs_write_allocate_frame s bw p st hs hal
            · rw [if_neg hcur] at hal
              have := Option.some.inj hal
              subst this
              exact ⟨fun r s1 e => Step.noConfusion e, fun s1 e => by
                rw [← Step.next.inj e]
                exact ⟨grows_refl _, hs.2.2.2⟩⟩
          cases st with
          | ret r1 s1 =>
            simp only [] at h
            have := (Prod.mk.inj (Option.some.inj h)).2
            subst this
            rw [hst.1 r1 s1 rfl]
            exact ⟨grows_refl _, hs.2.2.2⟩
          | next s1 =>
            simp only [] at h
            obtain ⟨hg1, hb1⟩ := hst.2 s1 rfl
            have hs1 := shape_of_grows s s1 hs hg1 hb1
            cases hd1 : p.deref s1.fs with
            | none => rw [hd1] at h; exact Option.noConfusion h
            | some block_idx =>
              rw [hd1] at h
              simp only [] at h
              have hwc := write_chunk count bw hbw
              generalize to_size_t (min (to_int (size_sub count bw)) (BLOCK_SIZE : Int)) = n
                at h hwc
              have hp1 : (if n < BLOCK_SIZE then
                  (block_read s1.disk (s1.fs.superblock.data_block_start_idx + block_idx) blk).2
                  else blk).length ≤ BLOCK_SIZE := by
                split
                · exact block_read_length _ _ _ hb1 hblk
                · exact hblk
              generalize (if n < BLOCK_SIZE then
                  (block_read s1.disk (s1.fs.superblock.data_block_start_idx + block_idx) blk).2
                  else blk) = block_p1 at h hp1
              split at h
              · rename_i hcheck
                have hp1' : block_p1.length ≤ 4096 := hp1
                obtain ⟨hw1, hw2, hw3⟩ := hwc (by omega)
                have hc0' : count % 2 ^ 32 < 2 ^ 31 := by
                  rcases hc0 with h0 | h0
                  · exact hw3 h0
                  · exact h0
                have hp2 : ((buf.drop bw).take n ++ block_p1.drop n).length ≤ BLOCK_SIZE := by
                  rw [List.length_append, List.length_take, List.length_drop, List.length_drop]
                  show _ ≤ 4096
                  omega
                have hb2 := block_write_bounded s1.disk
                  (s1.fs.superblock.data_block_start_idx + block_idx)
                  ((buf.drop bw).take n ++ block_p1.drop n) hb1 hp2
                cases hf : s1.fs.rootDir.files[file_num]? with
                | none => rw [hf] at h; exact Option.noConfusion h
                | some tf =>
                  rw [hf] at h
                  simp only [] at h
                  rw [hw1] at h
                  split at h
                  · rename_i hgt
                    rw [if_neg (lnot_ne _)] at h
                    have hmod : (bw + n) % 2 ^ 32 = bw + n := Nat.mod_eq_of_lt (by omega)
                    have hg3 : grows s1 (fs_save_rootDir
                        { disk := (block_write s1.disk
                            (s1.fs.superblock.data_block_start_idx + block_idx)
                            ((buf.drop bw).take n ++ block_p1.drop n)).2
                          fs := { s1.fs with rootDir := { s1.fs.rootDir with
                            files := s1.fs.rootDir.files.set file_num
                              { tf with file_size := (bw + n) % 2 ^ 32 } } } }).2 := by
                      apply grows_set s1 _ file_num tf
                        { tf with file_size := (bw + n) % 2 ^ 32 }
                      · rw [fs_save_rootDir_fs]
                      · exact hf
                      · rw [fs_save_rootDir_fs]
                      · rw [hmod]
                        exact ⟨rfl, rfl, by show tf.file_size ≤ bw + n; omega,
                          fun _ => by show bw + n < 2 ^ 31; omega⟩
                    have hg3' : grows s1
                        { disk := (block_write s1.disk
                            (s1.fs.superblock.data_block_start_idx + block_idx)
                            ((buf.drop bw).take n ++ block_p1.drop n)).2
                          fs := { s1.fs with rootDir := { s1.fs.rootDir with
                            files := s1.fs.rootDir.files.set file_num
                              { tf with file_size := (bw + n) % 2 ^ 32 } } } } :=
                      grows_set s1 _ file_num tf { tf with file_size := (bw + n) % 2 ^ 32 }
                        rfl hf rfl (by
                          rw [hmod]
                          exact ⟨rfl, rfl, by show tf.file_size ≤ bw + n; omega,
                            fun _ => by show bw + n < 2 ^ 31; omega⟩)
                    have hs3 := shape_of_grows s1 _ hs1 hg3' hb2
                    have hb3 := fs_save_rootDir_bounded _ hs3.2.2.2 hs3.1 hs3.2.1
                    have hs4 := shape_of_grows s1 _ hs1 hg3 hb3
                    obtain ⟨hg5, hb5⟩ := ih _ _ _ _ _ _ hs4 hp2 hw2 (Or.inr hc0') h
                    exact ⟨grows_trans _ _ _ hg1 (grows_trans _ _ _ hg3 hg5), hb5⟩
                  · have hg2 : grows s1 { s1 with disk := (block_write s1.disk
                        (s1.fs.superblock.data_block_start_idx + block_idx)
                        ((buf.drop bw).take n ++ block_p1.drop n)).2 } :=
                      grows_of_fs _ _ rfl rfl
                    have hs2 := shape_of_grows s1 _ hs1 hg2 hb2
                    obtain ⟨hg5, hb5⟩ := ih _ _ _ _ _ _ hs2 hp2 hw2 (Or.inr hc0') h
                    exact ⟨grows_trans _ _ _ hg1 (grows_trans _ _ _ hg2 hg5), hb5⟩
              · exact Option.noConfusion h

theorem fs_file_num_from_fd_inv (fs : FS) (fd n : Int)
    (h : fs_file_num_from_fd fs fd = some n) :
    n = -1 ∨ ∃ (o : openFile) (f : file), 0 ≤ fd ∧ fs.open_files[fd.toNat]? = some o ∧
      o.file_num ≠ -1 ∧ o.file_num = n ∧ 0 ≤ n ∧ fs.rootDir.files[n.toNat]? = some f ∧
      f.filename.headD 0 ≠ 0 := by
  unfold fs_file_num_from_fd at h
  cases hv : fs_validate_fd fs fd with
  | none => rw [hv] at h; exact Option.noConfusion h
  | some b =>
    rw [hv] at h
    cases b with
    | false => left; exact (Option.some.inj h).symm
    | true =>
      simp only [] at h
      unfold fs_validate_fd at hv
      split at hv
      · exact absurd (Option.some.inj hv) (by decide)
      · rename_i hfd
        cases ho : fs.open_files[fd.toNat]? with
        | none => rw [ho] at h; exact Option.noConfusion h
        | some o =>
          rw [ho] at h hv
          simp only [] at h hv
          have hused : o.file_num ≠ -1 := by
            intro hcon
            rw [if_pos hcon] at hv
            exact absurd (Option.some.inj hv) (by decide)
          cases hvf : fs_validate_file_num fs o.file_num with
          | none => rw [hvf] at h; exact Option.noConfusion h
          | some b2 =>
            rw [hvf] at h
            cases b2 with
            | false => left; exact (Option.some.inj h).symm
            | true =>
              right
              simp only [] at h
              have hn := Option.some.inj h
              unfold fs_validate_file_num at hvf
              split at hvf
              · exact absurd (Option.some.inj hvf) (by decide)
              · rename_i hnum
                cases hf : fs.rootDir.files[o.file_num.toNat]? with
                | none => rw [hf] at hvf; exact Option.noConfusion hvf
                | some f =>
                  rw [hf] at hvf
                  simp only [] at hvf
                  have hne : f.filename.headD 0 ≠ 0 := by
                    intro hcon
                    rw [if_pos hcon] at hvf
                    exact absurd (Option.some.inj hvf) (by decide)
                  refine ⟨o, f, by omega, rfl, hused, hn, by omega, ?_, hne⟩
                  rw [← hn]
                  exact hf

theorem fs_write_cases (s : State) (fd : Int) (buf : List Nat) (count : Nat) (r : Int)
    (s' : State) (hs : shape_ok s) (h : fs_write s fd buf count = some (r, s')) :
    grows s s' ∧ blocks_bounded s'.disk := by
  unfold fs_write at h
  split at h
  · rw [← (Prod.mk.inj (Option.some.inj h)).2]
    exact ⟨grows_refl _, hs.2.2.2⟩
  · cases hn : fs_file_num_from_fd s.fs fd with
    | none => rw [hn] at h; exact Option.noConfusion h
    | some n =>
      rw [hn] at h
      simp only [] at h
      split at h
      · rw [← (Prod.mk.inj (Option.some.inj h)).2]
        exact ⟨grows_refl _, hs.2.2.2⟩
      · exact fs_write_loop_frame _ buf count _ s 0 _ _ r s' hs
          (by rw [List.length_replicate]) (Nat.zero_le _) (Or.inl rfl) h

theorem fs_read_cases (s : State) (fd : Int) (buf : List Nat) (count : Nat) (r : Int)
    (out : List Nat) (s' : State) (h : fs_read s fd buf count = some (r, out, s')) :
    s' = s ∨ ∃ (o : openFile) (f : file) (x : Nat), s.fs.open_files[fd.toNat]? = some o ∧
      o.file_num ≠ -1 ∧ 0 ≤ o.file_num ∧ s.fs.rootDir.files[o.file_num.toNat]? = some f ∧
      s' = with_offset s fd.toNat o x ∧
      (blocks_bounded s.disk → f.file_size < 2 ^ 31 → x ≤ f.file_size) := by
  unfold fs_read at h
  split at h
  · left; exact (Prod.mk.inj (Prod.mk.inj (Option.some.inj h)).2).2.symm
  · cases hn : fs_file_num_from_fd s.fs fd with
    | none => rw [hn] at h; exact Option.noConfusion h
    | some n =>
      rw [hn] at h
      simp only [] at h
      split at h
      · left; exact (Prod.mk.inj (Prod.mk.inj (Option.some.inj h)).2).2.symm
      · rename_i hne
        rcases fs_file_num_from_fd_inv s.fs fd n hn with h1 | ⟨o, f, _, ho, hused, hon, hn0, hf, _⟩
        · exact absurd h1 hne
        · rcases fs_read_loop_frame fd n.toNat count _ s 0 buf _ r out s' h with
            h2 | ⟨o2, x, ho2, h2, hx⟩
          · left; exact h2
          · right
            rw [ho] at ho2
            have := Option.some.inj ho2
            subst this
            refine ⟨o, f, x, ho, hused, by omega, by rw [hon]; exact hf, h2, ?_⟩
            intro hd hsz
            exact hx hd (by rw [List.length_replicate]) f hf hsz

/-! ### Mounting a formatted disk -/

theorem flatMap_replicate_zero {α : Type} (g : α → List Nat) (x : α) (k : Nat)
    (h : g x = List.replicate k 0) :
    ∀ n, (List.replicate n x).flatMap g = List.replicate (n * k) 0 := by
  intro n
  induction n with
  | zero => simp
  | succ n ih =>
    rw [List.replicate_succ, List.flatMap_cons, ih, h, List.append_replicate_replicate]
    congr 1
    rw [Nat.succ_mul]
    omega

theorem FAT_bytes_zero : FAT_bytes (List.replicate 2048 0) = zero_block :=
  flatMap_replicate_zero (le_bytes 2) 0 2 rfl 2048

theorem files_bytes_zero : files_bytes (List.replicate 128 zero_file) = zero_block :=
  flatMap_replicate_zero file_bytes zero_file 32 rfl 128

theorem files_of_zero_block : files_of_bytes zero_block = List.replicate 128 zero_file := by
  rw [← files_bytes_zero]
  apply files_round_trip _ (List.length_replicate _ _)
  intro f hf
  rw [(List.mem_replicate.1 hf).2]
  exact ⟨rfl, rfl, by decide, by decide⟩

theorem count_loop_zero :
    ∀ n i c, fs_mount_count_loop (List.replicate 128 zero_file) (n + 1) i c =
      (c.1 % 2 ^ 64, c.2) := by
  have hstep : ∀ i, ((List.replicate 128 zero_file).getD i
      { filename := [], file_size := 0, first_block_idx := 0, padding := [] }).file_size = 0 ∧
      ((List.replicate 128 zero_file).getD i
        { filename := [], file_size := 0, first_block_idx := 0, padding := [] }).filename.headD 0
        = 0 := by
    intro i
    rw [List.getD_eq_getElem?_getD]
    by_cases hi : i < 128
    · rw [List.getElem?_eq_getElem (by rw [List.length_replicate]; exact hi),
        List.getElem_replicate]
      exact ⟨rfl, rfl⟩
    · rw [List.getElem?_eq_none (by rw [List.length_replicate]; omega)]
      exact ⟨rfl, rfl⟩
  have hceil : ceil_but_better (((0 : Nat) : ℚ) / (BLOCK_SIZE : ℚ)) = 0 := by
    rw [ceil_but_better_eq]
    rfl
  intro n
  induction n with
  | zero =>
    intro i c
    unfold fs_mount_count_loop
    simp only []
    rw [(hstep i).1, (hstep i).2, hceil, if_neg (by simp)]
    unfold fs_mount_count_loop
    show (size_add c.1 (to_size_t 0), c.2) = _
    unfold size_add to_size_t
    simp
  | succ n ih =>
    intro i c
    unfold fs_mount_count_loop
    simp only []
    rw [(hstep i).1, (hstep i).2, hceil, if_neg (by simp), ih]
    show (size_add c.1 (to_size_t 0) % 2 ^ 64, c.2) = _
    unfold size_add to_size_t
    simp

theorem fs_mount_formatted (junk : FS) (diskname : String) (D : Nat) (fs0 : FS)
    (hD : D + (2 * D + 4095) / 4096 + 2 < 2 ^ 16) :
    fs_mount junk diskname { disk := formatted_disk diskname D, fs := fs0 } =
      (0, fresh_state diskname D (junk.FAT.num_blocks_taken % 2 ^ 64)) := by
  have hopen : block_disk_open diskname (formatted_disk diskname D) =
      (0, { formatted_disk diskname D with opened := true }) :=
    block_disk_open_ok _ _ rfl rfl
  have hrd0 : ∀ old, (block_read { formatted_disk diskname D with opened := true } 0 old).2 =
      superblock_bytes (formatted_superblock D) := by
    intro old
    unfold block_read
    rw [if_pos rfl]
    show (match (superblock_bytes (formatted_superblock D) ::
      List.replicate ((2 * D + 4095) / 4096 + 1 + D) zero_block)[0]? with
      | some b => ((0 : Int), b)
      | none => (-1, old)).2 = _
    rw [List.getElem?_cons_zero]
  have hsb : ∀ old, superblock_of_bytes
      (block_read { formatted_disk diskname D with opened := true } 0 old).2 =
      formatted_superblock D := by
    intro old
    rw [hrd0]
    apply superblock_round_trip
    · rfl
    · show D + (2 * D + 4095) / 4096 + 2 < 2 ^ 16
      omega
    · show (2 * D + 4095) / 4096 + 1 < 2 ^ 16
      omega
    · show (2 * D + 4095) / 4096 + 2 < 2 ^ 16
      omega
    · show D < 2 ^ 16
      omega
    · show (2 * D + 4095) / 4096 < 2 ^ 8
      omega
  have hget : ∀ j, j < (2 * D + 4095) / 4096 + 1 + D →
      ({ formatted_disk diskname D with opened := true } : BlockDev).blocks[1 + j]? =
        some zero_block := by
    intro j hj
    show (superblock_bytes (formatted_superblock D) ::
      List.replicate ((2 * D + 4095) / 4096 + 1 + D) zero_block)[1 + j]? = some zero_block
    rw [show 1 + j = j + 1 from Nat.add_comm 1 j, List.getElem?_cons_succ,
      List.getElem?_eq_getElem (by rw [List.length_replicate]; exact hj),
      List.getElem_replicate]
  have hroot : ∀ old, (block_read { formatted_disk diskname D with opened := true }
      ((2 * D + 4095) / 4096 + 1) old).2 = zero_block := by
    intro old
    unfold block_read
    rw [if_pos rfl]
    have := hget ((2 * D + 4095) / 4096) (by omega)
    rw [Nat.add_comm] at this
    rw [this]
  have hfat : ∀ cur, cur.length = (2 * D + 4095) / 4096 * (BLOCK_SIZE / 2) →
      fs_mount_FAT_loop { formatted_disk diskname D with opened := true }
        ((2 * D + 4095) / 4096) 0 cur =
        List.replicate ((2 * D + 4095) / 4096 * (BLOCK_SIZE / 2)) 0 := by
    intro cur hcur
    apply fs_mount_FAT_loop_eq { formatted_disk diskname D with opened := true }
      (List.replicate ((2 * D + 4095) / 4096 * (BLOCK_SIZE / 2)) 0) ((2 * D + 4095) / 4096) rfl
      (List.length_replicate _ _) _ _ _ 0 cur (Nat.zero_add _) hcur
      (by rw [Nat.mul_zero, Nat.zero_div, List.take_zero, List.take_zero])
    · intro v hv
      rw [(List.mem_replicate.1 hv).2]
      decide
    · intro j hj
      show _ = some (FAT_bytes (((List.replicate ((2 * D + 4095) / 4096 * 2048) 0).drop
        (4096 * j / 2)).take 2048))
      rw [List.drop_replicate, List.take_replicate]
      have : Min.min 2048 ((2 * D + 4095) / 4096 * 2048 - 4096 * j / 2) = 2048 := by omega
      rw [this, FAT_bytes_zero]
      exact hget j (by omega)
  unfold fs_mount
  simp only []
  rw [hopen]
  simp only []
  rw [if_neg (by decide)]
  simp only [hsb]
  have hroot' : ∀ old, (block_read { formatted_disk diskname D with opened := true }
      (formatted_superblock D).root_block_idx old).2 = zero_block := hroot
  have hfat' : ∀ cur,
      cur.length = (formatted_superblock D).num_blocks_for_FAT * (BLOCK_SIZE / 2) →
      fs_mount_FAT_loop { formatted_disk diskname D with opened := true }
        (formatted_superblock D).num_blocks_for_FAT 0 cur =
        List.replicate ((2 * D + 4095) / 4096 * (BLOCK_SIZE / 2)) 0 := hfat
  simp only [hroot', files_of_zero_block]
  rw [hfat' _ (resize_length _ _)]
  have hc := count_loop_zero 127 0 ((fs_init junk).FAT.num_blocks_taken, 0)
  have hc' : fs_mount_count_loop (List.replicate 128 zero_file) FS_FILE_MAX_COUNT 0
      ((fs_init junk).FAT.num_blocks_taken, 0) = (junk.FAT.num_blocks_taken % 2 ^ 64, 0) := hc
  rw [hc']
  rfl

/-! ### The open-file table invariant -/

theorem table_of_files (s s' : State) (ht : table_ok s)
    (ho : s'.fs.open_files = s.fs.open_files)
    (hf : ∀ (o : openFile) (k : Nat) (f : file), o ∈ s.fs.open_files → o.file_num = (k : Int) →
      s.fs.rootDir.files[k]? = some f → f.filename.headD 0 ≠ 0 →
      ∃ f', s'.fs.rootDir.files[k]? = some f' ∧ f'.filename = f.filename ∧
        f.file_size ≤ f'.file_size) :
    table_ok s' ∧ table_stable s s' := by
  constructor
  · intro fd o hfd hused
    rw [ho] at hfd
    obtain ⟨k, f, hk, hfk, hne, hoff⟩ := ht fd o hfd hused
    obtain ⟨f', h1, h2, h3⟩ := hf o k f (List.getElem?_mem hfd) hk hfk hne
    exact ⟨k, f', hk, h1, by rw [h2]; exact hne, by omega⟩
  · intro fd o o' h1 hu1 h2 hu2
    rw [ho, h1] at h2
    have := Option.some.inj h2
    subst this
    refine ⟨rfl, ?_⟩
    intro k f hk hfk
    obtain ⟨k2, f2, hk2, hfk2, hne, _⟩ := ht fd o h1 hu1
    have hkk : k2 = k := by omega
    subst hkk
    rw [hfk] at hfk2
    have := Option.some.inj hfk2
    subst this
    obtain ⟨f', h3, h4, _⟩ := hf o k2 f (List.getElem?_mem h1) hk hfk hne
    exact ⟨f', h3, h4⟩

theorem table_of_slot (s s' : State) (j : Nat) (o' : openFile) (ht : table_ok s)
    (hf : s'.fs.rootDir.files = s.fs.rootDir.files)
    (ho : s'.fs.open_files = s.fs.open_files.set j o')
    (hnew : o'.file_num ≠ -1 → ∃ (k : Nat) (f : file), o'.file_num = (k : Int) ∧
      s.fs.rootDir.files[k]? = some f ∧ f.filename.headD 0 ≠ 0 ∧
      o'.file_offset ≤ f.file_size)
    (hold : ∀ o, s.fs.open_files[j]? = some o → o.file_num ≠ -1 → o'.file_num ≠ -1 →
      o'.file_num = o.file_num) :
    table_ok s' ∧ table_stable s s' := by
  constructor
  · intro fd o hfd hused
    rw [ho] at hfd
    rw [hf]
    by_cases hj : j = fd
    · subst hj
      have hlt : j < s.fs.open_files.length := by
        have := getElem?_lt _ _ _ hfd
        rw [List.length_set] at this
        exact this
      rw [List.getElem?_set_self hlt] at hfd
      have := Option.some.inj hfd
      subst this
      exact hnew hused
    · rw [List.getElem?_set_ne hj] at hfd
      exact ht fd o hfd hused
  · intro fd o o1 h1 hu1 h2 hu2
    rw [ho] at h2
    rw [hf]
    by_cases hj : j = fd
    · subst hj
      rw [List.getElem?_set_self (getElem?_lt _ _ _ h1)] at h2
      have := Option.some.inj h2
      subst this
      exact ⟨hold o h1 hu1 hu2, fun k f _ hfk => ⟨f, hfk, rfl⟩⟩
    · rw [List.getElem?_set_ne hj, h1] at h2
      have := Option.some.inj h2
      subst this
      exact ⟨rfl, fun k f _ hfk => ⟨f, hfk, rfl⟩⟩

theorem shape_of_set (s s' : State) (k : Nat) (g : file) (hs : shape_ok s)
    (hf : s'.fs.rootDir.files = s.fs.rootDir.files.set k g) (hg : entry_shape g)
    (ho : s'.fs.open_files.length = s.fs.open_files.length)
    (hd : blocks_bounded s'.disk) : shape_ok s' := by
  refine ⟨by rw [hf, List.length_set]; exact hs.1, ?_, ho.trans hs.2.2.1, hd⟩
  intro f hfm
  rw [hf] at hfm
  rcases List.mem_or_eq_of_mem_set hfm with h | h
  · exact hs.2.1 f h
  · rw [h]; exact hg

theorem sizes_of_set (s s' : State) (k : Nat) (g : file) (hz : sizes_ok s)
    (hf : s'.fs.rootDir.files = s.fs.rootDir.files.set k g) (hg : g.file_size < 2 ^ 31) :
    sizes_ok s' := by
  intro f hfm
  rw [hf] at hfm
  rcases List.mem_or_eq_of_mem_set hfm with h | h
  · exact hz f h
  · rw [h]; exact hg

theorem new_file_shape (filename : List Nat) : entry_shape (new_file filename) := by
  constructor
  · show ((cstr filename ++ List.replicate 16 0).take 16).length = 16
    rw [List.length_take, List.length_append, List.length_replicate]
    omega
  · rfl

theorem shape_of_slot (s s' : State) (j : Nat) (o' : openFile) (hs : shape_ok s)
    (hf : s'.fs.rootDir.files = s.fs.rootDir.files)
    (ho : s'.fs.open_files = s.fs.open_files.set j o') (hd : s'.disk = s.disk) :
    shape_ok s' :=
  ⟨by rw [hf]; exact hs.1, by rw [hf]; exact hs.2.1,
    by rw [ho, List.length_set]; exact hs.2.2.1, by rw [hd]; exact hs.2.2.2⟩

theorem table_step (s s' : State) (c : Call) (hs : shape_ok s) (hz : sizes_ok s)
    (ht : table_ok s) (ha : delete_closed s c) (h : step s c = some s') :
    (shape_ok s' ∧ sizes_ok s') ∧ table_ok s' ∧ table_stable s s' := by
  have hsame : (shape_ok s ∧ sizes_ok s) ∧ table_ok s ∧ table_stable s s :=
    ⟨⟨hs, hz⟩, table_of_files s s ht rfl fun o k f _ _ hfk _ => ⟨f, hfk, rfl, Nat.le_refl _⟩⟩
  cases c with
  | fs_create filename =>
    cases hr : fs_create s filename with
    | none => simp [step, hr] at h
    | some p =>
      have hs' : s' = p.2 := by simp [step, hr] at h; exact h.symm
      rcases fs_create_cases s filename p.1 p.2 hr with h1 | ⟨k, f, hv, hfk, hempty, h1⟩
      · rw [hs', h1]; exact hsame
      · rw [hs', h1]
        have hfiles : (create_at s filename k).fs.rootDir.files =
            s.fs.rootDir.files.set k (new_file filename) := by rw [create_at_fs]
        have hopen : (create_at s filename k).fs.open_files = s.fs.open_files := by
          rw [create_at_fs]
        have hsh1 : shape_ok { s with fs := { s.fs with rootDir :=
            { num_files := size_add s.fs.rootDir.num_files 1
              files := s.fs.rootDir.files.set k (new_file filename) } } } :=
          shape_of_set s _ k (new_file filename) hs rfl (new_file_shape filename) rfl hs.2.2.2
        refine ⟨⟨shape_of_set s _ k _ hs hfiles (new_file_shape filename) (by rw [hopen]) ?_,
          sizes_of_set s _ k _ hz hfiles (by show (0 : Nat) < 2 ^ 31; omega)⟩,
          table_of_files s _ ht hopen ?_⟩
        · unfold create_at
          exact fs_save_rootDir_bounded _ hsh1.2.2.2 hsh1.1 hsh1.2.1
        · intro o k2 f2 _ _ hfk2 hne
          refine ⟨f2, ?_, rfl, Nat.le_refl _⟩
          rw [hfiles, List.getElem?_set_ne, hfk2]
          intro hkk
          subst hkk
          rw [hfk] at hfk2
          rw [Option.some.inj hfk2] at hempty
          exact hne hempty
  | fs_delete filename =>
    cases hr : fs_delete s filename with
    | none => simp [step, hr] at h
    | some p =>
      have hs' : s' = p.2 := by simp [step, hr] at h; exact h.symm
      rcases fs_delete_cases s filename p.1 p.2 hr with h1 | ⟨k, f, blocks, hk, hfk, _, h1⟩
      · rw [hs', h1]; exact hsame
      · rw [hs', h1]
        have hfiles : (delete_at s k blocks).fs.rootDir.files =
            s.fs.rootDir.files.set k EMPTY_FILE_CELL := by rw [delete_at_fs]
        have hopen : (delete_at s k blocks).fs.open_files = s.fs.open_files := by
          rw [delete_at_fs]
        have hsh1 : shape_ok { s with fs := { s.fs with
            FAT := { s.fs.FAT with blocks := blocks }
            rootDir :=
              { num_files := size_sub s.fs.rootDir.num_files 1
                files := s.fs.rootDir.files.set k EMPTY_FILE_CELL } } } :=
          shape_of_set s _ k EMPTY_FILE_CELL hs rfl ⟨rfl, rfl⟩ rfl hs.2.2.2
        refine ⟨⟨shape_of_set s _ k _ hs hfiles ⟨rfl, rfl⟩ (by rw [hopen]) ?_,
          sizes_of_set s _ k _ hz hfiles (by show (0 : Nat) < 2 ^ 31; omega)⟩,
          table_of_files s _ ht hopen ?_⟩
        · unfold delete_at
          exact fs_save_FAT_loop_bounded _ _ _ _
            (fs_save_rootDir_bounded _ hsh1.2.2.2 hsh1.1 hsh1.2.1)
        · intro o k2 f2 hmem hk2 hfk2 hne
          refine ⟨f2, ?_, rfl, Nat.le_refl _⟩
          rw [hfiles, List.getElem?_set_ne, hfk2]
          intro hkk
          subst hkk
          have hd := ha o hmem (by rw [hk2]; omega)
          rw [hk] at hd
          exact hd hk2
  | fs_open filename =>
    cases hr : fs_open s filename with
    | none => simp [step, hr] at h
    | some p =>
      have hs' : s' = p.2 := by simp [step, hr] at h; exact h.symm
      rcases fs_open_cases s filename p.1 p.2 hr with h1 | ⟨j, k, o, hj, hfree, hk, h1⟩
      · rw [hs', h1]; exact hsame
      · rw [hs', h1]
        obtain ⟨f, hfk, hne⟩ := lookup_entry s.fs filename k (fun f hf => (hs.2.1 f hf).1) hk
        exact ⟨⟨shape_of_slot s _ j _ hs rfl rfl rfl, hz⟩,
          table_of_slot s _ j _ ht rfl rfl
            (fun _ => ⟨k, f, rfl, hfk, hne, Nat.zero_le _⟩)
            (fun o2 ho2 hu2 _ => by
              rw [hj] at ho2
              rw [← Option.some.inj ho2] at hu2
              exact absurd hfree hu2)⟩
  | fs_close fd =>
    cases hr : fs_close s fd with
    | none => simp [step, hr] at h
    | some p =>
      have hs' : s' = p.2 := by simp [step, hr] at h; exact h.symm
      rcases fs_close_cases s fd p.1 p.2 hr with h1 | ⟨j, o, hj, h1⟩
      · rw [hs', h1]; exact hsame
      · rw [hs', h1]
        exact ⟨⟨shape_of_slot s _ j _ hs rfl rfl rfl, hz⟩,
          table_of_slot s _ j _ ht rfl rfl (fun hcon => absurd rfl hcon)
            (fun o2 _ _ hcon => absurd rfl hcon)⟩
  | fs_stat fd =>
    cases hr : fs_stat s fd with
    | none => simp [step, hr] at h
    | some p =>
      have hs' : s' = p.2 := by simp [step, hr] at h; exact h.symm
      rw [hs', fs_stat_cases s fd p.1 p.2 hr]
      exact hsame
  | fs_lseek fd offset =>
    cases hr : fs_lseek s fd offset with
    | none => simp [step, hr] at h
    | some p =>
      have hs' : s' = p.2 := by simp [step, hr] at h; exact h.symm
      rcases fs_lseek_cases s fd offset p.1 p.2 hr with
        h1 | ⟨o, size, hm, hstat, hoff, hv, ho, h1⟩
      · rw [hs', h1]; exact hsame
      · rw [hs', h1]
        have hused : o.file_num ≠ -1 := by
          unfold fs_validate_fd at hv
          split at hv
          · exact absurd (Option.some.inj hv) (by decide)
          · rw [ho] at hv
            simp only [] at hv
            intro hcon
            rw [if_pos hcon] at hv
            exact absurd (Option.some.inj hv) (by decide)
        have hfd0 : 0 ≤ fd := by
          unfold fs_validate_fd at hv
          split at hv
          · exact absurd (Option.some.inj hv) (by decide)
          · omega
        obtain ⟨k, f, hk, hfk, hne, _⟩ := ht fd.toNat o ho hused
        have hlt : fd.toNat < FS_OPEN_MAX_COUNT := by
          rw [← hs.2.2.1]; exact getElem?_lt _ _ _ ho
        have hklt : k < FS_FILE_MAX_COUNT := by
          rw [← hs.1]; exact getElem?_lt _ _ _ hfk
        have hst := fs_stat_ok s fd.toNat o k f hm ⟨hlt, ho, hk⟩ hklt hfk hne
        rw [Int.toNat_of_nonneg hfd0, hstat] at hst
        have hsize : size = to_int f.file_size := (Prod.mk.inj (Option.some.inj hst)).1
        have hfz := hz f (List.getElem?_mem hfk)
        rw [hsize, to_int_small _ hfz, to_size_t_nat _ (by omega)] at hoff
        exact ⟨⟨shape_of_slot s _ fd.toNat _ hs rfl rfl rfl, hz⟩,
          table_of_slot s _ fd.toNat _ ht rfl rfl
            (fun _ => ⟨k, f, hk, hfk, hne, hoff⟩)
            (fun o2 ho2 _ _ => by
              rw [ho] at ho2
              rw [← Option.some.inj ho2])⟩
  | fs_read fd buf count =>
    cases hr : fs_read s fd buf count with
    | none => simp [step, hr] at h
    | some p =>
      have hs' : s' = p.2.2 := by simp [step, hr] at h; exact h.symm
      rcases fs_read_cases s fd buf count p.1 p.2.1 p.2.2 hr with
        h1 | ⟨o, f, x, ho, hused, hn0, hf, h1, hx⟩
      · rw [hs', h1]; exact hsame
      · rw [hs', h1]
        obtain ⟨k, f2, hk, hfk, hne, _⟩ := ht fd.toNat o ho hused
        have hkk : o.file_num.toNat = k := by omega
        rw [hkk, hfk] at hf
        have := Option.some.inj hf
        subst this
        have hfz := hz f2 (List.getElem?_mem hfk)
        exact ⟨⟨shape_of_slot s _ fd.toNat _ hs rfl rfl rfl, hz⟩,
          table_of_slot s _ fd.toNat _ ht rfl rfl
            (fun _ => ⟨k, f2, hk, hfk, hne, hx hs.2.2.2 hfz⟩)
            (fun o2 ho2 _ _ => by
              rw [ho] at ho2
              rw [← Option.some.inj ho2])⟩
  | fs_write fd buf count =>
    cases hr : fs_write s fd buf count with
    | none => simp [step, hr] at h
    | some p =>
      have hs' : s' = p.2 := by simp [step, hr] at h; exact h.symm
      obtain ⟨hg, hb⟩ := fs_write_cases s fd buf count p.1 p.2 hs hr
      rw [hs']
      refine ⟨⟨shape_of_grows s _ hs hg hb, sizes_of_grows s _ hz hg⟩,
        table_of_files s _ ht hg.1 ?_⟩
      intro o k f _ _ hfk _
      have hk := getElem?_lt _ _ _ hfk
      have hk2 : k < p.2.fs.rootDir.files.length := by rw [hg.2.1]; exact hk
      have hgr := hg.2.2 k f _ hfk (List.getElem?_eq_getElem hk2)
      exact ⟨_, List.getElem?_eq_getElem hk2, hgr.1, hgr.2.2.1⟩

theorem fs_mount_cases (junk : FS) (diskname : String) (sd s0 : State)
    (h : fs_mount junk diskname sd = (0, s0)) :
    s0.fs.open_files =
      List.replicate FS_OPEN_MAX_COUNT { fd := 0, file_num := -1, file_offset := 0 } ∧
    s0.disk = { sd.disk with opened := true } ∧
    ∃ b, s0.fs.rootDir.files = files_of_bytes b ∧
      (b ∈ sd.disk.blocks ∨ b = files_bytes junk.rootDir.files) := by
  unfold fs_mount at h
  simp only [] at h
  split at h
  · exact absurd (Prod.mk.inj h).1 (by decide)
  · have hs := (Prod.mk.inj h).2
    have hd : (block_disk_open diskname sd.disk).2 = { sd.disk with opened := true } := by
      unfold block_disk_open
      split
      · rename_i hfail hcon
        exfalso
        apply hfail
        unfold block_disk_open
        rw [if_pos hcon]
      · rfl
    rw [← hs]
    refine ⟨rfl, hd, _, rfl, ?_⟩
    unfold block_read
    split
    · split
      · rename_i b hb
        left
        rw [hd] at hb
        exact List.getElem?_mem hb
      · right; rfl
    · right; rfl

theorem files_of_bytes_shape (b : List Nat) (hb : b.length = BLOCK_SIZE) :
    (files_of_bytes b).length = FS_FILE_MAX_COUNT ∧ ∀ f ∈ files_of_bytes b, entry_shape f := by
  unfold files_of_bytes
  refine ⟨by rw [List.length_map, List.length_range], ?_⟩
  intro f hf
  obtain ⟨i, hi, rfl⟩ := List.mem_map.1 hf
  have hi' : i < 128 := List.mem_range.1 hi
  have hb' : b.length = 4096 := hb
  unfold entry_shape file_of_bytes
  simp only [List.length_take, List.length_drop]
  constructor
  · show Min.min 16 (Min.min 32 (b.length - 32 * i)) = 16
    omega
  · show Min.min 10 (Min.min 32 (b.length - 32 * i) - 22) = 10
    omega

theorem fs_mount_shape (junk : FS) (diskname : String) (sd s0 : State)
    (hdisk : ∀ b ∈ sd.disk.blocks, b.length = BLOCK_SIZE)
    (hjunk : (files_bytes junk.rootDir.files).length = BLOCK_SIZE)
    (h : fs_mount junk diskname sd = (0, s0)) :
    shape_ok s0 ∧ table_ok s0 := by
  obtain ⟨ho, hd, b, hf, hb⟩ := fs_mount_cases junk diskname sd s0 h
  have hblen : b.length = BLOCK_SIZE := by
    rcases hb with hb | hb
    · exact hdisk b hb
    · rw [hb]; exact hjunk
  obtain ⟨h1, h2⟩ := files_of_bytes_shape b hblen
  refine ⟨⟨by rw [hf]; exact h1, by rw [hf]; exact h2, by rw [ho, List.length_replicate], ?_⟩,
    ?_⟩
  · rw [hd]
    intro x hx
    exact Nat.le_of_eq (hdisk x hx)
  · intro fd o hfd hused
    rw [ho] at hfd
    have := List.getElem?_mem hfd
    rw [List.mem_replicate] at this
    rw [this.2] at hused
    exact absurd rfl hused

theorem table_run (calls : List Call) :
    ∀ s s', shape_ok s → sizes_ok s → table_ok s → trace_allowed delete_closed s calls →
      run s calls = some s' → shape_ok s' ∧ sizes_ok s' ∧ table_ok s' := by
  induction calls with
  | nil =>
    intro s s' hs hz ht _ h
    have := Option.some.inj h
    subst this
    exact ⟨hs, hz, ht⟩
  | cons c cs ih =>
    intro s s' hs hz ht ha h
    unfold run at h
    cases hc : step s c with
    | none => rw [hc] at h; exact Option.noConfusion h
    | some s1 =>
      rw [hc] at h
      obtain ⟨⟨hs1, hz1⟩, ht1, _⟩ := table_step s s1 c hs hz ht ha.1 hc
      exact ih s1 s' hs1 hz1 ht1 (ha.2 s1 hc) h

/-- C23 (amended). Open-file table invariant.  After a mount that returns 0 (of
any disk of 4096-byte blocks; the sizes in the mounted directory are below
`2 ^ 31`), in every state reached by a sequence of `fs_create`, `fs_delete`,
`fs_open`, `fs_close`, `fs_stat`, `fs_lseek`, `fs_read` and `fs_write` calls in
which no `fs_delete` is applied to a file that an open descriptor refers to,
every slot in use refers to a non-empty directory entry and its offset is at
most the size of that entry; and across every further such call a slot that
stays in use keeps its file number, and that entry keeps its name. -/
theorem open_file_table_invariant (junk : FS) (diskname : String) (sd s0 : State)
    (calls : List Call) (s : State)
    (hdisk : ∀ b ∈ sd.disk.blocks, b.length = BLOCK_SIZE)
    (hjunk : (files_bytes junk.rootDir.files).length = BLOCK_SIZE)
    (hmount : fs_mount junk diskname sd = (0, s0))
    (hsizes : sizes_ok s0)
    (hallowed : trace_allowed delete_closed s0 calls)
    (hrun : run s0 calls = some s) :
    table_ok s ∧
    ∀ c s', delete_closed s c → step s c = some s' → table_ok s' ∧ table_stable s s' := by
  obtain ⟨hs0, ht0⟩ := fs_mount_shape junk diskname sd s0 hdisk hjunk hmount
  obtain ⟨hs, hz, ht⟩ := table_run calls s0 s hs0 hsizes ht0 hallowed hrun
  exact ⟨ht, fun c s' ha hc => (table_step s s' c hs hz ht ha hc).2⟩

theorem small_state_fresh : fresh_state "disk.fs" 4 0 = small_state := rfl

theorem small_mount :
    fs_mount small_state.fs "disk.fs" { disk := small_disk, fs := small_state.fs } =
      (0, small_state) :=
  fs_mount_formatted small_state.fs "disk.fs" 4 small_state.fs (by decide)

set_option maxRecDepth 100000 in
theorem small_create_z : fs_create small_state [122] = some (0, small_state_z) :=
  fs_create_eq small_state [122] 0 (by decide) (by decide) (by decide) (by decide) (by decide)
    (by decide) (by decide) (fun j hj => absurd hj (Nat.not_lt_zero j))

set_option maxRecDepth 20000 in
theorem small_open_z :
    fs_open small_state_z [122] = some (0, open_at small_state_z 0 0) :=
  fs_open_eq small_state_z [122] 0 0 (create_at_mounted _ _ _ (by decide))
    (by rw [small_state_z, create_at_fs]; decide) (by decide)
    (by rw [small_state_z, create_at_fs]; decide)
    (by rw [small_state_z, create_at_fs]; decide)
    (fun j hj => absurd hj (Nat.not_lt_zero j))
    (by rw [small_state_z, create_at_fs]; decide)

set_option maxRecDepth 20000 in
theorem small_delete_open_z :
    fs_delete (open_at small_state_z 0 0) [122] = some (0, stale_state) ∧
    stale_state.fs.open_files[0]? = some { fd := 0, file_num := 0, file_offset := 0 } ∧
    stale_state.fs.rootDir.files[0]? = some EMPTY_FILE_CELL ∧
    is_mounted stale_state = true := by
  have hm2 : is_mounted (open_at small_state_z 0 0) = true := by
    rw [is_mounted_iff]; exact (is_mounted_iff _).1 (create_at_mounted _ _ _ (by decide))
  have hfs : stale_state.fs = _ := delete_at_fs _ _ _
  refine ⟨?_, ?_, ?_, delete_at_mounted _ _ _ hm2⟩
  · exact fs_delete_eq (open_at small_state_z 0 0) [122] 0 (new_file [122]) _ hm2
      (by unfold open_at; rw [small_state_z, create_at_fs]; decide)
      (by unfold open_at; rw [small_state_z, create_at_fs]; decide)
      (fs_delete_loop_eoc _ _)
  · rw [hfs]; unfold open_at; rw [small_state_z, create_at_fs]; decide
  · rw [hfs]; unfold open_at; rw [small_state_z, create_at_fs]; decide

set_option maxRecDepth 100000 in
theorem stale_create_y :
    fs_create stale_state [121] = some (0, create_at stale_state [121] 0) ∧
    (create_at stale_state [121] 0).fs.open_files[0]? =
      some { fd := 0, file_num := 0, file_offset := 0 } ∧
    (create_at stale_state [121] 0).fs.rootDir.files[0]? = some (new_file [121]) := by
  have hfs : stale_state.fs = _ := delete_at_fs _ _ _
  have hfiles : stale_state.fs.rootDir.files =
      (List.replicate 128 zero_file).set 0 EMPTY_FILE_CELL := by
    rw [hfs]; unfold open_at; rw [small_state_z, create_at_fs]
    show ((List.replicate 128 zero_file).set 0 (new_file [122])).set 0 EMPTY_FILE_CELL = _
    rw [List.set_set]
  refine ⟨?_, ?_, ?_⟩
  · exact fs_create_eq stale_state [121] 0 small_delete_open_z.2.2.2 (by decide)
      (by rw [hfiles]; decide)
      (by rw [hfs]; unfold open_at; rw [small_state_z, create_at_fs]; decide) (by decide)
      (by rw [hfiles]; decide) (by rw [hfiles]; decide)
      (fun j hj => absurd hj (Nat.not_lt_zero j))
  · rw [create_at_fs]
    exact small_delete_open_z.2.1
  · rw [create_at_fs, hfiles]
    decide

theorem step_fs_create (s : State) (filename : List Nat) (r : Int) (s' : State)
    (h : fs_create s filename = some (r, s')) : step s (.fs_create filename) = some s' := by
  simp only [step, h, Option.map_some']

theorem step_fs_open (s : State) (filename : List Nat) (r : Int) (s' : State)
    (h : fs_open s filename = some (r, s')) : step s (.fs_open filename) = some s' := by
  simp only [step, h, Option.map_some']

theorem step_fs_delete (s : State) (filename : List Nat) (r : Int) (s' : State)
    (h : fs_delete s filename = some (r, s')) : step s (.fs_delete filename) = some s' := by
  simp only [step, h, Option.map_some']

theorem step_fs_write (s : State) (fd : Int) (buf : List Nat) (count : Nat) (r : Int)
    (s' : State) (h : fs_write s fd buf count = some (r, s')) :
    step s (.fs_write fd buf count) = some s' := by
  simp only [step, h, Option.map_some']

theorem run_nil (s : State) : run s [] = some s := rfl

theorem run_cons (s s1 : State) (c : Call) (cs : List Call) (h : step s c = some s1) :
    run s (c :: cs) = run s1 cs := by
  show (match step s c with | none => none | some s1 => run s1 cs) = _
  rw [h]

/-- C23, counterexample.  On the freshly mounted small disk, `fs_create` of
"z", `fs_open` of it (descriptor 0) and `fs_delete` of "z" lead to a state in
which slot 0 is in use and refers to directory entry 0, which is empty: the
invariant does not hold.  A following `fs_create` of "y" takes that entry, so
that slot 0 then refers to "y", not to the file it was opened on. -/
theorem stale_descriptor_after_delete :
    fs_mount small_state.fs "disk.fs" { disk := small_disk, fs := small_state.fs } =
      (0, small_state) ∧
    run small_state [.fs_create [122], .fs_open [122], .fs_delete [122]] = some stale_state ∧
    stale_state.fs.open_files[0]? = some { fd := 0, file_num := 0, file_offset := 0 } ∧
    stale_state.fs.rootDir.files[0]? = some EMPTY_FILE_CELL ∧
    ¬ table_ok stale_state ∧
    run small_state [.fs_create [122], .fs_open [122], .fs_delete [122], .fs_create [121]] =
      some (create_at stale_state [121] 0) ∧
    (create_at stale_state [121] 0).fs.open_files[0]? =
      some { fd := 0, file_num := 0, file_offset := 0 } ∧
    (create_at stale_state [121] 0).fs.rootDir.files[0]? = some (new_file [121]) ∧
    ¬ table_stable (open_at small_state_z 0 0) stale_state := by
  have h1 := step_fs_create _ _ _ _ small_create_z
  have h2 := step_fs_open _ _ _ _ small_open_z
  have h3 := step_fs_delete _ _ _ _ small_delete_open_z.1
  have h4 := step_fs_create _ _ _ _ stale_create_y.1
  refine ⟨small_mount, ?_, small_delete_open_z.2.1, small_delete_open_z.2.2.1, ?_, ?_,
    stale_create_y.2.1, stale_create_y.2.2, ?_⟩
  · rw [run_cons _ _ _ _ h1, run_cons _ _ _ _ h2, run_cons _ _ _ _ h3, run_nil]
  · intro ht
    obtain ⟨k, f, hk, hf, hne, _⟩ := ht 0 _ small_delete_open_z.2.1 (by decide)
    have hk0 : k = 0 := by
      have : ((0 : Int)) = (k : Int) := hk
      omega
    subst hk0
    rw [small_delete_open_z.2.2.1] at hf
    rw [← Option.some.inj hf] at hne
    exact hne rfl
  · rw [run_cons _ _ _ _ h1, run_cons _ _ _ _ h2, run_cons _ _ _ _ h3, run_cons _ _ _ _ h4,
      run_nil]
  · intro hst
    have hslot : (open_at small_state_z 0 0).fs.open_files[0]? =
        some { fd := 0, file_num := 0, file_offset := 0 } := small_z_open_ok.2.2.2.1.2.1
    obtain ⟨_, hn⟩ := hst 0 _ _ hslot (by decide) small_delete_open_z.2.1 (by decide)
    obtain ⟨f', hf', hname⟩ := hn 0 (new_file [122]) rfl small_z_open_ok.2.2.1.2.1
    rw [small_delete_open_z.2.2.1] at hf'
    rw [← Option.some.inj hf'] at hname
    exact absurd hname (by decide)

theorem small_disk_blocks : ∀ b ∈ small_disk.blocks, b.length = BLOCK_SIZE := by
  intro b hb
  have hb' : b ∈ superblock_bytes small_superblock :: List.replicate 6 zero_block := hb
  rcases List.mem_cons.1 hb' with h | h
  · rw [h]
    unfold superblock_bytes
    simp only [List.length_append, le_bytes_length]
    have h1 : small_superblock.signature.length = 8 := rfl
    have h2 : small_superblock.rest.length = 4079 := List.length_replicate _ _
    rw [h1, h2]
  · rw [(List.mem_replicate.1 h).2]
    exact List.length_replicate _ _

theorem small_files_image :
    (files_bytes small_state.fs.rootDir.files).length = BLOCK_SIZE := by
  show (files_bytes (List.replicate 128 zero_file)).length = 4096
  rw [files_bytes_zero]
  exact List.length_replicate _ _

theorem small_sizes : sizes_ok small_state := by
  intro f hf
  have hf' : f ∈ List.replicate 128 zero_file := hf
  rw [(List.mem_replicate.1 hf').2]
  decide

theorem small_run_create_open :
    run small_state [.fs_create [122], .fs_open [122]] = some (open_at small_state_z 0 0) := by
  rw [run_cons _ _ _ _ (step_fs_create _ _ _ _ small_create_z),
    run_cons _ _ _ _ (step_fs_open _ _ _ _ small_open_z), run_nil]

theorem open_file_table_invariant_witness :
    table_ok (open_at small_state_z 0 0) ∧
    ∀ c s', delete_closed (open_at small_state_z 0 0) c →
      step (open_at small_state_z 0 0) c = some s' →
      table_ok s' ∧ table_stable (open_at small_state_z 0 0) s' :=
  open_file_table_invariant small_state.fs "disk.fs" { disk := small_disk, fs := small_state.fs }
    small_state [.fs_create [122], .fs_open [122]] (open_at small_state_z 0 0)
    small_disk_blocks small_files_image small_mount small_sizes
    ⟨trivial, fun _ _ => ⟨trivial, fun _ _ => trivial⟩⟩ small_run_create_open

/-! ### Chain integrity -/

theorem file_ok_congr (s s' : State) (k : Nat) (f : file) (bs : List Nat)
    (hfiles : s'.fs.rootDir.files = s.fs.rootDir.files)
    (hfat : s'.fs.FAT.blocks = s.fs.FAT.blocks)
    (hD : s'.fs.superblock.amt_data_blocks = s.fs.superblock.amt_data_blocks) :
    file_ok s' k f bs ↔ file_ok s k f bs := by
  unfold file_ok
  rw [hfiles, hfat, hD]

theorem chains_inv_same (s s' : State) (h : chains_inv s) (hd : s'.disk = s.disk)
    (hsb : s'.fs.superblock = s.fs.superblock) (hfat : s'.fs.FAT = s.fs.FAT)
    (hroot : s'.fs.rootDir = s.fs.rootDir) (hm : s'.fs.is_mounted = s.fs.is_mounted)
    (ht : s'.fs.open_files.length = s.fs.open_files.length) :
    chains_inv s' := by
  have hc : ∀ k f bs, file_ok s' k f bs ↔ file_ok s k f bs := fun k f bs =>
    file_ok_congr s s' k f bs (by rw [hroot]) (by rw [hfat]) (by rw [hsb])
  refine ⟨?_, ?_, by rw [hroot]; exact h.length, ht.trans h.table,
    by rw [hroot]; exact h.names, ?_, ?_, ?_, ?_⟩
  · rw [is_mounted_iff, hd, hm]
    exact (is_mounted_iff s).1 h.mounted
  · have hg := h.geometry
    unfold geometry_ok at hg ⊢
    rw [hsb, hfat, hd]
    exact hg
  · intro k f hf hne
    rw [hroot] at hf
    obtain ⟨bs, h1, h2⟩ := h.files k f hf hne
    exact ⟨bs, (hc k f bs).2 h1, by rw [hfat]; exact h2⟩
  · intro k1 k2 f1 f2 bs1 bs2 hk h1 h2
    exact h.disjoint k1 k2 f1 f2 bs1 bs2 hk ((hc _ _ _).1 h1) ((hc _ _ _).1 h2)
  · rw [hfat, hroot]
    exact h.zero
  · rw [hsb, hfat, hroot]
    exact h.counter

theorem chains_ok_of_inv (s : State) (h : chains_inv s) : chains_ok s := by
  intro k f hf hne
  obtain ⟨bs, hok, hmark⟩ := h.files k f hf hne
  refine ⟨bs, hok.2.2.2.1, hok.2.2.2.2.1, is_chain_nodup _ _ _ hok.2.2.2.1,
    fun b hb => ⟨hok.2.2.2.2.2 b hb, hmark b hb⟩, ?_⟩
  intro k' f' bs' hk hf' hne' hch b hb
  obtain ⟨bs2, hok2, _⟩ := h.files k' f' hf' hne'
  have : bs2 = bs' := is_chain_unique _ _ _ _ hok2.2.2.2.1 hch
  subst this
  exact h.disjoint k k' f f' bs bs2 (Ne.symm hk) hok hok2 b hb

theorem fresh_geometry (diskname : String) (D taken : Nat) (hD : D < 2 ^ 16) :
    geometry_ok (fresh_state diskname D taken) := by
  refine ⟨?_, ?_, hD, ?_, ?_⟩
  · show (2 * D + 4095) / 4096 < (2 * D + 4095) / 4096 + 2
    omega
  · show (2 * D + 4095) / 4096 + 1 < (2 * D + 4095) / 4096 + 2
    omega
  · show D ≤ (List.replicate ((2 * D + 4095) / 4096 * 2048) 0).length
    rw [List.length_replicate]
    omega
  · intro b hb
    have hb' : b < D := hb
    refine ⟨zero_block, ?_, List.length_replicate _ _⟩
    show (superblock_bytes (formatted_superblock D) ::
      List.replicate ((2 * D + 4095) / 4096 + 1 + D) zero_block)[
        (2 * D + 4095) / 4096 + 2 + b]? = some zero_block
    rw [show (2 * D + 4095) / 4096 + 2 + b = ((2 * D + 4095) / 4096 + 1 + b) + 1 by omega,
      List.getElem?_cons_succ,
      List.getElem?_eq_getElem (by rw [List.length_replicate]; omega),
      List.getElem_replicate]

theorem fresh_inv (diskname : String) (D taken : Nat) (hD : D < 2 ^ 16) :
    chains_inv (fresh_state diskname D taken) := by
  have hempty : ∀ (k : Nat) (f : file),
      (fresh_state diskname D taken).fs.rootDir.files[k]? = some f →
      f.filename.headD 0 ≠ 0 → False := by
    intro k f hf hne
    have hmem : f ∈ List.replicate 128 zero_file := List.getElem?_mem hf
    rw [(List.mem_replicate.1 hmem).2] at hne
    exact hne rfl
  refine ⟨?_, fresh_geometry diskname D taken hD, List.length_replicate _ _,
    List.length_replicate _ _, ?_, ?_, ?_, ?_, ?_⟩
  · rw [is_mounted_iff]
    exact ⟨rfl, rfl⟩
  · intro f hf
    have hmem : f ∈ List.replicate 128 zero_file := hf
    rw [(List.mem_replicate.1 hmem).2]
    rfl
  · intro k f hf hne
    exact absurd hne (fun h => hempty k f hf h)
  · intro k1 k2 f1 f2 bs1 bs2 _ h1 _
    exact absurd h1.2.2.1 (fun h => hempty k1 f1 h1.2.1 h)
  · intro _ k f hf hne
    exact absurd hne (fun h => hempty k f hf h)
  · intro _ k f hf hne
    exact absurd hne (fun h => hempty k f hf h)

theorem is_chain_congr (blocks blocks' : List Nat) (hlen : blocks'.length = blocks.length) :
    ∀ bs b, (∀ i ∈ bs, blocks'[i]? = blocks[i]?) → is_chain blocks b bs →
      is_chain blocks' b bs := by
  intro bs
  induction bs with
  | nil => intro b _ h; exact h
  | cons x xs ih =>
    intro b hsame h
    unfold is_chain at h ⊢
    refine ⟨h.1, h.2.1, by rw [hlen]; exact h.2.2.1, ?_⟩
    have hx : blocks'.getD x 0 = blocks.getD x 0 := by
      rw [List.getD_eq_getElem?_getD, List.getD_eq_getElem?_getD,
        hsame x (List.mem_cons_self _ _)]
    rw [hx]
    exact ih _ (fun i hi => hsame i (List.mem_cons_of_mem _ hi)) h.2.2.2

theorem is_chain_eoc (blocks : List Nat) (bs : List Nat) (h : is_chain blocks FAT_EOC bs) :
    bs = [] :=
  is_chain_unique blocks bs [] FAT_EOC h rfl

theorem chains_inv_create (s : State) (filename : List Nat) (k : Nat) (f : file)
    (h : chains_inv s) (hv : fs_validate_filename filename = true)
    (hf : s.fs.rootDir.files[k]? = some f) :
    chains_inv (create_at s filename k) := by
  have hfs := create_at_fs s filename k
  have hfiles : (create_at s filename k).fs.rootDir.files =
      s.fs.rootDir.files.set k (new_file filename) := by rw [hfs]
  have hfat : (create_at s filename k).fs.FAT = s.fs.FAT := by rw [hfs]
  have hsb : (create_at s filename k).fs.superblock = s.fs.superblock := by rw [hfs]
  have hklen := getElem?_lt _ _ _ hf
  have hk128 : k < FS_FILE_MAX_COUNT := by rw [← h.length]; exact hklen
  have hnew : file_ok (create_at s filename k) k (new_file filename) [] :=
    ⟨hk128, by rw [hfiles]; exact List.getElem?_set_self hklen, new_file_head filename hv, rfl,
      by show 0 = (0 + (4096 - 1)) / 4096; decide, fun b hb => absurd hb (List.not_mem_nil b)⟩
  have hold : ∀ k2 f2 bs2, k2 ≠ k →
      (file_ok (create_at s filename k) k2 f2 bs2 ↔ file_ok s k2 f2 bs2) := by
    intro k2 f2 bs2 hk2
    unfold file_ok
    rw [hfiles, hfat, hsb, List.getElem?_set_ne (Ne.symm hk2)]
  have hcases : ∀ k2 f2 bs2, file_ok (create_at s filename k) k2 f2 bs2 →
      (k2 = k ∧ bs2 = []) ∨ (k2 ≠ k ∧ file_ok s k2 f2 bs2) := by
    intro k2 f2 bs2 hok
    by_cases hk2 : k2 = k
    · left
      subst hk2
      refine ⟨rfl, ?_⟩
      have h1 := hok.2.1
      rw [hnew.2.1] at h1
      have h2 := hok.2.2.2.1
      rw [← Option.some.inj h1] at h2
      exact is_chain_eoc _ _ h2
    · exact Or.inr ⟨hk2, (hold k2 f2 bs2 hk2).1 hok⟩
  refine ⟨create_at_mounted s filename k h.mounted, create_at_geometry s filename k h.geometry,
    by rw [hfiles, List.length_set]; exact h.length, by rw [hfs]; exact h.table, ?_, ?_, ?_, ?_,
    ?_⟩
  · intro g hg
    rw [hfiles] at hg
    rcases List.mem_or_eq_of_mem_set hg with h1 | h1
    · exact h.names g h1
    · rw [h1]; exact (new_file_shape filename).1
  · intro k2 f2 hf2 hne
    by_cases hk2 : k2 = k
    · subst hk2
      rw [hnew.2.1] at hf2
      rw [← Option.some.inj hf2]
      exact ⟨[], hnew, fun b hb => absurd hb (List.not_mem_nil b)⟩
    · rw [hfiles, List.getElem?_set_ne (Ne.symm hk2)] at hf2
      obtain ⟨bs2, h1, h2⟩ := h.files k2 f2 hf2 hne
      exact ⟨bs2, (hold k2 f2 bs2 hk2).2 h1, by rw [hfat]; exact h2⟩
  · intro k1 k2 f1 f2 bs1 bs2 hk h1 h2 b hb
    rcases hcases k1 f1 bs1 h1 with ⟨_, e1⟩ | ⟨_, o1⟩
    · rw [e1] at hb
      exact absurd hb (List.not_mem_nil b)
    · rcases hcases k2 f2 bs2 h2 with ⟨_, e2⟩ | ⟨_, o2⟩
      · rw [e2]
        exact List.not_mem_nil b
      · exact h.disjoint k1 k2 f1 f2 bs1 bs2 hk o1 o2 b hb
  · intro h0 k2 f2 hf2 hne
    rw [hfat] at h0
    by_cases hk2 : k2 = k
    · subst hk2
      rw [hnew.2.1] at hf2
      rw [← Option.some.inj hf2]
      rfl
    · rw [hfiles, List.getElem?_set_ne (Ne.symm hk2)] at hf2
      exact h.zero h0 k2 f2 hf2 hne
  · intro hc k2 f2 hf2 hne
    rw [hsb, hfat] at hc
    by_cases hk2 : k2 = k
    · subst hk2
      rw [hnew.2.1] at hf2
      rw [← Option.some.inj hf2]
      rfl
    · rw [hfiles, List.getElem?_set_ne (Ne.symm hk2)] at hf2
      exact h.counter hc k2 f2 hf2 hne

theorem delete_at_disk_get (s : State) (k : Nat) (blocks : List Nat) (j : Nat)
    (h1 : s.fs.superblock.num_blocks_for_FAT < j) (h2 : s.fs.superblock.root_block_idx < j) :
    (delete_at s k blocks).disk.blocks[j]? = s.disk.blocks[j]? := by
  unfold delete_at fs_save_FAT
  simp only []
  rw [fs_save_FAT_loop_get _ _ _ _ _ (Or.inr (by
      rw [fs_save_rootDir_fs]
      show 1 + 0 + s.fs.superblock.num_blocks_for_FAT ≤ j
      omega)),
    fs_save_rootDir_disk, block_write_get_ne _ _ _ _ (by
      show j ≠ s.fs.superblock.root_block_idx
      omega)]

theorem delete_at_geometry (s : State) (k : Nat) (blocks : List Nat) (hg : geometry_ok s)
    (hlen : blocks.length = s.fs.FAT.blocks.length) :
    geometry_ok (delete_at s k blocks) := by
  have hfs := delete_at_fs s k blocks
  apply geometry_ok_of s _ hg (by rw [hfs]) (by rw [hfs]; exact hlen)
  intro b hb
  have hget := delete_at_disk_get s k blocks (s.fs.superblock.data_block_start_idx + b)
    (by have := hg.1; omega) (by have := hg.2.1; omega)
  have hbd : block_data (delete_at s k blocks) b = block_data s b := by
    unfold block_data
    rw [List.getD_eq_getElem?_getD, List.getD_eq_getElem?_getD, hfs]
    show ((delete_at s k blocks).disk.blocks[s.fs.superblock.data_block_start_idx + b]?).getD []
      = _
    rw [hget]
  refine ⟨by rw [hbd]; exact (block_data_of_geometry s hg b hb).2, ?_⟩
  have := geometry_lt s hg b hb
  have h2 := (block_data_of_geometry s hg b hb).1
  rw [← hget] at h2
  exact getElem?_lt _ _ _ h2

theorem chains_inv_delete (s : State) (k : Nat) (f : file) (bs : List Nat)
    (h : chains_inv s) (hok : file_ok s k f bs) :
    chains_inv (delete_at s k (mark_blocks FAT_EOC bs s.fs.FAT.blocks)) := by
  have hfs := delete_at_fs s k (mark_blocks FAT_EOC bs s.fs.FAT.blocks)
  have hfiles : (delete_at s k (mark_blocks FAT_EOC bs s.fs.FAT.blocks)).fs.rootDir.files =
      s.fs.rootDir.files.set k EMPTY_FILE_CELL := by rw [hfs]
  have hfat : (delete_at s k (mark_blocks FAT_EOC bs s.fs.FAT.blocks)).fs.FAT.blocks =
      mark_blocks FAT_EOC bs s.fs.FAT.blocks := by rw [hfs]
  have htaken : (delete_at s k (mark_blocks FAT_EOC bs s.fs.FAT.blocks)).fs.FAT.num_blocks_taken
      = s.fs.FAT.num_blocks_taken := by rw [hfs]
  have hsb : (delete_at s k (mark_blocks FAT_EOC bs s.fs.FAT.blocks)).fs.superblock =
      s.fs.superblock := by rw [hfs]
  have hklen := getElem?_lt _ _ _ hok.2.1
  have hkempty : (delete_at s k (mark_blocks FAT_EOC bs s.fs.FAT.blocks)).fs.rootDir.files[k]? =
      some EMPTY_FILE_CELL := by
    rw [hfiles]; exact List.getElem?_set_self hklen
  have hkeep : ∀ k2 f2 bs2, k2 ≠ k → file_ok s k2 f2 bs2 →
      file_ok (delete_at s k (mark_blocks FAT_EOC bs s.fs.FAT.blocks)) k2 f2 bs2 := by
    intro k2 f2 bs2 hk2 hok2
    obtain ⟨a1, a2, a3, a4, a5, a6⟩ := hok2
    refine ⟨a1, by rw [hfiles, List.getElem?_set_ne (Ne.symm hk2)]; exact a2,
      a3, ?_, a5, by rw [hsb]; exact a6⟩
    rw [hfat]
    apply is_chain_congr _ _ (mark_blocks_length _ _ _) _ _ _ a4
    intro i hi
    exact mark_blocks_not_mem _ _ _ _ (fun hcon => h.disjoint k k2 f f2 bs bs2 (Ne.symm hk2)
      hok ⟨a1, a2, a3, a4, a5, a6⟩ i hcon hi)
  have hcases : ∀ k2 f2 bs2,
      file_ok (delete_at s k (mark_blocks FAT_EOC bs s.fs.FAT.blocks)) k2 f2 bs2 →
      k2 ≠ k ∧ file_ok s k2 f2 bs2 := by
    intro k2 f2 bs2 hok2
    obtain ⟨a1, a2, a3, a4, a5, a6⟩ := hok2
    have hk2 : k2 ≠ k := by
      intro hcon
      subst hcon
      rw [hkempty] at a2
      rw [← Option.some.inj a2] at a3
      exact a3 rfl
    refine ⟨hk2, ?_⟩
    rw [hfiles, List.getElem?_set_ne (Ne.symm hk2)] at a2
    obtain ⟨bs3, hok3, _⟩ := h.files k2 f2 a2 a3
    obtain ⟨_, _, _, c4, _, _⟩ := hkeep k2 f2 bs3 hk2 hok3
    have := is_chain_unique _ _ _ _ c4 a4
    rw [← this]
    exact hok3
  refine ⟨delete_at_mounted s k _ h.mounted,
    delete_at_geometry s k _ h.geometry (mark_blocks_length _ _ _),
    by rw [hfiles, List.length_set]; exact h.length, by rw [hfs]; exact h.table, ?_, ?_, ?_, ?_,
    ?_⟩
  · intro g hg
    rw [hfiles] at hg
    rcases List.mem_or_eq_of_mem_set hg with h1 | h1
    · exact h.names g h1
    · rw [h1]; rfl
  · intro k2 f2 hf2 hne
    have hk2 : k2 ≠ k := by
      intro hcon
      subst hcon
      rw [hkempty] at hf2
      rw [← Option.some.inj hf2] at hne
      exact hne rfl
    rw [hfiles, List.getElem?_set_ne (Ne.symm hk2)] at hf2
    obtain ⟨bs2, h1, h2⟩ := h.files k2 f2 hf2 hne
    refine ⟨bs2, hkeep k2 f2 bs2 hk2 h1, ?_⟩
    intro b hb
    rw [hfat, mark_blocks_not_mem _ _ _ _ (fun hcon => h.disjoint k k2 f f2 bs bs2
      (Ne.symm hk2) hok h1 b hcon hb)]
    exact h2 b hb
  · intro k1 k2 f1 f2 bs1 bs2 hk h1 h2
    exact h.disjoint k1 k2 f1 f2 bs1 bs2 hk (hcases k1 f1 bs1 h1).2 (hcases k2 f2 bs2 h2).2
  · intro h0 k2 f2 hf2 hne
    have hk2 : k2 ≠ k := by
      intro hcon
      subst hcon
      rw [hkempty] at hf2
      rw [← Option.some.inj hf2] at hne
      exact hne rfl
    rw [hfiles, List.getElem?_set_ne (Ne.symm hk2)] at hf2
    apply h.zero _ k2 f2 hf2 hne
    rw [hfat] at h0
    by_cases hmem : 0 ∈ bs
    · rw [mark_blocks_mem _ _ _ _ hmem (is_chain_lt _ _ _ hok.2.2.2.1 0 hmem).1] at h0
      exact absurd (Option.some.inj h0) (by decide)
    · rw [mark_blocks_not_mem _ _ _ _ hmem] at h0
      exact h0
  · intro hc k2 f2 hf2 hne
    have hk2 : k2 ≠ k := by
      intro hcon
      subst hcon
      rw [hkempty] at hf2
      rw [← Option.some.inj hf2] at hne
      exact hne rfl
    rw [hfiles, List.getElem?_set_ne (Ne.symm hk2)] at hf2
    rw [hsb, htaken] at hc
    exact h.counter hc k2 f2 hf2 hne

theorem length_eq_of_frame {α : Type} (l l' : List α) (k : Nat) (a a' : α)
    (hk : l[k]? = some a) (hk' : l'[k]? = some a')
    (hframe : ∀ i, i ≠ k → l'[i]? = l[i]?) : l'.length = l.length := by
  have h1 := getElem?_lt _ _ _ hk
  have h2 := getElem?_lt _ _ _ hk'
  apply Nat.le_antisymm
  · by_contra hcon
    have hne : l.length ≠ k := by omega
    have := hframe l.length hne
    rw [List.getElem?_eq_none (Nat.le_refl _), List.getElem?_eq_getElem (by omega)] at this
    exact Option.noConfusion this
  · by_contra hcon
    have hne : l'.length ≠ k := by omega
    have := hframe l'.length hne
    rw [List.getElem?_eq_none (Nat.le_refl _), List.getElem?_eq_getElem (by omega)] at this
    exact Option.noConfusion this

theorem chains_inv_post (s s' : State) (fd : Nat) (o : openFile) (k : Nat) (f : file)
    (bs : List Nat) (buf : List Nat) (kb : Nat) (new : List Nat)
    (h : chains_inv s) (hok : file_ok s k f bs) (hfd : fd_ok s fd o k)
    (hbuf : kb ≤ buf.length) (hlen : new.length = (kb + 4095) / 4096 - bs.length)
    (post : write_post k buf kb s 0 (.first_block_idx k) bs f s' new)
    (htaken : s.fs.FAT.num_blocks_taken + new.length ≤ s.fs.superblock.amt_data_blocks) :
    chains_inv s' := by
  obtain ⟨f', hm', hg', hok', _, _, hname', _⟩ :=
    write_post_file s s' fd o k f bs buf kb new h.mounted hok hfd hbuf hlen post
  have hframe : ∀ i, i ∉ bs → i ∉ new → s'.fs.FAT.blocks[i]? = s.fs.FAT.blocks[i]? :=
    fun i h1 h2 => post.FAT_frame i h1 h2 (fun hcon => BlockIdxPtr.noConfusion hcon)
  have hflen := length_eq_of_frame s.fs.rootDir.files s'.fs.rootDir.files k f f' hok.2.1
    hok'.2.1 post.files_frame
  have hkeep : ∀ k2 f2 bs2, k2 ≠ k → file_ok s k2 f2 bs2 →
      (∀ b ∈ bs2, s.fs.FAT.blocks[b]? ≠ some 0) →
      file_ok s' k2 f2 bs2 ∧ ∀ b ∈ bs2, s'.fs.FAT.blocks[b]? ≠ some 0 := by
    intro k2 f2 bs2 hk2 hok2 hm2
    obtain ⟨a1, a2, a3, a4, a5, a6⟩ := hok2
    have hsame : ∀ i ∈ bs2, s'.fs.FAT.blocks[i]? = s.fs.FAT.blocks[i]? := by
      intro i hi
      apply hframe i
      · exact fun hcon => h.disjoint k k2 f f2 bs bs2 (Ne.symm hk2) hok
          ⟨a1, a2, a3, a4, a5, a6⟩ i hcon hi
      · exact fun hcon => hm2 i hi (post.new_free i hcon).2
    refine ⟨⟨a1, by rw [post.files_frame k2 hk2]; exact a2, a3,
      is_chain_congr _ _ post.FAT_length _ _ hsame a4, a5, by rw [post.superblock]; exact a6⟩, ?_⟩
    intro b hb
    rw [hsame b hb]
    exact hm2 b hb
  have hcases : ∀ k2 f2 bs2, file_ok s' k2 f2 bs2 →
      (k2 = k ∧ bs2 = bs ++ new) ∨
      (k2 ≠ k ∧ file_ok s k2 f2 bs2 ∧ ∀ b ∈ bs2, s.fs.FAT.blocks[b]? ≠ some 0) := by
    intro k2 f2 bs2 hok2
    obtain ⟨a1, a2, a3, a4, a5, a6⟩ := hok2
    by_cases hk2 : k2 = k
    · left
      subst hk2
      refine ⟨rfl, ?_⟩
      rw [hok'.2.1] at a2
      rw [← Option.some.inj a2] at a4
      exact is_chain_unique _ _ _ _ a4 hok'.2.2.2.1
    · right
      rw [post.files_frame k2 hk2] at a2
      obtain ⟨bs3, hok3, hm3⟩ := h.files k2 f2 a2 a3
      obtain ⟨⟨_, _, _, c4, _, _⟩, _⟩ := hkeep k2 f2 bs3 hk2 hok3 hm3
      have := is_chain_unique _ _ _ _ c4 a4
      rw [← this]
      exact ⟨hk2, hok3, hm3⟩
  have hdis : ∀ k2 f2 bs2, k2 ≠ k → file_ok s k2 f2 bs2 →
      (∀ b ∈ bs2, s.fs.FAT.blocks[b]? ≠ some 0) → ∀ b ∈ bs ++ new, b ∉ bs2 := by
    intro k2 f2 bs2 hk2 hok2 hm2 b hb hcon
    rcases List.mem_append.1 hb with hb | hb
    · exact h.disjoint k k2 f f2 bs bs2 (Ne.symm hk2) hok hok2 b hb hcon
    · exact hm2 b hcon (post.new_free b hb).2
  refine ⟨hm', hg', hflen.trans h.length, by rw [post.open_files]; exact h.table, ?_, ?_, ?_, ?_,
    ?_⟩
  · intro g hg
    obtain ⟨i, hi, hig⟩ := List.getElem_of_mem hg
    by_cases hik : i = k
    · subst hik
      have : s'.fs.rootDir.files[i]? = some g := by rw [List.getElem?_eq_getElem hi, hig]
      rw [hok'.2.1] at this
      rw [← Option.some.inj this, hname']
      exact h.names f (List.getElem?_mem hok.2.1)
    · have : s.fs.rootDir.files[i]? = some g := by
        rw [← post.files_frame i hik, List.getElem?_eq_getElem hi, hig]
      exact h.names g (List.getElem?_mem this)
  · intro k2 f2 hf2 hne
    by_cases hk2 : k2 = k
    · subst hk2
      rw [hok'.2.1] at hf2
      rw [← Option.some.inj hf2]
      exact ⟨bs ++ new, hok', post.marked⟩
    · rw [post.files_frame k2 hk2] at hf2
      obtain ⟨bs2, h1, h2⟩ := h.files k2 f2 hf2 hne
      exact ⟨bs2, hkeep k2 f2 bs2 hk2 h1 h2⟩
  · intro k1 k2 f1 f2 bs1 bs2 hk h1 h2 b hb
    rcases hcases k1 f1 bs1 h1 with ⟨e1, c1⟩ | ⟨n1, o1, m1⟩
    · rcases hcases k2 f2 bs2 h2 with ⟨e2, _⟩ | ⟨n2, o2, m2⟩
      · exact absurd (e1.trans e2.symm) hk
      · rw [c1] at hb
        exact hdis k2 f2 bs2 n2 o2 m2 b hb
    · rcases hcases k2 f2 bs2 h2 with ⟨e2, c2⟩ | ⟨n2, o2, m2⟩
      · rw [c2]
        exact fun hcon => hdis k1 f1 bs1 n1 o1 m1 b hcon hb
      · exact h.disjoint k1 k2 f1 f2 bs1 bs2 hk o1 o2 b hb
  · intro h0 k2 f2 hf2 hne
    have hnil : bs ++ new = [] := by
      by_contra hcon
      exact post.zero_kept (Or.inr hcon) h0
    have hbs : bs = [] := (List.append_eq_nil.1 hnil).1
    have hnew : new = [] := (List.append_eq_nil.1 hnil).2
    have h0' : s.fs.FAT.blocks[0]? = some 0 := by
      rw [← hframe 0 (by rw [hbs]; exact List.not_mem_nil 0)
        (by rw [hnew]; exact List.not_mem_nil 0)]
      exact h0
    by_cases hk2 : k2 = k
    · subst hk2
      rw [hok'.2.1] at hf2
      rw [← Option.some.inj hf2]
      have := hok'.2.2.2.1
      rw [hnil] at this
      exact this
    · rw [post.files_frame k2 hk2] at hf2
      exact h.zero h0' k2 f2 hf2 hne
  · intro hc
    rw [post.superblock, post.taken] at hc
    omega

theorem fs_write_no_space (s : State) (fd : Int) (buf : List Nat) (count : Nat) (n : Int)
    (f : file) (hm : is_mounted s = true)
    (hnum : fs_file_num_from_fd s.fs fd = some n) (hn : n ≠ -1)
    (hf : s.fs.rootDir.files[n.toNat]? = some f) (heoc : f.first_block_idx = FAT_EOC)
    (hlen : s.fs.superblock.amt_data_blocks ≤ s.fs.FAT.blocks.length)
    (hfull : free_blocks s.fs = 0 ∨ s.fs.superblock.amt_data_blocks ≤ s.fs.FAT.num_blocks_taken) :
    ∃ r, fs_write s fd buf count = some (r, s) := by
  unfold fs_write
  rw [if_neg (by simp [hm]), hnum]
  simp only []
  rw [if_neg hn]
  unfold fs_write_loop
  by_cases hc : 0 < count
  · rw [if_neg (by omega)]
    have hd : BlockIdxPtr.deref s.fs (.first_block_idx n.toNat) = some FAT_EOC := by
      simp only [BlockIdxPtr.deref]
      rw [hf, ← heoc]
      rfl
    rw [hd]
    simp only []
    rw [if_pos trivial, fs_write_allocate_full s 0 _ hlen hfull]
    exact ⟨_, rfl⟩
  · rw [if_pos (by omega)]
    exact ⟨_, rfl⟩

theorem chains_inv_write (s : State) (fd : Int) (buf : List Nat) (count : Nat) (r : Int)
    (s' : State) (h : chains_inv s) (hcount : count < 2 ^ 31) (hbuf : count ≤ buf.length)
    (hw : fs_write s fd buf count = some (r, s')) : chains_inv s' := by
  cases hnum : fs_file_num_from_fd s.fs fd with
  | none =>
    unfold fs_write at hw
    rw [if_neg (by simp [h.mounted]), hnum] at hw
    exact Option.noConfusion hw
  | some n =>
    by_cases hn : n = -1
    · unfold fs_write at hw
      rw [if_neg (by simp [h.mounted]), hnum] at hw
      simp only [] at hw
      rw [if_pos hn] at hw
      rw [← (Prod.mk.inj (Option.some.inj hw)).2]
      exact h
    · rcases fs_file_num_from_fd_inv s.fs fd n hnum with h1 | ⟨o, f, hfd0, ho, _, hon, hn0, hf, hne⟩
      · exact absurd h1 hn
      · obtain ⟨bs, hok, hmark⟩ := h.files n.toNat f hf hne
        have hfd : fd_ok s fd.toNat o n.toNat :=
          ⟨by rw [← h.table]; exact getElem?_lt _ _ _ ho, ho, by rw [hon]; omega⟩
        have hfdc : ((fd.toNat : Nat) : Int) = fd := Int.toNat_of_nonneg hfd0
        by_cases htk : s.fs.superblock.amt_data_blocks < s.fs.FAT.num_blocks_taken
        · have heoc := h.counter htk n.toNat f hf hne
          obtain ⟨r2, hw2⟩ := fs_write_no_space s fd buf count n f h.mounted hnum hn hf heoc
            h.geometry.2.2.2.1 (Or.inr (by omega))
          rw [hw] at hw2
          rw [(Prod.mk.inj (Option.some.inj hw2)).2]
          exact h
        · have hzero : bs ≠ [] → s.fs.FAT.blocks[0]? ≠ some 0 := by
            intro hbs h0
            have heoc := h.zero h0 n.toNat f hf hne
            have hch := hok.2.2.2.1
            rw [heoc] at hch
            exact hbs (is_chain_eoc _ _ hch)
          have hfb := free_blocks_le s.fs
          by_cases hneed : (count + 4095) / 4096 - bs.length ≤
              Min.min (free_blocks s.fs)
                (s.fs.superblock.amt_data_blocks - s.fs.FAT.num_blocks_taken)
          · obtain ⟨s2, new, hw2, hnew, post, _⟩ := fs_write_spec s fd.toNat o n.toNat f bs buf
              count count h.mounted h.geometry hok hfd hmark hzero hcount hbuf (Nat.le_refl _)
              ⟨by omega, by omega⟩ (Or.inl rfl)
            rw [hfdc, hw] at hw2
            rw [(Prod.mk.inj (Option.some.inj hw2)).2]
            exact chains_inv_post s s2 fd.toNat o n.toNat f bs buf count new h hok hfd
              hbuf hnew post (by omega)
          · obtain ⟨s2, new, hw2, hnew, post, _⟩ := fs_write_spec s fd.toNat o n.toNat f bs buf
              count (4096 * (bs.length + Min.min (free_blocks s.fs)
                (s.fs.superblock.amt_data_blocks - s.fs.FAT.num_blocks_taken)))
              h.mounted h.geometry hok hfd hmark hzero hcount hbuf (by omega)
              ⟨by omega, by omega⟩ (Or.inr ⟨by omega, by omega, by omega, by omega⟩)
            rw [hfdc, hw] at hw2
            rw [(Prod.mk.inj (Option.some.inj hw2)).2]
            exact chains_inv_post s s2 fd.toNat o n.toNat f bs buf _ new h hok hfd
              (by omega) hnew post (by omega)

theorem chains_step (s s' : State) (c : Call) (h : chains_inv s) (hc : write_in_range c)
    (hstep : step s c = some s') : chains_inv s' := by
  cases c with
  | fs_create filename =>
    cases hr : fs_create s filename with
    | none => simp [step, hr] at hstep
    | some p =>
      have hs' : s' = p.2 := by simp [step, hr] at hstep; exact hstep.symm
      rcases fs_create_cases s filename p.1 p.2 hr with h1 | ⟨k, f, hv, hfk, _, h1⟩
      · rw [hs', h1]; exact h
      · rw [hs', h1]
        exact chains_inv_create s filename k f h hv hfk
  | fs_delete filename =>
    cases hr : fs_delete s filename with
    | none => simp [step, hr] at hstep
    | some p =>
      have hs' : s' = p.2 := by simp [step, hr] at hstep; exact hstep.symm
      rcases fs_delete_cases s filename p.1 p.2 hr with h1 | ⟨k, f, blocks, hk, hfk, hloop, h1⟩
      · rw [hs', h1]; exact h
      · rw [hs', h1]
        obtain ⟨f2, hf2, hne⟩ := lookup_entry s.fs filename k h.names hk
        rw [hfk] at hf2
        rw [← Option.some.inj hf2] at hne
        obtain ⟨bs, hok, _⟩ := h.files k f hfk hne
        have hl := fs_delete_loop_chain bs s.fs.FAT.blocks f.first_block_idx
          (s.fs.FAT.blocks.length + 2) hok.2.2.2.1
          (by have := is_chain_length_le _ _ _ hok.2.2.2.1; omega)
        rw [hloop] at hl
        rw [Option.some.inj hl]
        exact chains_inv_delete s k f bs h hok
  | fs_open filename =>
    cases hr : fs_open s filename with
    | none => simp [step, hr] at hstep
    | some p =>
      have hs' : s' = p.2 := by simp [step, hr] at hstep; exact hstep.symm
      rcases fs_open_cases s filename p.1 p.2 hr with h1 | ⟨j, k, o, _, _, _, h1⟩
      · rw [hs', h1]; exact h
      · rw [hs', h1]
        exact chains_inv_same s _ h rfl rfl rfl rfl rfl (List.length_set _ _ _)
  | fs_close fd =>
    cases hr : fs_close s fd with
    | none => simp [step, hr] at hstep
    | some p =>
      have hs' : s' = p.2 := by simp [step, hr] at hstep; exact hstep.symm
      rcases fs_close_cases s fd p.1 p.2 hr with h1 | ⟨j, o, _, h1⟩
      · rw [hs', h1]; exact h
      · rw [hs', h1]
        exact chains_inv_same s _ h rfl rfl rfl rfl rfl (List.length_set _ _ _)
  | fs_stat fd =>
    cases hr : fs_stat s fd with
    | none => simp [step, hr] at hstep
    | some p =>
      have hs' : s' = p.2 := by simp [step, hr] at hstep; exact hstep.symm
      rw [hs', fs_stat_cases s fd p.1 p.2 hr]
      exact h
  | fs_lseek fd offset =>
    cases hr : fs_lseek s fd offset with
    | none => simp [step, hr] at hstep
    | some p =>
      have hs' : s' = p.2 := by simp [step, hr] at hstep; exact hstep.symm
      rcases fs_lseek_cases s fd offset p.1 p.2 hr with h1 | ⟨o, size, _, _, _, _, _, h1⟩
      · rw [hs', h1]; exact h
      · rw [hs', h1]
        exact chains_inv_same s _ h rfl rfl rfl rfl rfl (List.length_set _ _ _)
  | fs_read fd buf count =>
    cases hr : fs_read s fd buf count with
    | none => simp [step, hr] at hstep
    | some p =>
      have hs' : s' = p.2.2 := by simp [step, hr] at hstep; exact hstep.symm
      rcases fs_read_cases s fd buf count p.1 p.2.1 p.2.2 hr with
        h1 | ⟨o, f, x, _, _, _, _, h1, _⟩
      · rw [hs', h1]; exact h
      · rw [hs', h1]
        exact chains_inv_same s _ h rfl rfl rfl rfl rfl (List.length_set _ _ _)
  | fs_write fd buf count =>
    cases hr : fs_write s fd buf count with
    | none => simp [step, hr] at hstep
    | some p =>
      have hs' : s' = p.2 := by simp [step, hr] at hstep; exact hstep.symm
      rw [hs']
      exact chains_inv_write s fd buf count p.1 p.2 h hc.1 hc.2 hr

theorem chains_run (calls : List Call) :
    ∀ s s', chains_inv s → (∀ c ∈ calls, write_in_range c) → run s calls = some s' →
      chains_inv s' := by
  induction calls with
  | nil =>
    intro s s' h _ hr
    rw [← Option.some.inj hr]
    exact h
  | cons c cs ih =>
    intro s s' h hc hr
    unfold run at hr
    cases hs : step s c with
    | none => rw [hs] at hr; exact Option.noConfusion hr
    | some s1 =>
      rw [hs] at hr
      exact ih s1 s' (chains_step s s1 c h (hc c (List.mem_cons_self _ _)) hs)
        (fun c2 hc2 => hc c2 (List.mem_cons_of_mem _ hc2)) hr

/-- C22 (amended). Chain integrity.  `fs_mount` of a freshly formatted disk of
`D` data blocks returns 0, and in every state that a sequence of `fs_create`,
`fs_delete`, `fs_open`, `fs_close`, `fs_stat`, `fs_lseek`, `fs_read` and
`fs_write` calls leads to from there, in which every `fs_write` has a count
below `2 ^ 31` and a buffer of at least `count` bytes: for every non-empty
directory entry with size `S`, the FAT links from its first block run through
exactly `⌈S / 4096⌉` distinct data-block indices below `D` and then reach
`FAT_EOC`, no block of the chain has the FAT value 0, and none occurs in the
chain of another file. -/
theorem chain_integrity (junk fs0 : FS) (diskname : String) (D : Nat) (calls : List Call)
    (s : State)
    (hD : D + (2 * D + 4095) / 4096 + 2 < 2 ^ 16)
    (hcalls : ∀ c ∈ calls, write_in_range c)
    (hrun : run (fs_mount junk diskname { disk := formatted_disk diskname D, fs := fs0 }).2
      calls = some s) :
    (fs_mount junk diskname { disk := formatted_disk diskname D, fs := fs0 }).1 = 0 ∧
    chains_ok s := by
  rw [fs_mount_formatted junk diskname D fs0 hD] at hrun ⊢
  exact ⟨rfl, chains_ok_of_inv s (chains_run calls _ s (fresh_inv diskname D _ (by omega))
    hcalls hrun)⟩

/-! ### A write whose count is a multiple of `2 ^ 32` -/

theorem block_write_same (d : BlockDev) (idx : Nat) (old : List Nat)
    (h : d.blocks[idx]? = some old) : (block_write d idx old).2 = d := by
  unfold block_write
  split
  · show ({ d with blocks := d.blocks.set idx old } : BlockDev) = d
    rw [set_of_getElem? _ _ _ h]
  · rfl

theorem fs_write_loop_zero_pass (file_num : Nat) (buf : List Nat) (count fuel : Nat)
    (s s1 : State) (p : BlockIdxPtr) (block_p : List Nat) (cur block_idx : Nat)
    (old : List Nat) (f : file)
    (hc : 0 < count)
    (hn : to_size_t (min (to_int (size_sub count 0)) (BLOCK_SIZE : Int)) = 0)
    (hcur : p.deref s.fs = some cur)
    (hs1 : (if cur = FAT_EOC then fs_write_allocate s 0 p else some (.next s)) =
      some (.next s1))
    (hidx : p.deref s1.fs = some block_idx)
    (hopen : s1.disk.opened = true)
    (hold : s1.disk.blocks[s1.fs.superblock.data_block_start_idx + block_idx]? = some old)
    (hf : s1.fs.rootDir.files[file_num]? = some f) :
    fs_write_loop file_num buf count (fuel + 1) s 0 p block_p =
      fs_write_loop file_num buf count fuel s1 0 (.FAT_entry block_idx) old := by
  have hrd : (block_read s1.disk (s1.fs.superblock.data_block_start_idx + block_idx)
      block_p).2 = old := by
    unfold block_read
    rw [if_pos hopen, hold]
  rw [fs_write_loop]
  rw [if_neg (by omega), hcur]
  simp only []
  rw [hs1]
  simp only []
  rw [hidx]
  simp only []
  rw [hn, if_pos (show (0 : Nat) < BLOCK_SIZE by decide), hrd,
    if_pos (show 0 ≤ old.length ∧ 0 + 0 ≤ buf.length from ⟨Nat.zero_le _, Nat.zero_le _⟩)]
  have h0 : size_add 0 0 = 0 := rfl
  rw [h0]
  simp only [List.drop_zero, List.take_zero, List.nil_append]
  rw [block_write_same _ _ _ hold, hf]
  simp only []
  rw [if_neg (by omega)]

theorem fs_write_loop_stop (file_num : Nat) (buf : List Nat) (count fuel : Nat) (s : State)
    (bw : Nat) (p : BlockIdxPtr) (block_p : List Nat)
    (hc : bw < count) (hcur : p.deref s.fs = some FAT_EOC)
    (hlen : s.fs.superblock.amt_data_blocks ≤ s.fs.FAT.blocks.length)
    (hfull : free_blocks s.fs = 0 ∨ s.fs.superblock.amt_data_blocks ≤ s.fs.FAT.num_blocks_taken) :
    fs_write_loop file_num buf count (fuel + 1) s bw p block_p = some (to_int bw, s) := by
  rw [fs_write_loop]
  rw [if_neg (by omega), hcur]
  simp only []
  rw [if_pos trivial, fs_write_allocate_full s bw p hlen hfull]

/-! ### The tiny disk -/

theorem tiny_mount :
    fs_mount small_state.fs "disk.fs"
      { disk := formatted_disk "disk.fs" 1, fs := small_state.fs } = (0, tiny_state) :=
  fs_mount_formatted small_state.fs "disk.fs" 1 small_state.fs (by decide)

set_option maxRecDepth 100000 in
theorem tiny_create_z :
    fs_create tiny_state [122] = some (0, create_at tiny_state [122] 0) :=
  fs_create_eq tiny_state [122] 0 (by decide) (by decide) (by decide) (by decide) (by decide)
    (by decide) (by decide) (fun j hj => absurd hj (Nat.not_lt_zero j))

set_option maxRecDepth 20000 in
theorem tiny_open_z :
    fs_open (create_at tiny_state [122] 0) [122] = some (0, tiny_state_z) :=
  fs_open_eq (create_at tiny_state [122] 0) [122] 0 0 (create_at_mounted _ _ _ (by decide))
    (by rw [create_at_fs]; decide) (by decide)
    (by rw [create_at_fs]; decide)
    (by rw [create_at_fs]; decide)
    (fun j hj => absurd hj (Nat.not_lt_zero j))
    (by rw [create_at_fs]; decide)

set_option maxRecDepth 20000 in
theorem tiny_z_ok :
    is_mounted tiny_state_z = true ∧
    geometry_ok tiny_state_z ∧
    tiny_state_z.fs.rootDir.files[0]? = some (new_file [122]) ∧
    fd_ok tiny_state_z 0 { fd := 0, file_num := 0, file_offset := 0 } 0 ∧
    tiny_state_z.fs.FAT.blocks = List.replicate 2048 0 ∧
    tiny_state_z.fs.FAT.num_blocks_taken = 0 ∧
    tiny_state_z.fs.superblock.amt_data_blocks = 1 ∧
    tiny_state_z.disk.opened = true := by
  have hm : is_mounted (create_at tiny_state [122] 0) = true :=
    create_at_mounted _ _ _ (by decide)
  have hfs := create_at_fs tiny_state [122] 0
  have hm' : is_mounted tiny_state_z = true := by
    rw [is_mounted_iff] at hm ⊢
    exact hm
  refine ⟨hm', create_at_geometry tiny_state [122] 0 (fresh_geometry _ _ _ (by decide)),
    ?_, ?_, ?_, ?_, ?_, ((is_mounted_iff _).1 hm').1⟩
  · show (create_at tiny_state [122] 0).fs.rootDir.files[0]? = _
    rw [hfs]
    decide
  · refine ⟨by decide, ?_, rfl⟩
    show ((create_at tiny_state [122] 0).fs.open_files.set 0 _)[0]? = _
    rw [hfs]
    decide
  · show (create_at tiny_state [122] 0).fs.FAT.blocks = _
    rw [hfs]
    rfl
  · show (create_at tiny_state [122] 0).fs.FAT.num_blocks_taken = _
    rw [hfs]
    rfl
  · show (create_at tiny_state [122] 0).fs.superblock.amt_data_blocks = _
    rw [hfs]
    rfl

theorem tiny_write_wraps :
    fs_write tiny_state_z 0 (List.replicate 4294967296 0) 4294967296 =
      some (0, tiny_state_wrapped) ∧
    tiny_state_wrapped.fs.rootDir.files[0]? =
      some { new_file [122] with first_block_idx := 0 } ∧
    tiny_state_wrapped.fs.FAT.blocks[0]? = some FAT_EOC := by
  rw [tiny_state_wrapped]
  obtain ⟨hm, hg, hf, hfd, hfat, htaken, hD, hopen⟩ := tiny_z_ok
  have hnum : fs_file_num_from_fd tiny_state_z.fs 0 = some 0 :=
    fs_file_num_from_fd_ok tiny_state_z 0 _ 0 (new_file [122]) hfd (by decide) hf
      (new_file_head [122] (by decide))
  have hcur : BlockIdxPtr.deref tiny_state_z.fs (.first_block_idx 0) = some FAT_EOC := by
    simp only [BlockIdxPtr.deref]
    rw [hf]
    rfl
  have hffb : first_free_block tiny_state_z.fs = 0 := by
    unfold first_free_block
    rw [hfat, hD]
    rfl
  have hfree : 0 < free_blocks tiny_state_z.fs := by
    unfold free_blocks
    rw [hfat, hD]
    decide
  have hs1 : (if FAT_EOC = FAT_EOC then
        fs_write_allocate tiny_state_z 0 (.first_block_idx 0)
      else some (.next tiny_state_z)) = some (.next (alloc_state tiny_state_z (.first_block_idx 0) 0)) := by
    rw [if_pos rfl, fs_write_allocate_ok _ 0 _ FAT_EOC (by rw [hD]; decide)
      (by rw [hD, hfat, List.length_replicate]; decide) (by rw [htaken, hD]; decide) hfree hcur,
      hffb]
  have hspec := alloc_state_spec tiny_state_z (.first_block_idx 0) 0 FAT_EOC
    (by rw [hD]; decide) hcur (by rw [hfat, List.getElem?_replicate, if_pos (by decide)]) (by rw [hD]; decide)
    (fun last h => BlockIdxPtr.noConfusion h)
  have hf' := (alloc_state_entry tiny_state_z (.first_block_idx 0) 0 FAT_EOC 0 (new_file [122])
    (by decide) hcur hf).2 rfl
  have hframe := alloc_state_frame tiny_state_z (.first_block_idx 0) 0
  have hg' : geometry_ok (alloc_state tiny_state_z (.first_block_idx 0) 0) := alloc_state_geometry _ _ _ hg
  have hDw : (alloc_state tiny_state_z (.first_block_idx 0) 0).fs.superblock.amt_data_blocks = 1 :=
    by rw [hframe.1]; exact hD
  have hold := (block_data_of_geometry (alloc_state tiny_state_z (.first_block_idx 0) 0) hg' 0 (by rw [hDw]; decide)).1
  have hfull : free_blocks (alloc_state tiny_state_z (.first_block_idx 0) 0).fs = 0 ∨
      (alloc_state tiny_state_z (.first_block_idx 0) 0).fs.superblock.amt_data_blocks ≤
        (alloc_state tiny_state_z (.first_block_idx 0) 0).fs.FAT.num_blocks_taken := by
    right
    rw [hDw]
    rw [(alloc_state_FAT tiny_state_z (.first_block_idx 0) 0 FAT_EOC hcur).2, htaken]
    decide
  refine ⟨?_, hf', hspec.2.1⟩
  unfold fs_write
  rw [if_neg (by simp [hm]), hnum]
  simp only []
  rw [if_neg (by decide)]
  show fs_write_loop 0 _ 4294967296 (4294967296 + 1) tiny_state_z 0 (.first_block_idx 0) _ = _
  rw [fs_write_loop_zero_pass 0 _ 4294967296 4294967296 tiny_state_z (alloc_state tiny_state_z (.first_block_idx 0) 0)
    (.first_block_idx 0) _ FAT_EOC 0 (block_data (alloc_state tiny_state_z (.first_block_idx 0) 0) 0)
    { new_file [122] with first_block_idx := 0 } (by decide) (by decide) hcur hs1 hspec.1
    (hframe.2.2.2.2.2.2.1.trans hopen) hold hf']
  exact fs_write_loop_stop 0 _ 4294967296 4294967295 (alloc_state tiny_state_z (.first_block_idx 0) 0) 0 (.FAT_entry 0) _
    (by decide) hspec.2.1 hg'.2.2.2.1 hfull

/-- C22 (counterexample). On the freshly formatted and mounted disk with one
data block, `fs_create` of "z", `fs_open` of it and an `fs_write` with the
count `2 ^ 32` on descriptor 0 lead to a state in which entry 0 is "z" with
size 0 and first block 0, and the link of block 0 is `FAT_EOC`: the chain of a
file of size 0 has one block where `⌈0 / 4096⌉ = 0` are due, so chain
integrity fails there. -/
theorem chain_integrity_fails_on_wrapped_count :
    (fs_mount small_state.fs "disk.fs"
      { disk := formatted_disk "disk.fs" 1, fs := small_state.fs }).1 = 0 ∧
    run (fs_mount small_state.fs "disk.fs"
      { disk := formatted_disk "disk.fs" 1, fs := small_state.fs }).2
      [.fs_create [122], .fs_open [122],
       .fs_write 0 (List.replicate 4294967296 0) 4294967296] = some tiny_state_wrapped ∧
    tiny_state_wrapped.fs.rootDir.files[0]? =
      some { new_file [122] with first_block_idx := 0 } ∧
    tiny_state_wrapped.fs.FAT.blocks[0]? = some FAT_EOC ∧
    ¬ chains_ok tiny_state_wrapped := by
  rw [tiny_mount]
  refine ⟨rfl, ?_, tiny_write_wraps.2.1, tiny_write_wraps.2.2, ?_⟩
  · rw [run_cons _ _ _ _ (step_fs_create _ _ _ _ tiny_create_z),
      run_cons _ _ _ _ (step_fs_open _ _ _ _ tiny_open_z),
      run_cons _ _ _ _ (step_fs_write _ _ _ _ _ _ tiny_write_wraps.1), run_nil]
  · intro h
    obtain ⟨bs, hch, hlen, _⟩ := h 0 _ tiny_write_wraps.2.1 (new_file_head [122] (by decide))
    have hnil : bs = [] := List.length_eq_zero.1 hlen
    rw [hnil] at hch
    exact absurd hch (by decide)

/-- C22 (witness). On the freshly formatted and mounted disk with four data
blocks, `fs_create` of "z", `fs_open` of it and an `fs_write` of the three
bytes 1, 2, 3 on descriptor 0 lead to a state in which chain integrity
holds. -/
theorem chain_integrity_witness :
    ∃ s, run (fs_mount small_state.fs "disk.fs"
        { disk := formatted_disk "disk.fs" 4, fs := small_state.fs }).2
        [.fs_create [122], .fs_open [122], .fs_write ((0 : Nat) : Int) [1, 2, 3] 3] = some s ∧
      (fs_mount small_state.fs "disk.fs"
        { disk := formatted_disk "disk.fs" 4, fs := small_state.fs }).1 = 0 ∧
      chains_ok s := by
  obtain ⟨hm, hg, hfile, hfd, hfree, htaken, hD⟩ := small_z_open_ok
  obtain ⟨s3, f3, new, hw, _⟩ := fs_write_full (open_at small_state_z 0 0) 0 _ 0 _ []
    [1, 2, 3] 3 hm hg hfile hfd (fun b hb => absurd hb (List.not_mem_nil b))
    (fun hne => absurd rfl hne) (by decide)
    ⟨by rw [hfree]; decide, by rw [htaken, hD]; decide⟩
  have hmount : fs_mount small_state.fs "disk.fs"
      { disk := formatted_disk "disk.fs" 4, fs := small_state.fs } = (0, small_state) :=
    small_mount
  have hrun : run (fs_mount small_state.fs "disk.fs"
      { disk := formatted_disk "disk.fs" 4, fs := small_state.fs }).2
      [.fs_create [122], .fs_open [122], .fs_write ((0 : Nat) : Int) [1, 2, 3] 3] =
        some s3 := by
    rw [hmount, run_cons _ _ _ _ (step_fs_create _ _ _ _ small_create_z),
      run_cons _ _ _ _ (step_fs_open _ _ _ _ small_open_z),
      run_cons _ _ _ _ (step_fs_write _ _ _ _ _ _ hw), run_nil]
  exact ⟨s3, hrun, chain_integrity small_state.fs small_state.fs "disk.fs" 4 _ s3 (by decide)
    (fun c hc => by
      simp only [List.mem_cons, List.mem_singleton, List.not_mem_nil, or_false] at hc
      rcases hc with rfl | rfl | rfl
      · exact trivial
      · exact trivial
      · exact ⟨by decide, by decide⟩) hrun⟩

/-! ### The round trip and the counter -/

set_option maxRecDepth 100000 in
theorem stale_create_z :
    fs_create (fresh_state "disk.fs" 4 7) [122] =
      some (0, create_at (fresh_state "disk.fs" 4 7) [122] 0) :=
  fs_create_eq (fresh_state "disk.fs" 4 7) [122] 0 (by decide) (by decide) (by decide)
    (by decide) (by decide) (by decide) (by decide) (fun j hj => absurd hj (Nat.not_lt_zero j))

set_option maxRecDepth 20000 in
theorem stale_open_z :
    fs_open (create_at (fresh_state "disk.fs" 4 7) [122] 0) [122] =
      some (0, small_state_z_stale) :=
  fs_open_eq (create_at (fresh_state "disk.fs" 4 7) [122] 0) [122] 0 0
    (create_at_mounted _ _ _ (by decide))
    (by rw [create_at_fs]; decide) (by decide)
    (by rw [create_at_fs]; decide)
    (by rw [create_at_fs]; decide)
    (fun j hj => absurd hj (Nat.not_lt_zero j))
    (by rw [create_at_fs]; decide)

set_option maxRecDepth 20000 in
theorem stale_z_ok :
    is_mounted small_state_z_stale = true ∧
    geometry_ok small_state_z_stale ∧
    file_ok small_state_z_stale 0 (new_file [122]) [] ∧
    fd_ok small_state_z_stale 0 { fd := 0, file_num := 0, file_offset := 0 } 0 ∧
    free_blocks small_state_z_stale.fs = 4 ∧
    small_state_z_stale.fs.FAT.num_blocks_taken = 7 ∧
    small_state_z_stale.fs.superblock.amt_data_blocks = 4 := by
  have hm : is_mounted (create_at (fresh_state "disk.fs" 4 7) [122] 0) = true :=
    create_at_mounted _ _ _ (by decide)
  have hfs := create_at_fs (fresh_state "disk.fs" 4 7) [122] 0
  have hm' : is_mounted small_state_z_stale = true := by
    rw [is_mounted_iff] at hm ⊢
    exact hm
  refine ⟨hm', create_at_geometry _ [122] 0 (fresh_geometry _ _ _ (by decide)),
    ?_, ?_, ?_, ?_, ?_⟩
  · refine ⟨by decide, ?_, by decide, rfl, by decide, fun b hb => absurd hb (List.not_mem_nil b)⟩
    show (create_at (fresh_state "disk.fs" 4 7) [122] 0).fs.rootDir.files[0]? = _
    rw [hfs]
    decide
  · refine ⟨by decide, ?_, rfl⟩
    show ((create_at (fresh_state "disk.fs" 4 7) [122] 0).fs.open_files.set 0 _)[0]? = _
    rw [hfs]
    decide
  · show free_blocks { (create_at (fresh_state "disk.fs" 4 7) [122] 0).fs with
      open_files := _, num_open_files := _ } = 4
    rw [hfs]
    show ((List.replicate 2048 0).take 4).countP (fun v => v == 0) = 4
    rw [List.take_replicate]
    rfl
  · show (create_at (fresh_state "disk.fs" 4 7) [122] 0).fs.FAT.num_blocks_taken = _
    rw [hfs]
    rfl
  · show (create_at (fresh_state "disk.fs" 4 7) [122] 0).fs.superblock.amt_data_blocks = _
    rw [hfs]
    rfl

/-- C1, at a failing input.  `fs_mount` of the formatted small disk returns 0
and leaves in the counter the 7 that the memory of `fs_init` held; after
`fs_create` of "z" and `fs_open` of it the state is mounted, its geometry is
sound, descriptor 0 is open on the empty file "z" (offset 0), and all four
data blocks are free.  `fs_write(0, [1, 2, 3], 3)` needs one block and still
returns 0, not 3, and changes nothing: the allocation step sees the counter 7
at or above the 4 data blocks and takes the disk for full. -/
theorem round_trip_fails_on_stale_counter :
    fs_mount { small_state.fs with FAT := { curr_pos := 0, num_blocks_taken := 7, blocks := [] } }
      "disk.fs" { disk := formatted_disk "disk.fs" 4, fs := small_state.fs } =
      (0, fresh_state "disk.fs" 4 7) ∧
    run (fresh_state "disk.fs" 4 7) [.fs_create [122], .fs_open [122]] =
      some small_state_z_stale ∧
    is_mounted small_state_z_stale = true ∧
    geometry_ok small_state_z_stale ∧
    file_ok small_state_z_stale 0 (new_file [122]) [] ∧
    small_state_z_stale.fs.open_files[0]? = some { fd := 0, file_num := 0, file_offset := 0 } ∧
    free_blocks small_state_z_stale.fs = 4 ∧
    small_state_z_stale.fs.FAT.num_blocks_taken = 7 ∧
    fs_write small_state_z_stale 0 [1, 2, 3] 3 = some (0, small_state_z_stale) := by
  obtain ⟨hm, hg, hfile, hfd, hfree, htaken, hD⟩ := stale_z_ok
  refine ⟨fs_mount_formatted _ "disk.fs" 4 _ (by decide), ?_, hm, hg, hfile, hfd.2.1, hfree,
    htaken, ?_⟩
  · rw [run_cons _ _ _ _ (step_fs_create _ _ _ _ stale_create_z),
      run_cons _ _ _ _ (step_fs_open _ _ _ _ stale_open_z), run_nil]
  · have hnum : fs_file_num_from_fd small_state_z_stale.fs 0 = some 0 :=
      fs_file_num_from_fd_ok small_state_z_stale 0 _ 0 (new_file [122]) hfd (by decide)
        hfile.2.1 hfile.2.2.1
    have hcur : BlockIdxPtr.deref small_state_z_stale.fs (.first_block_idx 0) =
        some FAT_EOC := by
      simp only [BlockIdxPtr.deref]
      rw [hfile.2.1]
      rfl
    unfold fs_write
    rw [if_neg (by simp [hm]), hnum]
    simp only []
    rw [if_neg (by decide)]
    exact fs_write_loop_stop 0 _ 3 3 small_state_z_stale 0 (.first_block_idx 0) _
      (by decide) hcur hg.2.2.2.1 (Or.inr (by rw [hD, htaken]; decide))

end Libfs
